import Mathlib

/-!
# imx_usb_console: the Serial Download Protocol engine and its drivers

A shallow embedding of the protocol functions of `src/imx_usb_lib.c` over a
scripted USB transport, and of the GPIO and SPI drivers of
`src/imx_drv_gpio.c` and `src/imx_drv_spi.c` over the register access
functions of that library, followed by the properties proved about them.

Conventions of the embedding.

* A byte, a `uint16_t` and a `uint32_t` are natural numbers; where the C code
  truncates, the embedding reduces modulo the width.  An `int` is an `Int`.
* The byte order of the host is the parameter `le` (`true` on a little-endian
  host): `htonl` and the in-memory image of a packed structure depend on it.
* The USB device is a script of replies, consumed one per transfer.  Every
  transfer is appended to a trace together with the reply it got, so that the
  trace is what a transport mock observes.  When the script is exhausted the
  device is gone and every transfer fails with `LIBUSB_ERROR_NO_DEVICE`.
* A C function `int f(h, args)` becomes `f w args : Int × Usb` (return value
  and transport state afterwards), with `le` in front when it serialises a
  structure; out-parameters are returned as well.
* A loop is a recursive function.  Where the recursion needs a bound, the
  caller passes one that the loop provably never reaches, so the bound does
  not show in any result.
* Where the C code is undefined (a `memcpy` of negative size, a read past
  the end of the caller's buffer) the embedding copies what is there; no
  property below is stated for such inputs.
* The drivers take the library as a parameter `L : RegLib σ`: the protocol
  engine itself (`usb_lib`), a device model, or either of them with a log of
  the register accesses (`logged`).  An uninitialised `uint32_t` variable
  holds the arbitrary value `junk`; a read through a byte pointer overwrites
  as many of its bytes as the library stores (`store32`).
* The polling loop of `imx_spi_xfer_block` has no bound in C.  It takes a
  number of iterations `fuel`, and the result of the function is `none` when
  the loop is still running after that many.
-/

namespace ImxUsb

/-! ## Machine integers and byte order -/

/-- Conversion of an `int` to `uint32_t`. -/
def u32 (i : Int) : Nat := (i % 4294967296).toNat

/-- Conversion of an `int` to `uint8_t`. -/
def u8 (i : Int) : Nat := (i % 256).toNat

/-- The four bytes of a 32-bit value, most significant first. -/
def be32 (x : Nat) : List Nat :=
  [x / 16777216 % 256, x / 65536 % 256, x / 256 % 256, x % 256]

/-- The four bytes of a 32-bit value, least significant first. -/
def le32 (x : Nat) : List Nat :=
  [x % 256, x / 256 % 256, x / 65536 % 256, x / 16777216 % 256]

/-- Byte reversal of a 32-bit value. -/
def bswap32 (x : Nat) : Nat :=
  x % 256 * 16777216 + x / 256 % 256 * 65536 + x / 65536 % 256 * 256 + x / 16777216 % 256

/-- The libc `htonl`: identity on a big-endian host, byte reversal on a
little-endian one. -/
def htonl (le : Bool) (x : Nat) : Nat := if le then bswap32 x else x % 4294967296

/-- The bytes a `uint32_t` occupies in host memory, lowest address first. -/
def mem32 (le : Bool) (x : Nat) : List Nat := if le then le32 x else be32 x

/-- The bytes a `uint16_t` occupies in host memory, lowest address first. -/
def mem16 (le : Bool) (x : Nat) : List Nat :=
  if le then [x % 256, x / 256 % 256] else [x / 256 % 256, x % 256]

/-! ## Constants of `imx_usb_lib.c` -/

def EINVAL : Int := 22
def LIBUSB_ERROR_NO_DEVICE : Int := -4

def HAB_PRODUCTION : Int := 0
def HAB_ENGINEERING : Int := 1

def IMX_IMAGE_VERSION : Nat := 0x40
def IMX_IMAGE_FILE_HEADER_LENGTH : Nat := 0x2000
def IMX_IMAGE_TAG_FILE_HEADER : Nat := 0xD1

def SDP_READ_REGISTER : Nat := 0x0101
def SDP_WRITE_REGISTER : Nat := 0x0202
def SDP_WRITE_FILE : Nat := 0x0404
def SDP_ERROR_STATUS : Nat := 0x0505
def SDP_DCD_WRITE : Nat := 0x0a0a
def SDP_JUMP_ADDRESS : Nat := 0x0b0b

def HID_REPORT_TYPE_OUTPUT : Nat := 0x02

/-! ## Packed structures -/

/-- The packed `struct sdp_command`, fields in declaration order. -/
structure sdp_command where
  report_id : Nat := 0
  command_type : Nat := 0
  address : Nat := 0
  format : Nat := 0
  data_count : Nat := 0
  data : Nat := 0
  reserved : Nat := 0
deriving DecidableEq, Repr

/-- The memory image of a packed `struct sdp_command`: what
`(void *)cmd, sizeof(struct sdp_command)` hands to the transport. -/
def sdp_command_bytes (le : Bool) (cmd : sdp_command) : List Nat :=
  [cmd.report_id] ++ mem16 le cmd.command_type ++ mem32 le cmd.address ++ [cmd.format]
    ++ mem32 le cmd.data_count ++ mem32 le cmd.data ++ [cmd.reserved]

/-- The packed `struct imx_image_header`. -/
structure imx_image_header where
  tag : Nat := 0
  length : Nat := 0
  version : Nat := 0
deriving DecidableEq, Repr

/-- The packed `struct imx_image_ivt`, fields in declaration order. -/
structure imx_image_ivt where
  header : imx_image_header := {}
  entry : Nat := 0
  reserved1 : Nat := 0
  dcd : Nat := 0
  boot_data : Nat := 0
  self : Nat := 0
  csf : Nat := 0
  reserved2 : Nat := 0
deriving DecidableEq, Repr

/-- The memory image of a packed `struct imx_image_ivt`; its length is
`sizeof(struct imx_image_ivt)`. -/
def imx_image_ivt_bytes (le : Bool) (f : imx_image_ivt) : List Nat :=
  [f.header.tag] ++ mem16 le f.header.length ++ [f.header.version]
    ++ mem32 le f.entry ++ mem32 le f.reserved1 ++ mem32 le f.dcd ++ mem32 le f.boot_data
    ++ mem32 le f.self ++ mem32 le f.csf ++ mem32 le f.reserved2

/-- The value of `sizeof(struct imx_image_ivt)`: 4 header bytes and seven
32-bit words. -/
def sizeof_imx_image_ivt : Nat := 1 + 2 + 1 + 7 * 4

/-! ## The scripted USB transport -/

/-- Which read of the source an interrupt transfer comes from: the one in
`imx_read_hab`, or the read of a command's own response. -/
inductive ReadSite where
  | hab
  | response
deriving DecidableEq, Repr

/-- One transfer requested from libusb.  `control_out` is the HID SET_REPORT
control transfer with its `wValue` and the `wLength` bytes of its buffer;
`interrupt_in` is an interrupt transfer on `EP_IN` with its buffer size. -/
inductive UsbCall where
  | control_out (wValue : Nat) (data : List Nat)
  | interrupt_in (site : ReadSite) (size : Nat)
deriving DecidableEq, Repr

/-- The answer of the device to one transfer: the return value of the libusb
call and, for an interrupt transfer, the bytes the device delivers. -/
structure UsbReply where
  e : Int
  data : List Nat
deriving DecidableEq, Repr

/-- A transfer together with the reply it received. -/
structure UsbEvent where
  call : UsbCall
  reply : UsbReply
deriving DecidableEq, Repr

/-- The transport: replies not yet consumed, and the transfers made so far
(oldest first). -/
structure Usb where
  replies : List UsbReply
  trace : List UsbEvent
deriving DecidableEq, Repr

/-- The reply the next transfer will get. -/
def Usb.next (w : Usb) : UsbReply := w.replies.headD ⟨LIBUSB_ERROR_NO_DEVICE, []⟩

/-- Perform one transfer: consume a reply and log the event. -/
def Usb.step (w : Usb) (c : UsbCall) : Usb :=
  ⟨w.replies.tail, w.trace ++ [⟨c, w.next⟩]⟩

/-- The events logged between an earlier state `w` and a later state `w2`. -/
def Usb.since (w w2 : Usb) : List UsbEvent := w2.trace.drop w.trace.length

/-- The call `libusb_control_transfer(h, CTRL_OUT, HID_SET_REPORT, wValue, 0, data,
wLength, TIMEOUT)`. -/
def libusb_control_transfer (w : Usb) (wValue : Nat) (data : List Nat) (wLength : Nat) :
    Int × Usb :=
  (w.next.e, w.step (.control_out wValue (data.take wLength)))

/-- What an interrupt transfer leaves behind: return value, the buffer, the
transferred length, and the transport. -/
structure InResult where
  e : Int
  buffer : List Nat
  len : Int
  usb : Usb
deriving DecidableEq, Repr

/-- The call `libusb_interrupt_transfer(h, EP_IN, buffer, length, &len, TIMEOUT)`: at
most `length` bytes of the reply overwrite the start of `buffer`. -/
def libusb_interrupt_transfer (w : Usb) (site : ReadSite) (buffer : List Nat) (length : Nat) :
    InResult :=
  let got := w.next.data.take length
  { e := w.next.e, buffer := got ++ buffer.drop got.length, len := got.length,
    usb := w.step (.interrupt_in site length) }

/-- The diagnostic `usb_error(e, msg, ...)` prints and returns `e`. -/
def usb_error (e : Int) : Int := e

/-! ## Protocol functions -/

/-- Model of `hab_type(hab, len)`. -/
def hab_type (hab : List Nat) (len : Int) : Int :=
  if len < 4 then -1
  else if hab.getD 0 0 = 0x56 ∧ hab.getD 3 0 = 0x56 ∧ hab.getD 1 0 = 0x78 ∧ hab.getD 2 0 = 0x78 then
    HAB_ENGINEERING
  else if hab.getD 0 0 = 0x12 ∧ hab.getD 3 0 = 0x12 ∧ hab.getD 1 0 = 0x34 ∧ hab.getD 2 0 = 0x34 then
    HAB_PRODUCTION
  else -1

/-- The loop `for (i = 5; i; i--)` of `imx_send_sdp`, `e` being the result of
the previous attempt. -/
def imx_send_sdp_loop (le : Bool) (cmd : sdp_command) : Nat → Int → Usb → Int × Usb
  | 0, e, w => (usb_error e, w)
  | i + 1, _, w =>
    let r := libusb_control_transfer w (HID_REPORT_TYPE_OUTPUT <<< 8 ||| cmd.report_id)
      (sdp_command_bytes le cmd) 17
    if r.1 ≥ 0 then (r.1, r.2) else imx_send_sdp_loop le cmd i r.1 r.2

/-- Model of `imx_send_sdp(h, cmd)`.  The C variable `e` is uninitialised before
the first attempt; the loop runs at least once, so the initial value is never
returned. -/
def imx_send_sdp (le : Bool) (w : Usb) (cmd : sdp_command) : Int × Usb :=
  imx_send_sdp_loop le cmd 5 0 w

/-- Model of `imx_read_hab(h)`. -/
def imx_read_hab (w : Usb) : Int × Usb :=
  let r := libusb_interrupt_transfer w .hab (List.replicate 65 0) 65
  if r.e < 0 then (usb_error r.e, r.usb)
  else if r.buffer.getD 0 0 ≠ 3 then (-EINVAL, r.usb)
  else
    let e := hab_type (r.buffer.drop 1) (r.len - 1)
    if e < 0 then (e, r.usb) else (0, r.usb)

/-- Model of `imx_write_reg(h, addr, data, count, format)`. -/
def imx_write_reg (le : Bool) (w : Usb) (addr data : Nat) (count format : Int) : Int × Usb :=
  let cmd : sdp_command :=
    { report_id := 1, command_type := SDP_WRITE_REGISTER, address := htonl le addr,
      format := u8 format, data_count := htonl le (u32 count), data := htonl le data }
  let s := imx_send_sdp le w cmd
  if s.1 < 0 then (s.1, s.2)
  else
    let hb := imx_read_hab s.2
    if hb.1 < 0 then (hb.1, hb.2)
    else
      let r := libusb_interrupt_transfer hb.2 .response (4 :: List.replicate 64 0) 65
      if r.e < 0 then (usb_error r.e, r.usb)
      else if r.len ≠ 65 then (-EINVAL, r.usb)
      else if r.buffer.getD 0 0 ≠ 4 then (-EINVAL, r.usb)
      else if r.buffer.getD 1 0 ≠ 0x12 ∨ r.buffer.getD 2 0 ≠ 0x8a ∨ r.buffer.getD 3 0 ≠ 0x8a ∨
          r.buffer.getD 4 0 ≠ 0x12 then (-EINVAL, r.usb)
      else (0, r.usb)

/-- Model of `imx_write_reg32(h, addr, data)`. -/
def imx_write_reg32 (le : Bool) (w : Usb) (addr data : Nat) : Int × Usb :=
  imx_write_reg le w addr data 1 0x20

/-- Model of `imx_write_reg16(h, addr, data)`; `data` is a `uint16_t`. -/
def imx_write_reg16 (le : Bool) (w : Usb) (addr data : Nat) : Int × Usb :=
  imx_write_reg le w addr (data % 65536) 1 0x10

/-- Model of `imx_write_reg8(h, addr, data)`; `data` is a `uint8_t`. -/
def imx_write_reg8 (le : Bool) (w : Usb) (addr data : Nat) : Int × Usb :=
  imx_write_reg le w addr (data % 256) 1 0x8

/-- Model of `imx_dcd_write(h, data, count)`.  `data` is the caller's array of
32-bit words; the second component of the result is that array afterwards.
The C code is undefined for a negative `count` (a `memcpy` of negative size);
the embedding then copies nothing. -/
def imx_dcd_write (le : Bool) (w : Usb) (data : List Nat) (count : Int) :
    Int × List Nat × Usb :=
  if count > 85 then (-EINVAL, data, w)
  else
    let data1 := (data.take (count * 3).toNat).map (htonl le) ++ data.drop (count * 3).toNat
    let cmd : sdp_command :=
      { report_id := 1, command_type := SDP_DCD_WRITE, data_count := htonl le (u32 count) }
    let s := imx_send_sdp le w cmd
    if s.1 < 0 then (s.1, data1, s.2)
    else
      let dcd_data := 2 :: ((data1.flatMap (mem32 le)).take (count * 12).toNat
        ++ List.replicate (1023 - (count * 12).toNat) 0)
      let c := libusb_control_transfer s.2 (HID_REPORT_TYPE_OUTPUT <<< 8 ||| 2) dcd_data
        (count * 12 + 1).toNat
      if c.1 < 0 then (usb_error c.1, data1, c.2)
      else
        let hb := imx_read_hab c.2
        if hb.1 < 0 then (hb.1, data1, hb.2)
        else
          let r := libusb_interrupt_transfer hb.2 .response (4 :: List.replicate 1023 0) 1024
          if r.e < 0 then (usb_error r.e, data1, r.usb)
          else if r.len ≠ 65 then (-EINVAL, data1, r.usb)
          else if r.buffer.getD 0 0 ≠ 4 then (-EINVAL, data1, r.usb)
          else if r.buffer.getD 1 0 ≠ 0x12 ∨ r.buffer.getD 2 0 ≠ 0x8a ∨
              r.buffer.getD 3 0 ≠ 0x8a ∨ r.buffer.getD 4 0 ≠ 0x12 then (-EINVAL, data1, r.usb)
          else (0, data1, r.usb)

/-- Model of `imx_write_bulk_block(h, addr, data, length)`.  `data` is the
memory from the pointer on.  The part of the 1025-byte buffer the `memcpy`
leaves unwritten is uninitialised in C and zero here; it is never inspected,
the length check preceding every access. -/
def imx_write_bulk_block (le : Bool) (w : Usb) (addr : Nat) (data : List Nat) (length : Int) :
    Int × Usb :=
  if length > 1024 then (-EINVAL, w)
  else
    let cmd : sdp_command :=
      { report_id := 1, command_type := SDP_WRITE_FILE, address := htonl le addr,
        data_count := htonl le (u32 length) }
    let s := imx_send_sdp le w cmd
    if s.1 < 0 then (s.1, s.2)
    else
      let write_data := 2 :: (data.take length.toNat ++ List.replicate (1024 - length.toNat) 0)
      let c := libusb_control_transfer s.2 (HID_REPORT_TYPE_OUTPUT <<< 8 ||| 2) write_data
        (length + 1).toNat
      if c.1 < 0 then (usb_error c.1, c.2)
      else
        let hb := imx_read_hab c.2
        if hb.1 < 0 then (hb.1, hb.2)
        else
          let r := libusb_interrupt_transfer hb.2 .response write_data 1025
          if r.e < 0 then (usb_error r.e, r.usb)
          else if r.len ≠ 65 then (-EINVAL, r.usb)
          else if r.buffer.getD 0 0 ≠ 4 then (-EINVAL, r.usb)
          else if r.buffer.getD 1 0 ≠ 0x88 ∨ r.buffer.getD 2 0 ≠ 0x88 ∨
              r.buffer.getD 3 0 ≠ 0x88 ∨ r.buffer.getD 4 0 ≠ 0x88 then (-EINVAL, r.usb)
          else (0, r.usb)

/-- The loop `for (i = 0; i < length; i += 1024)` of `imx_write_bulk`.  The
first argument bounds the number of iterations; `imx_write_bulk` passes a
bound the loop never reaches (`imx_write_bulk_loop_fuel`).  `i` is an
unbounded integer: the embedding does not wrap where the C `int` would
overflow. -/
def imx_write_bulk_loop (le : Bool) (length : Int) :
    Nat → Int → Usb → Nat → List Nat → Int × Usb
  | 0, _, w, _, _ => (0, w)
  | fuel + 1, i, w, addr, data =>
    if i < length then
      let this_len := min 1024 (length - i)
      let b := imx_write_bulk_block le w addr data this_len
      if b.1 < 0 then (b.1, b.2)
      else
        imx_write_bulk_loop le length fuel (i + 1024) b.2
          ((addr + this_len.toNat) % 4294967296) (data.drop this_len.toNat)
    else (0, w)

/-- Model of `imx_write_bulk(h, addr, data, length)`. -/
def imx_write_bulk (le : Bool) (w : Usb) (addr : Nat) (data : List Nat) (length : Int) :
    Int × Usb :=
  imx_write_bulk_loop le length length.toNat 0 w addr data

/-- The loop `while (remaining)` of `imx_read_bulk`; `result` holds the bytes
stored so far.  The first argument bounds the number of iterations: every
iteration consumes a scripted reply or leaves the loop, so
`imx_read_bulk` passes a bound that is never reached
(`imx_read_bulk_loop_fuel`).  The C code is undefined for a negative
`remaining` (a `memcpy` of negative size); the embedding then copies
nothing. -/
def imx_read_bulk_loop : Nat → Usb → Int → List Nat → Int × List Nat × Usb
  | 0, w, _, result => (usb_error LIBUSB_ERROR_NO_DEVICE, result, w)
  | fuel + 1, w, remaining, result =>
    if remaining ≠ 0 then
      let r := libusb_interrupt_transfer w .response (4 :: List.replicate 64 0) 65
      if r.e < 0 then (usb_error r.e, result, r.usb)
      else if r.len > 1 then
        let this := min remaining (r.len - 1)
        imx_read_bulk_loop fuel r.usb (remaining - this)
          (result ++ (r.buffer.drop 1).take this.toNat)
      else imx_read_bulk_loop fuel r.usb remaining result
    else (0, result, w)

/-- Model of `imx_read_bulk(h, addr, result, count, format)`; the second
component of the result is the sequence of bytes stored through `result`. -/
def imx_read_bulk (le : Bool) (w : Usb) (addr : Nat) (count format : Int) :
    Int × List Nat × Usb :=
  let cmd : sdp_command :=
    { report_id := 1, command_type := SDP_READ_REGISTER, address := htonl le addr,
      format := u8 format, data_count := htonl le (u32 count) }
  let s := imx_send_sdp le w cmd
  if s.1 < 0 then (s.1, [], s.2)
  else
    let hb := imx_read_hab s.2
    if hb.1 < 0 then (hb.1, [], hb.2)
    else imx_read_bulk_loop (hb.2.replies.length + 1) hb.2 count []

/-- Model of `imx_read_reg32(h, addr, value)`. -/
def imx_read_reg32 (le : Bool) (w : Usb) (addr : Nat) : Int × List Nat × Usb :=
  imx_read_bulk le w addr 4 0x20

/-- Model of `imx_read_reg16(h, addr, value)`. -/
def imx_read_reg16 (le : Bool) (w : Usb) (addr : Nat) : Int × List Nat × Usb :=
  imx_read_bulk le w addr 2 0x10

/-- Model of `imx_read_reg8(h, addr, value)`. -/
def imx_read_reg8 (le : Bool) (w : Usb) (addr : Nat) : Int × List Nat × Usb :=
  imx_read_bulk le w addr 1 0x08

/-- The pretend IVT header `fake` that `imx_jump_address` builds for `addr`. -/
def imx_jump_fake (addr : Nat) : imx_image_ivt :=
  { header := { tag := IMX_IMAGE_TAG_FILE_HEADER, length := IMX_IMAGE_FILE_HEADER_LENGTH,
                version := IMX_IMAGE_VERSION },
    entry := addr,
    self := (addr + (4294967296 - sizeof_imx_image_ivt)) % 4294967296 }

/-- Model of `imx_jump_address(h, addr)`. -/
def imx_jump_address (le : Bool) (w : Usb) (addr : Nat) : Int × Usb :=
  let fake := imx_jump_fake addr
  let addr := fake.self
  let b := imx_write_bulk le w addr (imx_image_ivt_bytes le fake) sizeof_imx_image_ivt
  if b.1 < 0 then (b.1, b.2)
  else
    let cmd : sdp_command :=
      { report_id := 1, command_type := SDP_JUMP_ADDRESS, address := htonl le addr }
    let s := imx_send_sdp le b.2 cmd
    if s.1 < 0 then (s.1, s.2)
    else
      let hb := imx_read_hab s.2
      if hb.1 < 0 then (hb.1, hb.2)
      else
        let r := libusb_interrupt_transfer hb.2 .response (4 :: List.replicate 64 0) 65
        if r.e < 0 then (0, r.usb)
        else (-EINVAL, r.usb)

/-! ## Observations on the trace and wire formats of the specification -/

/-- The wire image of a command report as the specification lays it out:
report id 1, the 16-bit command code, the address, the format tag, the count
and the data word, every multi-byte field most significant byte first, and a
reserved zero byte. -/
def wire_command (code addr format count data : Nat) : List Nat :=
  [1, code / 256 % 256, code % 256] ++ be32 addr ++ [format] ++ be32 count ++ be32 data ++ [0]

/-- The output reports the transport accepted, in order: `wValue` and bytes of
every control transfer that did not fail. -/
def delivered (t : List UsbEvent) : List (Nat × List Nat) :=
  t.filterMap fun ev =>
    match ev.call with
    | .control_out v d => if 0 ≤ ev.reply.e then some (v, d) else none
    | .interrupt_in _ _ => none

/-- The command records handed to the transport, failed attempts included:
the bytes of every control transfer for output report 1. -/
def command_records (t : List UsbEvent) : List (List Nat) :=
  t.filterMap fun ev =>
    match ev.call with
    | .control_out v d => if v = 0x201 then some d else none
    | .interrupt_in _ _ => none

/-- The replies to the reads of a command's own response, in order. -/
def responses (t : List UsbEvent) : List UsbReply :=
  t.filterMap fun ev =>
    match ev.call with
    | .interrupt_in .response _ => some ev.reply
    | _ => none

/-- Some interrupt read in the trace failed at transport level. -/
def read_failed (t : List UsbEvent) : Prop :=
  ∃ ev ∈ t, (∃ s n, ev.call = .interrupt_in s n) ∧ ev.reply.e < 0

/-- A status report the specification accepts: the transfer succeeds, at
least five bytes arrive, byte 0 is 3 and bytes 1 to 4 are one of the two HAB
magics. -/
def hab_ok (r : UsbReply) : Prop :=
  0 ≤ r.e ∧ 5 ≤ r.data.length ∧
    (r.data.take 5 = [3, 0x56, 0x78, 0x78, 0x56] ∨ r.data.take 5 = [3, 0x12, 0x34, 0x34, 0x12])

instance (r : UsbReply) : Decidable (hab_ok r) := by unfold hab_ok; infer_instance

/-- A response report acknowledging a bulk write: 65 bytes received, report
id 4, bytes 1 to 4 equal to 88 88 88 88. -/
def bulk_ack_ok (r : UsbReply) : Prop :=
  0 ≤ r.e ∧ r.data.length = 65 ∧ r.data.take 5 = [4, 0x88, 0x88, 0x88, 0x88]

instance (r : UsbReply) : Decidable (bulk_ack_ok r) := by unfold bulk_ack_ok; infer_instance

/-- The payload of a response report: its bytes after the report id. -/
def payload (r : UsbReply) : List Nat := r.data.drop 1

/-- The `k`-th 1024-byte chunk of a buffer. -/
def chunk (buf : List Nat) (k : Nat) : List Nat := (buf.drop (1024 * k)).take 1024

/-- The control transfer `imx_send_sdp` repeats for a command. -/
def send_call (le : Bool) (cmd : sdp_command) : UsbCall :=
  .control_out (HID_REPORT_TYPE_OUTPUT <<< 8 ||| cmd.report_id) (sdp_command_bytes le cmd)

/-- The command `imx_write_bulk_block` builds. -/
@[reducible] def write_file_cmd (le : Bool) (addr : Nat) (length : Int) : sdp_command :=
  { report_id := 1, command_type := SDP_WRITE_FILE, address := htonl le addr,
    data_count := htonl le (u32 length) }

/-- The data-out report `imx_write_bulk_block` hands to the transport. -/
def write_file_data (data : List Nat) (length : Int) : List Nat :=
  (2 :: (data.take length.toNat ++ List.replicate (1024 - length.toNat) 0)).take (length + 1).toNat

/-- The two output reports of the block transaction for chunk `k` of `buf`
written at `addr`: the write-file command and the data-out report. -/
def bulk_reports (addr : Nat) (buf : List Nat) (k : Nat) : List (Nat × List Nat) :=
  [(0x201, wire_command SDP_WRITE_FILE ((addr + 1024 * k) % 4294967296) 0 (chunk buf k).length 0),
   (0x202, 2 :: chunk buf k)]

/-- The response check of a write path as it sees a reply through a buffer of
`size` bytes: transfer not failed, 65 bytes transferred, report id 4, then
the acknowledgement bytes `m1 m2 m3 m4`. -/
def ack_seen (size m1 m2 m3 m4 : Nat) (r : UsbReply) : Prop :=
  0 ≤ r.e ∧ (r.data.take size).length = 65 ∧ r.data.take 5 = [4, m1, m2, m3, m4]

/-- The caller's array after the in-place conversion loop of `imx_dcd_write`. -/
def dcd_converted (le : Bool) (data : List Nat) (count : Int) : List Nat :=
  (data.take (count * 3).toNat).map (htonl le) ++ data.drop (count * 3).toNat

/-- The data-out report `imx_dcd_write` hands to the transport. -/
def dcd_data_report (le : Bool) (data : List Nat) (count : Int) : List Nat :=
  (2 :: (((dcd_converted le data count).flatMap (mem32 le)).take (count * 12).toNat
    ++ List.replicate (1023 - (count * 12).toNat) 0)).take (count * 12 + 1).toNat

/-- The three output reports of a jump to `addr`: the write-file command for
the 32-byte header at `self`, the data-out report carrying the header, and
the jump command addressed at `self`. -/
def jump_reports (le : Bool) (addr : Nat) : List (Nat × List Nat) :=
  [(0x201, wire_command 0x0404 (imx_jump_fake addr).self 0 32 0),
   (0x202, 2 :: imx_image_ivt_bytes le (imx_jump_fake addr)),
   (0x201, wire_command 0x0b0b (imx_jump_fake addr).self 0 0 0)]

/-- The command `imx_read_bulk` builds. -/
@[reducible] def read_cmd (le : Bool) (addr : Nat) (count format : Int) : sdp_command :=
  { report_id := 1, command_type := SDP_READ_REGISTER, address := htonl le addr,
    format := u8 format, data_count := htonl le (u32 count) }

/-- The command `imx_write_reg` builds. -/
@[reducible] def write_reg_cmd (le : Bool) (addr data : Nat) (count format : Int) : sdp_command :=
  { report_id := 1, command_type := SDP_WRITE_REGISTER, address := htonl le addr,
    format := u8 format, data_count := htonl le (u32 count), data := htonl le data }

/-- The command `imx_dcd_write` builds. -/
@[reducible] def dcd_cmd (le : Bool) (count : Int) : sdp_command :=
  { report_id := 1, command_type := SDP_DCD_WRITE, data_count := htonl le (u32 count) }

/-- The command `imx_jump_address` builds for the header address `self`. -/
@[reducible] def jump_cmd (le : Bool) (self : Nat) : sdp_command :=
  { report_id := 1, command_type := SDP_JUMP_ADDRESS, address := htonl le self }

/-! ## Transports used as concrete instances -/

/-- A valid engineering-mode HAB status report. -/
def hab_engineering : UsbReply := ⟨0, [3, 0x56, 0x78, 0x78, 0x56]⟩

/-- The 65-byte acknowledgement of a bulk write. -/
def bulk_ack : UsbReply := ⟨0, [4, 0x88, 0x88, 0x88, 0x88] ++ List.replicate 60 0⟩

/-- The 65-byte acknowledgement of a register write. -/
def reg_ack : UsbReply := ⟨0, [4, 0x12, 0x8a, 0x8a, 0x12] ++ List.replicate 60 0⟩

/-- A 65-byte response that acknowledges nothing. -/
def bad_ack : UsbReply := ⟨0, [4, 0x88, 0x88, 0x88, 0x00] ++ List.replicate 60 0⟩

/-- A device that accepts one bulk-write block. -/
def bulk_ok_usb : Usb := ⟨[⟨17, []⟩, ⟨4, []⟩, hab_engineering, bulk_ack], []⟩

/-- A device that answers a read with two reports of three payload bytes and
has a third report pending. -/
def read_ok_usb : Usb :=
  ⟨[⟨17, []⟩, hab_engineering, ⟨0, [4, 1, 2, 3]⟩, ⟨0, [4, 5, 6, 7]⟩, ⟨0, [4, 8]⟩], []⟩

/-- A device that accepts the header write and the jump command of a jump and
then stops answering. -/
def jump_ok_usb : Usb :=
  ⟨[⟨17, []⟩, ⟨33, []⟩, hab_engineering, bulk_ack, ⟨17, []⟩, hab_engineering,
    ⟨LIBUSB_ERROR_NO_DEVICE, []⟩], []⟩

/-! ## Scripts seen from the caller -/

/-- The reply the `k`-th transfer from now will get (counting from 0): the
`k`-th scripted reply, or the failure of a device that is gone. -/
def Usb.outcome (w : Usb) (k : Nat) : UsbReply :=
  (w.replies.drop k).headD ⟨LIBUSB_ERROR_NO_DEVICE, []⟩

/-- A device that fails two sends with a timeout and accepts the third. -/
def send_retry_usb : Usb := ⟨[⟨-7, []⟩, ⟨-7, []⟩, ⟨17, []⟩, hab_engineering], []⟩

/-- A device that fails two sends with a timeout and then is gone. -/
def send_gone_usb : Usb := ⟨[⟨-7, []⟩, ⟨-9, []⟩], []⟩

/-! ## The shape of a transaction -/

/-- The event is an output report: a control transfer. -/
def is_out (ev : UsbEvent) : Bool :=
  match ev.call with
  | .control_out _ _ => true
  | .interrupt_in _ _ => false

/-- The event is a read of a command's own response. -/
def is_response_read (ev : UsbEvent) : Bool :=
  match ev.call with
  | .interrupt_in .response _ => true
  | _ => false

/-- The replies to the HAB status reads, in order. -/
def hab_reads (t : List UsbEvent) : List UsbReply :=
  t.filterMap fun ev =>
    match ev.call with
    | .interrupt_in .hab _ => some ev.reply
    | _ => none

/-- The trace of one transaction whose output stage has `stages` reports (the
command record and, for the two write paths with a payload, the data-out
report).  Either the output stage did not complete and nothing was read, or
the trace is the output stage followed by one HAB status read and then the
reads of the response, of which there are none if the status is not valid. -/
def transaction_shape (stages : Nat) (new : List UsbEvent) : Prop :=
  ((∀ ev ∈ new, is_out ev = true) ∧ (delivered new).length < stages) ∨
  ∃ (outs : List UsbEvent) (h : UsbReply) (resps : List UsbEvent),
    new = outs ++ ⟨.interrupt_in .hab 65, h⟩ :: resps ∧
    (∀ ev ∈ outs, is_out ev = true) ∧ (delivered outs).length = stages ∧
    (∀ ev ∈ resps, is_response_read ev = true) ∧ (¬ hab_ok h → resps = [])

/-- A device that accepts the command of a bulk-write block and fails its
data-out report. -/
def bulk_datafail_usb : Usb := ⟨[⟨17, []⟩, ⟨-7, []⟩, hab_engineering, bulk_ack], []⟩

/-! ## The register access library as the drivers see it

`imx_drv_gpio.c` and `imx_drv_spi.c` reach the device only through
`imx_read_bulk`, `imx_read_reg32` and `imx_write_reg32`.  The drivers are
embedded over any implementation of these entry points, so that the same
definitions run over the protocol engine above (`usb_lib`), over a device of
plain registers, and over a device that logs every register access. -/

/-- The entry points of `imx_usb_lib` the drivers call, over the state `σ`
the handle `h` stands for, and the byte order of the host they run on.
`imx_read_bulk h addr count format` gives the return value, the bytes stored
through `result`, and the state afterwards. -/
structure RegLib (σ : Type) where
  le : Bool
  imx_read_bulk : σ → Nat → Int → Int → Int × List Nat × σ
  imx_write_reg32 : σ → Nat → Nat → Int × σ

/-- The call `imx_read_reg32(h, addr, value)`: `imx_read_bulk` of 4 bytes with
format `0x20` into `*value`. -/
def RegLib.imx_read_reg32 {σ : Type} (L : RegLib σ) (h : σ) (addr : Nat) : Int × List Nat × σ :=
  L.imx_read_bulk h addr 4 0x20

/-- The protocol engine of `imx_usb_lib.c` over the scripted USB transport. -/
def usb_lib (le : Bool) : RegLib Usb :=
  { le := le, imx_read_bulk := imx_read_bulk le, imx_write_reg32 := imx_write_reg32 le }

/-- The value of a `uint32_t` whose bytes in host memory are `b`, lowest
address first. -/
def load32 (le : Bool) (b : List Nat) : Nat :=
  if le then
    b.getD 0 0 % 256 + b.getD 1 0 % 256 * 256 + b.getD 2 0 % 256 * 65536
      + b.getD 3 0 % 256 * 16777216
  else
    b.getD 0 0 % 256 * 16777216 + b.getD 1 0 % 256 * 65536 + b.getD 2 0 % 256 * 256
      + b.getD 3 0 % 256

/-- The value of a `uint32_t` variable that held `old` after `bytes` were
stored from its first byte on (what a read through `(uint8_t *)&v` leaves in
`v`).  An uninitialised variable holds an arbitrary `old`. -/
def store32 (le : Bool) (old : Nat) (bytes : List Nat) : Nat :=
  load32 le (bytes.take 4 ++ (mem32 le old).drop bytes.length)

/-- One register access as the library saw it: a read with the requested
byte count and format, its return value and the bytes it stored; or a write
with its value and return value. -/
inductive RegOp where
  | read (addr : Nat) (count format : Int) (e : Int) (bytes : List Nat)
  | write (addr val : Nat) (e : Int)
deriving DecidableEq, Repr

/-- The library `L` with every register access appended to a log. -/
def logged {σ : Type} (L : RegLib σ) : RegLib (σ × List RegOp) :=
  { le := L.le
    imx_read_bulk := fun h addr count format =>
      let r := L.imx_read_bulk h.1 addr count format
      (r.1, r.2.1, (r.2.2, h.2 ++ [.read addr count format r.1 r.2.1]))
    imx_write_reg32 := fun h addr val =>
      let r := L.imx_write_reg32 h.1 addr val
      (r.1, (r.2, h.2 ++ [.write addr val r.1])) }

/-- A device of plain 32-bit registers behind a transport that never fails:
a write stores the value, a read stores the first `count` bytes of the
register as it lies in host memory.  The state maps an address to the
register content. -/
def plain_regs (le : Bool) : RegLib (Nat → Nat) :=
  { le := le
    imx_read_bulk := fun m addr count _ => (0, (mem32 le (m addr)).take count.toNat, m)
    imx_write_reg32 := fun m addr val => (0, Function.update m addr val) }

/-- A scripted register-level device: every access consumes one outcome, the
return value and (for a read) the bytes the device delivers, of which the
read stores at most `count`.  When the script is exhausted the device is
gone. -/
def script_regs (le : Bool) : RegLib (List (Int × List Nat)) :=
  { le := le
    imx_read_bulk := fun s _ count _ =>
      match s with
      | [] => (LIBUSB_ERROR_NO_DEVICE, [], [])
      | (e, bytes) :: rest => (e, bytes.take count.toNat, rest)
    imx_write_reg32 := fun s _ _ =>
      match s with
      | [] => (LIBUSB_ERROR_NO_DEVICE, [])
      | (e, _) :: rest => (e, rest) }

/-! ## The GPIO driver (`imx_drv_gpio.c`) -/

/-- The macro `MXC_GPIO(bank, pin)`, `((bank - 1) << 5) | pin` on `int`s, as the
`uint32_t` the driver functions receive. -/
def MXC_GPIO (bank pin : Int) : Nat := u32 ((bank - 1) * 32) ||| u32 pin

def gpio_base : List Nat :=
  [0x0209c000, 0x020a0000, 0x020a4000, 0x020a8000, 0x020ac000, 0x020b0000, 0x020b4000]

def GPIO_DR : Nat := 0x00
def GPIO_GDIR : Nat := 0x04
def GPIO_PSR : Nat := 0x08

/-- Model of `gpio_to_pinmask(gpio)`, `1 << (gpio & 0x1f)` as a `uint32_t`.  The
shift of the `int` constant by 31 is taken with its two's-complement result
`0x80000000`. -/
def gpio_to_pinmask (gpio : Nat) : Nat := (1 <<< (gpio &&& 0x1f)) % 4294967296

/-- Model of `gpio_to_base(gpio)`. -/
def gpio_to_base (gpio : Nat) : Nat :=
  let bank : Int := ((gpio >>> 5 : Nat) : Int)
  let bank : Int := if bank < 0 ∨ bank ≥ (gpio_base.length : Int) then 0 else bank
  gpio_base.getD bank.toNat 0

/-- Model of `gpio_set_direction(h, gpio, output)`; `junk` is what the
uninitialised `val` holds. -/
def gpio_set_direction {σ : Type} (L : RegLib σ) (junk : Nat) (h : σ) (gpio : Nat) (output : Int) :
    Int × σ :=
  let base := gpio_to_base gpio
  let mask := gpio_to_pinmask gpio
  let r := L.imx_read_reg32 h ((base + GPIO_GDIR) % 4294967296)
  if r.1 < 0 then (r.1, r.2.2)
  else
    let val := store32 L.le junk r.2.1
    let val := if output ≠ 0 then val ||| mask else val &&& (mask ^^^ 0xffffffff)
    L.imx_write_reg32 r.2.2 ((base + GPIO_GDIR) % 4294967296) val

/-- Model of `gpio_get_direction(h, gpio)`. -/
def gpio_get_direction {σ : Type} (L : RegLib σ) (junk : Nat) (h : σ) (gpio : Nat) : Int × σ :=
  let base := gpio_to_base gpio
  let mask := gpio_to_pinmask gpio
  let r := L.imx_read_reg32 h ((base + GPIO_GDIR) % 4294967296)
  if r.1 < 0 then (r.1, r.2.2)
  else
    let val := store32 L.le junk r.2.1
    (if val &&& mask ≠ 0 then 1 else 0, r.2.2)

/-- Model of `gpio_get_value(h, gpio)`. -/
def gpio_get_value {σ : Type} (L : RegLib σ) (junk : Nat) (h : σ) (gpio : Nat) : Int × σ :=
  let base := gpio_to_base gpio
  let mask := gpio_to_pinmask gpio
  let r := L.imx_read_reg32 h ((base + GPIO_PSR) % 4294967296)
  if r.1 < 0 then (r.1, r.2.2)
  else
    let val := store32 L.le junk r.2.1
    (if val &&& mask ≠ 0 then 1 else 0, r.2.2)

/-- Model of `gpio_set_value(h, gpio, value)`. -/
def gpio_set_value {σ : Type} (L : RegLib σ) (junk : Nat) (h : σ) (gpio : Nat) (value : Int) :
    Int × σ :=
  let base := gpio_to_base gpio
  let mask := gpio_to_pinmask gpio
  let r := L.imx_read_reg32 h ((base + GPIO_DR) % 4294967296)
  if r.1 < 0 then (r.1, r.2.2)
  else
    let val := store32 L.le junk r.2.1
    let val := if value ≠ 0 then val ||| mask else val &&& (mask ^^^ 0xffffffff)
    L.imx_write_reg32 r.2.2 ((base + GPIO_DR) % 4294967296) val

/-! ## The SPI driver (`imx_drv_spi.c`) -/

def ECSPI_RXDATA : Nat := 0x00
def ECSPI_TXDATA : Nat := 0x04
def ECSPI_CONREG : Nat := 0x08
def ECSPI_CONFIGREG : Nat := 0x0c
def ECSPI_INTREG : Nat := 0x10
def ECSPI_DMAREG : Nat := 0x14
def ECSPI_STATREG : Nat := 0x18
def ECSPI_PERIODREG : Nat := 0x1c
def ECSPI_TESTREG : Nat := 0x20
def ECSPI_MSGDATA : Nat := 0x40

def ecspi_base_addr : List Nat := [0x02008000, 0x0200c000, 0x02010000, 0x02014000, 0x02018000]

/-- The address `ecspi_base_addr[spi_dev] + reg` as a `uint32_t`.  The C code
is undefined for an index outside the table; the embedding then takes 0. -/
def ecspi_addr (spi_dev : Int) (reg : Nat) : Nat :=
  (ecspi_base_addr.getD spi_dev.toNat 0 + reg) % 4294967296

/-- Model of `ecspi_write(h, spi_dev, reg, val)`. -/
def ecspi_write {σ : Type} (L : RegLib σ) (h : σ) (spi_dev : Int) (reg val : Nat) : Int × σ :=
  L.imx_write_reg32 h (ecspi_addr spi_dev reg) val

/-- Model of `ecspi_read(h, spi_dev, reg, val)`: a read of ONE byte with format
`0x20` into `*val`.  `val` is what `*val` held before; the second component
of the result is what it holds afterwards. -/
def ecspi_read {σ : Type} (L : RegLib σ) (h : σ) (spi_dev : Int) (reg val : Nat) :
    Int × Nat × σ :=
  let r := L.imx_read_bulk h (ecspi_addr spi_dev reg) 1 0x20
  (r.1, store32 L.le val r.2.1, r.2.2)

/-- Model of `ecspi_setbits(h, spi_dev, reg, bits)`; `junk` is what the
uninitialised `val` holds. -/
def ecspi_setbits {σ : Type} (L : RegLib σ) (junk : Nat) (h : σ) (spi_dev : Int) (reg bits : Nat) :
    Int × σ :=
  let r := L.imx_read_reg32 h (ecspi_addr spi_dev reg)
  if r.1 < 0 then (r.1, r.2.2)
  else
    let val := store32 L.le junk r.2.1
    L.imx_write_reg32 r.2.2 (ecspi_addr spi_dev reg) (val ||| bits)

/-- Model of `imx_spi_init(h, spi_dev, cs, speed, mode)`.  `speed` and `mode`
are only printed. -/
def imx_spi_init {σ : Type} (L : RegLib σ) (h : σ) (spi_dev cs : Int) (_speed : Int)
    (_mode : Nat) : Int × σ :=
  let con_reg : Nat :=
    (0 <<< 20) ||| u32 (cs * 262144) ||| (0 <<< 16) ||| (8 <<< 12) ||| (8 <<< 8) ||| (0xf <<< 4) |||
      (0 <<< 3) ||| (0 <<< 2) ||| (0 <<< 1) ||| (1 <<< 0)
  let config_reg : Nat :=
    (0x0 <<< 20) ||| (0x0 <<< 16) ||| (0x0 <<< 12) ||| (0x0 <<< 8) ||| (0x0 <<< 4) ||| (0x0 <<< 0)
  let w1 := ecspi_write L h spi_dev ECSPI_CONREG con_reg
  if w1.1 < 0 then (-1, w1.2)
  else
    let w2 := ecspi_write L w1.2 spi_dev ECSPI_CONFIGREG config_reg
    if w2.1 < 0 then (-1, w2.2)
    else
      let w3 := ecspi_write L w2.2 spi_dev ECSPI_INTREG 0
      if w3.1 < 0 then (-1, w3.2)
      else
        let w4 := ecspi_write L w3.2 spi_dev ECSPI_STATREG ((1 <<< 7) ||| (1 <<< 6))
        if w4.1 < 0 then (-1, w4.2) else (0, w4.2)

/-- The loop `for (i = 0; i < len % 4; i++) data = (data << 8) | tx[i]` of
`imx_spi_xfer_block`, from `data = 0`. -/
def imx_spi_xfer_block_first (t : List Nat) (len : Int) : Nat :=
  (List.range (Int.tmod len 4).toNat).foldl
    (fun data i => ((data <<< 8) % 4294967296) ||| t.getD i 0) 0

/-- The word the loop `for (i = len % 4; i < len; i += 4)` of
`imx_spi_xfer_block` builds at index `i`. -/
def imx_spi_xfer_block_word (tx : Option (List Nat)) (len i : Int) : Nat :=
  match tx with
  | none => 0
  | some t =>
    let data := (t.getD i.toNat 0 <<< 24) % 4294967296
    let data := if i + 1 < len then data ||| (t.getD (i + 1).toNat 0 <<< 16) else data
    let data := if i + 2 < len then data ||| (t.getD (i + 2).toNat 0 <<< 8) else data
    if i + 3 < len then data ||| t.getD (i + 3).toNat 0 else data

/-- The loop `for (i = len % 4; i < len; i += 4)` of `imx_spi_xfer_block` from
index `i` on.  The result is -1 if the function returns from inside the loop
and 0 if the loop ends.  The first argument bounds the number of iterations;
`imx_spi_xfer_block` passes a bound the loop does not reach
(`imx_spi_xfer_block_load_fuel`). -/
def imx_spi_xfer_block_load {σ : Type} (L : RegLib σ) (spi_dev : Int) (tx : Option (List Nat))
    (len : Int) : Nat → Int → σ → Int × σ
  | 0, _, h => (0, h)
  | n + 1, i, h =>
    if i < len then
      let e := ecspi_write L h spi_dev ECSPI_TXDATA (imx_spi_xfer_block_word tx len i)
      if e.1 < 0 then (-1, e.2)
      else imx_spi_xfer_block_load L spi_dev tx len n (i + 4) e.2
    else (0, h)

/-- The loop `while (1)` of `imx_spi_xfer_block` that polls the status
register.  Nothing bounds it in C: a device that never raises bit 7 keeps it
running.  The result is `none` while the loop is still running after the
given number of iterations, `some (-1)` if the function returns from inside
the loop and `some 0` if the loop is left. -/
def imx_spi_xfer_block_wait {σ : Type} (L : RegLib σ) (junk : Nat) (spi_dev : Int) :
    Nat → σ → Option Int × σ
  | 0, h => (none, h)
  | n + 1, h =>
    let r := ecspi_read L h spi_dev ECSPI_STATREG junk
    if r.1 < 0 then (some (-1), r.2.2)
    else if r.2.1 &&& (1 <<< 7) ≠ 0 then (some 0, r.2.2)
    else imx_spi_xfer_block_wait L junk spi_dev n r.2.2

/-- The bytes one pass of the read loop of `imx_spi_xfer_block` stores in
`rx` at index `i` from the word `data`. -/
def imx_spi_xfer_block_unpack (rx : List Nat) (len : Int) (i : Nat) (data : Nat) : List Nat :=
  let rx := rx.set i ((data >>> 24) % 256)
  let rx := if (i : Int) + 1 < len then rx.set (i + 1) ((data >>> 16) % 256) else rx
  let rx := if (i : Int) + 2 < len then rx.set (i + 2) ((data >>> 8) % 256) else rx
  if (i : Int) + 3 < len then rx.set (i + 3) (data % 256) else rx

/-- The loop `for (i = 0; i < len; i += 4)` of `imx_spi_xfer_block` that reads
the response, from index `i` on; `rx` is the caller's buffer, `none` for a
null pointer.  The result is -1 if the function returns from inside the loop
and 0 if the loop ends.  The first argument bounds the number of iterations
(`imx_spi_xfer_block_drain_fuel`). -/
def imx_spi_xfer_block_drain {σ : Type} (L : RegLib σ) (junk : Nat) (spi_dev : Int) (len : Int) :
    Nat → Nat → Option (List Nat) → σ → Int × Option (List Nat) × σ
  | 0, _, rx, h => (0, rx, h)
  | n + 1, i, rx, h =>
    if (i : Int) < len then
      let t1 := ecspi_read L h spi_dev ECSPI_TESTREG junk
      let d := L.imx_read_reg32 t1.2.2 (ecspi_addr spi_dev ECSPI_RXDATA)
      if d.1 < 0 then (-1, rx, d.2.2)
      else
        let data := store32 L.le junk d.2.1
        let t2 := ecspi_read L d.2.2 spi_dev ECSPI_TESTREG t1.2.1
        imx_spi_xfer_block_drain L junk spi_dev len n (i + 4)
          (rx.map fun buf => imx_spi_xfer_block_unpack buf len i data) t2.2.2
    else (0, rx, h)

/-- Model of `imx_spi_xfer_block(h, spi_dev, tx, rx, len)`.  `tx` and `rx` are
the caller's buffers, `none` for a null pointer; the second component of the
result is `rx` afterwards.  `junk` is what an uninitialised variable holds
and `fuel` bounds the polling loop: the first component is `none` if the
function is still polling after `fuel` reads of the status register. -/
def imx_spi_xfer_block {σ : Type} (L : RegLib σ) (junk fuel : Nat) (h : σ) (spi_dev : Int)
    (tx rx : Option (List Nat)) (len : Int) : Option Int × Option (List Nat) × σ :=
  let c := ecspi_read L h spi_dev ECSPI_CONREG junk
  if c.1 < 0 then (some (-1), rx, c.2.2)
  else
    let v := c.2.1 &&& 0x000fffff
    let v := v ||| u32 ((len * 8 - 1) * 1048576)
    let w1 := ecspi_write L c.2.2 spi_dev ECSPI_CONREG v
    if w1.1 < 0 then (some (-1), rx, w1.2)
    else
      let w2 := ecspi_write L w1.2 spi_dev ECSPI_STATREG ((1 <<< 7) ||| (1 <<< 6))
      if w2.1 < 0 then (some (-1), rx, w2.2)
      else
        let f : Int × σ :=
          if Int.tmod len 4 ≠ 0 then
            let data := match tx with
              | some t => imx_spi_xfer_block_first t len
              | none => 0
            let e := ecspi_write L w2.2 spi_dev ECSPI_TXDATA data
            if e.1 < 0 then (-1, e.2) else (0, e.2)
          else (0, w2.2)
        if f.1 < 0 then (some (-1), rx, f.2)
        else
          let l := imx_spi_xfer_block_load L spi_dev tx len len.toNat (Int.tmod len 4) f.2
          if l.1 < 0 then (some (-1), rx, l.2)
          else
            let t1 := ecspi_read L l.2 spi_dev ECSPI_TESTREG v
            let s := ecspi_setbits L junk t1.2.2 spi_dev ECSPI_CONREG ((1 <<< 2) ||| (1 <<< 0))
            if s.1 < 0 then (some (-1), rx, s.2)
            else
              let t2 := ecspi_read L s.2 spi_dev ECSPI_CONREG t1.2.1
              let p := imx_spi_xfer_block_wait L junk spi_dev fuel t2.2.2
              match p.1 with
              | none => (none, rx, p.2)
              | some e =>
                if e < 0 then (some (-1), rx, p.2)
                else
                  let t3 := ecspi_read L p.2 spi_dev ECSPI_TESTREG t2.2.1
                  let d := imx_spi_xfer_block_drain L junk spi_dev len len.toNat 0 rx t3.2.2
                  (some d.1, d.2.1, d.2.2)

/-- Model of `imx_spi_xfer(h, spi_dev, gpio_cs, tx, rx, len)`. -/
def imx_spi_xfer {σ : Type} (L : RegLib σ) (junk fuel : Nat) (h : σ) (spi_dev : Int)
    (gpio_cs : Nat) (tx rx : Option (List Nat)) (len : Int) :
    Option Int × Option (List Nat) × σ :=
  if len > 64 then (some (-1), rx, h)
  else
    let d := gpio_set_direction L junk h gpio_cs 1
    if d.1 < 0 then (some (-1), rx, d.2)
    else
      let v := gpio_set_value L junk d.2 gpio_cs 0
      if v.1 < 0 then (some (-1), rx, v.2)
      else
        let b := imx_spi_xfer_block L junk fuel v.2 spi_dev tx rx len
        match b.1 with
        | none => (none, b.2.1, b.2.2)
        | some e =>
          if e < 0 then (some (-1), b.2.1, b.2.2)
          else
            let u := gpio_set_value L junk b.2.2 gpio_cs 1
            if u.1 < 0 then (some (-1), b.2.1, u.2) else (some 0, b.2.1, u.2)

/-- Model of `imx_spi_close(h, spi_dev)`. -/
def imx_spi_close {σ : Type} (L : RegLib σ) (h : σ) (spi_dev : Int) : Int × σ :=
  let w := ecspi_write L h spi_dev ECSPI_CONREG 0
  if w.1 < 0 then (-1, w.2) else (0, w.2)

/-! ## Devices used as concrete instances for the drivers -/

/-- Plain registers in which only bank 1 of the GPIO block holds anything:
`GDIR` is `0x21`, `PSR` is `0x20` and `DR` is 0. -/
def bank1_regs : Nat → Nat :=
  fun a => if a = 0x0209c004 then 0x21 else if a = 0x0209c008 then 0x20 else 0

/-- Plain registers in which `GDIR` of bank 3 holds `0x10`. -/
def bank3_regs : Nat → Nat := fun a => if a = 0x020a4004 then 0x10 else 0

/-! ## Observations on the register log -/

/-- The values written to the transmit FIFO register `TXDATA` of block
`spi_dev`, in order. -/
def txdata_writes (spi_dev : Int) (log : List RegOp) : List Nat :=
  log.filterMap fun op =>
    match op with
    | .write a v _ => if a = ecspi_addr spi_dev ECSPI_TXDATA then some v else none
    | .read _ _ _ _ _ => none

/-- The bytes stored by the reads of the receive FIFO register `RXDATA` of
block `spi_dev`, in order. -/
def rxdata_reads (spi_dev : Int) (log : List RegOp) : List (List Nat) :=
  log.filterMap fun op =>
    match op with
    | .read a _ _ _ bytes => if a = ecspi_addr spi_dev ECSPI_RXDATA then some bytes else none
    | .write _ _ _ => none

/-- The four writes the specification gives for `imx_spi_init`, as address
and value. -/
def spi_init_writes (spi_dev cs : Int) : List (Nat × Nat) :=
  [(ecspi_addr spi_dev ECSPI_CONREG, u32 (cs * 262144) ||| 0x88f1),
   (ecspi_addr spi_dev ECSPI_CONFIGREG, 0),
   (ecspi_addr spi_dev ECSPI_INTREG, 0),
   (ecspi_addr spi_dev ECSPI_STATREG, 0xc0)]

/-- The words the specification puts into the transmit FIFO for the bytes
`b`: if the length is not a multiple of 4, first one word holding the first
`r = length % 4` bytes, most significant first and right-aligned; then the
remaining bytes taken four at a time, the first of each four in the most
significant byte. -/
def spi_fifo_words (b : List Nat) : List Nat :=
  (if b.length % 4 ≠ 0 then
      [(b.take (b.length % 4)).foldl (fun acc x => acc <<< 8 ||| x) 0]
    else []) ++
  (List.range ((b.length - b.length % 4) / 4)).map fun j =>
    b.getD (b.length % 4 + 4 * j) 0 <<< 24 ||| b.getD (b.length % 4 + 4 * j + 1) 0 <<< 16 |||
      b.getD (b.length % 4 + 4 * j + 2) 0 <<< 8 ||| b.getD (b.length % 4 + 4 * j + 3) 0

/-- The bytes that FIFO words laid out in this way carry for a transfer of
`len` bytes: the low `len % 4` bytes of the first word if `len` is not a
multiple of 4, then the four bytes of every further word, most significant
first. -/
def spi_fifo_bytes (len : Nat) (ws : List Nat) : List Nat :=
  if len % 4 ≠ 0 then (be32 (ws.headD 0)).drop (4 - len % 4) ++ ws.tail.flatMap be32
  else ws.flatMap be32

/-! ## A loopback device and a USB script for the SPI driver -/

/-- The state of an ECSPI block wired in loopback: the plain registers and
the words queued in the FIFO. -/
structure SpiLoop where
  regs : Nat → Nat
  fifo : List Nat

/-- The ECSPI block `spi_dev` with its output wired to its input, behind a
transport that never fails: a write to `TXDATA` queues the word, a read of
`RXDATA` takes the oldest queued word, a read of `STATREG` shows the transfer
complete (`0x80`), and every other register is a plain register.  A read
stores the first `count` bytes of the value as it lies in host memory. -/
def spi_loopback (le : Bool) (spi_dev : Int) : RegLib SpiLoop :=
  { le := le
    imx_read_bulk := fun s addr count _ =>
      if addr = ecspi_addr spi_dev ECSPI_RXDATA then
        (0, (mem32 le (s.fifo.headD 0)).take count.toNat, ⟨s.regs, s.fifo.tail⟩)
      else if addr = ecspi_addr spi_dev ECSPI_STATREG then
        (0, (mem32 le 0x80).take count.toNat, s)
      else (0, (mem32 le (s.regs addr)).take count.toNat, s)
    imx_write_reg32 := fun s addr val =>
      if addr = ecspi_addr spi_dev ECSPI_TXDATA then (0, ⟨s.regs, s.fifo ++ [val]⟩)
      else (0, ⟨Function.update s.regs addr val, s.fifo⟩) }

/-- A USB device that answers the read of a register holding `0x00012345`
with a full report, accepts one register write, and then is gone. -/
def conreg_usb : Usb :=
  ⟨[⟨17, []⟩, hab_engineering, ⟨0, [4, 0x45, 0x23, 0x01, 0x00] ++ List.replicate 60 0⟩,
    ⟨17, []⟩, hab_engineering, reg_ack], []⟩

/-! ## Observations for the in-place conversion of the DCD write -/

/-- The data-out reports handed to the transport, failed transfers included:
the bytes of every control transfer for output report 2. -/
def data_out_records (t : List UsbEvent) : List (List Nat) :=
  t.filterMap fun ev =>
    match ev.call with
    | .control_out v d => if v = 0x202 then some d else none
    | .interrupt_in _ _ => none

/-- The data-out report the specification gives for a list of words: the
byte `0x02`, then every word most significant byte first, in order. -/
def dcd_payload (words : List Nat) : List Nat := 2 :: words.flatMap be32

/-- A device that accepts one DCD write. -/
def dcd_ok_usb : Usb := ⟨[⟨17, []⟩, ⟨13, []⟩, hab_engineering, reg_ack], []⟩

/-! ## The replies of a device to the block transactions of a bulk write -/

/-- The replies a device gives during one block transaction that gets as far
as its response read: to the attempts of the command send that fail, to the
attempt that is accepted, to the data-out report, to the HAB read and to the
response read. -/
structure BlockReplies where
  fails : List UsbReply
  sent : UsbReply
  data_out : UsbReply
  hab : UsbReply
  ack : UsbReply
deriving DecidableEq, Repr

/-- The replies of one block transaction in the order they are consumed. -/
def BlockReplies.replies (g : BlockReplies) : List UsbReply :=
  g.fails ++ [g.sent, g.data_out, g.hab, g.ack]

/-- The device lets the block transaction reach its response read: at most
four attempts of the command send fail before one is accepted, the data-out
report is accepted and the HAB read delivers a valid status. -/
def BlockReplies.reaches_response (g : BlockReplies) : Prop :=
  g.fails.length ≤ 4 ∧ (∀ f ∈ g.fails, f.e < 0) ∧ 0 ≤ g.sent.e ∧ 0 ≤ g.data_out.e ∧
    hab_ok g.hab

instance (g : BlockReplies) : Decidable g.reaches_response := by
  unfold BlockReplies.reaches_response; infer_instance

/-- The device makes the block transaction succeed: it reaches the response
read and the response is the 65-byte acknowledgement 88 88 88 88. -/
def BlockReplies.accepts (g : BlockReplies) : Prop :=
  g.reaches_response ∧ bulk_ack_ok g.ack

instance (g : BlockReplies) : Decidable g.accepts := by
  unfold BlockReplies.accepts; infer_instance

/-- The transfers of one block transaction for `bytes` at `addr`, as seen on
the wire: every attempt of the write-file command, the data-out report, the
HAB read and the response read, each with the reply of the device. -/
def BlockReplies.events (g : BlockReplies) (addr : Nat) (bytes : List Nat) : List UsbEvent :=
  (g.fails ++ [g.sent]).map
      (fun rp => ⟨.control_out 0x201 (wire_command 0x0404 addr 0 bytes.length 0), rp⟩) ++
    [⟨.control_out 0x202 (2 :: bytes), g.data_out⟩, ⟨.interrupt_in .hab 65, g.hab⟩,
     ⟨.interrupt_in .response 1025, g.ack⟩]

/-- The transfers of the block transactions for the chunks `k`, `k + 1`, ...
of `buf` written at `addr`, one transaction per entry of the list of
replies. -/
def bulk_events (addr : Nat) (buf : List Nat) : List BlockReplies → Nat → List UsbEvent
  | [], _ => []
  | g :: gs, k =>
    g.events ((addr + 1024 * k) % 4294967296) (chunk buf k) ++ bulk_events addr buf gs (k + 1)

/-- A buffer of 2049 bytes. -/
def buf_2049 : List Nat := (List.range 2049).map (fun i => i % 251)

/-- Replies that make a block transaction with a full chunk succeed. -/
def block_ok : BlockReplies := ⟨[], ⟨17, []⟩, ⟨1025, []⟩, hab_engineering, bulk_ack⟩

/-- Replies that make a block transaction succeed at the second attempt of
its command send. -/
def block_retry : BlockReplies :=
  ⟨[⟨-7, []⟩], ⟨17, []⟩, ⟨1025, []⟩, hab_engineering, bulk_ack⟩

/-- Replies that make a block transaction with a one-byte chunk succeed. -/
def block_last : BlockReplies := ⟨[], ⟨17, []⟩, ⟨2, []⟩, hab_engineering, bulk_ack⟩

/-- Replies of a block transaction whose response has a wrong last
acknowledgement byte. -/
def block_bad : BlockReplies := ⟨[], ⟨17, []⟩, ⟨1025, []⟩, hab_engineering, bad_ack⟩

/-- Replies that make four block transactions succeed, the second at the
second attempt of its command. -/
def blocks_ok4 : List BlockReplies := [block_ok, block_retry, block_last, block_ok]

/-- A device that would accept four block transactions and has one more reply
pending. -/
def bulk_ok4_usb : Usb := ⟨blocks_ok4.flatMap BlockReplies.replies ++ [bulk_ack], []⟩

/-- A device that accepts a first block transaction, answers the second with a
bad acknowledgement and would accept a third. -/
def bulk_bad2_usb : Usb :=
  ⟨[block_ok].flatMap BlockReplies.replies ++ block_bad.replies ++ block_last.replies, []⟩

/-! ## Byte order and structure images -/

theorem mem32_length (le : Bool) (x : Nat) : (mem32 le x).length = 4 := by
  cases le <;> rfl

theorem mem16_length (le : Bool) (x : Nat) : (mem16 le x).length = 2 := by
  cases le <;> rfl

theorem mem32_htonl (le : Bool) (x : Nat) : mem32 le (htonl le x) = be32 x := by
  cases le
  · simp only [mem32, htonl, be32, Bool.false_eq_true, if_false]
    congr 1 <;> [skip; congr 1 <;> [skip; congr 1 <;> [skip; congr 1]]] <;> omega
  · simp only [mem32, htonl, le32, be32, bswap32, if_true]
    have h0 : x % 256 < 256 := Nat.mod_lt _ (by norm_num)
    have h1 : x / 256 % 256 < 256 := Nat.mod_lt _ (by norm_num)
    have h2 : x / 65536 % 256 < 256 := Nat.mod_lt _ (by norm_num)
    have h3 : x / 16777216 % 256 < 256 := Nat.mod_lt _ (by norm_num)
    generalize x % 256 = b0 at *
    generalize x / 256 % 256 = b1 at *
    generalize x / 65536 % 256 = b2 at *
    generalize x / 16777216 % 256 = b3 at *
    congr 1 <;> [skip; congr 1 <;> [skip; congr 1 <;> [skip; congr 1]]] <;> omega

theorem sdp_command_bytes_length (le : Bool) (cmd : sdp_command) :
    (sdp_command_bytes le cmd).length = 17 := by
  simp [sdp_command_bytes, mem32_length, mem16_length]

theorem wire_command_length (code addr format count data : Nat) :
    (wire_command code addr format count data).length = 17 := by
  simp [wire_command, be32]

/-- The memory image of a command whose code has two equal bytes and whose
32-bit fields went through `htonl` is the wire image, on either host. -/
theorem sdp_command_bytes_wire (le : Bool) (c addr format count data : Nat) (hc : c < 256) :
    sdp_command_bytes le
      { report_id := 1, command_type := c * 256 + c, address := htonl le addr, format := format,
        data_count := htonl le count, data := htonl le data } =
    wire_command (c * 256 + c) addr format count data := by
  have hd : (c * 256 + c) / 256 = c := by
    rw [Nat.add_comm, Nat.add_mul_div_right _ _ (by norm_num), Nat.div_eq_of_lt hc, zero_add]
  have h1 : (c * 256 + c) / 256 % 256 = c := by rw [hd]; exact Nat.mod_eq_of_lt hc
  have h2 : (c * 256 + c) % 256 = c := by omega
  have h16 : mem16 le (c * 256 + c) = [c, c] := by
    cases le <;> simp only [mem16, Bool.false_eq_true, if_false, if_true, h1, h2]
  simp only [sdp_command_bytes, wire_command, mem32_htonl, h16, h1, h2]
  simp

/-! ## Trace projections -/

@[simp] theorem delivered_nil : delivered [] = [] := rfl

@[simp] theorem delivered_append (s t : List UsbEvent) :
    delivered (s ++ t) = delivered s ++ delivered t := by
  simp [delivered, List.filterMap_append]

@[simp] theorem command_records_nil : command_records [] = [] := rfl

@[simp] theorem command_records_append (s t : List UsbEvent) :
    command_records (s ++ t) = command_records s ++ command_records t := by
  simp [command_records, List.filterMap_append]

@[simp] theorem responses_nil : responses [] = [] := rfl

@[simp] theorem responses_append (s t : List UsbEvent) :
    responses (s ++ t) = responses s ++ responses t := by
  simp [responses, List.filterMap_append]

theorem read_failed_append (s t : List UsbEvent) :
    read_failed (s ++ t) ↔ read_failed s ∨ read_failed t := by
  simp only [read_failed, List.mem_append]
  constructor
  · rintro ⟨ev, h | h, hp⟩
    · exact Or.inl ⟨ev, h, hp⟩
    · exact Or.inr ⟨ev, h, hp⟩
  · rintro (⟨ev, h, hp⟩ | ⟨ev, h, hp⟩)
    · exact ⟨ev, Or.inl h, hp⟩
    · exact ⟨ev, Or.inr h, hp⟩

theorem since_append (w w2 : Usb) (new : List UsbEvent) (h : w2.trace = w.trace ++ new) :
    w.since w2 = new := by
  simp [Usb.since, h]

/-! ## The command send -/

/-- Every attempt of the send loop is the same control transfer; the loop
stops at the first reply that is not negative, and gives up when its counter
reaches zero. -/
theorem imx_send_sdp_loop_spec (le : Bool) (cmd : sdp_command) :
    ∀ (n : Nat) (e : Int) (w : Usb), (e < 0 ∨ 0 < n) →
      ∃ used : List UsbReply, used.length ≤ n ∧ (0 < n → used ≠ []) ∧
        (imx_send_sdp_loop le cmd n e w).2.trace
          = w.trace ++ used.map (fun rp => ⟨send_call le cmd, rp⟩) ∧
        (imx_send_sdp_loop le cmd n e w).2.replies = w.replies.drop used.length ∧
        ((∃ init last, used = init ++ [last] ∧ (∀ rp ∈ init, rp.e < 0) ∧ 0 ≤ last.e ∧
            (imx_send_sdp_loop le cmd n e w).1 = last.e) ∨
          ((imx_send_sdp_loop le cmd n e w).1 < 0 ∧ (∀ rp ∈ used, rp.e < 0) ∧
            used.length = n ∧ (imx_send_sdp_loop le cmd n e w).1 = (used.getLast?.map (·.e)).getD e)) := by
  intro n
  induction n with
  | zero =>
    intro e w h
    refine ⟨[], le_refl _, fun h0 => absurd h0 (lt_irrefl _), by simp [imx_send_sdp_loop], by simp [imx_send_sdp_loop], Or.inr ?_⟩
    rcases h with h | h
    · simp [imx_send_sdp_loop, usb_error, h]
    · exact absurd h (lt_irrefl _)
  | succ n ih =>
    intro e w _
    have hb : (sdp_command_bytes le cmd).take 17 = sdp_command_bytes le cmd :=
      List.take_of_length_le (le_of_eq (sdp_command_bytes_length le cmd))
    by_cases hok : 0 ≤ w.next.e
    · refine ⟨[w.next], by simp, fun _ => by simp, ?_, ?_, Or.inl ⟨[], w.next, rfl, by simp, hok, ?_⟩⟩
      · simp [imx_send_sdp_loop, libusb_control_transfer, hok, Usb.step, hb, send_call]
      · simp [imx_send_sdp_loop, libusb_control_transfer, hok, Usb.step]
      · simp [imx_send_sdp_loop, libusb_control_transfer, hok]
    · have hneg : w.next.e < 0 := lt_of_not_ge hok
      obtain ⟨used, hlen, hne, htr, hrep, hres⟩ :=
        ih w.next.e (w.step (send_call le cmd)) (Or.inl hneg)
      have hunf : imx_send_sdp_loop le cmd (n + 1) e w
          = imx_send_sdp_loop le cmd n w.next.e (w.step (send_call le cmd)) := by
        simp [imx_send_sdp_loop, libusb_control_transfer, hok, hb, send_call]
      rw [hunf]
      refine ⟨w.next :: used, by simp [hlen], fun _ => by simp, ?_, ?_, ?_⟩
      · rw [htr]; simp [Usb.step]
      · rw [hrep]; simp [Usb.step]
      · rcases hres with ⟨init, last, hu, hinit, hlast, hr⟩ | ⟨hr, hall, hl, hlast⟩
        · refine Or.inl ⟨w.next :: init, last, by simp [hu], ?_, hlast, hr⟩
          intro rp hrp
          rcases List.mem_cons.mp hrp with h | h
          · rw [h]; exact hneg
          · exact hinit rp h
        · refine Or.inr ⟨hr, ?_, by simp [hl], ?_⟩
          · intro rp hrp
            rcases List.mem_cons.mp hrp with h | h
            · rw [h]; exact hneg
            · exact hall rp h
          · rw [hlast]
            cases used with
            | nil => simp
            | cons a t =>
              rw [List.getLast?_cons_cons, List.getLast?_eq_getLast _ (List.cons_ne_nil a t)]
              simp

theorem delivered_failed_sends (c : UsbCall) (used : List UsbReply) (h : ∀ rp ∈ used, rp.e < 0) :
    delivered (used.map (fun rp => ⟨c, rp⟩)) = [] := by
  induction used with
  | nil => rfl
  | cons a t ih =>
    have ha : ¬ 0 ≤ a.e := not_le.mpr (h a (List.mem_cons_self a t))
    have ht := ih (fun rp hrp => h rp (List.mem_cons_of_mem a hrp))
    rw [List.map_cons, ← List.singleton_append, delivered_append, ht]
    cases c <;> simp [delivered, ha]

theorem command_records_sends (le : Bool) (cmd : sdp_command) (hid : cmd.report_id = 1)
    (used : List UsbReply) :
    command_records (used.map (fun rp => ⟨send_call le cmd, rp⟩))
      = List.replicate used.length (sdp_command_bytes le cmd) := by
  induction used with
  | nil => rfl
  | cons a t ih =>
    rw [List.map_cons, ← List.singleton_append, command_records_append, ih]
    simp [command_records, send_call, hid, HID_REPORT_TYPE_OUTPUT, List.replicate_succ]

theorem responses_sends (c : UsbCall) (hc : ∃ v d, c = .control_out v d) (used : List UsbReply) :
    responses (used.map (fun rp => ⟨c, rp⟩)) = [] := by
  obtain ⟨v, d, rfl⟩ := hc
  induction used with
  | nil => rfl
  | cons a t ih =>
    rw [List.map_cons, ← List.singleton_append, responses_append, ih]
    simp [responses]

theorem responses_reads (n : Nat) (l : List UsbReply) :
    responses (l.map (fun r => ⟨.interrupt_in .response n, r⟩)) = l := by
  induction l with
  | nil => rfl
  | cons a t ih =>
    rw [List.map_cons, ← List.singleton_append, responses_append, ih]
    simp [responses]

theorem not_read_failed_sends (c : UsbCall) (hc : ∃ v d, c = .control_out v d)
    (used : List UsbReply) : ¬ read_failed (used.map (fun rp => ⟨c, rp⟩)) := by
  obtain ⟨v, d, rfl⟩ := hc
  rintro ⟨ev, hev, ⟨s, n, hcall⟩, _⟩
  obtain ⟨rp, _, rfl⟩ := List.mem_map.mp hev
  cases hcall

/-- What one call of `imx_send_sdp` does to the transport. -/
theorem imx_send_sdp_spec (le : Bool) (w : Usb) (cmd : sdp_command) :
    ∃ used : List UsbReply, 1 ≤ used.length ∧ used.length ≤ 5 ∧
      (imx_send_sdp le w cmd).2.trace = w.trace ++ used.map (fun rp => ⟨send_call le cmd, rp⟩) ∧
      (imx_send_sdp le w cmd).2.replies = w.replies.drop used.length ∧
      ((∃ init last, used = init ++ [last] ∧ (∀ rp ∈ init, rp.e < 0) ∧ 0 ≤ last.e ∧
          (imx_send_sdp le w cmd).1 = last.e) ∨
        ((imx_send_sdp le w cmd).1 < 0 ∧ (∀ rp ∈ used, rp.e < 0) ∧ used.length = 5)) := by
  obtain ⟨used, hlen, hne, htr, hrep, hres⟩ :=
    imx_send_sdp_loop_spec le cmd 5 0 w (Or.inr (by norm_num))
  refine ⟨used, ?_, hlen, htr, hrep, ?_⟩
  · exact List.length_pos.mpr (hne (by norm_num))
  · rcases hres with h | ⟨h1, h2, h3, _⟩
    · exact Or.inl h
    · exact Or.inr ⟨h1, h2, h3⟩

/-- The output reports a send adds to the delivered ones: the command if the
send succeeds, nothing if it fails. -/
theorem imx_send_sdp_delivered (le : Bool) (w : Usb) (cmd : sdp_command) :
    (0 ≤ (imx_send_sdp le w cmd).1 →
      delivered (imx_send_sdp le w cmd).2.trace = delivered w.trace ++
        [(HID_REPORT_TYPE_OUTPUT <<< 8 ||| cmd.report_id, sdp_command_bytes le cmd)]) ∧
    ((imx_send_sdp le w cmd).1 < 0 →
      delivered (imx_send_sdp le w cmd).2.trace = delivered w.trace) := by
  obtain ⟨used, _, _, htr, _, hres⟩ := imx_send_sdp_spec le w cmd
  rcases hres with ⟨init, last, hu, hinit, hlast, hr⟩ | ⟨hr, hall, _⟩
  · constructor
    · intro _
      rw [htr, hu, List.map_append, delivered_append, delivered_append,
        delivered_failed_sends _ init hinit]
      simp [delivered, send_call, hlast]
    · intro h; rw [hr] at h; exact absurd hlast (not_le.mpr h)
  · constructor
    · intro h; exact absurd h (not_le.mpr hr)
    · intro _
      rw [htr, delivered_append, delivered_failed_sends _ used hall, List.append_nil]

/-- A send whose reply script starts with at most four failures followed by a
success consumes exactly those replies and returns the successful result. -/
theorem imx_send_sdp_loop_script (le : Bool) (cmd : sdp_command) (s : UsbReply)
    (rest : List UsbReply) (hs : 0 ≤ s.e) :
    ∀ (fails : List UsbReply) (n : Nat) (e : Int) (w : Usb), fails.length < n →
      w.replies = fails ++ s :: rest → (∀ f ∈ fails, f.e < 0) →
      imx_send_sdp_loop le cmd n e w
        = (s.e, ⟨rest, w.trace ++ (fails ++ [s]).map (fun rp => ⟨send_call le cmd, rp⟩)⟩) := by
  have hb : (sdp_command_bytes le cmd).take 17 = sdp_command_bytes le cmd :=
    List.take_of_length_le (le_of_eq (sdp_command_bytes_length le cmd))
  intro fails
  induction fails with
  | nil =>
    intro n e w hn hw _
    obtain ⟨m, rfl⟩ : ∃ m, n = m + 1 := ⟨n - 1, by simp at hn; omega⟩
    have hnext : w.next = s := by simp [Usb.next, hw]
    simp [imx_send_sdp_loop, libusb_control_transfer, hnext, hs, Usb.step, hw, hb, send_call]
  | cons f t ih =>
    intro n e w hn hw hf
    obtain ⟨m, rfl⟩ : ∃ m, n = m + 1 := ⟨n - 1, by simp at hn; omega⟩
    have hnext : w.next = f := by simp [Usb.next, hw]
    have hneg : ¬ 0 ≤ f.e := not_le.mpr (hf f (List.mem_cons_self f t))
    have h := ih m f.e (w.step (send_call le cmd)) (by simp at hn; omega)
      (by simp [Usb.step, hw]) (fun g hg => hf g (List.mem_cons_of_mem f hg))
    have hunf : imx_send_sdp_loop le cmd (m + 1) e w
        = imx_send_sdp_loop le cmd m f.e (w.step (send_call le cmd)) := by
      simp [imx_send_sdp_loop, libusb_control_transfer, hnext, hneg, hb, send_call]
    rw [hunf, h]
    simp [Usb.step, hnext]

theorem imx_send_sdp_script (le : Bool) (cmd : sdp_command) (w : Usb)
    (fails : List UsbReply) (s : UsbReply) (rest : List UsbReply)
    (hw : w.replies = fails ++ s :: rest) (hlen : fails.length ≤ 4)
    (hf : ∀ f ∈ fails, f.e < 0) (hs : 0 ≤ s.e) :
    imx_send_sdp le w cmd
      = (s.e, ⟨rest, w.trace ++ (fails ++ [s]).map (fun rp => ⟨send_call le cmd, rp⟩)⟩) :=
  imx_send_sdp_loop_script le cmd s rest hs fails 5 0 w (by omega) hw hf

/-! ## The HAB status read -/

theorem imx_read_hab_usb (w : Usb) : (imx_read_hab w).2 = w.step (.interrupt_in .hab 65) := by
  unfold imx_read_hab
  simp only [libusb_interrupt_transfer]
  split_ifs <;> rfl

theorem imx_read_hab_zero_iff (w : Usb) : (imx_read_hab w).1 = 0 ↔ hab_ok w.next := by
  unfold imx_read_hab hab_ok hab_type
  simp only [libusb_interrupt_transfer, usb_error, EINVAL, HAB_ENGINEERING, HAB_PRODUCTION]
  generalize w.next = r
  rcases r with ⟨e, data⟩
  rcases data with _ | ⟨a, _ | ⟨b, _ | ⟨c, _ | ⟨d, _ | ⟨f, t⟩⟩⟩⟩⟩
  all_goals simp
  all_goals split_ifs <;> simp_all <;> omega

theorem imx_read_hab_neg_or_zero (w : Usb) : (imx_read_hab w).1 < 0 ∨ (imx_read_hab w).1 = 0 := by
  unfold imx_read_hab hab_type
  simp only [libusb_interrupt_transfer, usb_error, EINVAL, HAB_ENGINEERING, HAB_PRODUCTION]
  split_ifs <;> simp_all

theorem imx_read_hab_neg (w : Usb) (h : ¬ hab_ok w.next) : (imx_read_hab w).1 < 0 := by
  rcases imx_read_hab_neg_or_zero w with h1 | h1
  · exact h1
  · exact absurd ((imx_read_hab_zero_iff w).mp h1) h

theorem imx_read_hab_trace (w : Usb) :
    (imx_read_hab w).2.trace = w.trace ++ [⟨.interrupt_in .hab 65, w.next⟩] := by
  rw [imx_read_hab_usb]; rfl

/-! ## C3: acceptance of a status report -/

/-- C3. `imx_read_hab` returns 0 exactly when the transport read succeeds, at
least five bytes are transferred, byte 0 is 3 and bytes 1 to 4 are
56 78 78 56 or 12 34 34 12; in every other case its result is negative.  In
particular a report whose bytes 1 to 4 are neither magic is rejected, and so
is a report whose first byte is not 3, whatever follows. -/
theorem imx_read_hab_accepts_iff (w : Usb) :
    ((imx_read_hab w).1 = 0 ↔
      (0 ≤ w.next.e ∧ 5 ≤ w.next.data.length ∧
        (w.next.data.take 5 = [3, 0x56, 0x78, 0x78, 0x56] ∨
          w.next.data.take 5 = [3, 0x12, 0x34, 0x34, 0x12]))) ∧
    ((imx_read_hab w).1 ≠ 0 → (imx_read_hab w).1 < 0) ∧
    (((w.next.data.drop 1).take 4 ≠ [0x56, 0x78, 0x78, 0x56] ∧
        (w.next.data.drop 1).take 4 ≠ [0x12, 0x34, 0x34, 0x12]) → (imx_read_hab w).1 < 0) ∧
    (w.next.data.head? ≠ some 3 → (imx_read_hab w).1 < 0) := by
  refine ⟨imx_read_hab_zero_iff w, ?_, ?_, ?_⟩
  · intro h
    rcases imx_read_hab_neg_or_zero w with h1 | h1
    · exact h1
    · exact absurd h1 h
  · rintro ⟨h1, h2⟩
    apply imx_read_hab_neg
    rintro ⟨_, _, h | h⟩
    · apply h1
      rcases hd : w.next.data with _ | ⟨a, t⟩
      · rw [hd] at h; simp at h
      · rw [hd] at h
        simp only [List.take_succ_cons, List.cons.injEq] at h
        simpa using h.2
    · apply h2
      rcases hd : w.next.data with _ | ⟨a, t⟩
      · rw [hd] at h; simp at h
      · rw [hd] at h
        simp only [List.take_succ_cons, List.cons.injEq] at h
        simpa using h.2
  · intro h
    apply imx_read_hab_neg
    rintro ⟨_, _, h3 | h3⟩ <;>
    · apply h
      rcases hd : w.next.data with _ | ⟨a, t⟩
      · rw [hd] at h3; simp at h3
      · rw [hd] at h3
        simp only [List.take_succ_cons, List.cons.injEq] at h3
        simp [h3.1]

/-! ## The response check -/

/-- The checks every write path applies to its response: transfer not
failed, 65 bytes transferred, report id 4, then the four bytes of the
expected acknowledgement. -/
theorem response_check_iff (w : Usb) (buf0 : List Nat) (size m1 m2 m3 m4 : Nat)
    (hsize : 65 ≤ size) :
    (¬ (libusb_interrupt_transfer w .response buf0 size).e < 0 ∧
      ¬ (libusb_interrupt_transfer w .response buf0 size).len ≠ 65 ∧
      ¬ (libusb_interrupt_transfer w .response buf0 size).buffer.getD 0 0 ≠ 4 ∧
      ¬ ((libusb_interrupt_transfer w .response buf0 size).buffer.getD 1 0 ≠ m1 ∨
          (libusb_interrupt_transfer w .response buf0 size).buffer.getD 2 0 ≠ m2 ∨
          (libusb_interrupt_transfer w .response buf0 size).buffer.getD 3 0 ≠ m3 ∨
          (libusb_interrupt_transfer w .response buf0 size).buffer.getD 4 0 ≠ m4)) ↔
    (0 ≤ w.next.e ∧ (w.next.data.take size).length = 65 ∧
      w.next.data.take 5 = [4, m1, m2, m3, m4]) := by
  simp only [libusb_interrupt_transfer]
  generalize w.next = r
  rcases r with ⟨e, data⟩
  obtain ⟨k, rfl⟩ : ∃ k, size = k + 5 := ⟨size - 5, by omega⟩
  rcases data with _ | ⟨a, _ | ⟨b, _ | ⟨c, _ | ⟨d, _ | ⟨f, t⟩⟩⟩⟩⟩
  all_goals simp
  all_goals omega

/-! ## One bulk-write block -/

theorem write_file_data_eq (data : List Nat) (length : Int) (h0 : 0 ≤ length)
    (h1 : length.toNat ≤ data.length) :
    write_file_data data length = 2 :: data.take length.toNat := by
  have h : (length + 1).toNat = length.toNat + 1 := by omega
  unfold write_file_data
  rw [h, List.take_succ_cons, List.take_append_of_le_length (by simp [h1])]
  simp

/-- The stages of one block transaction: the command send, the data-out
report, the HAB read and the response read, each reached only if the
previous one succeeded. -/
theorem imx_write_bulk_block_cases (le : Bool) (w : Usb) (addr : Nat) (data : List Nat)
    (length : Int) (hl : length ≤ 1024) :
    ∃ w2 w3 w4 : Usb,
      w2 = (imx_send_sdp le w (write_file_cmd le addr length)).2.step
        (.control_out 0x202 (write_file_data data length)) ∧
      w3 = w2.step (.interrupt_in .hab 65) ∧
      w4 = w3.step (.interrupt_in .response 1025) ∧
      (((imx_send_sdp le w (write_file_cmd le addr length)).1 < 0 ∧
          imx_write_bulk_block le w addr data length
            = imx_send_sdp le w (write_file_cmd le addr length)) ∨
        (0 ≤ (imx_send_sdp le w (write_file_cmd le addr length)).1 ∧
          (imx_send_sdp le w (write_file_cmd le addr length)).2.next.e < 0 ∧
          (imx_write_bulk_block le w addr data length).1 < 0 ∧
          (imx_write_bulk_block le w addr data length).2 = w2) ∨
        (0 ≤ (imx_send_sdp le w (write_file_cmd le addr length)).1 ∧
          0 ≤ (imx_send_sdp le w (write_file_cmd le addr length)).2.next.e ∧
          ¬ hab_ok w2.next ∧
          (imx_write_bulk_block le w addr data length).1 < 0 ∧
          (imx_write_bulk_block le w addr data length).2 = w3) ∨
        (0 ≤ (imx_send_sdp le w (write_file_cmd le addr length)).1 ∧
          0 ≤ (imx_send_sdp le w (write_file_cmd le addr length)).2.next.e ∧
          hab_ok w2.next ∧ ¬ bulk_ack_ok w3.next ∧
          (imx_write_bulk_block le w addr data length).1 < 0 ∧
          (imx_write_bulk_block le w addr data length).2 = w4) ∨
        (0 ≤ (imx_send_sdp le w (write_file_cmd le addr length)).1 ∧
          0 ≤ (imx_send_sdp le w (write_file_cmd le addr length)).2.next.e ∧
          hab_ok w2.next ∧ bulk_ack_ok w3.next ∧
          imx_write_bulk_block le w addr data length = (0, w4))) := by
  refine ⟨_, _, _, rfl, rfl, rfl, ?_⟩
  have hl2 : ¬ length > 1024 := not_lt.mpr hl
  have hc : (
      { report_id := 1, command_type := SDP_WRITE_FILE, address := htonl le addr,
        data_count := htonl le (u32 length) } : sdp_command) = write_file_cmd le addr length := rfl
  generalize hs : imx_send_sdp le w (write_file_cmd le addr length) = s
  by_cases h1 : s.1 < 0
  · left
    refine ⟨h1, ?_⟩
    simp only [imx_write_bulk_block, if_neg hl2]
    rw [hc, hs, if_pos h1]
  · right
    have h1p : 0 ≤ s.1 := not_lt.mp h1
    by_cases h2 : s.2.next.e < 0
    · left
      refine ⟨h1p, h2, ?_, ?_⟩ <;>
      · simp only [imx_write_bulk_block, if_neg hl2]
        rw [hc, hs, if_neg h1]
        simp [libusb_control_transfer, h2, usb_error, write_file_data, HID_REPORT_TYPE_OUTPUT]
    · right
      have h2p : 0 ≤ s.2.next.e := not_lt.mp h2
      generalize hw2 : s.2.step (.control_out 0x202 (write_file_data data length)) = w2
      have hunf : imx_write_bulk_block le w addr data length =
          (let hb := imx_read_hab w2
           if hb.1 < 0 then (hb.1, hb.2)
           else
             let r := libusb_interrupt_transfer hb.2 .response
               (2 :: (data.take length.toNat ++ List.replicate (1024 - length.toNat) 0)) 1025
             if r.e < 0 then (usb_error r.e, r.usb)
             else if r.len ≠ 65 then (-EINVAL, r.usb)
             else if r.buffer.getD 0 0 ≠ 4 then (-EINVAL, r.usb)
             else if r.buffer.getD 1 0 ≠ 0x88 ∨ r.buffer.getD 2 0 ≠ 0x88 ∨
                 r.buffer.getD 3 0 ≠ 0x88 ∨ r.buffer.getD 4 0 ≠ 0x88 then (-EINVAL, r.usb)
             else (0, r.usb)) := by
        simp only [imx_write_bulk_block, if_neg hl2]
        rw [hc, hs, if_neg h1]
        simp only [libusb_control_transfer, if_neg h2]
        rw [← hw2]
        simp [write_file_data, HID_REPORT_TYPE_OUTPUT]
      rw [hunf]
      by_cases h3 : hab_ok w2.next
      · right
        have hz : (imx_read_hab w2).1 = 0 := (imx_read_hab_zero_iff w2).mpr h3
        have hz2 : ¬ (imx_read_hab w2).1 < 0 := by rw [hz]; exact lt_irrefl _
        simp only [if_neg hz2, imx_read_hab_usb]
        generalize hw3 : w2.step (.interrupt_in .hab 65) = w3
        have hchk := response_check_iff w3
          (2 :: (data.take length.toNat ++ List.replicate (1024 - length.toNat) 0)) 1025
          0x88 0x88 0x88 0x88 (by norm_num)
        have hack : bulk_ack_ok w3.next ↔ (0 ≤ w3.next.e ∧ (w3.next.data.take 1025).length = 65 ∧
            w3.next.data.take 5 = [4, 0x88, 0x88, 0x88, 0x88]) := by
          unfold bulk_ack_ok
          simp only [List.length_take]
          constructor
          · rintro ⟨a, b, c⟩; exact ⟨a, by omega, c⟩
          · rintro ⟨a, b, c⟩; exact ⟨a, by omega, c⟩
        have husb : (libusb_interrupt_transfer w3 .response
            (2 :: (data.take length.toNat ++ List.replicate (1024 - length.toNat) 0)) 1025).usb
            = w3.step (.interrupt_in .response 1025) := rfl
        by_cases h4 : bulk_ack_ok w3.next
        · right
          refine ⟨h1p, h2p, h3, h4, ?_⟩
          obtain ⟨c1, c2, c3, c4⟩ := hchk.mpr (hack.mp h4)
          simp only [if_neg c1, if_neg c2, if_neg c3, if_neg c4, husb]
        · left
          refine ⟨h1p, h2p, h3, h4, ?_, ?_⟩
          · have hn := mt hchk.mp (mt hack.mpr h4)
            simp only [usb_error, EINVAL]
            split_ifs with c1 c2 c3 c4
            · exact c1
            · norm_num
            · norm_num
            · norm_num
            · exact absurd ⟨c1, c2, c3, c4⟩ hn
          · split_ifs <;> exact husb
      · left
        have hn : (imx_read_hab w2).1 < 0 := imx_read_hab_neg w2 h3
        simp only [if_pos hn, imx_read_hab_usb]
        exact ⟨h1p, h2p, h3, hn, trivial⟩

/-- What a send adds to the trace, seen through every projection. -/
theorem imx_send_sdp_summary (le : Bool) (w : Usb) (cmd : sdp_command) :
    ∃ new : List UsbEvent,
      (imx_send_sdp le w cmd).2.trace = w.trace ++ new ∧
      (imx_send_sdp le w cmd).2.replies = w.replies.drop new.length ∧
      (0 ≤ (imx_send_sdp le w cmd).1 → delivered new =
        [(HID_REPORT_TYPE_OUTPUT <<< 8 ||| cmd.report_id, sdp_command_bytes le cmd)]) ∧
      ((imx_send_sdp le w cmd).1 < 0 → delivered new = []) ∧
      responses new = [] ∧ ¬ read_failed new ∧
      (cmd.report_id = 1 → ∃ n, 1 ≤ n ∧ n ≤ 5 ∧
        command_records new = List.replicate n (sdp_command_bytes le cmd)) := by
  obtain ⟨used, h1, h5, htr, hrep, _⟩ := imx_send_sdp_spec le w cmd
  have hd := imx_send_sdp_delivered le w cmd
  rw [htr, delivered_append] at hd
  refine ⟨_, htr, by simpa using hrep, ?_, ?_, ?_, ?_, ?_⟩
  · intro h; exact List.append_cancel_left (hd.1 h)
  · intro h
    have := hd.2 h
    exact List.append_cancel_left (this.trans (List.append_nil _).symm)
  · exact responses_sends _ ⟨_, _, rfl⟩ used
  · exact not_read_failed_sends _ ⟨_, _, rfl⟩ used
  · intro hid
    exact ⟨used.length, h1, h5, command_records_sends le cmd hid used⟩

/-- What one block transaction adds to the trace. -/
theorem imx_write_bulk_block_summary (le : Bool) (w : Usb) (addr : Nat) (data : List Nat)
    (length : Int) (hl : length ≤ 1024) :
    ∃ new : List UsbEvent,
      (imx_write_bulk_block le w addr data length).2.trace = w.trace ++ new ∧
      ((imx_write_bulk_block le w addr data length).1 = 0 ∨
        (imx_write_bulk_block le w addr data length).1 < 0) ∧
      ((imx_write_bulk_block le w addr data length).1 = 0 →
        delivered new = [(0x201, sdp_command_bytes le (write_file_cmd le addr length)),
          (0x202, write_file_data data length)] ∧
        (∃ r, responses new = [r] ∧ bulk_ack_ok r) ∧ ¬ read_failed new) ∧
      ((imx_write_bulk_block le w addr data length).1 < 0 →
        (responses new = [] ∧
          delivered new <+: [(0x201, sdp_command_bytes le (write_file_cmd le addr length)),
            (0x202, write_file_data data length)]) ∨
        (∃ r, responses new = [r] ∧ ¬ bulk_ack_ok r ∧
          delivered new = [(0x201, sdp_command_bytes le (write_file_cmd le addr length)),
            (0x202, write_file_data data length)] ∧
          new.getLast? = some ⟨.interrupt_in .response 1025, r⟩)) ∧
      (∃ n, 1 ≤ n ∧ n ≤ 5 ∧ command_records new
        = List.replicate n (sdp_command_bytes le (write_file_cmd le addr length))) := by
  obtain ⟨w2, w3, w4, hw2, hw3, hw4, hcases⟩ := imx_write_bulk_block_cases le w addr data length hl
  obtain ⟨snew, hstr, _, hsok, hsfail, hsresp, hsrf, hscr⟩ :=
    imx_send_sdp_summary le w (write_file_cmd le addr length)
  have hscr := hscr rfl
  have hv : HID_REPORT_TYPE_OUTPUT <<< 8 ||| (write_file_cmd le addr length).report_id = 0x201 := by
    simp [HID_REPORT_TYPE_OUTPUT, write_file_cmd]
  rw [hv] at hsok
  generalize hs : imx_send_sdp le w (write_file_cmd le addr length) = s at *
  generalize hb : imx_write_bulk_block le w addr data length = b at *
  have t2 : w2.trace = w.trace ++ (snew ++ [⟨.control_out 0x202 (write_file_data data length), s.2.next⟩]) := by
    rw [hw2]; simp [Usb.step, hstr]
  have t3 : w3.trace = w.trace ++ (snew ++ [⟨.control_out 0x202 (write_file_data data length), s.2.next⟩,
      ⟨.interrupt_in .hab 65, w2.next⟩]) := by
    rw [hw3]; simp [Usb.step, t2]
  have t4 : w4.trace = w.trace ++ (snew ++ [⟨.control_out 0x202 (write_file_data data length), s.2.next⟩,
      ⟨.interrupt_in .hab 65, w2.next⟩, ⟨.interrupt_in .response 1025, w3.next⟩]) := by
    rw [hw4]; simp [Usb.step, t3]
  have rf_iff : ∀ (l : List UsbEvent), read_failed (snew ++ l) ↔ read_failed l := by
    intro l; rw [read_failed_append]; exact ⟨fun h => h.resolve_left hsrf, Or.inr⟩
  rcases hcases with ⟨h1, h2⟩ | ⟨h1, h2, h3, h4⟩ | ⟨h1, h2, h3, h4, h5⟩ | ⟨h1, h2, h3, h4, h5, h6⟩ |
    ⟨h1, h2, h3, h4, h5⟩
  · refine ⟨snew, by rw [h2]; exact hstr, Or.inr (by rw [h2]; exact h1), ?_, ?_, hscr⟩
    · intro h0; rw [h2] at h0; rw [h0] at h1; exact absurd h1 (lt_irrefl _)
    · intro _; exact Or.inl ⟨hsresp, by rw [hsfail h1]; exact List.nil_prefix⟩
  · refine ⟨_, by rw [h4]; exact t2, Or.inr h3, ?_, ?_, ?_⟩
    · intro h0; rw [h0] at h3; exact absurd h3 (lt_irrefl _)
    · intro _
      refine Or.inl ⟨by rw [responses_append, hsresp]; rfl, ?_⟩
      rw [delivered_append, hsok h1]
      simp [delivered, not_le.mpr h2]
    · simpa [command_records] using hscr
  · refine ⟨_, by rw [h5]; exact t3, Or.inr h4, ?_, ?_, ?_⟩
    · intro h0; rw [h0] at h4; exact absurd h4 (lt_irrefl _)
    · intro _
      refine Or.inl ⟨by rw [responses_append, hsresp]; rfl, ?_⟩
      rw [delivered_append, hsok h1]
      simp [delivered, h2]
    · simpa [command_records] using hscr
  · refine ⟨_, by rw [h6]; exact t4, Or.inr h5, ?_, ?_, ?_⟩
    · intro h0; rw [h0] at h5; exact absurd h5 (lt_irrefl _)
    · intro _
      refine Or.inr ⟨w3.next, by rw [responses_append, hsresp]; rfl, h4, ?_, ?_⟩
      · rw [delivered_append, hsok h1]
        simp [delivered, h2]
      · simp
    · simpa [command_records] using hscr
  · have hb1 : b.1 = 0 := by rw [h5]
    refine ⟨_, by rw [h5]; exact t4, Or.inl hb1, ?_, ?_, ?_⟩
    · intro _
      refine ⟨?_, ⟨w3.next, by rw [responses_append, hsresp]; rfl, h4⟩, ?_⟩
      · rw [delivered_append, hsok h1]
        simp [delivered, h2]
      · rw [rf_iff]
        rintro ⟨ev, hev, -, hneg⟩
        simp only [List.mem_cons, List.mem_singleton, List.not_mem_nil, or_false] at hev
        rcases hev with rfl | rfl | rfl
        · exact absurd h2 (not_le.mpr hneg)
        · exact absurd h3.1 (not_le.mpr hneg)
        · exact absurd h4.1 (not_le.mpr hneg)
    · intro h0; rw [hb1] at h0; exact absurd h0 (lt_irrefl _)
    · simpa [command_records] using hscr

/-! ## The bulk-write loop -/

theorem be32_mod (x : Nat) : be32 (x % 4294967296) = be32 x := by
  simp only [be32]
  congr 1 <;> [skip; congr 1 <;> [skip; congr 1 <;> [skip; congr 1]]] <;> omega

theorem chunk_length (buf : List Nat) (k : Nat) :
    (chunk buf k).length = min 1024 (buf.length - 1024 * k) := by
  simp [chunk]

theorem chunk_drop (buf : List Nat) (k : Nat) : chunk (buf.drop 1024) k = chunk buf (k + 1) := by
  simp only [chunk, List.drop_drop]
  congr 2
  omega

/-- The reports of the first block of the loop are those of chunk 0. -/
theorem first_block_reports (le : Bool) (addr : Nat) (data : List Nat) (this_len : Int)
    (h : this_len = min 1024 (data.length : Int)) :
    [(0x201, sdp_command_bytes le (write_file_cmd le addr this_len)),
      (0x202, write_file_data data this_len)] = bulk_reports addr data 0 := by
  have h0 : 0 ≤ this_len := by omega
  have hn : this_len.toNat = min 1024 data.length := by omega
  have hu : u32 this_len = (chunk data 0).length := by
    rw [chunk_length]; unfold u32; omega
  have hcmd : sdp_command_bytes le (write_file_cmd le addr this_len)
      = wire_command SDP_WRITE_FILE ((addr + 1024 * 0) % 4294967296) 0 (chunk data 0).length 0 := by
    have h1 := sdp_command_bytes_wire le 4 addr 0 (u32 this_len) 0 (by norm_num)
    have h2 : htonl le 0 = 0 := by cases le <;> rfl
    rw [h2] at h1
    have h3 : write_file_cmd le addr this_len =
        { report_id := 1, command_type := 4 * 256 + 4, address := htonl le addr, format := 0,
          data_count := htonl le (u32 this_len), data := 0 } := rfl
    rw [h3, h1, hu]
    simp only [wire_command, SDP_WRITE_FILE, be32_mod, Nat.mul_zero, Nat.add_zero]
  have hdat : write_file_data data this_len = 2 :: chunk data 0 := by
    rw [write_file_data_eq data this_len h0 (by omega), hn]
    simp only [chunk, Nat.mul_zero, List.drop_zero]
    congr 1
    rw [List.take_eq_take]
    simp
  rw [hcmd, hdat]
  rfl

theorem range_flatMap_succ {α : Type} (f : Nat → List α) (n : Nat) :
    (List.range (n + 1)).flatMap f = f 0 ++ (List.range n).flatMap (fun k => f (k + 1)) := by
  rw [List.range_succ_eq_map, List.flatMap_cons, List.flatMap_map]

theorem bulk_reports_succ (addr : Nat) (data : List Nat) (k : Nat) :
    bulk_reports ((addr + 1024) % 4294967296) (data.drop 1024) k = bulk_reports addr data (k + 1) := by
  simp only [bulk_reports, chunk_drop]
  have : ((addr + 1024) % 4294967296 + 1024 * k) % 4294967296
      = (addr + 1024 * (k + 1)) % 4294967296 := by omega
  rw [this]

/-- The loop left with nothing to send: no event and result 0. -/
theorem bulk_loop_done (w : Usb) (addr : Nat) (data : List Nat) (L : Int × Usb)
    (hL : L = (0, w)) (hd : data.length = 0) :
    ∃ new : List UsbEvent,
      L.2.trace = w.trace ++ new ∧ (L.1 = 0 ∨ L.1 < 0) ∧
      (L.1 = 0 →
        delivered new = (List.range ((data.length + 1023) / 1024)).flatMap (bulk_reports addr data) ∧
        (∀ r ∈ responses new, bulk_ack_ok r) ∧
        (responses new).length = (data.length + 1023) / 1024 ∧ ¬ read_failed new) ∧
      (delivered new <+: (List.range ((data.length + 1023) / 1024)).flatMap (bulk_reports addr data)) ∧
      (∀ k bad, (responses new)[k]? = some bad → ¬ bulk_ack_ok bad →
        L.1 < 0 ∧ k < (data.length + 1023) / 1024 ∧
        delivered new = (List.range (k + 1)).flatMap (bulk_reports addr data) ∧
        new.getLast? = some ⟨.interrupt_in .response 1025, bad⟩ ∧
        (responses new).length = k + 1) := by
  refine ⟨[], by simp [hL], Or.inl (by simp [hL]), ?_, ?_, ?_⟩
  · intro _
    refine ⟨by simp [hd], by simp, by simp [hd], ?_⟩
    rintro ⟨ev, hev, _⟩
    exact absurd hev (List.not_mem_nil ev)
  · simp
  · intro k bad hk _
    simp at hk

/-- The bulk-write loop, by induction on its bound: the events it adds to the
trace are those of the block transactions of the chunks in order, up to and
including the first one that fails. -/
theorem imx_write_bulk_loop_summary (le : Bool) (length : Int) :
    ∀ (fuel : Nat) (i : Int) (w : Usb) (addr : Nat) (data : List Nat),
      data.length = (length - i).toNat → data.length ≤ fuel →
      ∃ new : List UsbEvent,
        (imx_write_bulk_loop le length fuel i w addr data).2.trace = w.trace ++ new ∧
        ((imx_write_bulk_loop le length fuel i w addr data).1 = 0 ∨
          (imx_write_bulk_loop le length fuel i w addr data).1 < 0) ∧
        ((imx_write_bulk_loop le length fuel i w addr data).1 = 0 →
          delivered new
            = (List.range ((data.length + 1023) / 1024)).flatMap (bulk_reports addr data) ∧
          (∀ r ∈ responses new, bulk_ack_ok r) ∧
          (responses new).length = (data.length + 1023) / 1024 ∧ ¬ read_failed new) ∧
        (delivered new
          <+: (List.range ((data.length + 1023) / 1024)).flatMap (bulk_reports addr data)) ∧
        (∀ k bad, (responses new)[k]? = some bad → ¬ bulk_ack_ok bad →
          (imx_write_bulk_loop le length fuel i w addr data).1 < 0 ∧
          k < (data.length + 1023) / 1024 ∧
          delivered new = (List.range (k + 1)).flatMap (bulk_reports addr data) ∧
          new.getLast? = some ⟨.interrupt_in .response 1025, bad⟩ ∧
          (responses new).length = k + 1) := by
  intro fuel
  induction fuel with
  | zero =>
    intro i w addr data _ hf
    exact bulk_loop_done w addr data _ rfl (Nat.le_zero.mp hf)
  | succ fuel ih =>
    intro i w addr data hd hf
    by_cases hi : i < length
    swap
    · have hd0 : data.length = 0 := by omega
      refine bulk_loop_done w addr data _ ?_ hd0
      simp [imx_write_bulk_loop, hi]
    have hpos : 1 ≤ data.length := by omega
    have htl : min 1024 (length - i) = min 1024 (data.length : Int) := by omega
    have hunf : imx_write_bulk_loop le length (fuel + 1) i w addr data =
        if (imx_write_bulk_block le w addr data (min 1024 (length - i))).1 < 0 then
          ((imx_write_bulk_block le w addr data (min 1024 (length - i))).1,
            (imx_write_bulk_block le w addr data (min 1024 (length - i))).2)
        else imx_write_bulk_loop le length fuel (i + 1024)
          (imx_write_bulk_block le w addr data (min 1024 (length - i))).2
          ((addr + (min 1024 (length - i)).toNat) % 4294967296)
          (data.drop (min 1024 (length - i)).toNat) := by
      simp only [imx_write_bulk_loop, if_pos hi]
    obtain ⟨bnew, btr, bres, bok, bfail, _⟩ :=
      imx_write_bulk_block_summary le w addr data (min 1024 (length - i)) (min_le_left _ _)
    rw [first_block_reports le addr data _ htl] at bok bfail
    rw [hunf]
    have htn : (min 1024 (length - i)).toNat = min 1024 data.length := by omega
    generalize imx_write_bulk_block le w addr data (min 1024 (length - i)) = b at *
    generalize (min 1024 (length - i)).toNat = tl at *
    have hn1 : (data.length + 1023) / 1024 = (data.length - 1024 + 1023) / 1024 + 1 := by omega
    have hfirst : ∀ m, (List.range (m + 1)).flatMap (bulk_reports addr data)
        = bulk_reports addr data 0
          ++ (List.range m).flatMap (fun k => bulk_reports addr data (k + 1)) :=
      fun m => range_flatMap_succ _ m
    rcases bres with hb0 | hbneg
    swap
    · -- the block failed: the loop returns its error
      rw [if_pos hbneg]
      refine ⟨bnew, btr, Or.inr hbneg, ?_, ?_, ?_⟩
      · intro h0; rw [h0] at hbneg; exact absurd hbneg (lt_irrefl _)
      · rw [hn1, hfirst]
        rcases bfail hbneg with ⟨_, hp⟩ | ⟨r, _, _, hdv, _⟩
        · exact hp.trans (List.prefix_append _ _)
        · rw [hdv]; exact List.prefix_append _ _
      · intro k bad hk hbad
        rcases bfail hbneg with ⟨hr, _⟩ | ⟨r, hr, hnack, hdv, hlast⟩
        · rw [hr] at hk; simp at hk
        · rw [hr] at hk
          cases k with
          | zero =>
            simp only [List.getElem?_cons_zero, Option.some.injEq] at hk
            subst hk
            refine ⟨hbneg, by omega, ?_, hlast, by rw [hr]; rfl⟩
            rw [hdv, hfirst 0]; simp
          | succ k => simp at hk
    · -- the block succeeded: the loop goes on with the rest of the buffer
      have hnn : ¬ b.1 < 0 := by rw [hb0]; exact lt_irrefl _
      rw [if_neg hnn]
      obtain ⟨hdv, ⟨r, hr, hrok⟩, hnrf⟩ := bok hb0
      have hlen' : (data.drop tl).length = (length - (i + 1024)).toNat := by
        rw [List.length_drop]; omega
      have hfuel' : (data.drop tl).length ≤ fuel := by
        rw [List.length_drop]; omega
      obtain ⟨new', tr', res', ok', pre', bad'⟩ :=
        ih (i + 1024) b.2 ((addr + tl) % 4294967296) (data.drop tl) hlen' hfuel'
      have hcount : ((data.drop tl).length + 1023) / 1024
          = (data.length - 1024 + 1023) / 1024 := by
        rw [List.length_drop]; omega
      rw [hcount] at ok' pre' bad'
      have hshift : ∀ m, m ≤ (data.length - 1024 + 1023) / 1024 →
          (List.range m).flatMap (bulk_reports ((addr + tl) % 4294967296) (data.drop tl))
            = (List.range m).flatMap (fun k => bulk_reports addr data (k + 1)) := by
        intro m hm
        by_cases hbig : data.length ≤ 1024
        · have : m = 0 := by omega
          subst this; simp
        · have h1024 : tl = 1024 := by omega
          subst h1024
          have hfun : bulk_reports ((addr + 1024) % 4294967296) (data.drop 1024)
              = fun k => bulk_reports addr data (k + 1) := funext (bulk_reports_succ addr data)
          rw [hfun]
      generalize imx_write_bulk_loop le length fuel (i + 1024) b.2
        ((addr + tl) % 4294967296) (data.drop tl) = L at *
      refine ⟨bnew ++ new', by rw [tr', btr, List.append_assoc], res', ?_, ?_, ?_⟩
      · intro h0
        obtain ⟨d', r', l', rf'⟩ := ok' h0
        refine ⟨?_, ?_, ?_, ?_⟩
        · rw [delivered_append, hdv, d', hn1, hfirst, hshift _ (le_refl _)]
        · intro x hx
          rw [responses_append, hr] at hx
          rcases List.mem_append.mp hx with h | h
          · rw [List.mem_singleton.mp h]; exact hrok
          · exact r' x h
        · rw [responses_append, hr, List.length_append, l', hn1]
          simp [Nat.add_comm]
        · rw [read_failed_append]
          rintro (h | h)
          · exact hnrf h
          · exact rf' h
      · rw [delivered_append, hdv, hn1, hfirst, ← hshift _ (le_refl _)]
        exact (List.prefix_append_right_inj _).mpr pre'
      · intro k bad hk hbad
        rw [responses_append, hr] at hk
        cases k with
        | zero =>
          simp only [List.singleton_append, List.getElem?_cons_zero, Option.some.injEq] at hk
          subst hk
          exact absurd hrok hbad
        | succ k =>
          simp only [List.singleton_append, List.getElem?_cons_succ] at hk
          obtain ⟨c1, c2, c3, c4, c5⟩ := bad' k bad hk hbad
          refine ⟨c1, by omega, ?_, ?_, ?_⟩
          · rw [delivered_append, hdv, c3, hfirst, hshift _ (by omega)]
          · have hne : new' ≠ [] := by
              intro h; rw [h] at c4; simp at c4
            rw [List.getLast?_append_of_ne_nil _ hne]
            exact c4
          · rw [responses_append, hr, List.length_append, c5]
            simp [Nat.add_comm]

/-- The bound `imx_write_bulk` passes to its loop is never exhausted: once the
bound covers the bytes left, a larger bound gives the same run. -/
theorem imx_write_bulk_loop_fuel (le : Bool) (length : Int) :
    ∀ (fuel : Nat) (i : Int) (w : Usb) (addr : Nat) (data : List Nat),
      (length - i).toNat ≤ fuel →
      imx_write_bulk_loop le length (fuel + 1) i w addr data
        = imx_write_bulk_loop le length fuel i w addr data := by
  intro fuel
  induction fuel with
  | zero =>
    intro i w addr data h
    have hi : ¬ i < length := by omega
    rw [imx_write_bulk_loop, imx_write_bulk_loop]
    simp only [if_neg hi]
  | succ n ih =>
    intro i w addr data h
    rw [imx_write_bulk_loop, imx_write_bulk_loop]
    by_cases hi : i < length
    · simp only [if_pos hi]
      rw [ih (i + 1024) _ _ _ (by omega)]
    · simp only [if_neg hi]

/-- The bulk write of a whole buffer: `imx_write_bulk_loop_summary` at the
bound `imx_write_bulk` passes, which is never exhausted. -/
theorem imx_write_bulk_summary (le : Bool) (w : Usb) (addr : Nat) (buf : List Nat) :
    ∃ new : List UsbEvent,
      (imx_write_bulk le w addr buf buf.length).2.trace = w.trace ++ new ∧
      ((imx_write_bulk le w addr buf buf.length).1 = 0 ∨
        (imx_write_bulk le w addr buf buf.length).1 < 0) ∧
      ((imx_write_bulk le w addr buf buf.length).1 = 0 →
        delivered new
          = (List.range ((buf.length + 1023) / 1024)).flatMap (bulk_reports addr buf) ∧
        (∀ r ∈ responses new, bulk_ack_ok r) ∧
        (responses new).length = (buf.length + 1023) / 1024 ∧ ¬ read_failed new) ∧
      (delivered new
        <+: (List.range ((buf.length + 1023) / 1024)).flatMap (bulk_reports addr buf)) ∧
      (∀ k bad, (responses new)[k]? = some bad → ¬ bulk_ack_ok bad →
        (imx_write_bulk le w addr buf buf.length).1 < 0 ∧
        k < (buf.length + 1023) / 1024 ∧
        delivered new = (List.range (k + 1)).flatMap (bulk_reports addr buf) ∧
        new.getLast? = some ⟨.interrupt_in .response 1025, bad⟩ ∧
        (responses new).length = k + 1) :=
  imx_write_bulk_loop_summary le (buf.length : Int) (buf.length : Int).toNat 0 w addr buf
    (by simp) (by simp)

/-! ## Block transactions against a scripted device -/

/-- The control transfer of the write-file command, as bytes on the wire. -/
theorem write_file_call_wire (le : Bool) (addr : Nat) (length : Int) :
    send_call le (write_file_cmd le addr length)
      = .control_out 0x201 (wire_command 0x0404 addr 0 (u32 length) 0) := by
  have h := sdp_command_bytes_wire le 4 addr 0 (u32 length) 0 (by norm_num)
  have h2 : htonl le 0 = 0 := by cases le <;> rfl
  rw [h2] at h
  have h3 : write_file_cmd le addr length =
      { report_id := 1, command_type := 4 * 256 + 4, address := htonl le addr, format := 0,
        data_count := htonl le (u32 length), data := 0 } := rfl
  unfold send_call
  rw [h3, h]
  simp [HID_REPORT_TYPE_OUTPUT]

/-- One block transaction against a device whose replies let it reach the
response read: all the replies of the transaction are consumed and no other,
the transfers are those of `BlockReplies.events`, and the result is 0 exactly
when the response is a valid acknowledgement. -/
theorem imx_write_bulk_block_script (le : Bool) (w : Usb) (addr : Nat) (data : List Nat)
    (length : Int) (g : BlockReplies) (rest : List UsbReply)
    (h0 : 0 ≤ length) (hl : length ≤ 1024) (hd : length.toNat ≤ data.length)
    (hw : w.replies = g.replies ++ rest) (hg : g.reaches_response) :
    (imx_write_bulk_block le w addr data length).2
        = ⟨rest, w.trace ++ g.events addr (data.take length.toNat)⟩ ∧
      (bulk_ack_ok g.ack → (imx_write_bulk_block le w addr data length).1 = 0) ∧
      (¬ bulk_ack_ok g.ack → (imx_write_bulk_block le w addr data length).1 < 0) := by
  obtain ⟨hf4, hfneg, hs, hdo, hhab⟩ := hg
  have hsend := imx_send_sdp_script le (write_file_cmd le addr length) w g.fails g.sent
    (g.data_out :: g.hab :: g.ack :: rest) (by rw [hw]; simp [BlockReplies.replies]) hf4 hfneg hs
  have hlen : (data.take length.toNat).length = length.toNat := by
    rw [List.length_take]; omega
  have hu : u32 length = (data.take length.toNat).length := by
    rw [hlen]; unfold u32; omega
  have hcall := write_file_call_wire le addr length
  rw [hu] at hcall
  have hdat := write_file_data_eq data length h0 hd
  obtain ⟨w2, w3, w4, h2, h3, h4, hcases⟩ := imx_write_bulk_block_cases le w addr data length hl
  rw [hsend] at h2 hcases
  rw [hdat, hcall] at h2
  have e2 : w2 = ⟨g.hab :: g.ack :: rest,
      w.trace ++ (g.fails ++ [g.sent]).map (fun rp =>
          (⟨.control_out 0x201
            (wire_command 0x0404 addr 0 (data.take length.toNat).length 0), rp⟩ : UsbEvent)) ++
        [⟨.control_out 0x202 (2 :: data.take length.toNat), g.data_out⟩]⟩ := by
    rw [h2]; rfl
  have e3 : w3 = ⟨g.ack :: rest, w2.trace ++ [⟨.interrupt_in .hab 65, g.hab⟩]⟩ := by
    rw [h3, e2]; rfl
  have e4 : w4 = ⟨rest, w.trace ++ g.events addr (data.take length.toNat)⟩ := by
    rw [h4, e3, e2]
    simp [Usb.step, Usb.next, BlockReplies.events]
  have n2 : w2.next = g.hab := by rw [e2]; rfl
  have n3 : w3.next = g.ack := by rw [e3]; rfl
  have n1 : (g.sent.e, (⟨g.data_out :: g.hab :: g.ack :: rest,
      w.trace ++ (g.fails ++ [g.sent]).map (fun rp =>
        (⟨send_call le (write_file_cmd le addr length), rp⟩ : UsbEvent))⟩ : Usb)).2.next.e
        = g.data_out.e := rfl
  rw [n2, n3, e4] at hcases
  rcases hcases with ⟨hneg, _⟩ | ⟨_, hneg, _⟩ | ⟨_, _, hnh, _⟩ | ⟨_, _, _, hna, hres, husb⟩ |
    ⟨_, _, _, ha, hres⟩
  · exact absurd hs (not_le.mpr hneg)
  · rw [n1] at hneg
    exact absurd hdo (not_le.mpr hneg)
  · exact absurd hhab hnh
  · exact ⟨husb, fun ha => absurd ha hna, fun _ => hres⟩
  · rw [hres]
    exact ⟨rfl, fun _ => rfl, fun hna => absurd ha hna⟩

/-- One turn of the bulk-write loop while bytes remain. -/
theorem imx_write_bulk_loop_succ (le : Bool) (length : Int) (fuel : Nat) (i : Int) (w : Usb)
    (addr : Nat) (data : List Nat) (hi : i < length) :
    imx_write_bulk_loop le length (fuel + 1) i w addr data =
      if (imx_write_bulk_block le w addr data (min 1024 (length - i))).1 < 0 then
        ((imx_write_bulk_block le w addr data (min 1024 (length - i))).1,
          (imx_write_bulk_block le w addr data (min 1024 (length - i))).2)
      else imx_write_bulk_loop le length fuel (i + 1024)
        (imx_write_bulk_block le w addr data (min 1024 (length - i))).2
        ((addr + (min 1024 (length - i)).toNat) % 4294967296)
        (data.drop (min 1024 (length - i)).toNat) := by
  simp only [imx_write_bulk_loop, if_pos hi]

/-- The bulk-write loop with no byte left: result 0 and no transfer. -/
theorem imx_write_bulk_loop_end (le : Bool) (length : Int) (fuel : Nat) (i : Int) (w : Usb)
    (addr : Nat) (data : List Nat) (hi : ¬ i < length) :
    imx_write_bulk_loop le length fuel i w addr data = (0, w) := by
  cases fuel with
  | zero => rfl
  | succ n => simp only [imx_write_bulk_loop, if_neg hi]

theorem take_drop_chunk (buf : List Nat) (k : Nat) :
    (buf.drop (1024 * k)).take (min 1024 (buf.length - 1024 * k)) = chunk buf k := by
  unfold chunk
  rcases Nat.le_total 1024 (buf.length - 1024 * k) with h | h
  · rw [Nat.min_eq_left h]
  · rw [Nat.min_eq_right h, List.take_of_length_le (by simp),
      List.take_of_length_le (by simp; omega)]

theorem wire_command_mod (code addr format count data : Nat) :
    wire_command code (addr % 4294967296) format count data
      = wire_command code addr format count data := by
  simp only [wire_command, be32_mod]

theorem block_events_congr (g : BlockReplies) (a b : Nat) (bytes : List Nat)
    (h : a % 4294967296 = b % 4294967296) : g.events a bytes = g.events b bytes := by
  have hwc : wire_command 0x0404 a 0 bytes.length 0 = wire_command 0x0404 b 0 bytes.length 0 := by
    rw [← wire_command_mod 0x0404 a, ← wire_command_mod 0x0404 b, h]
  simp only [BlockReplies.events, hwc]

/-- One turn of the bulk-write loop at chunk `k` against a device whose
replies let the block transaction reach its response read: after a valid
acknowledgement the loop goes on behind the chunk, after any other response
it stops with a negative result; in both cases exactly the replies of this
transaction are consumed. -/
theorem imx_write_bulk_loop_step (le : Bool) (addr : Nat) (buf : List Nat) (fuel k : Nat)
    (w : Usb) (a : Nat) (g : BlockReplies) (rest : List UsbReply) (hk : 1024 * k < buf.length)
    (ha : a % 4294967296 = (addr + 1024 * k) % 4294967296)
    (hw : w.replies = g.replies ++ rest) (hg : g.reaches_response) :
    (bulk_ack_ok g.ack →
      imx_write_bulk_loop le buf.length (fuel + 1) ((1024 * k : Nat) : Int) w a
          (buf.drop (1024 * k))
        = imx_write_bulk_loop le buf.length fuel ((1024 * (k + 1) : Nat) : Int)
            ⟨rest, w.trace ++ g.events ((addr + 1024 * k) % 4294967296) (chunk buf k)⟩
            ((a + min 1024 (buf.length - 1024 * k)) % 4294967296)
            (buf.drop (1024 * k + min 1024 (buf.length - 1024 * k)))) ∧
    (¬ bulk_ack_ok g.ack →
      (imx_write_bulk_loop le buf.length (fuel + 1) ((1024 * k : Nat) : Int) w a
          (buf.drop (1024 * k))).1 < 0 ∧
      (imx_write_bulk_loop le buf.length (fuel + 1) ((1024 * k : Nat) : Int) w a
          (buf.drop (1024 * k))).2
        = ⟨rest, w.trace ++ g.events ((addr + 1024 * k) % 4294967296) (chunk buf k)⟩) := by
  have hi : ((1024 * k : Nat) : Int) < (buf.length : Int) := by omega
  have htn : (min 1024 ((buf.length : Int) - ((1024 * k : Nat) : Int))).toNat
      = min 1024 (buf.length - 1024 * k) := by omega
  obtain ⟨husb, hz, hneg⟩ := imx_write_bulk_block_script le w a
    (buf.drop (1024 * k)) (min 1024 ((buf.length : Int) - ((1024 * k : Nat) : Int))) g rest
    (by omega) (min_le_left _ _) (by rw [htn, List.length_drop]; omega) hw hg
  have hmod : ((addr + 1024 * k) % 4294967296) % 4294967296 = (addr + 1024 * k) % 4294967296 :=
    Nat.mod_mod _ _
  rw [htn, take_drop_chunk,
    block_events_congr g a ((addr + 1024 * k) % 4294967296) _ (by rw [hmod]; exact ha)] at husb
  rw [imx_write_bulk_loop_succ le _ fuel _ w _ _ hi, husb, htn]
  constructor
  · intro hack
    rw [if_neg (by rw [hz hack]; exact lt_irrefl (0 : Int)), List.drop_drop]
    have e1 : ((1024 * k : Nat) : Int) + 1024 = ((1024 * (k + 1) : Nat) : Int) := by
      push_cast; ring
    rw [e1]
  · intro hna
    rw [if_pos (hneg hna)]
    exact ⟨hneg hna, rfl⟩

/-- The bulk-write loop against a device that makes every remaining block
transaction succeed: result 0, exactly the replies of these transactions
consumed, and the transfers are those of the chunks in order. -/
theorem imx_write_bulk_loop_accepted (le : Bool) (addr : Nat) (buf : List Nat) :
    ∀ (gs : List BlockReplies) (fuel k : Nat) (w : Usb) (a : Nat) (data : List Nat)
      (rest : List UsbReply),
      w.replies = gs.flatMap BlockReplies.replies ++ rest →
      (∀ g ∈ gs, g.accepts) →
      k + gs.length = (buf.length + 1023) / 1024 →
      gs.length ≤ fuel →
      (gs ≠ [] → a % 4294967296 = (addr + 1024 * k) % 4294967296 ∧
        data = buf.drop (1024 * k)) →
      imx_write_bulk_loop le buf.length fuel ((1024 * k : Nat) : Int) w a data
        = (0, ⟨rest, w.trace ++ bulk_events addr buf gs k⟩) := by
  intro gs
  induction gs with
  | nil =>
    intro fuel k w a data rest hw _ hk _ _
    have hi : ¬ ((1024 * k : Nat) : Int) < (buf.length : Int) := by
      simp only [List.length_nil, Nat.add_zero] at hk
      omega
    rw [imx_write_bulk_loop_end le _ fuel _ w a data hi]
    simp only [List.flatMap_nil, List.nil_append] at hw
    simp only [bulk_events, List.append_nil]
    rw [← hw]
  | cons g gs ih =>
    intro fuel k w a data rest hw hok hk hfuel had
    obtain ⟨ha, hdata⟩ := had (List.cons_ne_nil g gs)
    subst hdata
    simp only [List.length_cons] at hk hfuel
    obtain ⟨f, rfl⟩ : ∃ f, fuel = f + 1 := ⟨fuel - 1, by omega⟩
    have hlt : 1024 * k < buf.length := by omega
    have hg := hok g (List.mem_cons_self g gs)
    have hw2 : w.replies = g.replies ++ (gs.flatMap BlockReplies.replies ++ rest) := by
      rw [hw, List.flatMap_cons, List.append_assoc]
    rw [(imx_write_bulk_loop_step le addr buf f k w a g _ hlt ha hw2 hg.1).1 hg.2]
    rw [ih f (k + 1) _ _ _ rest rfl (fun x hx => hok x (List.mem_cons_of_mem g hx))
      (by omega) (by omega) ?_]
    · simp only [bulk_events, List.append_assoc]
    · intro hne
      have hpos : 1 ≤ gs.length := List.length_pos.mpr hne
      have hfull : min 1024 (buf.length - 1024 * k) = 1024 := by omega
      rw [hfull, Nat.mul_succ]
      exact ⟨by omega, rfl⟩

/-- The bulk-write loop against a device that makes the block transactions of
the next chunks succeed and then answers one with a response that is no valid
acknowledgement: negative result, the replies behind that response are not
consumed, and the transfers are those of the chunks up to the refused one. -/
theorem imx_write_bulk_loop_refused (le : Bool) (addr : Nat) (buf : List Nat)
    (bad : BlockReplies) (rest : List UsbReply)
    (hreach : bad.reaches_response) (hbad : ¬ bulk_ack_ok bad.ack) :
    ∀ (good : List BlockReplies) (fuel k : Nat) (w : Usb) (a : Nat),
      w.replies = good.flatMap BlockReplies.replies ++ bad.replies ++ rest →
      (∀ g ∈ good, g.accepts) →
      k + good.length < (buf.length + 1023) / 1024 →
      good.length < fuel →
      a % 4294967296 = (addr + 1024 * k) % 4294967296 →
      (imx_write_bulk_loop le buf.length fuel ((1024 * k : Nat) : Int) w a
          (buf.drop (1024 * k))).1 < 0 ∧
      (imx_write_bulk_loop le buf.length fuel ((1024 * k : Nat) : Int) w a
          (buf.drop (1024 * k))).2
        = ⟨rest, w.trace ++ bulk_events addr buf (good ++ [bad]) k⟩ := by
  intro good
  induction good with
  | nil =>
    intro fuel k w a hw _ hk hfuel ha
    simp only [List.length_nil, Nat.add_zero] at hk hfuel
    obtain ⟨f, rfl⟩ : ∃ f, fuel = f + 1 := ⟨fuel - 1, by omega⟩
    have hlt : 1024 * k < buf.length := by omega
    simp only [List.flatMap_nil, List.nil_append] at hw
    have h := (imx_write_bulk_loop_step le addr buf f k w a bad rest hlt ha hw hreach).2 hbad
    simpa only [List.nil_append, bulk_events, List.append_nil] using h
  | cons g good ih =>
    intro fuel k w a hw hok hk hfuel ha
    simp only [List.length_cons] at hk hfuel
    obtain ⟨f, rfl⟩ : ∃ f, fuel = f + 1 := ⟨fuel - 1, by omega⟩
    have hlt : 1024 * k < buf.length := by omega
    have hg := hok g (List.mem_cons_self g good)
    have hw2 : w.replies
        = g.replies ++ (good.flatMap BlockReplies.replies ++ bad.replies ++ rest) := by
      rw [hw, List.flatMap_cons, List.append_assoc, List.append_assoc, List.append_assoc]
    rw [(imx_write_bulk_loop_step le addr buf f k w a g _ hlt ha hw2 hg.1).1 hg.2]
    have hfull : min 1024 (buf.length - 1024 * k) = 1024 := by omega
    have ed : buf.drop (1024 * k + 1024) = buf.drop (1024 * (k + 1)) := by rw [Nat.mul_succ]
    rw [hfull, ed]
    have h := ih f (k + 1) ⟨good.flatMap BlockReplies.replies ++ bad.replies ++ rest,
      w.trace ++ g.events ((addr + 1024 * k) % 4294967296) (chunk buf k)⟩
      ((a + 1024) % 4294967296) rfl
      (fun x hx => hok x (List.mem_cons_of_mem g hx)) (by omega) (by omega) (by omega)
    simpa only [List.cons_append, bulk_events, List.append_assoc] using h

/-- The whole bulk write against a device that makes the block transactions of
all the chunks succeed: result 0, the replies of these transactions consumed
and no other, the transfers those of the chunks in order. -/
theorem imx_write_bulk_accepted (le : Bool) (w : Usb) (addr : Nat) (buf : List Nat)
    (gs : List BlockReplies) (rest : List UsbReply)
    (hw : w.replies = gs.flatMap BlockReplies.replies ++ rest)
    (hcount : gs.length = (buf.length + 1023) / 1024) (hok : ∀ g ∈ gs, g.accepts) :
    imx_write_bulk le w addr buf buf.length
      = (0, ⟨rest, w.trace ++ bulk_events addr buf gs 0⟩) := by
  unfold imx_write_bulk
  exact imx_write_bulk_loop_accepted le addr buf gs (buf.length : Int).toNat 0 w addr buf
    rest hw hok (by omega) (by omega) (fun _ => ⟨rfl, rfl⟩)

/-- The whole bulk write against a device that makes the block transactions of
chunks `0 .. k-1` succeed and answers chunk `k` with a response that is no
valid acknowledgement. -/
theorem imx_write_bulk_refused (le : Bool) (w : Usb) (addr : Nat) (buf : List Nat)
    (good : List BlockReplies) (bad : BlockReplies) (rest : List UsbReply)
    (hw : w.replies = good.flatMap BlockReplies.replies ++ bad.replies ++ rest)
    (hk : good.length < (buf.length + 1023) / 1024) (hok : ∀ g ∈ good, g.accepts)
    (hreach : bad.reaches_response) (hbad : ¬ bulk_ack_ok bad.ack) :
    (imx_write_bulk le w addr buf buf.length).1 < 0 ∧
    (imx_write_bulk le w addr buf buf.length).2
      = ⟨rest, w.trace ++ bulk_events addr buf (good ++ [bad]) 0⟩ := by
  unfold imx_write_bulk
  exact imx_write_bulk_loop_refused le addr buf bad rest hreach hbad good
    (buf.length : Int).toNat 0 w addr hw hok (by omega) (by omega) rfl

/-! ## What the transfers of the block transactions show -/

theorem delivered_block_events (g : BlockReplies) (addr : Nat) (bytes : List Nat)
    (hg : g.reaches_response) :
    delivered (g.events addr bytes)
      = [(0x201, wire_command 0x0404 addr 0 bytes.length 0), (0x202, 2 :: bytes)] := by
  obtain ⟨_, hfneg, hs, hdo, _⟩ := hg
  unfold BlockReplies.events
  rw [List.map_append, delivered_append, delivered_append, delivered_failed_sends _ _ hfneg]
  simp [delivered, hs, hdo]

theorem responses_block_events (g : BlockReplies) (addr : Nat) (bytes : List Nat) :
    responses (g.events addr bytes) = [g.ack] := by
  unfold BlockReplies.events
  rw [responses_append, responses_sends _ ⟨_, _, rfl⟩]
  simp [responses]

theorem data_out_block_events (g : BlockReplies) (addr : Nat) (bytes : List Nat) :
    data_out_records (g.events addr bytes) = [2 :: bytes] := by
  have hs : ∀ l : List UsbReply, data_out_records (l.map (fun rp =>
      (⟨.control_out 0x201 (wire_command 0x0404 addr 0 bytes.length 0), rp⟩ : UsbEvent))) = [] := by
    intro l
    induction l with
    | nil => rfl
    | cons x t ih =>
      rw [List.map_cons]
      unfold data_out_records at ih ⊢
      rw [List.filterMap_cons, ih]
      simp
  unfold BlockReplies.events
  unfold data_out_records at hs ⊢
  rw [List.filterMap_append, hs]
  simp

theorem command_records_block_events (g : BlockReplies) (addr : Nat) (bytes : List Nat) :
    command_records (g.events addr bytes)
      = List.replicate (g.fails.length + 1) (wire_command 0x0404 addr 0 bytes.length 0) := by
  have hs : ∀ l : List UsbReply, command_records (l.map (fun rp =>
      (⟨.control_out 0x201 (wire_command 0x0404 addr 0 bytes.length 0), rp⟩ : UsbEvent)))
        = List.replicate l.length (wire_command 0x0404 addr 0 bytes.length 0) := by
    intro l
    induction l with
    | nil => rfl
    | cons x t ih =>
      rw [List.map_cons, ← List.singleton_append, command_records_append, ih]
      simp [command_records, List.replicate_succ]
  unfold BlockReplies.events
  rw [command_records_append, hs]
  simp [command_records]

theorem bulk_events_append (addr : Nat) (buf : List Nat) (hs : List BlockReplies) :
    ∀ (gs : List BlockReplies) (k : Nat),
      bulk_events addr buf (gs ++ hs) k
        = bulk_events addr buf gs k ++ bulk_events addr buf hs (k + gs.length) := by
  intro gs
  induction gs with
  | nil => intro k; simp [bulk_events]
  | cons g gs ih =>
    intro k
    rw [List.cons_append, bulk_events, bulk_events, ih (k + 1), List.append_assoc,
      List.length_cons, Nat.add_assoc, Nat.add_comm 1 gs.length]

theorem delivered_bulk_events (addr : Nat) (buf : List Nat) :
    ∀ (gs : List BlockReplies) (k : Nat), (∀ g ∈ gs, g.reaches_response) →
      delivered (bulk_events addr buf gs k)
        = (List.range gs.length).flatMap (fun j => bulk_reports addr buf (k + j)) := by
  intro gs
  induction gs with
  | nil => intro k _; rfl
  | cons g gs ih =>
    intro k h
    rw [bulk_events, delivered_append,
      delivered_block_events _ _ _ (h g (List.mem_cons_self g gs)),
      ih (k + 1) (fun x hx => h x (List.mem_cons_of_mem g hx)), List.length_cons,
      range_flatMap_succ]
    have hf : (fun j => bulk_reports addr buf (k + 1 + j))
        = (fun j => bulk_reports addr buf (k + (j + 1))) :=
      funext (fun j => by rw [Nat.add_assoc, Nat.add_comm 1 j])
    rw [hf]
    rfl

theorem responses_bulk_events (addr : Nat) (buf : List Nat) :
    ∀ (gs : List BlockReplies) (k : Nat),
      responses (bulk_events addr buf gs k) = gs.map BlockReplies.ack := by
  intro gs
  induction gs with
  | nil => intro k; rfl
  | cons g gs ih =>
    intro k
    rw [bulk_events, responses_append, responses_block_events, ih (k + 1)]
    rfl

theorem data_out_bulk_events (addr : Nat) (buf : List Nat) :
    ∀ (gs : List BlockReplies) (k : Nat),
      data_out_records (bulk_events addr buf gs k)
        = (List.range gs.length).map (fun j => 2 :: chunk buf (k + j)) := by
  intro gs
  induction gs with
  | nil => intro k; rfl
  | cons g gs ih =>
    intro k
    have happ : data_out_records (g.events ((addr + 1024 * k) % 4294967296) (chunk buf k) ++
        bulk_events addr buf gs (k + 1))
        = data_out_records (g.events ((addr + 1024 * k) % 4294967296) (chunk buf k)) ++
          data_out_records (bulk_events addr buf gs (k + 1)) := List.filterMap_append _ _ _
    rw [bulk_events, happ, data_out_block_events, ih (k + 1), List.length_cons,
      List.range_succ_eq_map, List.map_cons, List.map_map]
    have hf : (fun j => 2 :: chunk buf (k + 1 + j))
        = ((fun j => 2 :: chunk buf (k + j)) ∘ Nat.succ) :=
      funext (fun j => by
        show 2 :: chunk buf (k + 1 + j) = 2 :: chunk buf (k + (j + 1))
        rw [Nat.add_assoc, Nat.add_comm 1 j])
    rw [hf]
    rfl

theorem command_records_bulk_events (addr : Nat) (buf : List Nat) :
    ∀ (gs : List BlockReplies) (k : Nat) (c : List Nat),
      c ∈ command_records (bulk_events addr buf gs k) →
      ∃ j, j < gs.length ∧
        c = wire_command 0x0404 ((addr + 1024 * (k + j)) % 4294967296) 0
          (chunk buf (k + j)).length 0 := by
  intro gs
  induction gs with
  | nil => intro k c hc; exact absurd hc (List.not_mem_nil c)
  | cons g gs ih =>
    intro k c hc
    rw [bulk_events, command_records_append, List.mem_append] at hc
    rcases hc with hc | hc
    · rw [command_records_block_events] at hc
      exact ⟨0, by simp, List.eq_of_mem_replicate hc⟩
    · obtain ⟨j, hj, hcj⟩ := ih (k + 1) c hc
      refine ⟨j + 1, by simpa using hj, ?_⟩
      rw [hcj, Nat.add_assoc, Nat.add_comm 1 j]

theorem bulk_events_getLast (addr : Nat) (buf : List Nat) (gs : List BlockReplies)
    (g : BlockReplies) (k : Nat) :
    (bulk_events addr buf (gs ++ [g]) k).getLast? = some ⟨.interrupt_in .response 1025, g.ack⟩ := by
  rw [bulk_events_append, bulk_events, bulk_events, List.append_nil, BlockReplies.events,
    ← List.append_assoc]
  have h3 : ([⟨.control_out 0x202 (2 :: chunk buf (k + gs.length)), g.data_out⟩,
      ⟨.interrupt_in .hab 65, g.hab⟩, ⟨.interrupt_in .response 1025, g.ack⟩] : List UsbEvent)
      = [⟨.control_out 0x202 (2 :: chunk buf (k + gs.length)), g.data_out⟩,
          ⟨.interrupt_in .hab 65, g.hab⟩] ++ [⟨.interrupt_in .response 1025, g.ack⟩] := rfl
  rw [h3, ← List.append_assoc, List.getLast?_append, List.getLast?_singleton]
  rfl

/-! ## C1: chunking of a bulk write -/

theorem chunks_join : ∀ (n : Nat) (buf : List Nat), buf.length ≤ 1024 * n →
    (List.range n).flatMap (chunk buf) = buf := by
  intro n
  induction n with
  | zero =>
    intro buf h
    have : buf = [] := List.length_eq_zero.mp (by omega)
    subst this; rfl
  | succ n ih =>
    intro buf h
    rw [range_flatMap_succ]
    have hfun : (fun k => chunk buf (k + 1)) = chunk (buf.drop 1024) :=
      funext (fun k => (chunk_drop buf k).symm)
    rw [hfun, ih (buf.drop 1024) (by rw [List.length_drop]; omega)]
    simp [chunk]

theorem chunk_getElem? (buf : List Nat) (k j : Nat) (hj : j < (chunk buf k).length) :
    (chunk buf k)[j]? = buf[1024 * k + j]? := by
  rw [chunk_length] at hj
  simp only [chunk]
  rw [List.getElem?_take_of_lt (by omega), List.getElem?_drop]

/-- C1. Let the device make every block transaction succeed: its replies are
those of a list `gs` of at least `ceil(n/1024)` block transactions, each of
which has its command accepted after at most four failed attempts, its
data-out report accepted, a valid HAB status and the acknowledgement
88 88 88 88, followed by any further replies `rest`.  Then `imx_write_bulk`
on a buffer of `n` bytes, `n` small enough for the `int` loop counter,
returns 0 after exactly `ceil(n/1024)` block transactions: it consumes the
replies of the first `ceil(n/1024)` entries of `gs` and no other, and its
transfers are exactly those of these transactions.  The `k`-th transaction is
the write-file command for address `addr + 1024*k` modulo `2^32` with the
chunk length as count, followed by the data-out report carrying the bytes
`buf[1024*k .. min(n, 1024*(k+1)))`, and has one response read.  Every chunk
has 1 to 1024 bytes and the chunks concatenated give `buf`.  A buffer of 2049
bytes gives exactly three transactions, of 1024, 1024 and 1 bytes at `addr`,
`addr + 1024` and `addr + 2048`. -/
theorem imx_write_bulk_chunks (le : Bool) (w : Usb) (addr : Nat) (buf : List Nat)
    (gs : List BlockReplies) (rest : List UsbReply)
    (_hn : buf.length ≤ 2147483647 - 1023)
    (hw : w.replies = gs.flatMap BlockReplies.replies ++ rest)
    (hcount : (buf.length + 1023) / 1024 ≤ gs.length)
    (hok : ∀ g ∈ gs, g.accepts) :
    (imx_write_bulk le w addr buf buf.length).1 = 0 ∧
    (imx_write_bulk le w addr buf buf.length).2.replies
      = (gs.drop ((buf.length + 1023) / 1024)).flatMap BlockReplies.replies ++ rest ∧
    w.since (imx_write_bulk le w addr buf buf.length).2
      = bulk_events addr buf (gs.take ((buf.length + 1023) / 1024)) 0 ∧
    delivered (w.since (imx_write_bulk le w addr buf buf.length).2)
      = (List.range ((buf.length + 1023) / 1024)).flatMap (fun k =>
          [(0x201, wire_command 0x0404 ((addr + 1024 * k) % 4294967296) 0 (chunk buf k).length 0),
           (0x202, 2 :: chunk buf k)]) ∧
    data_out_records (w.since (imx_write_bulk le w addr buf buf.length).2)
      = (List.range ((buf.length + 1023) / 1024)).map (fun k => 2 :: chunk buf k) ∧
    responses (w.since (imx_write_bulk le w addr buf buf.length).2)
      = (gs.take ((buf.length + 1023) / 1024)).map BlockReplies.ack ∧
    (responses (w.since (imx_write_bulk le w addr buf buf.length).2)).length
      = (buf.length + 1023) / 1024 ∧
    (∀ k, k < (buf.length + 1023) / 1024 →
      1 ≤ (chunk buf k).length ∧ (chunk buf k).length ≤ 1024 ∧
      (chunk buf k).length = min buf.length (1024 * (k + 1)) - 1024 * k ∧
      ∀ j, j < (chunk buf k).length → (chunk buf k)[j]? = buf[1024 * k + j]?) ∧
    (List.range ((buf.length + 1023) / 1024)).flatMap (chunk buf) = buf ∧
    (buf.length = 2049 →
      (List.range ((buf.length + 1023) / 1024)).map (fun k => (chunk buf k).length)
        = [1024, 1024, 1] ∧
      delivered (w.since (imx_write_bulk le w addr buf buf.length).2)
        = [(0x201, wire_command 0x0404 (addr % 4294967296) 0 1024 0),
           (0x202, 2 :: buf.take 1024),
           (0x201, wire_command 0x0404 ((addr + 1024) % 4294967296) 0 1024 0),
           (0x202, 2 :: (buf.drop 1024).take 1024),
           (0x201, wire_command 0x0404 ((addr + 2048) % 4294967296) 0 1 0),
           (0x202, 2 :: buf.drop 2048)]) := by
  have hlen : (gs.take ((buf.length + 1023) / 1024)).length = (buf.length + 1023) / 1024 := by
    rw [List.length_take]; omega
  have hw2 : w.replies = (gs.take ((buf.length + 1023) / 1024)).flatMap BlockReplies.replies ++
      ((gs.drop ((buf.length + 1023) / 1024)).flatMap BlockReplies.replies ++ rest) := by
    rw [hw, ← List.append_assoc, ← List.flatMap_append, List.take_append_drop]
  have hacc : ∀ g ∈ gs.take ((buf.length + 1023) / 1024), g.accepts :=
    fun g hg => hok g (List.mem_of_mem_take hg)
  have hmain := imx_write_bulk_accepted le w addr buf _ _ hw2 hlen hacc
  have hsince : w.since (imx_write_bulk le w addr buf buf.length).2
      = bulk_events addr buf (gs.take ((buf.length + 1023) / 1024)) 0 := by
    rw [hmain]; exact since_append w _ _ rfl
  have hdel : delivered (w.since (imx_write_bulk le w addr buf buf.length).2)
      = (List.range ((buf.length + 1023) / 1024)).flatMap (fun k =>
          [(0x201, wire_command 0x0404 ((addr + 1024 * k) % 4294967296) 0 (chunk buf k).length 0),
           (0x202, 2 :: chunk buf k)]) := by
    rw [hsince, delivered_bulk_events addr buf _ 0 (fun g hg => (hacc g hg).1), hlen]
    simp only [Nat.zero_add]
    rfl
  refine ⟨by rw [hmain], by rw [hmain], hsince, hdel, ?_, ?_, ?_, ?_, ?_, ?_⟩
  · rw [hsince, data_out_bulk_events, hlen]
    simp only [Nat.zero_add]
  · rw [hsince, responses_bulk_events]
  · rw [hsince, responses_bulk_events, List.length_map, hlen]
  · intro k hk
    rw [chunk_length]
    refine ⟨by omega, by omega, by omega,
      fun j hj => chunk_getElem? buf k j (by rw [chunk_length]; exact hj)⟩
  · exact chunks_join _ buf (by omega)
  · intro h
    have h3 : (buf.length + 1023) / 1024 = 3 := by omega
    have hc0 : chunk buf 0 = buf.take 1024 := by simp [chunk]
    have hc1 : chunk buf 1 = (buf.drop 1024).take 1024 := by simp [chunk]
    have hc2 : chunk buf 2 = buf.drop 2048 := by
      unfold chunk
      rw [List.take_of_length_le (by rw [List.length_drop]; omega)]
    have hl0 : (buf.take 1024).length = 1024 := by rw [List.length_take]; omega
    have hl1 : ((buf.drop 1024).take 1024).length = 1024 := by
      rw [List.length_take, List.length_drop]; omega
    have hl2 : (buf.drop 2048).length = 1 := by rw [List.length_drop]; omega
    constructor
    · simp [h, chunk_length, List.range_succ]
    · rw [hdel, h3]
      simp only [List.range_succ, List.range_zero, List.nil_append, List.flatMap_append,
        List.flatMap_cons, List.flatMap_nil, List.append_nil, List.cons_append, hc0, hc1, hc2,
        hl0, hl1, hl2, Nat.mul_zero, Nat.mul_one, Nat.add_zero]

/-- Witness of C1: 2049 bytes written at 0xfffffc00 over a device that would
accept four block transactions, the second at the second attempt of its
command; three are made and the replies of the fourth stay unread. -/
theorem imx_write_bulk_chunks_witness :
    (buf_2049.length ≤ 2147483647 - 1023) ∧
    (bulk_ok4_usb.replies = blocks_ok4.flatMap BlockReplies.replies ++ [bulk_ack]) ∧
    ((buf_2049.length + 1023) / 1024 ≤ blocks_ok4.length) ∧
    (∀ g ∈ blocks_ok4, g.accepts) ∧
    ((imx_write_bulk true bulk_ok4_usb 0xfffffc00 buf_2049 buf_2049.length).1 = 0 ∧
    (imx_write_bulk true bulk_ok4_usb 0xfffffc00 buf_2049 buf_2049.length).2.replies
      = (blocks_ok4.drop ((buf_2049.length + 1023) / 1024)).flatMap BlockReplies.replies ++ [bulk_ack] ∧
    bulk_ok4_usb.since (imx_write_bulk true bulk_ok4_usb 0xfffffc00 buf_2049 buf_2049.length).2
      = bulk_events 0xfffffc00 buf_2049 (blocks_ok4.take ((buf_2049.length + 1023) / 1024)) 0 ∧
    delivered (bulk_ok4_usb.since (imx_write_bulk true bulk_ok4_usb 0xfffffc00 buf_2049 buf_2049.length).2)
      = (List.range ((buf_2049.length + 1023) / 1024)).flatMap (fun k =>
          [(0x201, wire_command 0x0404 ((0xfffffc00 + 1024 * k) % 4294967296) 0 (chunk buf_2049 k).length 0),
           (0x202, 2 :: chunk buf_2049 k)]) ∧
    data_out_records (bulk_ok4_usb.since (imx_write_bulk true bulk_ok4_usb 0xfffffc00 buf_2049 buf_2049.length).2)
      = (List.range ((buf_2049.length + 1023) / 1024)).map (fun k => 2 :: chunk buf_2049 k) ∧
    responses (bulk_ok4_usb.since (imx_write_bulk true bulk_ok4_usb 0xfffffc00 buf_2049 buf_2049.length).2)
      = (blocks_ok4.take ((buf_2049.length + 1023) / 1024)).map BlockReplies.ack ∧
    (responses (bulk_ok4_usb.since (imx_write_bulk true bulk_ok4_usb 0xfffffc00 buf_2049 buf_2049.length).2)).length
      = (buf_2049.length + 1023) / 1024 ∧
    (∀ k, k < (buf_2049.length + 1023) / 1024 →
      1 ≤ (chunk buf_2049 k).length ∧ (chunk buf_2049 k).length ≤ 1024 ∧
      (chunk buf_2049 k).length = min buf_2049.length (1024 * (k + 1)) - 1024 * k ∧
      ∀ j, j < (chunk buf_2049 k).length → (chunk buf_2049 k)[j]? = buf_2049[1024 * k + j]?) ∧
    (List.range ((buf_2049.length + 1023) / 1024)).flatMap (chunk buf_2049) = buf_2049 ∧
    (buf_2049.length = 2049 →
      (List.range ((buf_2049.length + 1023) / 1024)).map (fun k => (chunk buf_2049 k).length)
        = [1024, 1024, 1] ∧
      delivered (bulk_ok4_usb.since (imx_write_bulk true bulk_ok4_usb 0xfffffc00 buf_2049 buf_2049.length).2)
        = [(0x201, wire_command 0x0404 (0xfffffc00 % 4294967296) 0 1024 0),
           (0x202, 2 :: buf_2049.take 1024),
           (0x201, wire_command 0x0404 ((0xfffffc00 + 1024) % 4294967296) 0 1024 0),
           (0x202, 2 :: (buf_2049.drop 1024).take 1024),
           (0x201, wire_command 0x0404 ((0xfffffc00 + 2048) % 4294967296) 0 1 0),
           (0x202, 2 :: buf_2049.drop 2048)])) :=
  ⟨by simp [buf_2049], rfl, by simp [buf_2049, blocks_ok4], by decide,
    imx_write_bulk_chunks true bulk_ok4_usb 0xfffffc00 buf_2049 blocks_ok4 [bulk_ack]
      (by simp [buf_2049]) rfl (by simp [buf_2049, blocks_ok4]) (by decide)⟩

/-! ## C7: a bulk write that fails part-way -/

/-- C7. Let `k` be a chunk index of the buffer and let the device make the
block transactions of chunks `0 .. k-1` succeed (replies `good`), let the
transaction of chunk `k` reach its response read and answer it with a report
that is not 65 bytes with id 4 and bytes 88 88 88 88 (replies `bad`), and
hold any further replies `rest`, for instance those that would accept the
later chunks.  Then `imx_write_bulk` returns a negative result; its transfers
are exactly those of the transactions of chunks `0 .. k`, so the output
reports the transport accepted are the command and the data of chunks
`0 .. k`, once each and in increasing address order, every command record
handed over is that of a chunk up to `k`, and the bad response read is the
last transfer; the replies `rest` are all left unread: nothing is sent for a
later chunk and nothing is undone. -/
theorem imx_write_bulk_partial (le : Bool) (w : Usb) (addr : Nat) (buf : List Nat) (k : Nat)
    (good : List BlockReplies) (bad : BlockReplies) (rest : List UsbReply)
    (_hn : buf.length ≤ 2147483647 - 1023)
    (hk : k < (buf.length + 1023) / 1024)
    (hw : w.replies = good.flatMap BlockReplies.replies ++ bad.replies ++ rest)
    (hlen : good.length = k)
    (hgood : ∀ g ∈ good, g.accepts)
    (hreach : bad.reaches_response)
    (hbad : ¬ bulk_ack_ok bad.ack) :
    (imx_write_bulk le w addr buf buf.length).1 < 0 ∧
    (imx_write_bulk le w addr buf buf.length).2.replies = rest ∧
    w.since (imx_write_bulk le w addr buf buf.length).2
      = bulk_events addr buf (good ++ [bad]) 0 ∧
    delivered (w.since (imx_write_bulk le w addr buf buf.length).2)
      = (List.range (k + 1)).flatMap (fun j =>
          [(0x201, wire_command 0x0404 ((addr + 1024 * j) % 4294967296) 0 (chunk buf j).length 0),
           (0x202, 2 :: chunk buf j)]) ∧
    data_out_records (w.since (imx_write_bulk le w addr buf buf.length).2)
      = (List.range (k + 1)).map (fun j => 2 :: chunk buf j) ∧
    (∀ c, c ∈ command_records (w.since (imx_write_bulk le w addr buf buf.length).2) →
      ∃ j, j ≤ k ∧ c = wire_command 0x0404 ((addr + 1024 * j) % 4294967296) 0
        (chunk buf j).length 0) ∧
    (w.since (imx_write_bulk le w addr buf buf.length).2).getLast?
      = some ⟨.interrupt_in .response 1025, bad.ack⟩ ∧
    responses (w.since (imx_write_bulk le w addr buf buf.length).2)
      = good.map BlockReplies.ack ++ [bad.ack] ∧
    (responses (w.since (imx_write_bulk le w addr buf buf.length).2)).length = k + 1 := by
  subst hlen
  have hmain := imx_write_bulk_refused le w addr buf good bad rest hw hk hgood hreach hbad
  have hsince : w.since (imx_write_bulk le w addr buf buf.length).2
      = bulk_events addr buf (good ++ [bad]) 0 := by
    rw [hmain.2]; exact since_append w _ _ rfl
  have hall : ∀ g ∈ good ++ [bad], g.reaches_response := by
    intro g hg
    rcases List.mem_append.mp hg with h | h
    · exact (hgood g h).1
    · rw [List.mem_singleton.mp h]; exact hreach
  have hl : (good ++ [bad]).length = good.length + 1 := by simp
  refine ⟨hmain.1, by rw [hmain.2], hsince, ?_, ?_, ?_, ?_, ?_, ?_⟩
  · rw [hsince, delivered_bulk_events addr buf _ 0 hall, hl]
    simp only [Nat.zero_add]
    rfl
  · rw [hsince, data_out_bulk_events, hl]
    simp only [Nat.zero_add]
  · intro c hc
    rw [hsince] at hc
    obtain ⟨j, hj, hcj⟩ := command_records_bulk_events addr buf _ 0 c hc
    rw [Nat.zero_add] at hcj
    exact ⟨j, by rw [hl] at hj; omega, hcj⟩
  · rw [hsince, bulk_events_getLast]
  · rw [hsince, responses_bulk_events, List.map_append]
    rfl
  · rw [hsince, responses_bulk_events, List.length_map, hl]

/-- Witness of C7: 2049 bytes written at 0xfffffc00 over a device that accepts
the block transaction of chunk 0, answers chunk 1 with a wrong last
acknowledgement byte and would accept chunk 2; the replies for chunk 2 stay
unread. -/
theorem imx_write_bulk_partial_witness :
    (buf_2049.length ≤ 2147483647 - 1023) ∧
    (1 < (buf_2049.length + 1023) / 1024) ∧
    (bulk_bad2_usb.replies = [block_ok].flatMap BlockReplies.replies ++ block_bad.replies ++ block_last.replies) ∧
    ([block_ok].length = 1) ∧
    (∀ g ∈ [block_ok], g.accepts) ∧
    (block_bad.reaches_response) ∧
    (¬ bulk_ack_ok block_bad.ack) ∧
    ((imx_write_bulk true bulk_bad2_usb 0xfffffc00 buf_2049 buf_2049.length).1 < 0 ∧
    (imx_write_bulk true bulk_bad2_usb 0xfffffc00 buf_2049 buf_2049.length).2.replies = block_last.replies ∧
    bulk_bad2_usb.since (imx_write_bulk true bulk_bad2_usb 0xfffffc00 buf_2049 buf_2049.length).2
      = bulk_events 0xfffffc00 buf_2049 ([block_ok] ++ [block_bad]) 0 ∧
    delivered (bulk_bad2_usb.since (imx_write_bulk true bulk_bad2_usb 0xfffffc00 buf_2049 buf_2049.length).2)
      = (List.range (1 + 1)).flatMap (fun j =>
          [(0x201, wire_command 0x0404 ((0xfffffc00 + 1024 * j) % 4294967296) 0 (chunk buf_2049 j).length 0),
           (0x202, 2 :: chunk buf_2049 j)]) ∧
    data_out_records (bulk_bad2_usb.since (imx_write_bulk true bulk_bad2_usb 0xfffffc00 buf_2049 buf_2049.length).2)
      = (List.range (1 + 1)).map (fun j => 2 :: chunk buf_2049 j) ∧
    (∀ c, c ∈ command_records (bulk_bad2_usb.since (imx_write_bulk true bulk_bad2_usb 0xfffffc00 buf_2049 buf_2049.length).2) →
      ∃ j, j ≤ 1 ∧ c = wire_command 0x0404 ((0xfffffc00 + 1024 * j) % 4294967296) 0
        (chunk buf_2049 j).length 0) ∧
    (bulk_bad2_usb.since (imx_write_bulk true bulk_bad2_usb 0xfffffc00 buf_2049 buf_2049.length).2).getLast?
      = some ⟨.interrupt_in .response 1025, block_bad.ack⟩ ∧
    responses (bulk_bad2_usb.since (imx_write_bulk true bulk_bad2_usb 0xfffffc00 buf_2049 buf_2049.length).2)
      = [block_ok].map BlockReplies.ack ++ [block_bad.ack] ∧
    (responses (bulk_bad2_usb.since (imx_write_bulk true bulk_bad2_usb 0xfffffc00 buf_2049 buf_2049.length).2)).length = 1 + 1) :=
  ⟨by simp [buf_2049], by simp [buf_2049], rfl, rfl, by decide, by decide, by decide,
    imx_write_bulk_partial true bulk_bad2_usb 0xfffffc00 buf_2049 1 [block_ok] block_bad
      block_last.replies (by simp [buf_2049]) (by simp [buf_2049]) rfl rfl (by decide)
      (by decide) (by decide)⟩

/-! ## C2: reassembly of a bulk read -/

/-- One well-formed response report stores the first `this` bytes of its
payload. -/
theorem read_report_bytes (w : Usb) (r : UsbReply) (rest : List UsbReply) (this : Nat)
    (hw : w.replies = r :: rest) (h65 : r.data.length ≤ 65) (hthis : this ≤ r.data.length - 1) :
    ((libusb_interrupt_transfer w .response (4 :: List.replicate 64 0) 65).buffer.drop 1).take this
      = (payload r).take this := by
  have hnext : w.next = r := by simp [Usb.next, hw]
  simp only [libusb_interrupt_transfer, hnext, payload]
  rw [List.take_of_length_le h65, List.drop_append_eq_append_drop, List.take_append_eq_append_take]
  have : this - (List.drop 1 r.data).length = 0 := by rw [List.length_drop]; omega
  rw [this]
  simp

/-- The read loop over a script of well-formed response reports that
together carry at least `remaining` payload bytes. -/
theorem imx_read_bulk_loop_spec :
    ∀ (reports : List UsbReply) (fuel : Nat) (w : Usb) (remaining : Nat) (acc : List Nat)
      (rest : List UsbReply),
      w.replies = reports ++ rest → reports.length < fuel →
      (∀ r ∈ reports, 0 ≤ r.e ∧ 2 ≤ r.data.length ∧ r.data.length ≤ 65) →
      remaining ≤ (reports.flatMap payload).length →
      ∃ m, m ≤ reports.length ∧ m ≤ remaining ∧
        imx_read_bulk_loop fuel w remaining acc
          = (0, acc ++ (reports.flatMap payload).take remaining,
              ⟨reports.drop m ++ rest,
                w.trace ++ (reports.take m).map (fun r => ⟨.interrupt_in .response 65, r⟩)⟩) ∧
        remaining ≤ ((reports.take m).flatMap payload).length ∧
        ∀ j, j < m → ((reports.take j).flatMap payload).length < remaining := by
  intro reports
  induction reports with
  | nil =>
    intro fuel w remaining acc rest hw hf _ hrem
    obtain ⟨f, rfl⟩ : ∃ f, fuel = f + 1 := ⟨fuel - 1, by simp at hf; omega⟩
    have h0 : remaining = 0 := by simpa using hrem
    subst h0
    refine ⟨0, le_refl _, le_refl _, ?_, by simp, fun j hj => absurd hj (Nat.not_lt_zero j)⟩
    cases w
    simp at hw
    simp [imx_read_bulk_loop, hw]
  | cons r rs ih =>
    intro fuel w remaining acc rest hw hf hgood hrem
    obtain ⟨f, rfl⟩ : ∃ f, fuel = f + 1 := ⟨fuel - 1, by simp at hf; omega⟩
    by_cases h0 : remaining = 0
    · subst h0
      refine ⟨0, Nat.zero_le _, le_refl _, ?_, by simp, fun j hj => absurd hj (Nat.not_lt_zero j)⟩
      cases w
      simp at hw
      simp [imx_read_bulk_loop, hw]
    · obtain ⟨hre, hr2, hr65⟩ := hgood r (List.mem_cons_self r rs)
      have hnext : w.next = r := by simp [Usb.next, hw]
      have hplen : (payload r).length = r.data.length - 1 := by simp [payload]
      have hthis : (min (remaining : Int) ((r.data.length : Int) - 1)).toNat
          = min remaining (r.data.length - 1) := by omega
      have hunf : imx_read_bulk_loop (f + 1) w remaining acc
          = imx_read_bulk_loop f (w.step (.interrupt_in .response 65))
              ((remaining - min remaining (r.data.length - 1) : Nat) : Int)
              (acc ++ (payload r).take (min remaining (r.data.length - 1))) := by
        have hb := read_report_bytes w r (rs ++ rest) (min remaining (r.data.length - 1))
          (by simpa using hw) hr65 (min_le_right _ _)
        have hlen : (libusb_interrupt_transfer w .response (4 :: List.replicate 64 0) 65).len
            = (r.data.length : Int) := by
          simp [libusb_interrupt_transfer, hnext, hr65]
        have he : (libusb_interrupt_transfer w .response (4 :: List.replicate 64 0) 65).e = r.e := by
          simp [libusb_interrupt_transfer, hnext]
        have hu : (libusb_interrupt_transfer w .response (4 :: List.replicate 64 0) 65).usb
            = w.step (.interrupt_in .response 65) := rfl
        have hrem0 : ¬ ((remaining : Int) = 0) := by omega
        rw [imx_read_bulk_loop]
        simp only [ne_eq, hrem0, not_false_eq_true, if_true, he, hlen, hu, hthis, hb]
        rw [if_neg (not_lt.mpr hre), if_pos (by omega)]
        congr 1
        omega
      rw [hunf]
      have hrem' : remaining - min remaining (r.data.length - 1) ≤ (rs.flatMap payload).length := by
        rw [List.flatMap_cons, List.length_append, hplen] at hrem
        omega
      obtain ⟨m, hm1, hm2, hres, hmin1, hmin2⟩ :=
        ih f (w.step (.interrupt_in .response 65))
          (remaining - min remaining (r.data.length - 1))
          (acc ++ (payload r).take (min remaining (r.data.length - 1))) rest
          (by simp [Usb.step, hw]) (by simp at hf; omega)
          (fun x hx => hgood x (List.mem_cons_of_mem r hx)) hrem'
      refine ⟨m + 1, by simp [hm1], by omega, ?_, ?_, ?_⟩
      · rw [hres]
        simp only [Usb.step, hnext, List.flatMap_cons, List.take_append_eq_append_take,
          List.append_assoc, List.drop_succ_cons, List.take_succ_cons, List.map_cons,
          List.singleton_append, hplen]
        have e1 : List.take (min remaining (r.data.length - 1)) (payload r)
            = List.take remaining (payload r) :=
          List.take_eq_take.mpr (by rw [hplen]; omega)
        have e2 : remaining - min remaining (r.data.length - 1)
            = remaining - (r.data.length - 1) := by omega
        rw [e1, e2]
      · rw [List.take_succ_cons, List.flatMap_cons, List.length_append, hplen]
        omega
      · intro j hj
        cases j with
        | zero => simp; omega
        | succ j =>
          have := hmin2 j (by omega)
          rw [List.take_succ_cons, List.flatMap_cons, List.length_append, hplen]
          omega

/-- The bound `imx_read_bulk` passes to its loop is never exhausted: any
bound above the number of scripted replies gives the same run. -/
theorem imx_read_bulk_loop_fuel :
    ∀ (n fuel : Nat) (w : Usb) (remaining : Int) (acc : List Nat),
      w.replies.length = n → n < fuel →
      imx_read_bulk_loop fuel w remaining acc = imx_read_bulk_loop (n + 1) w remaining acc := by
  intro n
  induction n with
  | zero =>
    intro fuel w remaining acc hn hf
    obtain ⟨f, rfl⟩ : ∃ f, fuel = f + 1 := ⟨fuel - 1, by omega⟩
    have hnil : w.replies = [] := List.length_eq_zero.mp hn
    have he : (libusb_interrupt_transfer w .response (4 :: List.replicate 64 0) 65).e < 0 := by
      simp [libusb_interrupt_transfer, Usb.next, hnil, LIBUSB_ERROR_NO_DEVICE]
    rw [imx_read_bulk_loop, imx_read_bulk_loop]
    simp only [if_pos he]
  | succ n ih =>
    intro fuel w remaining acc hn hf
    obtain ⟨f, rfl⟩ : ∃ f, fuel = f + 1 := ⟨fuel - 1, by omega⟩
    have hlen : (libusb_interrupt_transfer w .response (4 :: List.replicate 64 0) 65).usb.replies.length
        = n := by
      simp [libusb_interrupt_transfer, Usb.step, hn]
    rw [imx_read_bulk_loop, imx_read_bulk_loop]
    simp only [ih f _ _ _ hlen (by omega)]

/-- C2. After a command send that succeeds within its five attempts and a
valid HAB status, if the device goes on with successfully received response
reports of 2 to 65 bytes that together carry at least `count` payload bytes,
then `imx_read_bulk` returns 0 and the result buffer holds the first `count`
bytes of the payloads (bytes 1 onward of each report) concatenated in arrival
order.  It reads `m` reports where `m` is the least number of reports whose
payloads amount to `count` bytes, hence at most `count`; the reports after
them stay unread and the excess bytes of the last one are dropped.  The result
depends on the reports only through the concatenation of their payloads. -/
theorem imx_read_bulk_reassembly (le : Bool) (w : Usb) (addr count : Nat) (format : Int)
    (fails : List UsbReply) (s hb : UsbReply) (reports rest : List UsbReply)
    (_hcount : 1 ≤ count)
    (hw : w.replies = fails ++ s :: hb :: (reports ++ rest))
    (hfl : fails.length ≤ 4) (hf : ∀ f ∈ fails, f.e < 0) (hs : 0 ≤ s.e) (hhab : hab_ok hb)
    (hgood : ∀ r ∈ reports, 0 ≤ r.e ∧ 2 ≤ r.data.length ∧ r.data.length ≤ 65)
    (htotal : count ≤ (reports.flatMap payload).length) :
    ∃ m, m ≤ count ∧ m ≤ reports.length ∧
      (imx_read_bulk le w addr count format).1 = 0 ∧
      (imx_read_bulk le w addr count format).2.1 = (reports.flatMap payload).take count ∧
      (imx_read_bulk le w addr count format).2.2.replies = reports.drop m ++ rest ∧
      responses (w.since (imx_read_bulk le w addr count format).2.2) = reports.take m ∧
      count ≤ ((reports.take m).flatMap payload).length ∧
      ∀ j, j < m → ((reports.take j).flatMap payload).length < count := by
  have hsend := fun cmd => imx_send_sdp_script le cmd w fails s (hb :: (reports ++ rest)) hw hfl hf hs
  have hsend' := hsend (read_cmd le addr count format)
  generalize w.trace ++ (fails ++ [s]).map
    (fun rp => (⟨send_call le (read_cmd le addr count format), rp⟩ : UsbEvent)) = tr1 at hsend'
  have htr1 : tr1 = w.trace ++ (fails ++ [s]).map
      (fun rp => (⟨send_call le (read_cmd le addr count format), rp⟩ : UsbEvent)) := by
    have h := (hsend (read_cmd le addr count format)).symm.trans hsend'
    exact (congrArg (fun x => x.2.trace) h).symm
  have hnext : (⟨hb :: (reports ++ rest), tr1⟩ : Usb).next = hb := rfl
  have hhz : (imx_read_hab ⟨hb :: (reports ++ rest), tr1⟩).1 = 0 :=
    (imx_read_hab_zero_iff _).mpr (by rw [hnext]; exact hhab)
  have hhu : (imx_read_hab ⟨hb :: (reports ++ rest), tr1⟩).2
      = ⟨reports ++ rest, tr1 ++ [⟨.interrupt_in .hab 65, hb⟩]⟩ := by
    rw [imx_read_hab_usb]; rfl
  obtain ⟨m, hm1, hm2, hres, hmin1, hmin2⟩ :=
    imx_read_bulk_loop_spec reports ((reports ++ rest).length + 1)
      ⟨reports ++ rest, tr1 ++ [⟨.interrupt_in .hab 65, hb⟩]⟩ count [] rest rfl
      (by simp; omega) hgood htotal
  have hrun : imx_read_bulk le w addr count format
      = (0, (reports.flatMap payload).take count,
          ⟨reports.drop m ++ rest, tr1 ++ [⟨.interrupt_in .hab 65, hb⟩]
            ++ (reports.take m).map (fun r => ⟨.interrupt_in .response 65, r⟩)⟩) := by
    unfold imx_read_bulk
    simp only [hsend', if_neg (not_lt.mpr hs), hhz, lt_self_iff_false, if_false, hhu]
    rw [hres]
    simp
  refine ⟨m, hm2, hm1, by rw [hrun], by rw [hrun], by rw [hrun], ?_, hmin1, hmin2⟩
  rw [hrun, Usb.since, htr1]
  simp only [List.append_assoc, List.drop_left]
  rw [responses_append, responses_sends (send_call le (read_cmd le addr count format)) ⟨_, _, rfl⟩,
    responses_append, responses_reads]
  simp [responses]

/-- Witness of C2: four bytes read from two reports of three payload bytes
each. -/
theorem imx_read_bulk_reassembly_witness :
    1 ≤ 4 ∧
    read_ok_usb.replies = [] ++ (⟨17, []⟩ : UsbReply) :: hab_engineering ::
      ([⟨0, [4, 1, 2, 3]⟩, ⟨0, [4, 5, 6, 7]⟩] ++ [⟨0, [4, 8]⟩]) ∧
    (∃ m, m ≤ 4 ∧ m ≤ ([⟨0, [4, 1, 2, 3]⟩, ⟨0, [4, 5, 6, 7]⟩] : List UsbReply).length ∧
      (imx_read_bulk true read_ok_usb 0x1000 (4 : Nat) 0x20).1 = 0 ∧
      (imx_read_bulk true read_ok_usb 0x1000 (4 : Nat) 0x20).2.1
        = (([⟨0, [4, 1, 2, 3]⟩, ⟨0, [4, 5, 6, 7]⟩] : List UsbReply).flatMap payload).take 4 ∧
      (imx_read_bulk true read_ok_usb 0x1000 (4 : Nat) 0x20).2.2.replies
        = ([⟨0, [4, 1, 2, 3]⟩, ⟨0, [4, 5, 6, 7]⟩] : List UsbReply).drop m ++ [⟨0, [4, 8]⟩] ∧
      responses (read_ok_usb.since (imx_read_bulk true read_ok_usb 0x1000 (4 : Nat) 0x20).2.2)
        = ([⟨0, [4, 1, 2, 3]⟩, ⟨0, [4, 5, 6, 7]⟩] : List UsbReply).take m ∧
      4 ≤ ((([⟨0, [4, 1, 2, 3]⟩, ⟨0, [4, 5, 6, 7]⟩] : List UsbReply).take m).flatMap
        payload).length ∧
      ∀ j, j < m →
        ((([⟨0, [4, 1, 2, 3]⟩, ⟨0, [4, 5, 6, 7]⟩] : List UsbReply).take j).flatMap
          payload).length < 4) :=
  ⟨by decide, by decide,
    imx_read_bulk_reassembly true read_ok_usb 0x1000 4 0x20 [] ⟨17, []⟩ hab_engineering
      [⟨0, [4, 1, 2, 3]⟩, ⟨0, [4, 5, 6, 7]⟩] [⟨0, [4, 8]⟩]
      (by decide) (by decide) (by decide) (by decide) (by decide) (by decide) (by decide)
      (by decide)⟩

/-! ## The HAB read and response check shared by the write paths -/

/-- The tail shared by `imx_write_reg` and `imx_dcd_write`: the HAB read, then
the response read and its checks.  `k` builds the function result from the
return value and the transport. -/
theorem hab_response_tail {α : Type} (k : Int → Usb → α) (w2 : Usb) (buf0 : List Nat)
    (size m1 m2 m3 m4 : Nat) (hsize : 65 ≤ size) :
    ∃ (e : Int) (u : Usb),
      (if (imx_read_hab w2).1 < 0 then k (imx_read_hab w2).1 (imx_read_hab w2).2
        else
          if (libusb_interrupt_transfer (imx_read_hab w2).2 .response buf0 size).e < 0 then
            k (usb_error (libusb_interrupt_transfer (imx_read_hab w2).2 .response buf0 size).e)
              (libusb_interrupt_transfer (imx_read_hab w2).2 .response buf0 size).usb
          else if (libusb_interrupt_transfer (imx_read_hab w2).2 .response buf0 size).len ≠ 65 then
            k (-EINVAL) (libusb_interrupt_transfer (imx_read_hab w2).2 .response buf0 size).usb
          else if (libusb_interrupt_transfer (imx_read_hab w2).2 .response buf0 size).buffer.getD 0 0
              ≠ 4 then
            k (-EINVAL) (libusb_interrupt_transfer (imx_read_hab w2).2 .response buf0 size).usb
          else if (libusb_interrupt_transfer (imx_read_hab w2).2 .response buf0 size).buffer.getD 1 0
                ≠ m1 ∨
              (libusb_interrupt_transfer (imx_read_hab w2).2 .response buf0 size).buffer.getD 2 0
                ≠ m2 ∨
              (libusb_interrupt_transfer (imx_read_hab w2).2 .response buf0 size).buffer.getD 3 0
                ≠ m3 ∨
              (libusb_interrupt_transfer (imx_read_hab w2).2 .response buf0 size).buffer.getD 4 0
                ≠ m4 then
            k (-EINVAL) (libusb_interrupt_transfer (imx_read_hab w2).2 .response buf0 size).usb
          else k 0 (libusb_interrupt_transfer (imx_read_hab w2).2 .response buf0 size).usb) = k e u ∧
      ((¬ hab_ok w2.next ∧ e < 0 ∧ u = w2.step (.interrupt_in .hab 65)) ∨
        (hab_ok w2.next ∧ ¬ ack_seen size m1 m2 m3 m4 (w2.step (.interrupt_in .hab 65)).next ∧
          e < 0 ∧ ((w2.step (.interrupt_in .hab 65)).next.e < 0 →
            e = (w2.step (.interrupt_in .hab 65)).next.e) ∧
          u = (w2.step (.interrupt_in .hab 65)).step (.interrupt_in .response size)) ∨
        (hab_ok w2.next ∧ ack_seen size m1 m2 m3 m4 (w2.step (.interrupt_in .hab 65)).next ∧
          e = 0 ∧
          u = (w2.step (.interrupt_in .hab 65)).step (.interrupt_in .response size))) := by
  by_cases h3 : hab_ok w2.next
  swap
  · have hn : (imx_read_hab w2).1 < 0 := imx_read_hab_neg w2 h3
    refine ⟨(imx_read_hab w2).1, (imx_read_hab w2).2, by rw [if_pos hn], Or.inl ⟨h3, hn, ?_⟩⟩
    exact imx_read_hab_usb w2
  · have hz : (imx_read_hab w2).1 = 0 := (imx_read_hab_zero_iff w2).mpr h3
    have hz2 : ¬ (imx_read_hab w2).1 < 0 := by rw [hz]; exact lt_irrefl _
    rw [if_neg hz2, imx_read_hab_usb]
    generalize w2.step (.interrupt_in .hab 65) = w3
    have hchk := response_check_iff w3 buf0 size m1 m2 m3 m4 hsize
    have husb : (libusb_interrupt_transfer w3 .response buf0 size).usb
        = w3.step (.interrupt_in .response size) := rfl
    have he : (libusb_interrupt_transfer w3 .response buf0 size).e = w3.next.e := rfl
    by_cases h4 : ack_seen size m1 m2 m3 m4 w3.next
    · obtain ⟨c1, c2, c3, c4⟩ := hchk.mpr h4
      refine ⟨0, _, ?_, Or.inr (Or.inr ⟨h3, h4, rfl, rfl⟩)⟩
      rw [if_neg c1, if_neg c2, if_neg c3, if_neg c4, husb]
    · have hn := mt hchk.mp h4
      by_cases c1 : (libusb_interrupt_transfer w3 .response buf0 size).e < 0
      · refine ⟨_, _, by rw [if_pos c1, husb]; rfl, Or.inr (Or.inl ⟨h3, h4, c1, fun _ => rfl, rfl⟩)⟩
      · have hge : ¬ w3.next.e < 0 := by rw [← he]; exact c1
        refine ⟨-EINVAL, _, ?_, Or.inr (Or.inl ⟨h3, h4, by norm_num [EINVAL],
          fun h => absurd h hge, rfl⟩)⟩
        rw [if_neg c1]
        split_ifs with c2 c3 c4
        · rw [husb]
        · rw [husb]
        · rw [husb]
        · exact absurd ⟨c1, c2, c3, c4⟩ hn

/-! ## The single-register write -/

/-- The stages of `imx_write_reg`: the command send, the HAB read and the
response read, each reached only if the previous one succeeded. -/
theorem imx_write_reg_cases (le : Bool) (w : Usb) (addr data : Nat) (count format : Int) :
    ∃ w3 w4 : Usb,
      w3 = (imx_send_sdp le w (write_reg_cmd le addr data count format)).2.step
        (.interrupt_in .hab 65) ∧
      w4 = w3.step (.interrupt_in .response 65) ∧
      (((imx_send_sdp le w (write_reg_cmd le addr data count format)).1 < 0 ∧
          imx_write_reg le w addr data count format
            = imx_send_sdp le w (write_reg_cmd le addr data count format)) ∨
        (0 ≤ (imx_send_sdp le w (write_reg_cmd le addr data count format)).1 ∧
          ¬ hab_ok (imx_send_sdp le w (write_reg_cmd le addr data count format)).2.next ∧
          (imx_write_reg le w addr data count format).1 < 0 ∧
          (imx_write_reg le w addr data count format).2 = w3) ∨
        (0 ≤ (imx_send_sdp le w (write_reg_cmd le addr data count format)).1 ∧
          hab_ok (imx_send_sdp le w (write_reg_cmd le addr data count format)).2.next ∧
          ¬ ack_seen 65 0x12 0x8a 0x8a 0x12 w3.next ∧
          (imx_write_reg le w addr data count format).1 < 0 ∧
          (imx_write_reg le w addr data count format).2 = w4) ∨
        (0 ≤ (imx_send_sdp le w (write_reg_cmd le addr data count format)).1 ∧
          hab_ok (imx_send_sdp le w (write_reg_cmd le addr data count format)).2.next ∧
          ack_seen 65 0x12 0x8a 0x8a 0x12 w3.next ∧
          imx_write_reg le w addr data count format = (0, w4))) := by
  refine ⟨_, _, rfl, rfl, ?_⟩
  generalize hs : imx_send_sdp le w (write_reg_cmd le addr data count format) = s
  by_cases h1 : s.1 < 0
  · left
    refine ⟨h1, ?_⟩
    simp only [imx_write_reg, hs, if_pos h1]
  · right
    have h1p : 0 ≤ s.1 := not_lt.mp h1
    obtain ⟨e, u, heq, hcase⟩ := hab_response_tail Prod.mk s.2 (4 :: List.replicate 64 0) 65
      0x12 0x8a 0x8a 0x12 (le_refl _)
    have hR : imx_write_reg le w addr data count format = (e, u) := by
      simp only [imx_write_reg, hs, if_neg h1]
      exact heq
    rw [hR]
    rcases hcase with ⟨a, b, c⟩ | ⟨a, b, c, _, d⟩ | ⟨a, b, c, d⟩
    · exact Or.inl ⟨h1p, a, b, c⟩
    · exact Or.inr (Or.inl ⟨h1p, a, b, c, d⟩)
    · exact Or.inr (Or.inr ⟨h1p, a, b, by rw [c, d]⟩)

/-- What `imx_write_reg` adds to the trace. -/
theorem imx_write_reg_summary (le : Bool) (w : Usb) (addr data : Nat) (count format : Int) :
    ∃ new : List UsbEvent,
      (imx_write_reg le w addr data count format).2.trace = w.trace ++ new ∧
      ((imx_write_reg le w addr data count format).1 = 0 ∨
        (imx_write_reg le w addr data count format).1 < 0) ∧
      (∃ n, 1 ≤ n ∧ n ≤ 5 ∧ command_records new
        = List.replicate n (sdp_command_bytes le (write_reg_cmd le addr data count format))) ∧
      (delivered new
        <+: [(0x201, sdp_command_bytes le (write_reg_cmd le addr data count format))]) ∧
      ((imx_write_reg le w addr data count format).1 = 0 → delivered new
        = [(0x201, sdp_command_bytes le (write_reg_cmd le addr data count format))]) ∧
      (read_failed new → (imx_write_reg le w addr data count format).1 < 0) := by
  obtain ⟨w3, w4, hw3, hw4, hcases⟩ := imx_write_reg_cases le w addr data count format
  obtain ⟨snew, hstr, _, hsok, hsfail, _, hsrf, hscr⟩ :=
    imx_send_sdp_summary le w (write_reg_cmd le addr data count format)
  have hscr := hscr rfl
  have hv : HID_REPORT_TYPE_OUTPUT <<< 8 ||| (write_reg_cmd le addr data count format).report_id
      = 0x201 := by
    simp [HID_REPORT_TYPE_OUTPUT]
  rw [hv] at hsok
  generalize imx_send_sdp le w (write_reg_cmd le addr data count format) = s at *
  generalize imx_write_reg le w addr data count format = R at *
  have t3 : w3.trace = w.trace ++ (snew ++ [⟨.interrupt_in .hab 65, s.2.next⟩]) := by
    rw [hw3]; simp [Usb.step, hstr]
  have t4 : w4.trace = w.trace ++ (snew ++ [⟨.interrupt_in .hab 65, s.2.next⟩,
      ⟨.interrupt_in .response 65, w3.next⟩]) := by
    rw [hw4]; simp [Usb.step, t3]
  have rf_iff : ∀ (l : List UsbEvent), read_failed (snew ++ l) ↔ read_failed l := by
    intro l; rw [read_failed_append]; exact ⟨fun h => h.resolve_left hsrf, Or.inr⟩
  rcases hcases with ⟨h1, h2⟩ | ⟨h1, h2, h3, h4⟩ | ⟨h1, h2, h3, h4, h5⟩ | ⟨h1, h2, h3, h4⟩
  · refine ⟨snew, by rw [h2]; exact hstr, Or.inr (by rw [h2]; exact h1), hscr, ?_, ?_, ?_⟩
    · rw [hsfail h1]; exact List.nil_prefix
    · intro h0; rw [h2] at h0; rw [h0] at h1; exact absurd h1 (lt_irrefl _)
    · intro _; rw [h2]; exact h1
  · refine ⟨_, by rw [h4]; exact t3, Or.inr h3, ?_, ?_, ?_, fun _ => h3⟩
    · simpa [command_records] using hscr
    · rw [delivered_append, hsok h1]; simp [delivered]
    · intro _; rw [delivered_append, hsok h1]; simp [delivered]
  · refine ⟨_, by rw [h5]; exact t4, Or.inr h4, ?_, ?_, ?_, fun _ => h4⟩
    · simpa [command_records] using hscr
    · rw [delivered_append, hsok h1]; simp [delivered]
    · intro _; rw [delivered_append, hsok h1]; simp [delivered]
  · have hR1 : R.1 = 0 := by rw [h4]
    refine ⟨_, by rw [h4]; exact t4, Or.inl hR1, ?_, ?_, ?_, ?_⟩
    · simpa [command_records] using hscr
    · rw [delivered_append, hsok h1]; simp [delivered]
    · intro _; rw [delivered_append, hsok h1]; simp [delivered]
    · rw [rf_iff]
      rintro ⟨ev, hev, -, hneg⟩
      simp only [List.mem_cons, List.mem_singleton, List.not_mem_nil, or_false] at hev
      rcases hev with rfl | rfl
      · exact absurd h2.1 (not_le.mpr hneg)
      · exact absurd h3.1 (not_le.mpr hneg)

/-! ## The DCD write -/

/-- The stages of `imx_dcd_write` once the range check has passed: the command
send, the data-out report, the HAB read and the response read, each reached
only if the previous one succeeded.  The caller's array is converted before
anything is sent. -/
theorem imx_dcd_write_cases (le : Bool) (w : Usb) (data : List Nat) (count : Int)
    (hc : count ≤ 85) :
    ∃ w2 w3 w4 : Usb,
      w2 = (imx_send_sdp le w (dcd_cmd le count)).2.step
        (.control_out 0x202 (dcd_data_report le data count)) ∧
      w3 = w2.step (.interrupt_in .hab 65) ∧
      w4 = w3.step (.interrupt_in .response 1024) ∧
      (imx_dcd_write le w data count).2.1 = dcd_converted le data count ∧
      (((imx_send_sdp le w (dcd_cmd le count)).1 < 0 ∧
          (imx_dcd_write le w data count).1 = (imx_send_sdp le w (dcd_cmd le count)).1 ∧
          (imx_dcd_write le w data count).2.2 = (imx_send_sdp le w (dcd_cmd le count)).2) ∨
        (0 ≤ (imx_send_sdp le w (dcd_cmd le count)).1 ∧
          (imx_send_sdp le w (dcd_cmd le count)).2.next.e < 0 ∧
          (imx_dcd_write le w data count).1 < 0 ∧
          (imx_dcd_write le w data count).2.2 = w2) ∨
        (0 ≤ (imx_send_sdp le w (dcd_cmd le count)).1 ∧
          0 ≤ (imx_send_sdp le w (dcd_cmd le count)).2.next.e ∧
          ¬ hab_ok w2.next ∧
          (imx_dcd_write le w data count).1 < 0 ∧
          (imx_dcd_write le w data count).2.2 = w3) ∨
        (0 ≤ (imx_send_sdp le w (dcd_cmd le count)).1 ∧
          0 ≤ (imx_send_sdp le w (dcd_cmd le count)).2.next.e ∧
          hab_ok w2.next ∧ ¬ ack_seen 1024 0x12 0x8a 0x8a 0x12 w3.next ∧
          (imx_dcd_write le w data count).1 < 0 ∧
          (imx_dcd_write le w data count).2.2 = w4) ∨
        (0 ≤ (imx_send_sdp le w (dcd_cmd le count)).1 ∧
          0 ≤ (imx_send_sdp le w (dcd_cmd le count)).2.next.e ∧
          hab_ok w2.next ∧ ack_seen 1024 0x12 0x8a 0x8a 0x12 w3.next ∧
          (imx_dcd_write le w data count).1 = 0 ∧
          (imx_dcd_write le w data count).2.2 = w4)) := by
  refine ⟨_, _, _, rfl, rfl, rfl, ?_⟩
  have hc2 : ¬ count > 85 := not_lt.mpr hc
  generalize hs : imx_send_sdp le w (dcd_cmd le count) = s
  by_cases h1 : s.1 < 0
  · have hR : imx_dcd_write le w data count = (s.1, dcd_converted le data count, s.2) := by
      simp only [imx_dcd_write, if_neg hc2, hs, if_pos h1, dcd_converted]
    rw [hR]
    exact ⟨rfl, Or.inl ⟨h1, rfl, rfl⟩⟩
  · have h1p : 0 ≤ s.1 := not_lt.mp h1
    by_cases h2 : s.2.next.e < 0
    · have hR : imx_dcd_write le w data count = (s.2.next.e, dcd_converted le data count,
          s.2.step (.control_out 0x202 (dcd_data_report le data count))) := by
        simp only [imx_dcd_write, if_neg hc2, hs, if_neg h1]
        simp [libusb_control_transfer, h2, usb_error, dcd_data_report, dcd_converted,
          HID_REPORT_TYPE_OUTPUT]
      rw [hR]
      exact ⟨rfl, Or.inr (Or.inl ⟨h1p, h2, h2, rfl⟩)⟩
    · have h2p : 0 ≤ s.2.next.e := not_lt.mp h2
      obtain ⟨e, u, heq, hcase⟩ := hab_response_tail
        (fun e u => (e, dcd_converted le data count, u))
        (s.2.step (.control_out 0x202 (dcd_data_report le data count)))
        (4 :: List.replicate 1023 0) 1024 0x12 0x8a 0x8a 0x12 (by norm_num)
      have hR : imx_dcd_write le w data count = (e, dcd_converted le data count, u) := by
        rw [← heq]
        simp only [imx_dcd_write, if_neg hc2, hs, if_neg h1]
        simp only [libusb_control_transfer, if_neg h2]
        rfl
      rw [hR]
      refine ⟨rfl, Or.inr (Or.inr ?_)⟩
      rcases hcase with ⟨a, b, c⟩ | ⟨a, b, c, _, d⟩ | ⟨a, b, c, d⟩
      · exact Or.inl ⟨h1p, h2p, a, b, c⟩
      · exact Or.inr (Or.inl ⟨h1p, h2p, a, b, c, d⟩)
      · exact Or.inr (Or.inr ⟨h1p, h2p, a, b, c, d⟩)

/-- What `imx_dcd_write` adds to the trace once the range check has passed. -/
theorem imx_dcd_write_summary (le : Bool) (w : Usb) (data : List Nat) (count : Int)
    (hc : count ≤ 85) :
    ∃ new : List UsbEvent,
      (imx_dcd_write le w data count).2.2.trace = w.trace ++ new ∧
      ((imx_dcd_write le w data count).1 = 0 ∨ (imx_dcd_write le w data count).1 < 0) ∧
      (∃ n, 1 ≤ n ∧ n ≤ 5 ∧ command_records new
        = List.replicate n (sdp_command_bytes le (dcd_cmd le count))) ∧
      (delivered new <+: [(0x201, sdp_command_bytes le (dcd_cmd le count)),
        (0x202, dcd_data_report le data count)]) ∧
      ((imx_dcd_write le w data count).1 = 0 → delivered new
        = [(0x201, sdp_command_bytes le (dcd_cmd le count)),
          (0x202, dcd_data_report le data count)]) ∧
      (read_failed new → (imx_dcd_write le w data count).1 < 0) := by
  obtain ⟨w2, w3, w4, hw2, hw3, hw4, _, hcases⟩ := imx_dcd_write_cases le w data count hc
  obtain ⟨snew, hstr, _, hsok, hsfail, _, hsrf, hscr⟩ := imx_send_sdp_summary le w (dcd_cmd le count)
  have hscr := hscr rfl
  have hv : HID_REPORT_TYPE_OUTPUT <<< 8 ||| (dcd_cmd le count).report_id = 0x201 := by
    simp [HID_REPORT_TYPE_OUTPUT]
  rw [hv] at hsok
  generalize imx_send_sdp le w (dcd_cmd le count) = s at *
  generalize imx_dcd_write le w data count = R at *
  have t2 : w2.trace = w.trace
      ++ (snew ++ [⟨.control_out 0x202 (dcd_data_report le data count), s.2.next⟩]) := by
    rw [hw2]; simp [Usb.step, hstr]
  have t3 : w3.trace = w.trace
      ++ (snew ++ [⟨.control_out 0x202 (dcd_data_report le data count), s.2.next⟩,
        ⟨.interrupt_in .hab 65, w2.next⟩]) := by
    rw [hw3]; simp [Usb.step, t2]
  have t4 : w4.trace = w.trace
      ++ (snew ++ [⟨.control_out 0x202 (dcd_data_report le data count), s.2.next⟩,
        ⟨.interrupt_in .hab 65, w2.next⟩, ⟨.interrupt_in .response 1024, w3.next⟩]) := by
    rw [hw4]; simp [Usb.step, t3]
  have rf_iff : ∀ (l : List UsbEvent), read_failed (snew ++ l) ↔ read_failed l := by
    intro l; rw [read_failed_append]; exact ⟨fun h => h.resolve_left hsrf, Or.inr⟩
  rcases hcases with ⟨h1, h2, h3⟩ | ⟨h1, h2, h3, h4⟩ | ⟨h1, h2, h3, h4, h5⟩ |
    ⟨h1, h2, h3, h4, h5, h6⟩ | ⟨h1, h2, h3, h4, h5, h6⟩
  · refine ⟨snew, by rw [h3]; exact hstr, Or.inr (by rw [h2]; exact h1), hscr, ?_, ?_, ?_⟩
    · rw [hsfail h1]; exact List.nil_prefix
    · intro h0; rw [h2] at h0; rw [h0] at h1; exact absurd h1 (lt_irrefl _)
    · intro _; rw [h2]; exact h1
  · refine ⟨_, by rw [h4]; exact t2, Or.inr h3, ?_, ?_, ?_, fun _ => h3⟩
    · simpa [command_records] using hscr
    · rw [delivered_append, hsok h1]; simp [delivered, not_le.mpr h2]
    · intro h0; rw [h0] at h3; exact absurd h3 (lt_irrefl _)
  · refine ⟨_, by rw [h5]; exact t3, Or.inr h4, ?_, ?_, ?_, fun _ => h4⟩
    · simpa [command_records] using hscr
    · rw [delivered_append, hsok h1]; simp [delivered, h2]
    · intro _; rw [delivered_append, hsok h1]; simp [delivered, h2]
  · refine ⟨_, by rw [h6]; exact t4, Or.inr h5, ?_, ?_, ?_, fun _ => h5⟩
    · simpa [command_records] using hscr
    · rw [delivered_append, hsok h1]; simp [delivered, h2]
    · intro _; rw [delivered_append, hsok h1]; simp [delivered, h2]
  · refine ⟨_, by rw [h6]; exact t4, Or.inl h5, ?_, ?_, ?_, ?_⟩
    · simpa [command_records] using hscr
    · rw [delivered_append, hsok h1]; simp [delivered, h2]
    · intro _; rw [delivered_append, hsok h1]; simp [delivered, h2]
    · rw [rf_iff]
      rintro ⟨ev, hev, -, hneg⟩
      simp only [List.mem_cons, List.mem_singleton, List.not_mem_nil, or_false] at hev
      rcases hev with rfl | rfl | rfl
      · exact absurd h2 (not_le.mpr hneg)
      · exact absurd h3.1 (not_le.mpr hneg)
      · exact absurd h4.1 (not_le.mpr hneg)

/-! ## Wire images of the five commands -/

theorem htonl_zero (le : Bool) : htonl le 0 = 0 := by cases le <;> rfl

theorem write_reg_cmd_wire (le : Bool) (addr data : Nat) (count format : Int) :
    sdp_command_bytes le (write_reg_cmd le addr data count format)
      = wire_command 0x0202 addr (u8 format) (u32 count) data :=
  sdp_command_bytes_wire le 2 addr (u8 format) (u32 count) data (by norm_num)

theorem read_cmd_wire (le : Bool) (addr : Nat) (count format : Int) :
    sdp_command_bytes le (read_cmd le addr count format)
      = wire_command 0x0101 addr (u8 format) (u32 count) 0 := by
  have h := sdp_command_bytes_wire le 1 addr (u8 format) (u32 count) 0 (by norm_num)
  rw [htonl_zero] at h
  exact h

theorem write_file_cmd_wire (le : Bool) (addr : Nat) (length : Int) :
    sdp_command_bytes le (write_file_cmd le addr length)
      = wire_command 0x0404 addr 0 (u32 length) 0 := by
  have h := sdp_command_bytes_wire le 4 addr 0 (u32 length) 0 (by norm_num)
  rw [htonl_zero] at h
  exact h

theorem dcd_cmd_wire (le : Bool) (count : Int) :
    sdp_command_bytes le (dcd_cmd le count) = wire_command 0x0a0a 0 0 (u32 count) 0 := by
  have h := sdp_command_bytes_wire le 10 0 0 (u32 count) 0 (by norm_num)
  rw [htonl_zero] at h
  exact h

theorem jump_cmd_wire (le : Bool) (self : Nat) :
    sdp_command_bytes le (jump_cmd le self) = wire_command 0x0b0b self 0 0 0 := by
  have h := sdp_command_bytes_wire le 11 self 0 0 0 (by norm_num)
  rw [htonl_zero] at h
  exact h

/-! ## C10: the range check of the DCD write -/

/-- C10. `imx_dcd_write` with a count above 85 returns `-EINVAL`, a negative
value, and leaves the transport (script and trace) and the caller's array as
they were: no transfer is attempted.  With a count from 0 to 85 the range
check lets the call through: the DCD command, with that count in its count
field, is handed to the transport (one to five attempts). -/
theorem imx_dcd_write_range (le : Bool) (w : Usb) (data : List Nat) (big small : Int)
    (hbig : 85 < big) (h0 : 0 ≤ small) (h85 : small ≤ 85) :
    imx_dcd_write le w data big = (-EINVAL, data, w) ∧ -EINVAL < 0 ∧
    ∃ n, 1 ≤ n ∧ n ≤ 5 ∧
      command_records (w.since (imx_dcd_write le w data small).2.2)
        = List.replicate n (wire_command 0x0a0a 0 0 small.toNat 0) := by
  refine ⟨by simp [imx_dcd_write, hbig], by norm_num [EINVAL], ?_⟩
  obtain ⟨new, htr, _, ⟨n, hn1, hn5, hcr⟩, _⟩ := imx_dcd_write_summary le w data small h85
  refine ⟨n, hn1, hn5, ?_⟩
  rw [since_append w _ new htr, hcr, dcd_cmd_wire]
  have : u32 small = small.toNat := by unfold u32; omega
  rw [this]

/-- Witness of C10: 86 entries are refused, 85 entries are let through. -/
theorem imx_dcd_write_range_witness :
    (85 : Int) < 86 ∧ (0 : Int) ≤ 85 ∧ (85 : Int) ≤ 85 ∧
    (imx_dcd_write true bulk_ok_usb [] 86 = (-EINVAL, [], bulk_ok_usb) ∧ -EINVAL < 0 ∧
    ∃ n, 1 ≤ n ∧ n ≤ 5 ∧
      command_records (bulk_ok_usb.since (imx_dcd_write true bulk_ok_usb [] 85).2.2)
        = List.replicate n (wire_command 0x0a0a 0 0 (85 : Int).toNat 0)) :=
  ⟨by decide, by decide, by decide,
    imx_dcd_write_range true bulk_ok_usb [] 86 85 (by decide) (by decide) (by decide)⟩

/-! ## C9: the acknowledgement of a DCD write -/

/-- After a successful command send and a valid HAB status, `imx_write_reg`
succeeds exactly when its response check accepts the next reply. -/
theorem imx_write_reg_accepts (le : Bool) (tr : List UsbEvent) (fails : List UsbReply)
    (s hb r : UsbReply) (rest : List UsbReply) (addr data : Nat) (count format : Int)
    (hfl : fails.length ≤ 4) (hf : ∀ f ∈ fails, f.e < 0) (hs : 0 ≤ s.e) (hhab : hab_ok hb) :
    (imx_write_reg le ⟨fails ++ s :: hb :: r :: rest, tr⟩ addr data count format).1 = 0
      ↔ ack_seen 65 0x12 0x8a 0x8a 0x12 r := by
  obtain ⟨w3, w4, hw3, _, hcases⟩ :=
    imx_write_reg_cases le ⟨fails ++ s :: hb :: r :: rest, tr⟩ addr data count format
  have hsend := imx_send_sdp_script le (write_reg_cmd le addr data count format)
    ⟨fails ++ s :: hb :: r :: rest, tr⟩ fails s (hb :: r :: rest) rfl hfl hf hs
  rw [hsend] at hcases hw3
  have hn3 : w3.next = r := by rw [hw3]; rfl
  rw [hn3] at hcases
  generalize imx_write_reg le ⟨fails ++ s :: hb :: r :: rest, tr⟩ addr data count format = R at *
  rcases hcases with ⟨h1, _⟩ | ⟨_, h2, _⟩ | ⟨_, _, h3, h4, _⟩ | ⟨_, _, h3, h4⟩
  · exact absurd hs (not_le.mpr h1)
  · exact absurd hhab h2
  · exact ⟨fun h => absurd h (ne_of_lt h4), fun h => absurd h h3⟩
  · exact ⟨fun _ => h3, fun _ => by rw [h4]⟩

/-- After a successful command send, an accepted data-out report and a valid
HAB status, `imx_dcd_write` succeeds exactly when its response check accepts
the next reply. -/
theorem imx_dcd_write_accepts (le : Bool) (tr : List UsbEvent) (fails : List UsbReply)
    (s d hb r : UsbReply) (rest : List UsbReply) (words : List Nat) (count : Int)
    (hfl : fails.length ≤ 4) (hf : ∀ f ∈ fails, f.e < 0) (hs : 0 ≤ s.e) (hd : 0 ≤ d.e)
    (hhab : hab_ok hb) (hc : count ≤ 85) :
    (imx_dcd_write le ⟨fails ++ s :: d :: hb :: r :: rest, tr⟩ words count).1 = 0
      ↔ ack_seen 1024 0x12 0x8a 0x8a 0x12 r := by
  obtain ⟨w2, w3, w4, hw2, hw3, _, _, hcases⟩ :=
    imx_dcd_write_cases le ⟨fails ++ s :: d :: hb :: r :: rest, tr⟩ words count hc
  have hsend := imx_send_sdp_script le (dcd_cmd le count)
    ⟨fails ++ s :: d :: hb :: r :: rest, tr⟩ fails s (d :: hb :: r :: rest) rfl hfl hf hs
  rw [hsend] at hcases hw2
  have hn1 : (⟨d :: hb :: r :: rest, tr ++ (fails ++ [s]).map
      (fun rp => (⟨send_call le (dcd_cmd le count), rp⟩ : UsbEvent))⟩ : Usb).next = d := rfl
  have hn2 : w2.next = hb := by rw [hw2]; rfl
  have hn3 : w3.next = r := by rw [hw3, hw2]; rfl
  rw [hn2, hn3] at hcases
  simp only [hn1] at hcases
  generalize imx_dcd_write le ⟨fails ++ s :: d :: hb :: r :: rest, tr⟩ words count = R at *
  rcases hcases with ⟨h1, _⟩ | ⟨_, h2, _⟩ | ⟨_, _, h3, _⟩ | ⟨_, _, _, h4, h5, _⟩ | ⟨_, _, _, h4, h5, _⟩
  · exact absurd hs (not_le.mpr h1)
  · exact absurd hd (not_le.mpr h2)
  · exact absurd hhab h3
  · exact ⟨fun h => absurd h (ne_of_lt h5), fun h => absurd h h4⟩
  · exact ⟨fun _ => h4, fun _ => h5⟩

/-- C9, as the code has it.  The write-response acknowledgement `imx_dcd_write`
validates is the same as on the single-register write path: after the
command (and, for the DCD write, the data report) went out and the HAB status
was valid, a response report of at most 65 bytes is accepted by
`imx_dcd_write` exactly when it is accepted by `imx_write_reg`, namely when
the read succeeds and the report has 65 bytes, report id 4 and bytes 1 to 4
equal to 12 8a 8a 12. -/
theorem imx_dcd_write_ack_same (le : Bool) (tr : List UsbEvent) (fails : List UsbReply)
    (s d hb r : UsbReply) (rest : List UsbReply) (addr data : Nat) (count format : Int)
    (words : List Nat) (dcount : Int)
    (hfl : fails.length ≤ 4) (hf : ∀ f ∈ fails, f.e < 0) (hs : 0 ≤ s.e) (hd : 0 ≤ d.e)
    (hhab : hab_ok hb) (hc : dcount ≤ 85) (hr : r.data.length ≤ 65) :
    ((imx_dcd_write le ⟨fails ++ s :: d :: hb :: r :: rest, tr⟩ words dcount).1 = 0 ↔
      (imx_write_reg le ⟨fails ++ s :: hb :: r :: rest, tr⟩ addr data count format).1 = 0) ∧
    ((imx_dcd_write le ⟨fails ++ s :: d :: hb :: r :: rest, tr⟩ words dcount).1 = 0 ↔
      (0 ≤ r.e ∧ r.data.length = 65 ∧ r.data.take 5 = [4, 0x12, 0x8a, 0x8a, 0x12])) := by
  have h1 := imx_write_reg_accepts le tr fails s hb r rest addr data count format hfl hf hs hhab
  have h2 := imx_dcd_write_accepts le tr fails s d hb r rest words dcount hfl hf hs hd hhab hc
  have e1 : ack_seen 65 0x12 0x8a 0x8a 0x12 r ↔
      (0 ≤ r.e ∧ r.data.length = 65 ∧ r.data.take 5 = [4, 0x12, 0x8a, 0x8a, 0x12]) := by
    unfold ack_seen
    rw [List.take_of_length_le hr]
  have e2 : ack_seen 1024 0x12 0x8a 0x8a 0x12 r ↔
      (0 ≤ r.e ∧ r.data.length = 65 ∧ r.data.take 5 = [4, 0x12, 0x8a, 0x8a, 0x12]) := by
    unfold ack_seen
    rw [List.take_of_length_le (by omega)]
  exact ⟨h2.trans (e2.trans (h1.trans e1).symm), h2.trans e2⟩

/-- Witness of C9 as amended: the register-write acknowledgement, offered to
both paths. -/
theorem imx_dcd_write_ack_same_witness :
    ([] : List UsbReply).length ≤ 4 ∧ (0 : Int) ≤ (⟨17, []⟩ : UsbReply).e ∧
    hab_ok hab_engineering ∧ reg_ack.data.length ≤ 65 ∧
    (((imx_dcd_write true ⟨[] ++ ⟨17, []⟩ :: ⟨1, []⟩ :: hab_engineering :: reg_ack :: [], []⟩
        [] 0).1 = 0 ↔
      (imx_write_reg true ⟨[] ++ ⟨17, []⟩ :: hab_engineering :: reg_ack :: [], []⟩
        0x1000 7 1 0x20).1 = 0) ∧
    ((imx_dcd_write true ⟨[] ++ ⟨17, []⟩ :: ⟨1, []⟩ :: hab_engineering :: reg_ack :: [], []⟩
        [] 0).1 = 0 ↔
      (0 ≤ reg_ack.e ∧ reg_ack.data.length = 65 ∧
        reg_ack.data.take 5 = [4, 0x12, 0x8a, 0x8a, 0x12]))) :=
  ⟨by decide, by decide, by decide, by decide,
    imx_dcd_write_ack_same true [] [] ⟨17, []⟩ ⟨1, []⟩ hab_engineering reg_ack [] 0x1000 7 1 0x20
      [] 0 (by decide) (by decide) (by decide) (by decide) (by decide) (by decide) (by decide)⟩

/-- Counterexample to C9 as stated: the 65-byte report with id 4 and bytes
12 8a 8a 12 is accepted by `imx_dcd_write` and by `imx_write_reg` alike. -/
theorem imx_dcd_write_ack_not_distinct :
    reg_ack.data.length = 65 ∧ reg_ack.data.head? = some 4 ∧
    (imx_dcd_write true ⟨[⟨17, []⟩, ⟨1, []⟩, hab_engineering, reg_ack], []⟩ [] 0).1 = 0 ∧
    (imx_write_reg true ⟨[⟨17, []⟩, hab_engineering, reg_ack], []⟩ 0x1000 7 1 0x20).1 = 0 := by
  decide

/-! ## The bulk read on an arbitrary script -/

/-- On any script the read loop only adds response reads to the trace, and a
failed read makes its result negative. -/
theorem imx_read_bulk_loop_trace :
    ∀ (fuel : Nat) (w : Usb) (remaining : Int) (acc : List Nat),
      ∃ new : List UsbEvent,
        (imx_read_bulk_loop fuel w remaining acc).2.2.trace = w.trace ++ new ∧
        ((imx_read_bulk_loop fuel w remaining acc).1 = 0 ∨
          (imx_read_bulk_loop fuel w remaining acc).1 < 0) ∧
        command_records new = [] ∧ delivered new = [] ∧
        (read_failed new → (imx_read_bulk_loop fuel w remaining acc).1 < 0) := by
  intro fuel
  induction fuel with
  | zero =>
    intro w remaining acc
    refine ⟨[], by simp [imx_read_bulk_loop], Or.inr ?_, rfl, rfl, fun _ => ?_⟩ <;>
      simp [imx_read_bulk_loop, usb_error, LIBUSB_ERROR_NO_DEVICE]
  | succ fuel ih =>
    intro w remaining acc
    have hdone : ∀ R : Int × List Nat × Usb, R = (0, acc, w) →
        ∃ new : List UsbEvent, R.2.2.trace = w.trace ++ new ∧ (R.1 = 0 ∨ R.1 < 0) ∧
          command_records new = [] ∧ delivered new = [] ∧ (read_failed new → R.1 < 0) := by
      intro R hR
      refine ⟨[], by simp [hR], Or.inl (by simp [hR]), rfl, rfl, ?_⟩
      rintro ⟨ev, hev, _⟩
      exact absurd hev (List.not_mem_nil ev)
    by_cases h0 : remaining = 0
    · exact hdone _ (by simp [imx_read_bulk_loop, h0])
    · have husb : (libusb_interrupt_transfer w .response (4 :: List.replicate 64 0) 65).usb
          = w.step (.interrupt_in .response 65) := rfl
      have he : (libusb_interrupt_transfer w .response (4 :: List.replicate 64 0) 65).e
          = w.next.e := rfl
      have hstep : ∀ (rem' : Int) (acc' : List Nat),
          (0 ≤ w.next.e) →
          ∃ new : List UsbEvent,
            (imx_read_bulk_loop fuel (w.step (.interrupt_in .response 65)) rem' acc').2.2.trace
              = w.trace ++ new ∧
            ((imx_read_bulk_loop fuel (w.step (.interrupt_in .response 65)) rem' acc').1 = 0 ∨
              (imx_read_bulk_loop fuel (w.step (.interrupt_in .response 65)) rem' acc').1 < 0) ∧
            command_records new = [] ∧ delivered new = [] ∧
            (read_failed new →
              (imx_read_bulk_loop fuel (w.step (.interrupt_in .response 65)) rem' acc').1 < 0) := by
        intro rem' acc' hge
        obtain ⟨new', htr, hres, hcr, hdl, hrf⟩ :=
          ih (w.step (.interrupt_in .response 65)) rem' acc'
        refine ⟨⟨.interrupt_in .response 65, w.next⟩ :: new', ?_, hres, ?_, ?_, ?_⟩
        · rw [htr]; simp [Usb.step]
        · rw [← List.singleton_append, command_records_append, hcr]; rfl
        · rw [← List.singleton_append, delivered_append, hdl]; rfl
        · intro h
          rw [← List.singleton_append, read_failed_append] at h
          rcases h with ⟨ev, hev, -, hneg⟩ | h
          · rw [List.mem_singleton.mp hev] at hneg
            exact absurd hge (not_le.mpr hneg)
          · exact hrf h
      rw [imx_read_bulk_loop]
      simp only [ne_eq, h0, not_false_eq_true, if_true, husb, he]
      by_cases hneg : w.next.e < 0
      · rw [if_pos hneg]
        refine ⟨[⟨.interrupt_in .response 65, w.next⟩], by simp [Usb.step],
          Or.inr (by simpa [usb_error] using hneg), rfl, rfl, fun _ => by simpa [usb_error] using hneg⟩
      · rw [if_neg hneg]
        split_ifs
        · exact hstep _ _ (not_lt.mp hneg)
        · exact hstep _ _ (not_lt.mp hneg)

theorem imx_read_bulk_unfold (le : Bool) (w : Usb) (addr : Nat) (count format : Int) :
    imx_read_bulk le w addr count format =
      if (imx_send_sdp le w (read_cmd le addr count format)).1 < 0 then
        ((imx_send_sdp le w (read_cmd le addr count format)).1, [],
          (imx_send_sdp le w (read_cmd le addr count format)).2)
      else if (imx_read_hab (imx_send_sdp le w (read_cmd le addr count format)).2).1 < 0 then
        ((imx_read_hab (imx_send_sdp le w (read_cmd le addr count format)).2).1, [],
          (imx_read_hab (imx_send_sdp le w (read_cmd le addr count format)).2).2)
      else
        imx_read_bulk_loop
          ((imx_read_hab (imx_send_sdp le w (read_cmd le addr count format)).2).2.replies.length + 1)
          (imx_read_hab (imx_send_sdp le w (read_cmd le addr count format)).2).2 count [] :=
  rfl

/-- What `imx_read_bulk` adds to the trace. -/
theorem imx_read_bulk_summary (le : Bool) (w : Usb) (addr : Nat) (count format : Int) :
    ∃ new : List UsbEvent,
      (imx_read_bulk le w addr count format).2.2.trace = w.trace ++ new ∧
      ((imx_read_bulk le w addr count format).1 = 0 ∨
        (imx_read_bulk le w addr count format).1 < 0) ∧
      (∃ n, 1 ≤ n ∧ n ≤ 5 ∧ command_records new
        = List.replicate n (sdp_command_bytes le (read_cmd le addr count format))) ∧
      (delivered new <+: [(0x201, sdp_command_bytes le (read_cmd le addr count format))]) ∧
      ((imx_read_bulk le w addr count format).1 = 0 → delivered new
        = [(0x201, sdp_command_bytes le (read_cmd le addr count format))]) ∧
      (read_failed new → (imx_read_bulk le w addr count format).1 < 0) := by
  obtain ⟨snew, hstr, _, hsok, hsfail, _, hsrf, hscr⟩ :=
    imx_send_sdp_summary le w (read_cmd le addr count format)
  have hscr := hscr rfl
  have hv : HID_REPORT_TYPE_OUTPUT <<< 8 ||| (read_cmd le addr count format).report_id
      = 0x201 := by
    simp [HID_REPORT_TYPE_OUTPUT]
  rw [hv] at hsok
  have rf_iff : ∀ (l : List UsbEvent), read_failed (snew ++ l) ↔ read_failed l := by
    intro l; rw [read_failed_append]; exact ⟨fun h => h.resolve_left hsrf, Or.inr⟩
  rw [imx_read_bulk_unfold]
  generalize imx_send_sdp le w (read_cmd le addr count format) = s at *
  by_cases h1 : s.1 < 0
  · simp only [if_pos h1]
    refine ⟨snew, hstr, Or.inr h1, hscr, ?_, ?_, fun _ => h1⟩
    · rw [hsfail h1]; exact List.nil_prefix
    · intro h0; rw [h0] at h1; exact absurd h1 (lt_irrefl _)
  · simp only [if_neg h1]
    have h1p : 0 ≤ s.1 := not_lt.mp h1
    have t3 : (imx_read_hab s.2).2.trace
        = w.trace ++ (snew ++ [⟨.interrupt_in .hab 65, s.2.next⟩]) := by
      rw [imx_read_hab_trace, hstr, List.append_assoc]
    by_cases h2 : (imx_read_hab s.2).1 < 0
    · simp only [if_pos h2]
      refine ⟨_, t3, Or.inr h2, ?_, ?_, ?_, fun _ => h2⟩
      · simpa [command_records] using hscr
      · rw [delivered_append, hsok h1p]; simp [delivered]
      · intro _; rw [delivered_append, hsok h1p]; simp [delivered]
    · simp only [if_neg h2]
      have hok : hab_ok s.2.next := by
        by_contra hn
        exact h2 (imx_read_hab_neg s.2 hn)
      obtain ⟨lnew, ltr, lres, lcr, ldl, lrf⟩ :=
        imx_read_bulk_loop_trace ((imx_read_hab s.2).2.replies.length + 1) (imx_read_hab s.2).2
          count []
      refine ⟨snew ++ [⟨.interrupt_in .hab 65, s.2.next⟩] ++ lnew, ?_, lres, ?_, ?_, ?_, ?_⟩
      · rw [ltr, t3]; simp
      · rw [command_records_append, command_records_append, lcr]
        simpa [command_records] using hscr
      · rw [delivered_append, delivered_append, ldl, hsok h1p]; simp [delivered]
      · intro _; rw [delivered_append, delivered_append, ldl, hsok h1p]; simp [delivered]
      · intro h
        rw [List.append_assoc, rf_iff, read_failed_append] at h
        rcases h with ⟨ev, hev, -, hneg⟩ | h
        · rw [List.mem_singleton.mp hev] at hneg
          exact absurd hok.1 (not_le.mpr hneg)
        · exact lrf h

/-! ## The jump -/

theorem imx_image_ivt_bytes_length (le : Bool) (f : imx_image_ivt) :
    (imx_image_ivt_bytes le f).length = 32 := by
  simp [imx_image_ivt_bytes, mem32_length, mem16_length]

/-- A bulk write of 1 to 1024 bytes is a single block transaction. -/
theorem imx_write_bulk_small (le : Bool) (w : Usb) (addr : Nat) (data : List Nat) (n : Int)
    (h0 : 0 < n) (hn : n ≤ 1024) :
    imx_write_bulk le w addr data n =
      if (imx_write_bulk_block le w addr data n).1 < 0 then
        ((imx_write_bulk_block le w addr data n).1, (imx_write_bulk_block le w addr data n).2)
      else (0, (imx_write_bulk_block le w addr data n).2) := by
  unfold imx_write_bulk
  obtain ⟨m, hm⟩ : ∃ m, n.toNat = m + 1 := ⟨n.toNat - 1, by omega⟩
  have hmin : min 1024 (n - 0) = n := by omega
  have hstop : ¬ ((0 : Int) + 1024 < n) := by omega
  rw [hm, imx_write_bulk_loop]
  simp only [if_pos h0, hmin]
  split_ifs with hb
  · rfl
  · cases m with
    | zero => rfl
    | succ m => rw [imx_write_bulk_loop]; simp only [if_neg hstop]

theorem imx_jump_address_unfold (le : Bool) (w : Usb) (addr : Nat) :
    imx_jump_address le w addr =
      if (imx_write_bulk le w (imx_jump_fake addr).self
          (imx_image_ivt_bytes le (imx_jump_fake addr)) sizeof_imx_image_ivt).1 < 0 then
        ((imx_write_bulk le w (imx_jump_fake addr).self
            (imx_image_ivt_bytes le (imx_jump_fake addr)) sizeof_imx_image_ivt).1,
          (imx_write_bulk le w (imx_jump_fake addr).self
            (imx_image_ivt_bytes le (imx_jump_fake addr)) sizeof_imx_image_ivt).2)
      else if (imx_send_sdp le (imx_write_bulk le w (imx_jump_fake addr).self
          (imx_image_ivt_bytes le (imx_jump_fake addr)) sizeof_imx_image_ivt).2
          (jump_cmd le (imx_jump_fake addr).self)).1 < 0 then
        ((imx_send_sdp le (imx_write_bulk le w (imx_jump_fake addr).self
            (imx_image_ivt_bytes le (imx_jump_fake addr)) sizeof_imx_image_ivt).2
            (jump_cmd le (imx_jump_fake addr).self)).1,
          (imx_send_sdp le (imx_write_bulk le w (imx_jump_fake addr).self
            (imx_image_ivt_bytes le (imx_jump_fake addr)) sizeof_imx_image_ivt).2
            (jump_cmd le (imx_jump_fake addr).self)).2)
      else if (imx_read_hab (imx_send_sdp le (imx_write_bulk le w (imx_jump_fake addr).self
          (imx_image_ivt_bytes le (imx_jump_fake addr)) sizeof_imx_image_ivt).2
          (jump_cmd le (imx_jump_fake addr).self)).2).1 < 0 then
        ((imx_read_hab (imx_send_sdp le (imx_write_bulk le w (imx_jump_fake addr).self
            (imx_image_ivt_bytes le (imx_jump_fake addr)) sizeof_imx_image_ivt).2
            (jump_cmd le (imx_jump_fake addr).self)).2).1,
          (imx_read_hab (imx_send_sdp le (imx_write_bulk le w (imx_jump_fake addr).self
            (imx_image_ivt_bytes le (imx_jump_fake addr)) sizeof_imx_image_ivt).2
            (jump_cmd le (imx_jump_fake addr).self)).2).2)
      else if ((imx_read_hab (imx_send_sdp le (imx_write_bulk le w (imx_jump_fake addr).self
          (imx_image_ivt_bytes le (imx_jump_fake addr)) sizeof_imx_image_ivt).2
          (jump_cmd le (imx_jump_fake addr).self)).2).2.next).e < 0 then
        (0, (imx_read_hab (imx_send_sdp le (imx_write_bulk le w (imx_jump_fake addr).self
            (imx_image_ivt_bytes le (imx_jump_fake addr)) sizeof_imx_image_ivt).2
            (jump_cmd le (imx_jump_fake addr).self)).2).2.step (.interrupt_in .response 65))
      else
        (-EINVAL, (imx_read_hab (imx_send_sdp le (imx_write_bulk le w (imx_jump_fake addr).self
            (imx_image_ivt_bytes le (imx_jump_fake addr)) sizeof_imx_image_ivt).2
            (jump_cmd le (imx_jump_fake addr).self)).2).2.step (.interrupt_in .response 65)) :=
  rfl

/-- The header write of the jump is one block transaction whose reports are
the first two of `jump_reports`. -/
theorem jump_header_reports (le : Bool) (addr : Nat) :
    [(0x201, sdp_command_bytes le (write_file_cmd le (imx_jump_fake addr).self
        (sizeof_imx_image_ivt : Int))),
      (0x202, write_file_data (imx_image_ivt_bytes le (imx_jump_fake addr))
        (sizeof_imx_image_ivt : Int))]
      = (jump_reports le addr).take 2 := by
  have hlen := imx_image_ivt_bytes_length le (imx_jump_fake addr)
  have h32 : ((sizeof_imx_image_ivt : Nat) : Int) = 32 := by decide
  rw [write_file_cmd_wire, write_file_data_eq _ _ (by rw [h32]; norm_num) (by rw [h32, hlen]; decide),
    h32]
  have ht : List.take (32 : Int).toNat (imx_image_ivt_bytes le (imx_jump_fake addr))
      = imx_image_ivt_bytes le (imx_jump_fake addr) :=
    List.take_of_length_le (by rw [hlen]; decide)
  rw [ht]
  rfl

/-- What `imx_jump_address` adds to the trace. -/
theorem imx_jump_address_summary (le : Bool) (w : Usb) (addr : Nat) :
    ∃ new : List UsbEvent,
      (imx_jump_address le w addr).2.trace = w.trace ++ new ∧
      ((imx_jump_address le w addr).1 = 0 ∨ (imx_jump_address le w addr).1 < 0) ∧
      (∃ n1 n2, 1 ≤ n1 ∧ n1 ≤ 5 ∧ n2 ≤ 5 ∧ command_records new
        = List.replicate n1 (wire_command 0x0404 (imx_jump_fake addr).self 0 32 0)
          ++ List.replicate n2 (wire_command 0x0b0b (imx_jump_fake addr).self 0 0 0)) ∧
      (delivered new <+: jump_reports le addr) ∧
      ((imx_jump_address le w addr).1 = 0 →
        delivered new = jump_reports le addr ∧
        (∃ last, new.getLast? = some ⟨.interrupt_in .response 65, last⟩ ∧ last.e < 0) ∧
        ¬ read_failed new.dropLast) := by
  have h32 : ((sizeof_imx_image_ivt : Nat) : Int) = 32 := by decide
  obtain ⟨bnew, btr, bres, bok, bfail, n1, hn1, hn1', bcr⟩ :=
    imx_write_bulk_block_summary le w (imx_jump_fake addr).self
      (imx_image_ivt_bytes le (imx_jump_fake addr)) (sizeof_imx_image_ivt : Int)
      (by rw [h32]; norm_num)
  rw [jump_header_reports] at bok bfail
  rw [write_file_cmd_wire, h32] at bcr
  have hu32 : u32 32 = 32 := by decide
  rw [hu32] at bcr
  have hsmall := imx_write_bulk_small le w (imx_jump_fake addr).self
    (imx_image_ivt_bytes le (imx_jump_fake addr)) (sizeof_imx_image_ivt : Int)
    (by rw [h32]; norm_num) (by rw [h32]; norm_num)
  rw [imx_jump_address_unfold, hsmall]
  generalize imx_write_bulk_block le w (imx_jump_fake addr).self
    (imx_image_ivt_bytes le (imx_jump_fake addr)) (sizeof_imx_image_ivt : Int) = blk at *
  have hpre2 : (jump_reports le addr).take 2 <+: jump_reports le addr := List.take_prefix _ _
  rcases bres with hb0 | hbneg
  swap
  · -- the header write failed
    simp only [if_pos hbneg]
    refine ⟨bnew, btr, Or.inr hbneg, ⟨n1, 0, hn1, hn1', by norm_num, by simpa using bcr⟩, ?_, ?_⟩
    · rcases bfail hbneg with ⟨_, hp⟩ | ⟨_, _, _, hd, _⟩
      · exact hp.trans hpre2
      · rw [hd]; exact hpre2
    · intro h; rw [h] at hbneg; exact absurd hbneg (lt_irrefl _)
  · have hnn : ¬ blk.1 < 0 := by rw [hb0]; exact lt_irrefl _
    simp only [if_neg hnn, lt_self_iff_false, if_false]
    obtain ⟨hbd, _, hbrf⟩ := bok hb0
    obtain ⟨snew, hstr, _, hsok, hsfail, _, hsrf, hscr⟩ :=
      imx_send_sdp_summary le blk.2 (jump_cmd le (imx_jump_fake addr).self)
    obtain ⟨n2, _, hn2', hscr⟩ := hscr rfl
    rw [jump_cmd_wire] at hscr hsok
    have hv : HID_REPORT_TYPE_OUTPUT <<< 8 ||| (jump_cmd le (imx_jump_fake addr).self).report_id
        = 0x201 := by
      simp [HID_REPORT_TYPE_OUTPUT]
    rw [hv] at hsok
    generalize imx_send_sdp le blk.2 (jump_cmd le (imx_jump_fake addr).self) = s at *
    have hfull : (jump_reports le addr).take 2
        ++ [(0x201, wire_command 0x0b0b (imx_jump_fake addr).self 0 0 0)]
        = jump_reports le addr := rfl
    by_cases h1 : s.1 < 0
    · simp only [if_pos h1]
      refine ⟨bnew ++ snew, by rw [hstr, btr, List.append_assoc], Or.inr h1,
        ⟨n1, n2, hn1, hn1', hn2', by rw [command_records_append, bcr, hscr]⟩, ?_, ?_⟩
      · rw [delivered_append, hbd, hsfail h1, List.append_nil]; exact hpre2
      · intro h; rw [h] at h1; exact absurd h1 (lt_irrefl _)
    · simp only [if_neg h1]
      have h1p : 0 ≤ s.1 := not_lt.mp h1
      have t3 : (imx_read_hab s.2).2.trace
          = w.trace ++ (bnew ++ snew ++ [⟨.interrupt_in .hab 65, s.2.next⟩]) := by
        rw [imx_read_hab_trace, hstr, btr]; simp
      have hcr3 : command_records (bnew ++ snew ++ [⟨.interrupt_in .hab 65, s.2.next⟩])
          = List.replicate n1 (wire_command 0x0404 (imx_jump_fake addr).self 0 32 0)
            ++ List.replicate n2 (wire_command 0x0b0b (imx_jump_fake addr).self 0 0 0) := by
        rw [command_records_append, command_records_append, bcr, hscr]; simp [command_records]
      have hd3 : delivered (bnew ++ snew ++ [⟨.interrupt_in .hab 65, s.2.next⟩])
          = jump_reports le addr := by
        rw [delivered_append, delivered_append, hbd, hsok h1p, hfull]; simp [delivered]
      by_cases h2 : (imx_read_hab s.2).1 < 0
      · simp only [if_pos h2]
        refine ⟨_, t3, Or.inr h2, ⟨n1, n2, hn1, hn1', hn2', hcr3⟩, ?_, ?_⟩
        · rw [hd3]
        · intro h; rw [h] at h2; exact absurd h2 (lt_irrefl _)
      · simp only [if_neg h2]
        have hok : hab_ok s.2.next := by
          by_contra hn
          exact h2 (imx_read_hab_neg s.2 hn)
        have t4 : ((imx_read_hab s.2).2.step (.interrupt_in .response 65)).trace
            = w.trace ++ (bnew ++ snew ++ [⟨.interrupt_in .hab 65, s.2.next⟩]
              ++ [⟨.interrupt_in .response 65, (imx_read_hab s.2).2.next⟩]) := by
          simp only [Usb.step, t3, List.append_assoc]
        have hcr4 : command_records (bnew ++ snew ++ [⟨.interrupt_in .hab 65, s.2.next⟩]
              ++ [⟨.interrupt_in .response 65, (imx_read_hab s.2).2.next⟩])
            = List.replicate n1 (wire_command 0x0404 (imx_jump_fake addr).self 0 32 0)
              ++ List.replicate n2 (wire_command 0x0b0b (imx_jump_fake addr).self 0 0 0) := by
          rw [command_records_append, hcr3]; simp [command_records]
        have hd4 : delivered (bnew ++ snew ++ [⟨.interrupt_in .hab 65, s.2.next⟩]
              ++ [⟨.interrupt_in .response 65, (imx_read_hab s.2).2.next⟩])
            = jump_reports le addr := by
          rw [delivered_append, hd3]; simp [delivered]
        by_cases h3 : (imx_read_hab s.2).2.next.e < 0
        · rw [if_pos h3]
          refine ⟨_, t4, Or.inl rfl, ⟨n1, n2, hn1, hn1', hn2', hcr4⟩, by rw [hd4], fun _ =>
            ⟨hd4, ⟨_, by simp, h3⟩, ?_⟩⟩
          rw [List.dropLast_concat, read_failed_append, read_failed_append]
          rintro ((h | h) | ⟨ev, hev, -, hneg⟩)
          · exact hbrf h
          · exact hsrf h
          · rw [List.mem_singleton.mp hev] at hneg
            exact absurd hok.1 (not_le.mpr hneg)
        · rw [if_neg h3]
          refine ⟨_, t4, Or.inr (by norm_num [EINVAL]), ⟨n1, n2, hn1, hn1', hn2', hcr4⟩,
            by rw [hd4], fun h => ?_⟩
          norm_num [EINVAL] at h

/-! ## C4: layout of the command record -/

/-- C4. The command record `imx_write_reg` hands to the transport, at every
attempt of the send, is the 17 bytes `01 02 02`, the address most significant
byte first, the format tag, the count most significant byte first, the data
word most significant byte first, and `00`, on a host of either byte order.
The records of the read (`0101`), bulk-write (`0404`), DCD (`0a0a`) and jump
(`0b0b`) commands have the same layout with their unused fields zero; the
jump sends its header through the bulk-write command first. -/
theorem command_record_layout (le : Bool) (w : Usb) (addr data : Nat) (count format : Int)
    (buf : List Nat) (length : Int) (words : List Nat) (dcount : Int)
    (hlen : length ≤ 1024) (hdc : dcount ≤ 85) :
    (∃ n, 1 ≤ n ∧ n ≤ 5 ∧
      command_records (w.since (imx_write_reg le w addr data count format).2)
        = List.replicate n
          [0x01, 0x02, 0x02,
           addr / 16777216 % 256, addr / 65536 % 256, addr / 256 % 256, addr % 256,
           u8 format,
           u32 count / 16777216 % 256, u32 count / 65536 % 256, u32 count / 256 % 256,
           u32 count % 256,
           data / 16777216 % 256, data / 65536 % 256, data / 256 % 256, data % 256,
           0x00]) ∧
    (∀ code a f c d, (wire_command code a f c d).length = 17) ∧
    (∃ n, 1 ≤ n ∧ n ≤ 5 ∧
      command_records (w.since (imx_read_bulk le w addr count format).2.2)
        = List.replicate n (wire_command 0x0101 addr (u8 format) (u32 count) 0)) ∧
    (∃ n, 1 ≤ n ∧ n ≤ 5 ∧
      command_records (w.since (imx_write_bulk_block le w addr buf length).2)
        = List.replicate n (wire_command 0x0404 addr 0 (u32 length) 0)) ∧
    (∃ n, 1 ≤ n ∧ n ≤ 5 ∧
      command_records (w.since (imx_dcd_write le w words dcount).2.2)
        = List.replicate n (wire_command 0x0a0a 0 0 (u32 dcount) 0)) ∧
    (∃ n1 n2, 1 ≤ n1 ∧ n1 ≤ 5 ∧ n2 ≤ 5 ∧
      command_records (w.since (imx_jump_address le w addr).2)
        = List.replicate n1 (wire_command 0x0404 (imx_jump_fake addr).self 0 32 0)
          ++ List.replicate n2 (wire_command 0x0b0b (imx_jump_fake addr).self 0 0 0)) := by
  refine ⟨?_, wire_command_length, ?_, ?_, ?_, ?_⟩
  · obtain ⟨new, htr, _, ⟨n, h1, h5, hcr⟩, _⟩ := imx_write_reg_summary le w addr data count format
    refine ⟨n, h1, h5, ?_⟩
    rw [since_append w _ new htr, hcr, write_reg_cmd_wire]
    rfl
  · obtain ⟨new, htr, _, ⟨n, h1, h5, hcr⟩, _⟩ := imx_read_bulk_summary le w addr count format
    exact ⟨n, h1, h5, by rw [since_append w _ new htr, hcr, read_cmd_wire]⟩
  · obtain ⟨new, htr, _, _, _, ⟨n, h1, h5, hcr⟩⟩ :=
      imx_write_bulk_block_summary le w addr buf length hlen
    exact ⟨n, h1, h5, by rw [since_append w _ new htr, hcr, write_file_cmd_wire]⟩
  · obtain ⟨new, htr, _, ⟨n, h1, h5, hcr⟩, _⟩ := imx_dcd_write_summary le w words dcount hdc
    exact ⟨n, h1, h5, by rw [since_append w _ new htr, hcr, dcd_cmd_wire]⟩
  · obtain ⟨new, htr, _, ⟨n1, n2, h1, h5, h2, hcr⟩, _⟩ := imx_jump_address_summary le w addr
    exact ⟨n1, n2, h1, h5, h2, by rw [since_append w _ new htr, hcr]⟩

/-- Witness of C4: the records of the five commands on a little-endian host
whose first transfer is accepted. -/
theorem command_record_layout_witness :
    (3 : Int) ≤ 1024 ∧ (1 : Int) ≤ 85 ∧
    ((∃ n, 1 ≤ n ∧ n ≤ 5 ∧
      command_records (bulk_ok_usb.since (imx_write_reg true bulk_ok_usb 0x020e0000 0x1234 1 0x20).2)
        = List.replicate n
          [0x01, 0x02, 0x02,
           0x020e0000 / 16777216 % 256, 0x020e0000 / 65536 % 256, 0x020e0000 / 256 % 256,
           0x020e0000 % 256,
           u8 0x20,
           u32 1 / 16777216 % 256, u32 1 / 65536 % 256, u32 1 / 256 % 256,
           u32 1 % 256,
           0x1234 / 16777216 % 256, 0x1234 / 65536 % 256, 0x1234 / 256 % 256, 0x1234 % 256,
           0x00]) ∧
    (∀ code a f c d, (wire_command code a f c d).length = 17) ∧
    (∃ n, 1 ≤ n ∧ n ≤ 5 ∧
      command_records (bulk_ok_usb.since (imx_read_bulk true bulk_ok_usb 0x020e0000 1 0x20).2.2)
        = List.replicate n (wire_command 0x0101 0x020e0000 (u8 0x20) (u32 1) 0)) ∧
    (∃ n, 1 ≤ n ∧ n ≤ 5 ∧
      command_records
          (bulk_ok_usb.since (imx_write_bulk_block true bulk_ok_usb 0x020e0000 [1, 2, 3] 3).2)
        = List.replicate n (wire_command 0x0404 0x020e0000 0 (u32 3) 0)) ∧
    (∃ n, 1 ≤ n ∧ n ≤ 5 ∧
      command_records (bulk_ok_usb.since (imx_dcd_write true bulk_ok_usb [32, 0x1000, 7] 1).2.2)
        = List.replicate n (wire_command 0x0a0a 0 0 (u32 1) 0)) ∧
    (∃ n1 n2, 1 ≤ n1 ∧ n1 ≤ 5 ∧ n2 ≤ 5 ∧
      command_records (bulk_ok_usb.since (imx_jump_address true bulk_ok_usb 0x020e0000).2)
        = List.replicate n1 (wire_command 0x0404 (imx_jump_fake 0x020e0000).self 0 32 0)
          ++ List.replicate n2 (wire_command 0x0b0b (imx_jump_fake 0x020e0000).self 0 0 0))) :=
  ⟨by decide, by decide,
    command_record_layout true bulk_ok_usb 0x020e0000 0x1234 1 0x20 [1, 2, 3] 3 [32, 0x1000, 7] 1
      (by decide) (by decide)⟩

/-! ## C8: the single-register wrappers -/

/-- C8, as the code has it.  Each of the six single-register wrappers hands
the transport one command record, repeated only while the send fails (one to
five attempts), and the transport accepts it at most once.  Its format tag is
0x08, 0x10 or 0x20 according to the width.  Its count field is 1 for the three
write wrappers; for the read wrappers it is the number of bytes of the width:
4 for `imx_read_reg32`, 2 for `imx_read_reg16`, 1 for `imx_read_reg8`. -/
theorem reg_wrappers_command (le : Bool) (w : Usb) (addr value : Nat) :
    (∃ n, 1 ≤ n ∧ n ≤ 5 ∧
      command_records (w.since (imx_write_reg32 le w addr value).2)
        = List.replicate n (wire_command 0x0202 addr 0x20 1 value) ∧
      delivered (w.since (imx_write_reg32 le w addr value).2)
        <+: [(0x201, wire_command 0x0202 addr 0x20 1 value)]) ∧
    (∃ n, 1 ≤ n ∧ n ≤ 5 ∧
      command_records (w.since (imx_write_reg16 le w addr value).2)
        = List.replicate n (wire_command 0x0202 addr 0x10 1 (value % 65536)) ∧
      delivered (w.since (imx_write_reg16 le w addr value).2)
        <+: [(0x201, wire_command 0x0202 addr 0x10 1 (value % 65536))]) ∧
    (∃ n, 1 ≤ n ∧ n ≤ 5 ∧
      command_records (w.since (imx_write_reg8 le w addr value).2)
        = List.replicate n (wire_command 0x0202 addr 0x08 1 (value % 256)) ∧
      delivered (w.since (imx_write_reg8 le w addr value).2)
        <+: [(0x201, wire_command 0x0202 addr 0x08 1 (value % 256))]) ∧
    (∃ n, 1 ≤ n ∧ n ≤ 5 ∧
      command_records (w.since (imx_read_reg32 le w addr).2.2)
        = List.replicate n (wire_command 0x0101 addr 0x20 4 0) ∧
      delivered (w.since (imx_read_reg32 le w addr).2.2)
        <+: [(0x201, wire_command 0x0101 addr 0x20 4 0)]) ∧
    (∃ n, 1 ≤ n ∧ n ≤ 5 ∧
      command_records (w.since (imx_read_reg16 le w addr).2.2)
        = List.replicate n (wire_command 0x0101 addr 0x10 2 0) ∧
      delivered (w.since (imx_read_reg16 le w addr).2.2)
        <+: [(0x201, wire_command 0x0101 addr 0x10 2 0)]) ∧
    (∃ n, 1 ≤ n ∧ n ≤ 5 ∧
      command_records (w.since (imx_read_reg8 le w addr).2.2)
        = List.replicate n (wire_command 0x0101 addr 0x08 1 0) ∧
      delivered (w.since (imx_read_reg8 le w addr).2.2)
        <+: [(0x201, wire_command 0x0101 addr 0x08 1 0)]) := by
  have hw : ∀ (d : Nat) (f : Int) (fn : Nat), u8 f = fn →
      ∃ n, 1 ≤ n ∧ n ≤ 5 ∧
        command_records (w.since (imx_write_reg le w addr d 1 f).2)
          = List.replicate n (wire_command 0x0202 addr fn 1 d) ∧
        delivered (w.since (imx_write_reg le w addr d 1 f).2)
          <+: [(0x201, wire_command 0x0202 addr fn 1 d)] := by
    intro d f fn hf
    obtain ⟨new, htr, _, ⟨n, h1, h5, hcr⟩, hpre, _⟩ := imx_write_reg_summary le w addr d 1 f
    rw [write_reg_cmd_wire, hf, show u32 1 = 1 from rfl] at hcr hpre
    exact ⟨n, h1, h5, by rw [since_append w _ new htr, hcr], by rw [since_append w _ new htr]; exact hpre⟩
  have hr : ∀ (c f : Int) (cn fn : Nat), u32 c = cn → u8 f = fn →
      ∃ n, 1 ≤ n ∧ n ≤ 5 ∧
        command_records (w.since (imx_read_bulk le w addr c f).2.2)
          = List.replicate n (wire_command 0x0101 addr fn cn 0) ∧
        delivered (w.since (imx_read_bulk le w addr c f).2.2)
          <+: [(0x201, wire_command 0x0101 addr fn cn 0)] := by
    intro c f cn fn hc hf
    obtain ⟨new, htr, _, ⟨n, h1, h5, hcr⟩, hpre, _⟩ := imx_read_bulk_summary le w addr c f
    rw [read_cmd_wire, hf, hc] at hcr hpre
    exact ⟨n, h1, h5, by rw [since_append w _ new htr, hcr], by rw [since_append w _ new htr]; exact hpre⟩
  exact ⟨hw value 0x20 0x20 rfl, hw (value % 65536) 0x10 0x10 rfl, hw (value % 256) 0x8 0x08 rfl,
    hr 4 0x20 4 0x20 rfl rfl, hr 2 0x10 2 0x10 rfl rfl, hr 1 0x08 1 0x08 rfl rfl⟩

/-- Counterexample to C8 as stated: the command of `imx_read_reg32` carries
the count 4, not 1. -/
theorem imx_read_reg32_count_not_one :
    command_records (read_ok_usb.since (imx_read_reg32 true read_ok_usb 0x020e0000).2.2)
      = [[0x01, 0x01, 0x01, 0x02, 0x0e, 0x00, 0x00, 0x20, 0x00, 0x00, 0x00, 0x04,
          0x00, 0x00, 0x00, 0x00, 0x00]] ∧
    command_records (read_ok_usb.since (imx_read_reg32 true read_ok_usb 0x020e0000).2.2)
      ≠ [wire_command 0x0101 0x020e0000 0x20 1 0] := by
  decide

/-! ## C5: the header and the command of a jump -/

/-- C5, as the code has it.  For a target address `addr`, `imx_jump_address`
builds a header of exactly 32 bytes, `sizeof(struct imx_image_ivt)`: tag,
length and version, then `entry = addr` at offset 4 and
`self = addr - 32` modulo `2^32` at offset 20, both in host byte order, every
other word zero.  The output reports the transport accepts are, in this
order and never more, the write-file command for 32 bytes at `self`, the
data-out report carrying the 32 header bytes, and the command `0b0b` whose
address field is `self`; a jump that returns 0 has sent all three. -/
theorem imx_jump_address_header (le : Bool) (w : Usb) (addr : Nat) :
    (imx_image_ivt_bytes le (imx_jump_fake addr)).length = 32 ∧
    imx_image_ivt_bytes le (imx_jump_fake addr)
      = [0xD1] ++ mem16 le 0x2000 ++ [0x40] ++ mem32 le addr ++ [0, 0, 0, 0, 0, 0, 0, 0, 0, 0, 0, 0]
        ++ mem32 le ((addr + (4294967296 - 32)) % 4294967296) ++ [0, 0, 0, 0, 0, 0, 0, 0] ∧
    (imx_jump_fake addr).entry = addr ∧
    (imx_jump_fake addr).self = (addr + (4294967296 - 32)) % 4294967296 ∧
    (32 ≤ addr → addr < 4294967296 → (imx_jump_fake addr).self = addr - 32) ∧
    delivered (w.since (imx_jump_address le w addr).2)
      <+: [(0x201, wire_command 0x0404 (imx_jump_fake addr).self 0 32 0),
           (0x202, 2 :: imx_image_ivt_bytes le (imx_jump_fake addr)),
           (0x201, wire_command 0x0b0b (imx_jump_fake addr).self 0 0 0)] ∧
    ((imx_jump_address le w addr).1 = 0 →
      delivered (w.since (imx_jump_address le w addr).2)
        = [(0x201, wire_command 0x0404 (imx_jump_fake addr).self 0 32 0),
           (0x202, 2 :: imx_image_ivt_bytes le (imx_jump_fake addr)),
           (0x201, wire_command 0x0b0b (imx_jump_fake addr).self 0 0 0)]) := by
  obtain ⟨new, htr, _, _, hpre, hok⟩ := imx_jump_address_summary le w addr
  have hz : mem32 le 0 = [0, 0, 0, 0] := by cases le <;> rfl
  refine ⟨imx_image_ivt_bytes_length le _, ?_, rfl, rfl, ?_, ?_, ?_⟩
  · simp [imx_image_ivt_bytes, imx_jump_fake, hz, IMX_IMAGE_TAG_FILE_HEADER,
      IMX_IMAGE_FILE_HEADER_LENGTH, IMX_IMAGE_VERSION, sizeof_imx_image_ivt]
  · intro h1 h2
    simp only [imx_jump_fake, sizeof_imx_image_ivt]
    omega
  · rw [since_append w _ new htr]; exact hpre
  · intro h; rw [since_append w _ new htr]; exact (hok h).1

/-- Witness of C5 as amended: the jump to 0x10800000 over a device that
accepts everything and then falls silent. -/
theorem imx_jump_address_header_witness :
    (imx_jump_address true jump_ok_usb 0x10800000).1 = 0 ∧ 32 ≤ 0x10800000 ∧
    0x10800000 < 4294967296 ∧
    ((imx_image_ivt_bytes true (imx_jump_fake 0x10800000)).length = 32 ∧
    imx_image_ivt_bytes true (imx_jump_fake 0x10800000)
      = [0xD1] ++ mem16 true 0x2000 ++ [0x40] ++ mem32 true 0x10800000
        ++ [0, 0, 0, 0, 0, 0, 0, 0, 0, 0, 0, 0]
        ++ mem32 true ((0x10800000 + (4294967296 - 32)) % 4294967296)
        ++ [0, 0, 0, 0, 0, 0, 0, 0] ∧
    (imx_jump_fake 0x10800000).entry = 0x10800000 ∧
    (imx_jump_fake 0x10800000).self = (0x10800000 + (4294967296 - 32)) % 4294967296 ∧
    (32 ≤ 0x10800000 → 0x10800000 < 4294967296 →
      (imx_jump_fake 0x10800000).self = 0x10800000 - 32) ∧
    delivered (jump_ok_usb.since (imx_jump_address true jump_ok_usb 0x10800000).2)
      <+: [(0x201, wire_command 0x0404 (imx_jump_fake 0x10800000).self 0 32 0),
           (0x202, 2 :: imx_image_ivt_bytes true (imx_jump_fake 0x10800000)),
           (0x201, wire_command 0x0b0b (imx_jump_fake 0x10800000).self 0 0 0)] ∧
    ((imx_jump_address true jump_ok_usb 0x10800000).1 = 0 →
      delivered (jump_ok_usb.since (imx_jump_address true jump_ok_usb 0x10800000).2)
        = [(0x201, wire_command 0x0404 (imx_jump_fake 0x10800000).self 0 32 0),
           (0x202, 2 :: imx_image_ivt_bytes true (imx_jump_fake 0x10800000)),
           (0x201, wire_command 0x0b0b (imx_jump_fake 0x10800000).self 0 0 0)])) :=
  ⟨by decide, by decide, by decide, imx_jump_address_header true jump_ok_usb 0x10800000⟩

/-- Counterexample to C5 as stated: for the jump to 0x10800000 the header has
32 bytes, not 24, and it is written, and the jump command addressed, at
`0x10800000 - 32 = 0x107fffe0`, not at `0x10800000 - 24`. -/
theorem imx_jump_address_header_not_24 :
    (imx_image_ivt_bytes true (imx_jump_fake 0x10800000)).length ≠ 24 ∧
    (imx_jump_fake 0x10800000).self ≠ 0x10800000 - 24 ∧
    delivered (jump_ok_usb.since (imx_jump_address true jump_ok_usb 0x10800000).2)
      = [(0x201, [0x01, 0x04, 0x04, 0x10, 0x7f, 0xff, 0xe0, 0x00, 0x00, 0x00, 0x00, 0x20,
            0x00, 0x00, 0x00, 0x00, 0x00]),
         (0x202, [0x02, 0xd1, 0x00, 0x20, 0x40, 0x00, 0x00, 0x80, 0x10, 0, 0, 0, 0, 0, 0, 0, 0,
            0, 0, 0, 0, 0xe0, 0xff, 0x7f, 0x10, 0, 0, 0, 0, 0, 0, 0, 0]),
         (0x201, [0x01, 0x0b, 0x0b, 0x10, 0x7f, 0xff, 0xe0, 0x00, 0x00, 0x00, 0x00, 0x00,
            0x00, 0x00, 0x00, 0x00, 0x00])] := by
  decide

/-! ## C6: the one read failure that means success -/

/-- The result of a jump whose header write succeeded, whose command went out
within five attempts and whose HAB status was valid is decided by the one
further read. -/
theorem imx_jump_address_final_read (le : Bool) (w : Usb) (addr : Nat)
    (fails : List UsbReply) (s hb r : UsbReply) (rest : List UsbReply)
    (hb0 : 0 ≤ (imx_write_bulk le w (imx_jump_fake addr).self
      (imx_image_ivt_bytes le (imx_jump_fake addr)) sizeof_imx_image_ivt).1)
    (hrep : (imx_write_bulk le w (imx_jump_fake addr).self
      (imx_image_ivt_bytes le (imx_jump_fake addr)) sizeof_imx_image_ivt).2.replies
        = fails ++ s :: hb :: r :: rest)
    (hfl : fails.length ≤ 4) (hf : ∀ f ∈ fails, f.e < 0) (hs : 0 ≤ s.e) (hhab : hab_ok hb) :
    (imx_jump_address le w addr).1 = if r.e < 0 then 0 else -EINVAL := by
  rw [imx_jump_address_unfold]
  generalize imx_write_bulk le w (imx_jump_fake addr).self
    (imx_image_ivt_bytes le (imx_jump_fake addr)) sizeof_imx_image_ivt = b at *
  have hsend := imx_send_sdp_script le (jump_cmd le (imx_jump_fake addr).self) b.2 fails s
    (hb :: r :: rest) hrep hfl hf hs
  rw [hsend]
  generalize b.2.trace ++ (fails ++ [s]).map
    (fun rp => (⟨send_call le (jump_cmd le (imx_jump_fake addr).self), rp⟩ : UsbEvent)) = tr1
  have hhz : (imx_read_hab ⟨hb :: r :: rest, tr1⟩).1 = 0 :=
    (imx_read_hab_zero_iff _).mpr hhab
  have hnext : (imx_read_hab ⟨hb :: r :: rest, tr1⟩).2.next = r := by
    rw [imx_read_hab_usb]; rfl
  simp only [if_neg (not_lt.mpr hb0), if_neg (not_lt.mpr hs), hhz, lt_self_iff_false, if_false,
    hnext]
  split_ifs <;> rfl

/-- C6. Once the header write has succeeded, the jump command has gone out
(within the five attempts of the send) and the HAB status read has succeeded,
`imx_jump_address` returns 0 if the one further response read fails at
transport level and the negative `-EINVAL` if that read succeeds, whatever it
delivers.  A jump that returns 0 ends with that failed response read, and no
earlier read of it failed.  This is the only such case: in `imx_read_hab`,
`imx_write_reg`, `imx_dcd_write`, `imx_write_bulk_block`, `imx_write_bulk`
and `imx_read_bulk` a failed interrupt read always gives a negative
result. -/
theorem imx_jump_address_inversion (le : Bool) (w : Usb) (addr : Nat)
    (fails : List UsbReply) (s hb r : UsbReply) (rest : List UsbReply)
    (hb0 : 0 ≤ (imx_write_bulk le w (imx_jump_fake addr).self
      (imx_image_ivt_bytes le (imx_jump_fake addr)) sizeof_imx_image_ivt).1)
    (hrep : (imx_write_bulk le w (imx_jump_fake addr).self
      (imx_image_ivt_bytes le (imx_jump_fake addr)) sizeof_imx_image_ivt).2.replies
        = fails ++ s :: hb :: r :: rest)
    (hfl : fails.length ≤ 4) (hf : ∀ f ∈ fails, f.e < 0) (hs : 0 ≤ s.e) (hhab : hab_ok hb) :
    (imx_jump_address le w addr).1 = (if r.e < 0 then 0 else -EINVAL) ∧ -EINVAL < 0 ∧
    (∀ w0, (imx_jump_address le w0 addr).1 = 0 →
      (∃ last, (w0.since (imx_jump_address le w0 addr).2).getLast?
          = some ⟨.interrupt_in .response 65, last⟩ ∧ last.e < 0) ∧
      ¬ read_failed (w0.since (imx_jump_address le w0 addr).2).dropLast) ∧
    (∀ w0, read_failed (w0.since (imx_read_hab w0).2) → (imx_read_hab w0).1 < 0) ∧
    (∀ w0 a d c f, read_failed (w0.since (imx_write_reg le w0 a d c f).2) →
      (imx_write_reg le w0 a d c f).1 < 0) ∧
    (∀ w0 words c, read_failed (w0.since (imx_dcd_write le w0 words c).2.2) →
      (imx_dcd_write le w0 words c).1 < 0) ∧
    (∀ w0 a buf n, read_failed (w0.since (imx_write_bulk_block le w0 a buf n).2) →
      (imx_write_bulk_block le w0 a buf n).1 < 0) ∧
    (∀ w0 a buf, read_failed (w0.since (imx_write_bulk le w0 a buf buf.length).2) →
      (imx_write_bulk le w0 a buf buf.length).1 < 0) ∧
    (∀ w0 a c f, read_failed (w0.since (imx_read_bulk le w0 a c f).2.2) →
      (imx_read_bulk le w0 a c f).1 < 0) := by
  have hnone : ∀ w0 : Usb, ¬ read_failed (w0.since w0) := by
    intro w0
    rintro ⟨ev, hev, _⟩
    simp [Usb.since] at hev
  refine ⟨?_, by norm_num [EINVAL], ?_, ?_, ?_, ?_, ?_, ?_, ?_⟩
  · exact imx_jump_address_final_read le w addr fails s hb r rest hb0 hrep hfl hf hs hhab
  · intro w0 h0
    obtain ⟨new, htr, _, _, _, hok⟩ := imx_jump_address_summary le w0 addr
    rw [since_append w0 _ new htr]
    exact (hok h0).2
  · intro w0 h
    rw [since_append w0 _ _ (imx_read_hab_trace w0)] at h
    obtain ⟨ev, hev, -, hneg⟩ := h
    rw [List.mem_singleton.mp hev] at hneg
    apply imx_read_hab_neg
    intro hok
    exact absurd hok.1 (not_le.mpr hneg)
  · intro w0 a d c f h
    obtain ⟨new, htr, _, _, _, _, hrf⟩ := imx_write_reg_summary le w0 a d c f
    rw [since_append w0 _ new htr] at h
    exact hrf h
  · intro w0 words c h
    by_cases hc : c ≤ 85
    · obtain ⟨new, htr, _, _, _, _, hrf⟩ := imx_dcd_write_summary le w0 words c hc
      rw [since_append w0 _ new htr] at h
      exact hrf h
    · have hR : imx_dcd_write le w0 words c = (-EINVAL, words, w0) := by
        simp [imx_dcd_write, not_le.mp hc]
      rw [hR] at h ⊢
      exact absurd h (hnone w0)
  · intro w0 a buf n h
    by_cases hn : n ≤ 1024
    · obtain ⟨new, htr, hres, hok, _, _⟩ := imx_write_bulk_block_summary le w0 a buf n hn
      rw [since_append w0 _ new htr] at h
      rcases hres with h0 | hneg
      · exact absurd h (hok h0).2.2
      · exact hneg
    · have hR : imx_write_bulk_block le w0 a buf n = (-EINVAL, w0) := by
        simp [imx_write_bulk_block, not_le.mp hn]
      rw [hR] at h ⊢
      exact absurd h (hnone w0)
  · intro w0 a buf h
    obtain ⟨new, htr, hres, hok, _, _⟩ := imx_write_bulk_summary le w0 a buf
    rw [since_append w0 _ new htr] at h
    rcases hres with h0 | hneg
    · exact absurd h (hok h0).2.2.2
    · exact hneg
  · intro w0 a c f h
    obtain ⟨new, htr, _, _, _, _, hrf⟩ := imx_read_bulk_summary le w0 a c f
    rw [since_append w0 _ new htr] at h
    exact hrf h

/-- Witness of C6: the jump to 0x10800000 over a device that accepts the
header and the command and then is gone. -/
theorem imx_jump_address_inversion_witness :
    0 ≤ (imx_write_bulk true jump_ok_usb (imx_jump_fake 0x10800000).self
      (imx_image_ivt_bytes true (imx_jump_fake 0x10800000)) sizeof_imx_image_ivt).1 ∧
    (imx_write_bulk true jump_ok_usb (imx_jump_fake 0x10800000).self
      (imx_image_ivt_bytes true (imx_jump_fake 0x10800000)) sizeof_imx_image_ivt).2.replies
        = [] ++ (⟨17, []⟩ : UsbReply) :: hab_engineering :: ⟨LIBUSB_ERROR_NO_DEVICE, []⟩ :: [] ∧
    hab_ok hab_engineering ∧
    ((imx_jump_address true jump_ok_usb 0x10800000).1
      = (if (⟨LIBUSB_ERROR_NO_DEVICE, []⟩ : UsbReply).e < 0 then 0 else -EINVAL) ∧ -EINVAL < 0 ∧
    (∀ w0, (imx_jump_address true w0 0x10800000).1 = 0 →
      (∃ last, (w0.since (imx_jump_address true w0 0x10800000).2).getLast?
          = some ⟨.interrupt_in .response 65, last⟩ ∧ last.e < 0) ∧
      ¬ read_failed (w0.since (imx_jump_address true w0 0x10800000).2).dropLast) ∧
    (∀ w0, read_failed (w0.since (imx_read_hab w0).2) → (imx_read_hab w0).1 < 0) ∧
    (∀ w0 a d c f, read_failed (w0.since (imx_write_reg true w0 a d c f).2) →
      (imx_write_reg true w0 a d c f).1 < 0) ∧
    (∀ w0 words c, read_failed (w0.since (imx_dcd_write true w0 words c).2.2) →
      (imx_dcd_write true w0 words c).1 < 0) ∧
    (∀ w0 a buf n, read_failed (w0.since (imx_write_bulk_block true w0 a buf n).2) →
      (imx_write_bulk_block true w0 a buf n).1 < 0) ∧
    (∀ w0 a buf, read_failed (w0.since (imx_write_bulk true w0 a buf buf.length).2) →
      (imx_write_bulk true w0 a buf buf.length).1 < 0) ∧
    (∀ w0 a c f, read_failed (w0.since (imx_read_bulk true w0 a c f).2.2) →
      (imx_read_bulk true w0 a c f).1 < 0)) :=
  ⟨by decide, by decide, by decide,
    imx_jump_address_inversion true jump_ok_usb 0x10800000 [] ⟨17, []⟩ hab_engineering
      ⟨LIBUSB_ERROR_NO_DEVICE, []⟩ [] (by decide) (by decide) (by decide) (by decide) (by decide)
      (by decide)⟩

/-! ## C11: the bounded retry of the command send -/

theorem outcome_zero (w : Usb) : w.outcome 0 = w.next := rfl

theorem outcome_step (w : Usb) (c : UsbCall) (k : Nat) :
    (w.step c).outcome k = w.outcome (k + 1) := by
  simp [Usb.outcome, Usb.step]

/-- The send loop stops at its first attempt that does not fail. -/
theorem imx_send_sdp_loop_first_success (le : Bool) (cmd : sdp_command) :
    ∀ (j n : Nat) (e : Int) (w : Usb), j < n → (∀ i, i < j → (w.outcome i).e < 0) →
      0 ≤ (w.outcome j).e →
      imx_send_sdp_loop le cmd n e w
        = ((w.outcome j).e, ⟨w.replies.drop (j + 1),
            w.trace ++ (List.range (j + 1)).map (fun i => ⟨send_call le cmd, w.outcome i⟩)⟩) := by
  have hb : (sdp_command_bytes le cmd).take 17 = sdp_command_bytes le cmd :=
    List.take_of_length_le (le_of_eq (sdp_command_bytes_length le cmd))
  intro j
  induction j with
  | zero =>
    intro n e w hn _ hok
    obtain ⟨m, rfl⟩ : ∃ m, n = m + 1 := ⟨n - 1, by omega⟩
    rw [outcome_zero] at hok
    simp [imx_send_sdp_loop, libusb_control_transfer, hok, hb, send_call, Usb.step, outcome_zero]
    rfl
  | succ j ih =>
    intro n e w hn hfail hok
    obtain ⟨m, rfl⟩ : ∃ m, n = m + 1 := ⟨n - 1, by omega⟩
    have h0 : ¬ 0 ≤ w.next.e := by
      have := hfail 0 (Nat.succ_pos j)
      rw [outcome_zero] at this
      exact not_le.mpr this
    have hunf : imx_send_sdp_loop le cmd (m + 1) e w
        = imx_send_sdp_loop le cmd m w.next.e (w.step (send_call le cmd)) := by
      simp [imx_send_sdp_loop, libusb_control_transfer, h0, hb, send_call]
    rw [hunf, ih m w.next.e (w.step (send_call le cmd)) (by omega)
      (fun i hi => by rw [outcome_step]; exact hfail (i + 1) (by omega))
      (by rw [outcome_step]; exact hok)]
    simp only [outcome_step]
    rw [List.range_succ_eq_map (j + 1), List.map_cons, List.map_map]
    simp [Usb.step, outcome_zero]

/-- The send loop gives up when its counter reaches zero, with the result of
the last attempt. -/
theorem imx_send_sdp_loop_all_fail (le : Bool) (cmd : sdp_command) :
    ∀ (n : Nat) (e : Int) (w : Usb), (∀ i, i < n + 1 → (w.outcome i).e < 0) →
      imx_send_sdp_loop le cmd (n + 1) e w
        = ((w.outcome n).e, ⟨w.replies.drop (n + 1),
            w.trace ++ (List.range (n + 1)).map (fun i => ⟨send_call le cmd, w.outcome i⟩)⟩) := by
  have hb : (sdp_command_bytes le cmd).take 17 = sdp_command_bytes le cmd :=
    List.take_of_length_le (le_of_eq (sdp_command_bytes_length le cmd))
  intro n
  induction n with
  | zero =>
    intro e w hall
    have h0 : ¬ 0 ≤ w.next.e := by
      have := hall 0 (by norm_num)
      rw [outcome_zero] at this
      exact not_le.mpr this
    simp [imx_send_sdp_loop, libusb_control_transfer, h0, hb, send_call, Usb.step, outcome_zero,
      usb_error]
    rfl
  | succ n ih =>
    intro e w hall
    have h0 : ¬ 0 ≤ w.next.e := by
      have := hall 0 (by omega)
      rw [outcome_zero] at this
      exact not_le.mpr this
    have hunf : imx_send_sdp_loop le cmd (n + 1 + 1) e w
        = imx_send_sdp_loop le cmd (n + 1) w.next.e (w.step (send_call le cmd)) := by
      simp [imx_send_sdp_loop, libusb_control_transfer, h0, hb, send_call]
    rw [hunf, ih w.next.e (w.step (send_call le cmd))
      (fun i hi => by rw [outcome_step]; exact hall (i + 1) (by omega))]
    simp only [outcome_step]
    rw [List.range_succ_eq_map (n + 1), List.map_cons, List.map_map]
    simp [Usb.step, outcome_zero]

/-- C11. `imx_send_sdp` repeats the same control transfer until the first
attempt that does not fail and never more than five times.  If the attempt
number `j + 1` (with `j < 5`) is the first to succeed, it returns the
non-negative result of that attempt and has made exactly `j + 1` attempts; if
the first five attempts all fail it returns the negative result of the fifth
and has made exactly five.  The outcomes are those of the script, a device
that is gone failing every attempt. -/
theorem imx_send_sdp_attempts (le : Bool) (cmd : sdp_command) (w1 w2 : Usb) (j : Nat)
    (hj : j < 5) (hfail : ∀ i, i < j → (w1.outcome i).e < 0) (hok : 0 ≤ (w1.outcome j).e)
    (hall : ∀ i, i < 5 → (w2.outcome i).e < 0) :
    (imx_send_sdp le w1 cmd).1 = (w1.outcome j).e ∧
    w1.since (imx_send_sdp le w1 cmd).2
      = (List.range (j + 1)).map (fun i => ⟨send_call le cmd, w1.outcome i⟩) ∧
    (w1.since (imx_send_sdp le w1 cmd).2).length = j + 1 ∧
    (imx_send_sdp le w1 cmd).2.replies = w1.replies.drop (j + 1) ∧
    (imx_send_sdp le w2 cmd).1 = (w2.outcome 4).e ∧ (imx_send_sdp le w2 cmd).1 < 0 ∧
    w2.since (imx_send_sdp le w2 cmd).2
      = (List.range 5).map (fun i => ⟨send_call le cmd, w2.outcome i⟩) ∧
    (w2.since (imx_send_sdp le w2 cmd).2).length = 5 ∧
    (imx_send_sdp le w2 cmd).2.replies = w2.replies.drop 5 := by
  have h1 : imx_send_sdp le w1 cmd = _ :=
    imx_send_sdp_loop_first_success le cmd j 5 0 w1 hj hfail hok
  have h2 : imx_send_sdp le w2 cmd = _ := imx_send_sdp_loop_all_fail le cmd 4 0 w2 hall
  rw [h1, h2]
  refine ⟨rfl, ?_, ?_, rfl, rfl, hall 4 (by norm_num), ?_, ?_, rfl⟩
  · exact since_append w1 _ _ rfl
  · rw [since_append w1 _ _ rfl]; simp
  · exact since_append w2 _ _ rfl
  · rw [since_append w2 _ _ rfl]; simp

/-- Witness of C11: a send that succeeds at its third attempt, and a send to
a device that is gone after two failed attempts. -/
theorem imx_send_sdp_attempts_witness :
    2 < 5 ∧ (∀ i, i < 2 → (send_retry_usb.outcome i).e < 0) ∧
    0 ≤ (send_retry_usb.outcome 2).e ∧
    (∀ i, i < 5 → (send_gone_usb.outcome i).e < 0) ∧
    ((imx_send_sdp true send_retry_usb (read_cmd true 0x020e0000 4 0x20)).1
      = (send_retry_usb.outcome 2).e ∧
    send_retry_usb.since (imx_send_sdp true send_retry_usb (read_cmd true 0x020e0000 4 0x20)).2
      = (List.range (2 + 1)).map
          (fun i => ⟨send_call true (read_cmd true 0x020e0000 4 0x20), send_retry_usb.outcome i⟩) ∧
    (send_retry_usb.since
      (imx_send_sdp true send_retry_usb (read_cmd true 0x020e0000 4 0x20)).2).length = 2 + 1 ∧
    (imx_send_sdp true send_retry_usb (read_cmd true 0x020e0000 4 0x20)).2.replies
      = send_retry_usb.replies.drop (2 + 1) ∧
    (imx_send_sdp true send_gone_usb (read_cmd true 0x020e0000 4 0x20)).1
      = (send_gone_usb.outcome 4).e ∧
    (imx_send_sdp true send_gone_usb (read_cmd true 0x020e0000 4 0x20)).1 < 0 ∧
    send_gone_usb.since (imx_send_sdp true send_gone_usb (read_cmd true 0x020e0000 4 0x20)).2
      = (List.range 5).map
          (fun i => ⟨send_call true (read_cmd true 0x020e0000 4 0x20), send_gone_usb.outcome i⟩) ∧
    (send_gone_usb.since
      (imx_send_sdp true send_gone_usb (read_cmd true 0x020e0000 4 0x20)).2).length = 5 ∧
    (imx_send_sdp true send_gone_usb (read_cmd true 0x020e0000 4 0x20)).2.replies
      = send_gone_usb.replies.drop 5) :=
  ⟨by decide, by decide, by decide, by decide,
    imx_send_sdp_attempts true (read_cmd true 0x020e0000 4 0x20) send_retry_usb send_gone_usb 2
      (by decide) (by decide) (by decide) (by decide)⟩

/-! ## C12: the HAB status read inside every transaction -/

/-- A send only adds output reports to the trace, one of them accepted if it
succeeds and none if it fails. -/
theorem imx_send_sdp_outs (le : Bool) (w : Usb) (cmd : sdp_command) :
    ∃ new : List UsbEvent,
      (imx_send_sdp le w cmd).2.trace = w.trace ++ new ∧
      (∀ ev ∈ new, is_out ev = true) ∧
      (0 ≤ (imx_send_sdp le w cmd).1 → (delivered new).length = 1) ∧
      ((imx_send_sdp le w cmd).1 < 0 → (delivered new).length = 0) := by
  obtain ⟨used, -, -, htr, -, -⟩ := imx_send_sdp_spec le w cmd
  refine ⟨_, htr, ?_, ?_, ?_⟩
  · intro ev hev
    obtain ⟨rp, -, rfl⟩ := List.mem_map.mp hev
    rfl
  · intro h
    have hd := (imx_send_sdp_delivered le w cmd).1 h
    rw [htr, delivered_append] at hd
    rw [List.append_cancel_left hd]
    rfl
  · intro h
    have hd := (imx_send_sdp_delivered le w cmd).2 h
    rw [htr, delivered_append] at hd
    have : delivered (used.map (fun rp => (⟨send_call le cmd, rp⟩ : UsbEvent))) = [] :=
      List.append_cancel_left (hd.trans (List.append_nil _).symm)
    rw [this]
    rfl

/-- On any script the read loop only adds reads of the response to the trace. -/
theorem imx_read_bulk_loop_reads :
    ∀ (fuel : Nat) (w : Usb) (remaining : Int) (acc : List Nat),
      ∃ new : List UsbEvent,
        (imx_read_bulk_loop fuel w remaining acc).2.2.trace = w.trace ++ new ∧
        ∀ ev ∈ new, is_response_read ev = true := by
  intro fuel
  induction fuel with
  | zero =>
    intro w remaining acc
    exact ⟨[], by simp [imx_read_bulk_loop], fun ev hev => absurd hev (List.not_mem_nil ev)⟩
  | succ fuel ih =>
    intro w remaining acc
    have husb : (libusb_interrupt_transfer w .response (4 :: List.replicate 64 0) 65).usb
        = w.step (.interrupt_in .response 65) := rfl
    have hstep : ∀ (rem1 : Int) (acc1 : List Nat),
        ∃ new : List UsbEvent,
          (imx_read_bulk_loop fuel (w.step (.interrupt_in .response 65)) rem1 acc1).2.2.trace
            = w.trace ++ new ∧ ∀ ev ∈ new, is_response_read ev = true := by
      intro rem1 acc1
      obtain ⟨new1, htr, hall⟩ := ih (w.step (.interrupt_in .response 65)) rem1 acc1
      refine ⟨⟨.interrupt_in .response 65, w.next⟩ :: new1, ?_, ?_⟩
      · rw [htr]; simp [Usb.step]
      · intro ev hev
        rcases List.mem_cons.mp hev with rfl | h
        · rfl
        · exact hall ev h
    rw [imx_read_bulk_loop]
    simp only [husb]
    split_ifs
    · refine ⟨[⟨.interrupt_in .response 65, w.next⟩], by simp [Usb.step], ?_⟩
      intro ev hev
      rw [List.mem_singleton.mp hev]
      rfl
    · exact hstep _ _
    · exact hstep _ _
    · exact ⟨[], by simp, fun ev hev => absurd hev (List.not_mem_nil ev)⟩

/-- A trace of output reports of which fewer than `n` were accepted has the
first shape. -/
theorem shape_outs (n : Nat) (w R : Usb) (outs : List UsbEvent)
    (htr : R.trace = w.trace ++ outs) (hout : ∀ ev ∈ outs, is_out ev = true)
    (hd : (delivered outs).length < n) : transaction_shape n (w.since R) := by
  rw [since_append w R outs htr]
  exact Or.inl ⟨hout, hd⟩

/-- A trace made of `n` accepted output reports, the HAB status read and
reads of the response, none of them if the status is not valid, has the
second shape. -/
theorem shape_hab (n : Nat) (w s R : Usb) (outs resps : List UsbEvent)
    (htr : s.trace = w.trace ++ outs) (hout : ∀ ev ∈ outs, is_out ev = true)
    (hd : (delivered outs).length = n)
    (hR : R.trace = (s.step (.interrupt_in .hab 65)).trace ++ resps)
    (hresp : ∀ ev ∈ resps, is_response_read ev = true)
    (hok : ¬ hab_ok s.next → resps = []) : transaction_shape n (w.since R) := by
  have h : R.trace = w.trace ++ (outs ++ ⟨.interrupt_in .hab 65, s.next⟩ :: resps) := by
    rw [hR]
    simp [Usb.step, htr]
  rw [since_append w R _ h]
  exact Or.inr ⟨outs, s.next, resps, rfl, hout, hd, hresp, hok⟩

/-- The second shape of a trace that ends with the HAB status read. -/
theorem shape_hab_last (n : Nat) (w s : Usb) (outs : List UsbEvent)
    (htr : s.trace = w.trace ++ outs) (hout : ∀ ev ∈ outs, is_out ev = true)
    (hd : (delivered outs).length = n) :
    transaction_shape n (w.since (s.step (.interrupt_in .hab 65))) :=
  shape_hab n w s _ outs [] htr hout hd (List.append_nil _).symm
    (fun ev hev => absurd hev (List.not_mem_nil ev)) (fun _ => rfl)

/-- The second shape of a trace with one read of the response after a valid
HAB status. -/
theorem shape_hab_response (n : Nat) (w s : Usb) (outs : List UsbEvent) (size : Nat)
    (htr : s.trace = w.trace ++ outs) (hout : ∀ ev ∈ outs, is_out ev = true)
    (hd : (delivered outs).length = n) (hok : hab_ok s.next) :
    transaction_shape n
      (w.since ((s.step (.interrupt_in .hab 65)).step (.interrupt_in .response size))) :=
  shape_hab n w s _ outs [⟨.interrupt_in .response size, (s.step (.interrupt_in .hab 65)).next⟩]
    htr hout hd rfl
    (fun ev hev => by rw [List.mem_singleton.mp hev]; rfl) (fun h => absurd hok h)

/-- The output stage of a write path with a payload: the send and the
data-out report. -/
theorem two_stage_outs (w s : Usb) (new : List UsbEvent) (d : List Nat)
    (htr : s.trace = w.trace ++ new) (hout : ∀ ev ∈ new, is_out ev = true)
    (hd : (delivered new).length = 1) :
    (s.step (.control_out 0x202 d)).trace
      = w.trace ++ (new ++ [⟨.control_out 0x202 d, s.next⟩]) ∧
    (∀ ev ∈ new ++ [⟨.control_out 0x202 d, s.next⟩], is_out ev = true) ∧
    (s.next.e < 0 → (delivered (new ++ [⟨.control_out 0x202 d, s.next⟩])).length < 2) ∧
    (0 ≤ s.next.e → (delivered (new ++ [⟨.control_out 0x202 d, s.next⟩])).length = 2) := by
  refine ⟨by simp [Usb.step, htr], ?_, ?_, ?_⟩
  · intro ev hev
    rcases List.mem_append.mp hev with h | h
    · exact hout ev h
    · rw [List.mem_singleton.mp h]; rfl
  · intro h
    rw [delivered_append, List.length_append, hd]
    simp [delivered, not_le.mpr h]
  · intro h
    rw [delivered_append, List.length_append, hd]
    simp [delivered, h]

theorem imx_write_reg_shape (le : Bool) (w : Usb) (addr data : Nat) (count format : Int) :
    transaction_shape 1 (w.since (imx_write_reg le w addr data count format).2) := by
  obtain ⟨new, htr, hout, hd1, hd0⟩ :=
    imx_send_sdp_outs le w (write_reg_cmd le addr data count format)
  obtain ⟨w3, w4, rfl, rfl, h⟩ := imx_write_reg_cases le w addr data count format
  rcases h with ⟨hs, hR⟩ | ⟨hs, -, -, hR⟩ | ⟨hs, hh, -, -, hR⟩ | ⟨hs, hh, -, hR⟩
  · rw [hR]
    exact shape_outs 1 w _ new htr hout (by rw [hd0 hs]; norm_num)
  · rw [hR]
    exact shape_hab_last 1 w _ new htr hout (hd1 hs)
  · rw [hR]
    exact shape_hab_response 1 w _ new 65 htr hout (hd1 hs) hh
  · rw [hR]
    exact shape_hab_response 1 w _ new 65 htr hout (hd1 hs) hh

theorem imx_read_bulk_shape (le : Bool) (w : Usb) (addr : Nat) (count format : Int) :
    transaction_shape 1 (w.since (imx_read_bulk le w addr count format).2.2) := by
  obtain ⟨new, htr, hout, hd1, hd0⟩ := imx_send_sdp_outs le w (read_cmd le addr count format)
  rw [imx_read_bulk_unfold]
  generalize imx_send_sdp le w (read_cmd le addr count format) = s at htr hd1 hd0 ⊢
  by_cases h1 : s.1 < 0
  · rw [if_pos h1]
    exact shape_outs 1 w _ new htr hout (by rw [hd0 h1]; norm_num)
  · rw [if_neg h1]
    have hu := imx_read_hab_usb s.2
    by_cases h2 : (imx_read_hab s.2).1 < 0
    · rw [if_pos h2]
      show transaction_shape 1 (w.since (imx_read_hab s.2).2)
      rw [hu]
      exact shape_hab_last 1 w _ new htr hout (hd1 (not_lt.mp h1))
    · rw [if_neg h2]
      have hz : hab_ok s.2.next := by
        rcases imx_read_hab_neg_or_zero s.2 with h | h
        · exact absurd h h2
        · exact (imx_read_hab_zero_iff s.2).mp h
      obtain ⟨resps, hrtr, hresp⟩ := imx_read_bulk_loop_reads
        ((imx_read_hab s.2).2.replies.length + 1) (imx_read_hab s.2).2 count []
      rw [hu] at hrtr ⊢
      exact shape_hab 1 w s.2 _ new resps htr hout (hd1 (not_lt.mp h1)) hrtr hresp
        (fun h => absurd hz h)

theorem imx_dcd_write_shape (le : Bool) (w : Usb) (data : List Nat) (count : Int) :
    transaction_shape 2 (w.since (imx_dcd_write le w data count).2.2) := by
  by_cases hc : count ≤ 85
  · obtain ⟨new, htr, hout, hd1, hd0⟩ := imx_send_sdp_outs le w (dcd_cmd le count)
    obtain ⟨w2, w3, w4, rfl, rfl, rfl, -, h⟩ := imx_dcd_write_cases le w data count hc
    rcases h with ⟨hs, -, hR⟩ | ⟨hs, hn, -, hR⟩ | ⟨hs, hn, -, -, hR⟩ | ⟨hs, hn, hh, -, -, hR⟩ |
      ⟨hs, hn, hh, -, -, hR⟩
    · rw [hR]
      exact shape_outs 2 w _ new htr hout (by rw [hd0 hs]; norm_num)
    · obtain ⟨htr2, hout2, hlt, -⟩ :=
        two_stage_outs w _ new (dcd_data_report le data count) htr hout (hd1 hs)
      rw [hR]
      exact shape_outs 2 w _ _ htr2 hout2 (hlt hn)
    · obtain ⟨htr2, hout2, -, heq⟩ :=
        two_stage_outs w _ new (dcd_data_report le data count) htr hout (hd1 hs)
      rw [hR]
      exact shape_hab_last 2 w _ _ htr2 hout2 (heq hn)
    · obtain ⟨htr2, hout2, -, heq⟩ :=
        two_stage_outs w _ new (dcd_data_report le data count) htr hout (hd1 hs)
      rw [hR]
      exact shape_hab_response 2 w _ _ 1024 htr2 hout2 (heq hn) hh
    · obtain ⟨htr2, hout2, -, heq⟩ :=
        two_stage_outs w _ new (dcd_data_report le data count) htr hout (hd1 hs)
      rw [hR]
      exact shape_hab_response 2 w _ _ 1024 htr2 hout2 (heq hn) hh
  · have hR : imx_dcd_write le w data count = (-EINVAL, data, w) := by
      simp only [imx_dcd_write, if_pos (not_le.mp hc)]
    rw [hR]
    exact shape_outs 2 w w [] (List.append_nil _).symm
      (fun ev hev => absurd hev (List.not_mem_nil ev)) (by simp [delivered])

theorem imx_write_bulk_block_shape (le : Bool) (w : Usb) (addr : Nat) (data : List Nat)
    (length : Int) :
    transaction_shape 2 (w.since (imx_write_bulk_block le w addr data length).2) := by
  by_cases hl : length ≤ 1024
  · obtain ⟨new, htr, hout, hd1, hd0⟩ := imx_send_sdp_outs le w (write_file_cmd le addr length)
    obtain ⟨w2, w3, w4, rfl, rfl, rfl, h⟩ := imx_write_bulk_block_cases le w addr data length hl
    rcases h with ⟨hs, hR⟩ | ⟨hs, hn, -, hR⟩ | ⟨hs, hn, -, -, hR⟩ | ⟨hs, hn, hh, -, -, hR⟩ |
      ⟨hs, hn, hh, -, hR⟩
    · rw [hR]
      exact shape_outs 2 w _ new htr hout (by rw [hd0 hs]; norm_num)
    · obtain ⟨htr2, hout2, hlt, -⟩ :=
        two_stage_outs w _ new (write_file_data data length) htr hout (hd1 hs)
      rw [hR]
      exact shape_outs 2 w _ _ htr2 hout2 (hlt hn)
    · obtain ⟨htr2, hout2, -, heq⟩ :=
        two_stage_outs w _ new (write_file_data data length) htr hout (hd1 hs)
      rw [hR]
      exact shape_hab_last 2 w _ _ htr2 hout2 (heq hn)
    · obtain ⟨htr2, hout2, -, heq⟩ :=
        two_stage_outs w _ new (write_file_data data length) htr hout (hd1 hs)
      rw [hR]
      exact shape_hab_response 2 w _ _ 1025 htr2 hout2 (heq hn) hh
    · obtain ⟨htr2, hout2, -, heq⟩ :=
        two_stage_outs w _ new (write_file_data data length) htr hout (hd1 hs)
      rw [hR]
      exact shape_hab_response 2 w _ _ 1025 htr2 hout2 (heq hn) hh
  · have hR : imx_write_bulk_block le w addr data length = (-EINVAL, w) := by
      simp only [imx_write_bulk_block, if_pos (not_le.mp hl)]
    rw [hR]
    exact shape_outs 2 w w [] (List.append_nil _).symm
      (fun ev hev => absurd hev (List.not_mem_nil ev)) (by simp [delivered])

/-- The jump command of `imx_jump_address`, seen from the transport state
`b` the header write leaves behind. -/
theorem imx_jump_address_shape (le : Bool) (w : Usb) (addr : Nat) :
    transaction_shape 1
      ((imx_write_bulk le w (imx_jump_fake addr).self (imx_image_ivt_bytes le (imx_jump_fake addr))
        sizeof_imx_image_ivt).2.since (imx_jump_address le w addr).2) := by
  rw [imx_jump_address_unfold]
  generalize imx_write_bulk le w (imx_jump_fake addr).self (imx_image_ivt_bytes le (imx_jump_fake addr))
    sizeof_imx_image_ivt = b
  obtain ⟨new, htr, hout, hd1, hd0⟩ :=
    imx_send_sdp_outs le b.2 (jump_cmd le (imx_jump_fake addr).self)
  generalize imx_send_sdp le b.2 (jump_cmd le (imx_jump_fake addr).self) = s at htr hd1 hd0 ⊢
  by_cases h0 : b.1 < 0
  · rw [if_pos h0]
    exact shape_outs 1 b.2 b.2 [] (List.append_nil _).symm
      (fun ev hev => absurd hev (List.not_mem_nil ev)) (by simp [delivered])
  · rw [if_neg h0]
    by_cases h1 : s.1 < 0
    · rw [if_pos h1]
      exact shape_outs 1 b.2 _ new htr hout (by rw [hd0 h1]; norm_num)
    · rw [if_neg h1]
      have hu := imx_read_hab_usb s.2
      by_cases h2 : (imx_read_hab s.2).1 < 0
      · rw [if_pos h2]
        show transaction_shape 1 (b.2.since (imx_read_hab s.2).2)
        rw [hu]
        exact shape_hab_last 1 b.2 _ new htr hout (hd1 (not_lt.mp h1))
      · rw [if_neg h2]
        have hz : hab_ok s.2.next := by
          rcases imx_read_hab_neg_or_zero s.2 with h | h
          · exact absurd h h2
          · exact (imx_read_hab_zero_iff s.2).mp h
        rw [hu]
        split_ifs
        · exact shape_hab_response 1 b.2 _ new 65 htr hout (hd1 (not_lt.mp h1)) hz
        · exact shape_hab_response 1 b.2 _ new 65 htr hout (hd1 (not_lt.mp h1)) hz

theorem hab_reads_append (a b : List UsbEvent) :
    hab_reads (a ++ b) = hab_reads a ++ hab_reads b :=
  List.filterMap_append _ _ _

/-- Output reports are neither HAB reads nor response reads. -/
theorem outs_no_reads (outs : List UsbEvent) (hout : ∀ ev ∈ outs, is_out ev = true) :
    hab_reads outs = [] ∧ responses outs = [] := by
  induction outs with
  | nil => exact ⟨rfl, rfl⟩
  | cons ev rest ih =>
    obtain ⟨h1, h2⟩ := ih (fun e he => hout e (List.mem_cons_of_mem _ he))
    have hev := hout ev (List.mem_cons_self _ _)
    obtain ⟨call, reply⟩ := ev
    cases call with
    | control_out v d =>
      refine ⟨?_, ?_⟩
      · rw [← List.singleton_append, hab_reads_append, h1]; rfl
      · rw [← List.singleton_append, responses_append, h2]; rfl
    | interrupt_in site size => exact absurd hev (by simp [is_out])

/-- Response reads are neither HAB reads nor output reports. -/
theorem resps_no_outs (resps : List UsbEvent)
    (hresp : ∀ ev ∈ resps, is_response_read ev = true) :
    hab_reads resps = [] ∧ delivered resps = [] ∧ (resps ≠ [] → responses resps ≠ []) := by
  induction resps with
  | nil => exact ⟨rfl, rfl, fun h => absurd rfl h⟩
  | cons ev rest ih =>
    obtain ⟨h1, h2, -⟩ := ih (fun e he => hresp e (List.mem_cons_of_mem _ he))
    have hev := hresp ev (List.mem_cons_self _ _)
    obtain ⟨call, reply⟩ := ev
    cases call with
    | control_out v d => exact absurd hev (by simp [is_response_read])
    | interrupt_in site size =>
      cases site with
      | hab => exact absurd hev (by simp [is_response_read])
      | response =>
        refine ⟨?_, ?_, fun _ => ?_⟩
        · rw [← List.singleton_append, hab_reads_append, h1]; rfl
        · rw [← List.singleton_append, delivered_append, h2]; rfl
        · rw [← List.singleton_append, responses_append]
          exact List.cons_ne_nil _ _

/-- What the shape of a transaction says in numbers: the HAB status is read
once if all `n` output reports of the transaction were accepted and not at
all otherwise, and a response is only read after a valid HAB status. -/
theorem transaction_shape_counts (n : Nat) (new : List UsbEvent)
    (h : transaction_shape n new) :
    (delivered new).length ≤ n ∧
    (hab_reads new).length = (if (delivered new).length = n then 1 else 0) ∧
    (responses new ≠ [] → ∃ r, hab_reads new = [r] ∧ hab_ok r) := by
  rcases h with ⟨hout, hlt⟩ | ⟨outs, hb, resps, rfl, hout, hd, hresp, hok⟩
  · obtain ⟨h1, h2⟩ := outs_no_reads new hout
    refine ⟨le_of_lt hlt, ?_, fun hne => absurd h2 hne⟩
    rw [h1, if_neg (ne_of_lt hlt)]
    rfl
  · obtain ⟨h1, h2⟩ := outs_no_reads outs hout
    obtain ⟨h3, h4, h5⟩ := resps_no_outs resps hresp
    have hdel : delivered (outs ++ ⟨.interrupt_in .hab 65, hb⟩ :: resps) = delivered outs := by
      rw [delivered_append, ← List.singleton_append, delivered_append, h4]
      simp [delivered]
    have hhab : hab_reads (outs ++ ⟨.interrupt_in .hab 65, hb⟩ :: resps) = [hb] := by
      rw [hab_reads_append, h1, ← List.singleton_append, hab_reads_append, h3]
      rfl
    have hrs : responses (outs ++ ⟨.interrupt_in .hab 65, hb⟩ :: resps) = responses resps := by
      rw [responses_append, h2, ← List.singleton_append, responses_append]
      rfl
    rw [hdel, hhab, hrs, hd]
    refine ⟨le_refl _, by simp, fun hne => ⟨hb, rfl, ?_⟩⟩
    by_contra hnok
    rw [hok hnok] at hne
    exact hne rfl

/-- C12, as amended.  In the trace of every transaction (`imx_write_reg`,
`imx_read_bulk`, `imx_dcd_write`, `imx_write_bulk_block` and the jump command
of `imx_jump_address`) there is at most one HAB status read.  It is made
exactly when the output stage completed: the command record was accepted
and, in `imx_dcd_write` and `imx_write_bulk_block`, the data-out report after
it as well.  It comes after every output report and before every read of the
response, and if the output stage does not complete or the status read fails
no response is read.  In numbers: the transactions without a data-out report
read the HAB status as many times as they sent a command, once or not at
all; the two with a data-out report read it once if both their reports were
accepted and not at all otherwise. -/
theorem hab_read_in_every_transaction (le : Bool) (w : Usb) (addr data : Nat)
    (count format length : Int) (words bytes : List Nat) :
    (transaction_shape 1 (w.since (imx_write_reg le w addr data count format).2) ∧
      (hab_reads (w.since (imx_write_reg le w addr data count format).2)).length
        = (delivered (w.since (imx_write_reg le w addr data count format).2)).length) ∧
    (transaction_shape 1 (w.since (imx_read_bulk le w addr count format).2.2) ∧
      (hab_reads (w.since (imx_read_bulk le w addr count format).2.2)).length
        = (delivered (w.since (imx_read_bulk le w addr count format).2.2)).length) ∧
    (transaction_shape 2 (w.since (imx_dcd_write le w words count).2.2) ∧
      (hab_reads (w.since (imx_dcd_write le w words count).2.2)).length
        = if (delivered (w.since (imx_dcd_write le w words count).2.2)).length = 2 then 1
          else 0) ∧
    (transaction_shape 2 (w.since (imx_write_bulk_block le w addr bytes length).2) ∧
      (hab_reads (w.since (imx_write_bulk_block le w addr bytes length).2)).length
        = if (delivered (w.since (imx_write_bulk_block le w addr bytes length).2)).length = 2
          then 1 else 0) ∧
    (transaction_shape 1
        ((imx_write_bulk le w (imx_jump_fake addr).self
          (imx_image_ivt_bytes le (imx_jump_fake addr)) sizeof_imx_image_ivt).2.since
          (imx_jump_address le w addr).2) ∧
      (hab_reads ((imx_write_bulk le w (imx_jump_fake addr).self
          (imx_image_ivt_bytes le (imx_jump_fake addr)) sizeof_imx_image_ivt).2.since
          (imx_jump_address le w addr).2)).length
        = (delivered ((imx_write_bulk le w (imx_jump_fake addr).self
            (imx_image_ivt_bytes le (imx_jump_fake addr)) sizeof_imx_image_ivt).2.since
            (imx_jump_address le w addr).2)).length) := by
  have one : ∀ new : List UsbEvent, transaction_shape 1 new →
      transaction_shape 1 new ∧ (hab_reads new).length = (delivered new).length := by
    intro new h
    obtain ⟨h1, h2, -⟩ := transaction_shape_counts 1 new h
    refine ⟨h, ?_⟩
    rw [h2]
    split_ifs with h3
    · exact h3.symm
    · omega
  have two : ∀ new : List UsbEvent, transaction_shape 2 new →
      transaction_shape 2 new ∧
        (hab_reads new).length = if (delivered new).length = 2 then 1 else 0 :=
    fun new h => ⟨h, (transaction_shape_counts 2 new h).2.1⟩
  exact ⟨one _ (imx_write_reg_shape le w addr data count format),
    one _ (imx_read_bulk_shape le w addr count format),
    two _ (imx_dcd_write_shape le w words count),
    two _ (imx_write_bulk_block_shape le w addr bytes length),
    one _ (imx_jump_address_shape le w addr)⟩

/-- Counterexample to C12 as stated: a block transaction whose command is
accepted and whose data-out report fails sends one command and reads no HAB
status at all. -/
theorem imx_write_bulk_block_no_hab_read :
    delivered (bulk_datafail_usb.since
        (imx_write_bulk_block true bulk_datafail_usb 0x00910000 [1, 2, 3, 4] 4).2)
      = [(0x201, wire_command 0x0404 0x00910000 0 4 0)] ∧
    hab_reads (bulk_datafail_usb.since
        (imx_write_bulk_block true bulk_datafail_usb 0x00910000 [1, 2, 3, 4] 4).2) = [] ∧
    (imx_write_bulk_block true bulk_datafail_usb 0x00910000 [1, 2, 3, 4] 4).1 = -7 := by
  decide

/-! ## The GPIO pin encoding -/

theorem load32_mem32 (le : Bool) (x : Nat) : load32 le (mem32 le x) = x % 4294967296 := by
  cases le
  · simp only [load32, mem32, be32, Bool.false_eq_true, if_false, List.getD_cons_zero,
      List.getD_cons_succ, Nat.mod_mod]
    omega
  · simp only [load32, mem32, le32, if_true, List.getD_cons_zero, List.getD_cons_succ,
      Nat.mod_mod]
    omega

/-- A read that stores four bytes leaves nothing of what the variable held. -/
theorem store32_mem32 (le : Bool) (old x : Nat) :
    store32 le old (mem32 le x) = x % 4294967296 := by
  rw [store32, mem32_length, List.take_of_length_le (le_of_eq (mem32_length le x)),
    List.drop_of_length_le (le_of_eq (mem32_length le old)), List.append_nil, load32_mem32]

theorem mxc_gpio_eq (bank offset : Nat) (hb : 1 ≤ bank) (hb7 : bank ≤ 7) (ho : offset ≤ 31) :
    MXC_GPIO bank offset = 32 * (bank - 1) + offset := by
  have h1 : u32 (((bank : Int) - 1) * 32) = 2 ^ 5 * (bank - 1) := by
    unfold u32
    omega
  have h2 : u32 (offset : Int) = offset := by
    unfold u32
    omega
  rw [ MXC_GPIO, h1, h2, ← Nat.mul_add_lt_is_or (by omega : offset < 2 ^ 5)]

theorem gpio_base_le (k : Nat) : gpio_base.getD k 0 ≤ 0x020b4000 := by
  rcases k with _ | _ | _ | _ | _ | _ | _ | k <;> simp [gpio_base]

theorem gpio_to_base_in_range (gpio : Nat) (h : gpio >>> 5 < 7) :
    gpio_to_base gpio = gpio_base.getD (gpio >>> 5) 0 := by
  have hl : gpio_base.length = 7 := rfl
  simp only [gpio_to_base, hl]
  rw [if_neg (by omega)]
  simp

theorem gpio_to_base_out_of_range (gpio : Nat) (h : 7 ≤ gpio >>> 5) :
    gpio_to_base gpio = 0x0209c000 := by
  have hl : gpio_base.length = 7 := rfl
  simp only [gpio_to_base, hl]
  rw [if_pos (by omega)]
  rfl

theorem gpio_to_pinmask_eq (gpio : Nat) : gpio_to_pinmask gpio = 2 ^ (gpio % 32) := by
  have h : gpio &&& 0x1f = gpio % 32 := Nat.and_pow_two_sub_one_eq_mod gpio 5
  rw [gpio_to_pinmask, h, Nat.one_shiftLeft]
  exact Nat.mod_eq_of_lt
    (Nat.pow_lt_pow_right (by norm_num : 1 < 2) (by omega : gpio % 32 < 32))

/-- C13. For every bank in 1..7 and every offset in 0..31 the pin number
`MXC_GPIO(bank, offset)`, which is `((bank - 1) << 5) | offset`, maps to the
base address `0x0209c000 + 0x4000 * (bank - 1)`, the entry `bank - 1` of the
seven-entry table, and to the mask `2 ^ offset`; two such pins with the same
base and mask are the same (bank, offset) pair. -/
theorem gpio_pin_mapping (bank offset bank2 offset2 : Nat)
    (hb : 1 ≤ bank ∧ bank ≤ 7) (ho : offset ≤ 31) (hb2 : 1 ≤ bank2 ∧ bank2 ≤ 7)
    (ho2 : offset2 ≤ 31) :
    MXC_GPIO bank offset = ((bank - 1) <<< 5) ||| offset ∧
    gpio_to_base ( MXC_GPIO bank offset) = 0x0209c000 + 0x4000 * (bank - 1) ∧
    gpio_base.length = 7 ∧
    gpio_base.get? (bank - 1) = some (gpio_to_base ( MXC_GPIO bank offset)) ∧
    gpio_to_pinmask ( MXC_GPIO bank offset) = 2 ^ offset ∧
    (gpio_to_base ( MXC_GPIO bank offset) = gpio_to_base ( MXC_GPIO bank2 offset2) ∧
      gpio_to_pinmask ( MXC_GPIO bank offset) = gpio_to_pinmask ( MXC_GPIO bank2 offset2) →
      bank = bank2 ∧ offset = offset2) := by
  have key : ∀ b o : Nat, 1 ≤ b → b ≤ 7 → o ≤ 31 →
      gpio_to_base ( MXC_GPIO b o) = 0x0209c000 + 0x4000 * (b - 1) ∧
      gpio_base.get? (b - 1) = some (gpio_to_base ( MXC_GPIO b o)) ∧
      gpio_to_pinmask ( MXC_GPIO b o) = 2 ^ o := by
    intro b o h1 h7 ho
    have hsh : (32 * (b - 1) + o) >>> 5 = b - 1 := by
      rw [Nat.shiftRight_eq_div_pow]
      omega
    have hbase : gpio_to_base (32 * (b - 1) + o) = 0x0209c000 + 0x4000 * (b - 1) := by
      rw [gpio_to_base_in_range _ (by rw [hsh]; omega), hsh]
      interval_cases b <;> rfl
    rw [mxc_gpio_eq b o h1 h7 ho, hbase, gpio_to_pinmask_eq]
    refine ⟨rfl, ?_, ?_⟩
    · interval_cases b <;> rfl
    · congr 1
      omega
  obtain ⟨k1, k2, k3⟩ := key bank offset hb.1 hb.2 ho
  obtain ⟨j1, -, j3⟩ := key bank2 offset2 hb2.1 hb2.2 ho2
  refine ⟨?_, k1, rfl, k2, k3, ?_⟩
  · rw [mxc_gpio_eq bank offset hb.1 hb.2 ho, Nat.shiftLeft_eq, Nat.mul_comm (bank - 1) (2 ^ 5),
      ← Nat.mul_add_lt_is_or (by omega : offset < 2 ^ 5)]
  · rw [k1, j1, k3, j3]
    rintro ⟨h1, h2⟩
    exact ⟨by omega, Nat.pow_right_injective (le_refl 2) h2⟩

/-- Witness of C13: pin 7 of bank 3 and pin 31 of bank 7. -/
theorem gpio_pin_mapping_witness :
    (1 ≤ 3 ∧ 3 ≤ 7) ∧ 7 ≤ 31 ∧ (1 ≤ 7 ∧ 7 ≤ 7) ∧ 31 ≤ 31 ∧
    ( MXC_GPIO (3 : Nat) (7 : Nat) = (((3 : Nat) - 1) <<< 5) ||| 7 ∧
    gpio_to_base ( MXC_GPIO (3 : Nat) (7 : Nat)) = 0x0209c000 + 0x4000 * (3 - 1) ∧
    gpio_base.length = 7 ∧
    gpio_base.get? (3 - 1) = some (gpio_to_base ( MXC_GPIO (3 : Nat) (7 : Nat))) ∧
    gpio_to_pinmask ( MXC_GPIO (3 : Nat) (7 : Nat)) = 2 ^ 7 ∧
    (gpio_to_base ( MXC_GPIO (3 : Nat) (7 : Nat)) = gpio_to_base ( MXC_GPIO (7 : Nat) (31 : Nat)) ∧
      gpio_to_pinmask ( MXC_GPIO (3 : Nat) (7 : Nat))
        = gpio_to_pinmask ( MXC_GPIO (7 : Nat) (31 : Nat)) →
      3 = 7 ∧ 7 = 31)) :=
  ⟨by decide, by decide, by decide, by decide,
    gpio_pin_mapping 3 7 7 31 (by decide) (by decide) (by decide) (by decide)⟩
/-! ## C14, C15: the GPIO driver on a device of plain registers -/

/-- C14. The code does what the claim excludes.  Pin numbers 224, which is
`MXC_GPIO(8, 0)`, and `0xffffffe5`, which is `MXC_GPIO(0, 5)`, have bank indices
7 and `0x7ffffff`, outside the seven-entry table.  No function fails: each
one succeeds after reading, and for the setters writing, the register of
bank 1 (base `0x0209c000`) for the pin of the same offset. -/
theorem gpio_out_of_range_substitutes_bank_1 :
    MXC_GPIO 8 0 = 224 ∧ (224 : Nat) >>> 5 = 7 ∧
    MXC_GPIO 0 5 = 0xffffffe5 ∧ (0xffffffe5 : Nat) >>> 5 = 0x7ffffff ∧
    gpio_to_base 224 = 0x0209c000 ∧ gpio_to_base 0xffffffe5 = 0x0209c000 ∧
    (gpio_set_direction (logged (plain_regs true)) 0 (bank1_regs, []) 224 0).1 = 0 ∧
    (gpio_set_direction (logged (plain_regs true)) 0 (bank1_regs, []) 224 0).2.2
      = [.read 0x0209c004 4 0x20 0 [0x21, 0, 0, 0], .write 0x0209c004 0x20 0] ∧
    (gpio_get_direction (logged (plain_regs true)) 0 (bank1_regs, []) 224).1 = 1 ∧
    (gpio_get_direction (logged (plain_regs true)) 0 (bank1_regs, []) 224).2.2
      = [.read 0x0209c004 4 0x20 0 [0x21, 0, 0, 0]] ∧
    (gpio_get_value (logged (plain_regs true)) 0 (bank1_regs, []) 0xffffffe5).1 = 1 ∧
    (gpio_get_value (logged (plain_regs true)) 0 (bank1_regs, []) 0xffffffe5).2.2
      = [.read 0x0209c008 4 0x20 0 [0x20, 0, 0, 0]] ∧
    (gpio_set_value (logged (plain_regs true)) 0 (bank1_regs, []) 0xffffffe5 1).1 = 0 ∧
    (gpio_set_value (logged (plain_regs true)) 0 (bank1_regs, []) 0xffffffe5 1).2.2
      = [.read 0x0209c000 4 0x20 0 [0, 0, 0, 0], .write 0x0209c000 0x20 0] := by
  decide

theorem or_and_self_right (a b : Nat) : (a ||| b) &&& b = b := by
  apply Nat.eq_of_testBit_eq
  intro i
  rw [Nat.testBit_and, Nat.testBit_or]
  cases a.testBit i <;> cases b.testBit i <;> rfl

theorem gpio_reg_addr (gpio reg : Nat) (hreg : reg ≤ 0x1c) :
    (gpio_to_base gpio + reg) % 4294967296 = gpio_to_base gpio + reg := by
  apply Nat.mod_eq_of_lt
  have h : gpio_to_base gpio ≤ 0x020b4000 := by
    by_cases hr : gpio >>> 5 < 7
    · rw [gpio_to_base_in_range gpio hr]
      exact gpio_base_le _
    · rw [gpio_to_base_out_of_range gpio (not_lt.mp hr)]
      norm_num
  omega

/-- One `gpio_set_direction(h, gpio, 1)` on plain registers: it reads `GDIR`
of the pin's bank, writes it back with the pin's bit set, and succeeds. -/
theorem gpio_set_direction_plain (le : Bool) (junk : Nat) (m : Nat → Nat) (log : List RegOp)
    (gpio : Nat) (hg : m (gpio_to_base gpio + GPIO_GDIR) < 4294967296) :
    gpio_set_direction (logged (plain_regs le)) junk (m, log) gpio 1
      = (0, Function.update m (gpio_to_base gpio + GPIO_GDIR)
              (m (gpio_to_base gpio + GPIO_GDIR) ||| gpio_to_pinmask gpio),
          log ++ [.read (gpio_to_base gpio + GPIO_GDIR) 4 0x20 0
                    (mem32 le (m (gpio_to_base gpio + GPIO_GDIR))),
                  .write (gpio_to_base gpio + GPIO_GDIR)
                    (m (gpio_to_base gpio + GPIO_GDIR) ||| gpio_to_pinmask gpio) 0]) := by
  have ha := gpio_reg_addr gpio GPIO_GDIR (by decide)
  have ht : (mem32 le (m (gpio_to_base gpio + GPIO_GDIR))).take 4
      = mem32 le (m (gpio_to_base gpio + GPIO_GDIR)) :=
    List.take_of_length_le (le_of_eq (mem32_length le _))
  simp only [gpio_set_direction, RegLib.imx_read_reg32, logged, plain_regs, ha]
  have h4 : (4 : Int).toNat = 4 := rfl
  simp only [h4, ht, store32_mem32, Nat.mod_eq_of_lt hg]
  simp

/-- One `gpio_get_direction(h, gpio)` on plain registers. -/
theorem gpio_get_direction_plain (le : Bool) (junk : Nat) (m : Nat → Nat) (log : List RegOp)
    (gpio : Nat) (hg : m (gpio_to_base gpio + GPIO_GDIR) < 4294967296) :
    gpio_get_direction (logged (plain_regs le)) junk (m, log) gpio
      = (if m (gpio_to_base gpio + GPIO_GDIR) &&& gpio_to_pinmask gpio ≠ 0 then 1 else 0, m,
          log ++ [.read (gpio_to_base gpio + GPIO_GDIR) 4 0x20 0
                    (mem32 le (m (gpio_to_base gpio + GPIO_GDIR)))]) := by
  have ha := gpio_reg_addr gpio GPIO_GDIR (by decide)
  have ht : (mem32 le (m (gpio_to_base gpio + GPIO_GDIR))).take 4
      = mem32 le (m (gpio_to_base gpio + GPIO_GDIR)) :=
    List.take_of_length_le (le_of_eq (mem32_length le _))
  simp only [gpio_get_direction, RegLib.imx_read_reg32, logged, plain_regs, ha]
  have h4 : (4 : Int).toNat = 4 := rfl
  simp only [h4, ht, store32_mem32, Nat.mod_eq_of_lt hg]
  simp

/-- C15. On a device whose registers are plain 32-bit registers and whose
transport never fails, for every in-range pin and every initial value `g` of
the `GDIR` register of its bank: `gpio_set_direction(pin, 1)` succeeds and
leaves `GDIR` equal to `g | mask`, every other register unchanged; a second
call succeeds and changes no register; each call performs exactly one read
and one write, both on `GDIR`; and `gpio_get_direction` then returns 1.  In
`g | mask` the pin's bit is set and every other bit is that of `g`. -/
theorem gpio_set_direction_idempotent (le : Bool) (junk : Nat) (m : Nat → Nat) (gpio : Nat)
    (hpin : gpio >>> 5 < 7) (hg : m (gpio_to_base gpio + GPIO_GDIR) < 4294967296) :
    (gpio_set_direction (logged (plain_regs le)) junk (m, []) gpio 1).1 = 0 ∧
    (gpio_set_direction (logged (plain_regs le)) junk (m, []) gpio 1).2.1
        (gpio_to_base gpio + GPIO_GDIR)
      = m (gpio_to_base gpio + GPIO_GDIR) ||| gpio_to_pinmask gpio ∧
    (∀ a, a ≠ gpio_to_base gpio + GPIO_GDIR →
      (gpio_set_direction (logged (plain_regs le)) junk (m, []) gpio 1).2.1 a = m a) ∧
    (gpio_set_direction (logged (plain_regs le)) junk (m, []) gpio 1).2.2
      = [.read (gpio_to_base gpio + GPIO_GDIR) 4 0x20 0
            (mem32 le (m (gpio_to_base gpio + GPIO_GDIR))),
          .write (gpio_to_base gpio + GPIO_GDIR)
            (m (gpio_to_base gpio + GPIO_GDIR) ||| gpio_to_pinmask gpio) 0] ∧
    (gpio_set_direction (logged (plain_regs le)) junk
      ((gpio_set_direction (logged (plain_regs le)) junk (m, []) gpio 1).2.1, []) gpio 1).1 = 0 ∧
    (∀ a, (gpio_set_direction (logged (plain_regs le)) junk
        ((gpio_set_direction (logged (plain_regs le)) junk (m, []) gpio 1).2.1, []) gpio 1).2.1 a
      = (gpio_set_direction (logged (plain_regs le)) junk (m, []) gpio 1).2.1 a) ∧
    (gpio_set_direction (logged (plain_regs le)) junk
      ((gpio_set_direction (logged (plain_regs le)) junk (m, []) gpio 1).2.1, []) gpio 1).2.2
      = [.read (gpio_to_base gpio + GPIO_GDIR) 4 0x20 0
            (mem32 le (m (gpio_to_base gpio + GPIO_GDIR) ||| gpio_to_pinmask gpio)),
          .write (gpio_to_base gpio + GPIO_GDIR)
            (m (gpio_to_base gpio + GPIO_GDIR) ||| gpio_to_pinmask gpio) 0] ∧
    (gpio_get_direction (logged (plain_regs le)) junk
      ((gpio_set_direction (logged (plain_regs le)) junk
        ((gpio_set_direction (logged (plain_regs le)) junk (m, []) gpio 1).2.1, []) gpio 1).2.1, [])
      gpio).1 = 1 ∧
    gpio_to_base gpio + GPIO_GDIR = 0x0209c000 + 0x4000 * (gpio >>> 5) + 4 ∧
    ∀ i, (m (gpio_to_base gpio + GPIO_GDIR) ||| gpio_to_pinmask gpio).testBit i
      = (decide (i = gpio % 32) || (m (gpio_to_base gpio + GPIO_GDIR)).testBit i) := by
  have hmask : gpio_to_pinmask gpio < 4294967296 := by
    rw [gpio_to_pinmask_eq]
    exact Nat.pow_lt_pow_right (by norm_num : 1 < 2) (by omega : gpio % 32 < 32)
  have hor : m (gpio_to_base gpio + GPIO_GDIR) ||| gpio_to_pinmask gpio < 2 ^ 32 :=
    Nat.or_lt_two_pow hg hmask
  have h1 := gpio_set_direction_plain le junk m [] gpio hg
  have hg1 : Function.update m (gpio_to_base gpio + GPIO_GDIR)
      (m (gpio_to_base gpio + GPIO_GDIR) ||| gpio_to_pinmask gpio)
      (gpio_to_base gpio + GPIO_GDIR)
        = m (gpio_to_base gpio + GPIO_GDIR) ||| gpio_to_pinmask gpio := Function.update_same _ _ _
  have h2 := gpio_set_direction_plain le junk
    (Function.update m (gpio_to_base gpio + GPIO_GDIR)
      (m (gpio_to_base gpio + GPIO_GDIR) ||| gpio_to_pinmask gpio)) [] gpio
    (by rw [hg1]; exact hor)
  rw [hg1, Nat.or_assoc, Nat.or_self] at h2
  have h3 := gpio_get_direction_plain le junk
    (Function.update (Function.update m (gpio_to_base gpio + GPIO_GDIR)
      (m (gpio_to_base gpio + GPIO_GDIR) ||| gpio_to_pinmask gpio))
      (gpio_to_base gpio + GPIO_GDIR)
      (m (gpio_to_base gpio + GPIO_GDIR) ||| gpio_to_pinmask gpio)) [] gpio
    (by rw [Function.update_same]; exact hor)
  rw [Function.update_same, or_and_self_right] at h3
  rw [h1]
  simp only [List.nil_append]
  rw [h2]
  simp only [List.nil_append]
  rw [h3]
  refine ⟨trivial, hg1, fun a ha => Function.update_noteq ha _ _, trivial, trivial, ?_, trivial,
    ?_, ?_, ?_⟩
  · intro a
    rw [Function.update_idem]
  · have : gpio_to_pinmask gpio ≠ 0 := by
      rw [gpio_to_pinmask_eq]
      exact Nat.pos_iff_ne_zero.mp (Nat.pos_pow_of_pos _ (by norm_num))
    simp [this]
  · rw [gpio_to_base_in_range gpio hpin]
    generalize gpio >>> 5 = k at hpin
    interval_cases k <;> rfl
  · intro i
    rw [Nat.testBit_or, gpio_to_pinmask_eq, Nat.testBit_two_pow, Bool.or_comm]
    congr 1
    simp [eq_comm]

/-- Witness of C15: pin 7 of bank 3 on a little-endian host, `GDIR` holding
`0x10`. -/
theorem gpio_set_direction_idempotent_witness :
    (71 : Nat) >>> 5 < 7 ∧ bank3_regs (gpio_to_base 71 + GPIO_GDIR) < 4294967296 ∧
    ((gpio_set_direction (logged (plain_regs true)) 0 (bank3_regs, []) 71 1).1 = 0 ∧
    (gpio_set_direction (logged (plain_regs true)) 0 (bank3_regs, []) 71 1).2.1
        (gpio_to_base 71 + GPIO_GDIR)
      = bank3_regs (gpio_to_base 71 + GPIO_GDIR) ||| gpio_to_pinmask 71 ∧
    (∀ a, a ≠ gpio_to_base 71 + GPIO_GDIR →
      (gpio_set_direction (logged (plain_regs true)) 0 (bank3_regs, []) 71 1).2.1 a
        = bank3_regs a) ∧
    (gpio_set_direction (logged (plain_regs true)) 0 (bank3_regs, []) 71 1).2.2
      = [.read (gpio_to_base 71 + GPIO_GDIR) 4 0x20 0
            (mem32 true (bank3_regs (gpio_to_base 71 + GPIO_GDIR))),
          .write (gpio_to_base 71 + GPIO_GDIR)
            (bank3_regs (gpio_to_base 71 + GPIO_GDIR) ||| gpio_to_pinmask 71) 0] ∧
    (gpio_set_direction (logged (plain_regs true)) 0
      ((gpio_set_direction (logged (plain_regs true)) 0 (bank3_regs, []) 71 1).2.1, []) 71 1).1
        = 0 ∧
    (∀ a, (gpio_set_direction (logged (plain_regs true)) 0
        ((gpio_set_direction (logged (plain_regs true)) 0 (bank3_regs, []) 71 1).2.1, []) 71 1).2.1 a
      = (gpio_set_direction (logged (plain_regs true)) 0 (bank3_regs, []) 71 1).2.1 a) ∧
    (gpio_set_direction (logged (plain_regs true)) 0
      ((gpio_set_direction (logged (plain_regs true)) 0 (bank3_regs, []) 71 1).2.1, []) 71 1).2.2
      = [.read (gpio_to_base 71 + GPIO_GDIR) 4 0x20 0
            (mem32 true (bank3_regs (gpio_to_base 71 + GPIO_GDIR) ||| gpio_to_pinmask 71)),
          .write (gpio_to_base 71 + GPIO_GDIR)
            (bank3_regs (gpio_to_base 71 + GPIO_GDIR) ||| gpio_to_pinmask 71) 0] ∧
    (gpio_get_direction (logged (plain_regs true)) 0
      ((gpio_set_direction (logged (plain_regs true)) 0
        ((gpio_set_direction (logged (plain_regs true)) 0 (bank3_regs, []) 71 1).2.1, []) 71 1).2.1,
        [])
      71).1 = 1 ∧
    gpio_to_base 71 + GPIO_GDIR = 0x0209c000 + 0x4000 * (71 >>> 5) + 4 ∧
    ∀ i, (bank3_regs (gpio_to_base 71 + GPIO_GDIR) ||| gpio_to_pinmask 71).testBit i
      = (decide (i = 71 % 32) || (bank3_regs (gpio_to_base 71 + GPIO_GDIR)).testBit i)) :=
  ⟨by decide, by decide, gpio_set_direction_idempotent true 0 bank3_regs 71 (by decide) (by decide)⟩

/-! ## The register log of the drivers -/

theorem logged_write {σ : Type} (L : RegLib σ) (s : σ × List RegOp) (a v : Nat) :
    (logged L).imx_write_reg32 s a v
      = ((L.imx_write_reg32 s.1 a v).1, (L.imx_write_reg32 s.1 a v).2,
          s.2 ++ [.write a v (L.imx_write_reg32 s.1 a v).1]) := rfl

theorem logged_read {σ : Type} (L : RegLib σ) (s : σ × List RegOp) (a : Nat) (c f : Int) :
    (logged L).imx_read_bulk s a c f
      = ((L.imx_read_bulk s.1 a c f).1, (L.imx_read_bulk s.1 a c f).2.1,
          (L.imx_read_bulk s.1 a c f).2.2,
          s.2 ++ [.read a c f (L.imx_read_bulk s.1 a c f).1 (L.imx_read_bulk s.1 a c f).2.1]) := rfl

theorem write_grows {σ : Type} (L : RegLib σ) (l : List RegOp) (s : σ × List RegOp) (a v : Nat)
    (h : l <+: s.2) : l <+: ((logged L).imx_write_reg32 s a v).2.2 :=
  h.trans (List.prefix_append _ _)

theorem read_bulk_grows {σ : Type} (L : RegLib σ) (l : List RegOp) (s : σ × List RegOp) (a : Nat)
    (c f : Int) (h : l <+: s.2) : l <+: ((logged L).imx_read_bulk s a c f).2.2.2 :=
  h.trans (List.prefix_append _ _)

theorem read_reg32_grows {σ : Type} (L : RegLib σ) (l : List RegOp) (s : σ × List RegOp) (a : Nat)
    (h : l <+: s.2) : l <+: ((logged L).imx_read_reg32 s a).2.2.2 :=
  h.trans (List.prefix_append _ _)

theorem ecspi_write_grows {σ : Type} (L : RegLib σ) (l : List RegOp) (s : σ × List RegOp)
    (d : Int) (reg v : Nat) (h : l <+: s.2) : l <+: (ecspi_write (logged L) s d reg v).2.2 :=
  h.trans (List.prefix_append _ _)

theorem ecspi_read_grows {σ : Type} (L : RegLib σ) (l : List RegOp) (s : σ × List RegOp)
    (d : Int) (reg v : Nat) (h : l <+: s.2) : l <+: (ecspi_read (logged L) s d reg v).2.2.2 :=
  h.trans (List.prefix_append _ _)

theorem ecspi_setbits_grows {σ : Type} (L : RegLib σ) (junk : Nat) (l : List RegOp)
    (s : σ × List RegOp) (d : Int) (reg bits : Nat) (h : l <+: s.2) :
    l <+: (ecspi_setbits (logged L) junk s d reg bits).2.2 := by
  simp only [ecspi_setbits]
  split_ifs
  · exact read_reg32_grows L l s _ h
  · exact write_grows L l _ _ _ (read_reg32_grows L l s _ h)

theorem gpio_set_direction_grows {σ : Type} (L : RegLib σ) (junk : Nat) (l : List RegOp)
    (s : σ × List RegOp) (gpio : Nat) (output : Int) (h : l <+: s.2) :
    l <+: (gpio_set_direction (logged L) junk s gpio output).2.2 := by
  simp only [gpio_set_direction]
  split_ifs
  · exact read_reg32_grows L l s _ h
  · exact write_grows L l _ _ _ (read_reg32_grows L l s _ h)
  · exact write_grows L l _ _ _ (read_reg32_grows L l s _ h)

theorem gpio_set_value_grows {σ : Type} (L : RegLib σ) (junk : Nat) (l : List RegOp)
    (s : σ × List RegOp) (gpio : Nat) (value : Int) (h : l <+: s.2) :
    l <+: (gpio_set_value (logged L) junk s gpio value).2.2 := by
  simp only [gpio_set_value]
  split_ifs
  · exact read_reg32_grows L l s _ h
  · exact write_grows L l _ _ _ (read_reg32_grows L l s _ h)
  · exact write_grows L l _ _ _ (read_reg32_grows L l s _ h)

theorem imx_spi_xfer_block_load_grows {σ : Type} (L : RegLib σ) (d : Int)
    (tx : Option (List Nat)) (len : Int) (l : List RegOp) :
    ∀ (n : Nat) (i : Int) (s : σ × List RegOp), l <+: s.2 →
      l <+: (imx_spi_xfer_block_load (logged L) d tx len n i s).2.2 := by
  intro n
  induction n with
  | zero => intro i s h; exact h
  | succ n ih =>
    intro i s h
    rw [imx_spi_xfer_block_load]
    simp only []
    split_ifs
    · exact ecspi_write_grows L l s _ _ _ h
    · exact ih _ _ (ecspi_write_grows L l s _ _ _ h)
    · exact h

theorem imx_spi_xfer_block_wait_grows {σ : Type} (L : RegLib σ) (junk : Nat) (d : Int)
    (l : List RegOp) :
    ∀ (n : Nat) (s : σ × List RegOp), l <+: s.2 →
      l <+: (imx_spi_xfer_block_wait (logged L) junk d n s).2.2 := by
  intro n
  induction n with
  | zero => intro s h; exact h
  | succ n ih =>
    intro s h
    rw [imx_spi_xfer_block_wait]
    split_ifs
    · exact ecspi_read_grows L l s d ECSPI_STATREG junk h
    · exact ecspi_read_grows L l s d ECSPI_STATREG junk h
    · exact ih _ (ecspi_read_grows L l s d ECSPI_STATREG junk h)

theorem imx_spi_xfer_block_drain_grows {σ : Type} (L : RegLib σ) (junk : Nat) (d : Int)
    (len : Int) (l : List RegOp) :
    ∀ (n i : Nat) (rx : Option (List Nat)) (s : σ × List RegOp), l <+: s.2 →
      l <+: (imx_spi_xfer_block_drain (logged L) junk d len n i rx s).2.2.2 := by
  intro n
  induction n with
  | zero => intro i rx s h; exact h
  | succ n ih =>
    intro i rx s h
    rw [imx_spi_xfer_block_drain]
    simp only []
    split_ifs
    · exact read_reg32_grows L l _ _ (ecspi_read_grows L l s _ _ _ h)
    · exact ih _ _ _ (ecspi_read_grows L l _ _ _ _
        (read_reg32_grows L l _ _ (ecspi_read_grows L l s _ _ _ h)))
    · exact h

theorem imx_spi_xfer_block_grows {σ : Type} (L : RegLib σ) (junk fuel : Nat) (l : List RegOp)
    (s : σ × List RegOp) (d : Int) (tx rx : Option (List Nat)) (len : Int) (h : l <+: s.2) :
    l <+: (imx_spi_xfer_block (logged L) junk fuel s d tx rx len).2.2.2 := by
  unfold imx_spi_xfer_block
  lift_lets
  intro c v0 v w1 w2 data e f ld t1 sb t2 p t3 dr
  have hc : l <+: c.2.2.2 := ecspi_read_grows L l s d ECSPI_CONREG junk h
  have hw1 : l <+: w1.2.2 := ecspi_write_grows L l c.2.2 d ECSPI_CONREG v hc
  have hw2 : l <+: w2.2.2 := ecspi_write_grows L l w1.2 d ECSPI_STATREG _ hw1
  have he : l <+: e.2.2 := ecspi_write_grows L l w2.2 d ECSPI_TXDATA data hw2
  have hf : l <+: f.2.2 := by
    show l <+: (if Int.tmod len 4 ≠ 0 then if e.1 < 0 then ((-1 : Int), e.2) else (0, e.2)
      else (0, w2.2)).2.2
    split_ifs <;> assumption
  have hld : l <+: ld.2.2 := imx_spi_xfer_block_load_grows L d tx len l _ _ f.2 hf
  have ht1 : l <+: t1.2.2.2 := ecspi_read_grows L l ld.2 d ECSPI_TESTREG v hld
  have hsb : l <+: sb.2.2 := ecspi_setbits_grows L junk l t1.2.2 d ECSPI_CONREG _ ht1
  have ht2 : l <+: t2.2.2.2 := ecspi_read_grows L l sb.2 d ECSPI_CONREG t1.2.1 hsb
  have hp : l <+: p.2.2 := imx_spi_xfer_block_wait_grows L junk d l fuel t2.2.2 ht2
  have ht3 : l <+: t3.2.2.2 := ecspi_read_grows L l p.2 d ECSPI_TESTREG t2.2.1 hp
  have hdr : l <+: dr.2.2.2 :=
    imx_spi_xfer_block_drain_grows L junk d len l len.toNat 0 rx t3.2.2 ht3
  split_ifs <;> (try split) <;> (try split_ifs) <;> assumption

/-- C18. For every `len > 64`, `imx_spi_xfer` returns -1 without calling the
library at all: the transport state is returned as it was received, so no
register is read or written, the chip select is not touched and no FIFO word
is written.  For `len = 64` the length check does not reject the transfer:
the function goes on to its first register access, the read of the `GDIR`
register of the chip-select pin. -/
theorem imx_spi_xfer_length_check {σ : Type} (L : RegLib σ) (junk fuel : Nat) (h : σ)
    (spi_dev : Int) (gpio_cs : Nat) (tx rx : Option (List Nat)) (len : Int) (hlen : 64 < len) :
    imx_spi_xfer L junk fuel h spi_dev gpio_cs tx rx len = (some (-1), rx, h) ∧
    imx_spi_xfer (logged L) junk fuel (h, []) spi_dev gpio_cs tx rx len
      = (some (-1), rx, (h, [])) ∧
    [RegOp.read ((gpio_to_base gpio_cs + GPIO_GDIR) % 4294967296) 4 0x20
        (L.imx_read_reg32 h ((gpio_to_base gpio_cs + GPIO_GDIR) % 4294967296)).1
        (L.imx_read_reg32 h ((gpio_to_base gpio_cs + GPIO_GDIR) % 4294967296)).2.1]
      <+: (imx_spi_xfer (logged L) junk fuel (h, []) spi_dev gpio_cs tx rx 64).2.2.2 := by
  refine ⟨by simp only [imx_spi_xfer, if_pos hlen], by simp only [imx_spi_xfer, if_pos hlen], ?_⟩
  have h64 : ¬ (64 : Int) > 64 := by decide
  generalize hop : RegOp.read ((gpio_to_base gpio_cs + GPIO_GDIR) % 4294967296) 4 0x20
    (L.imx_read_reg32 h ((gpio_to_base gpio_cs + GPIO_GDIR) % 4294967296)).1
    (L.imx_read_reg32 h ((gpio_to_base gpio_cs + GPIO_GDIR) % 4294967296)).2.1 = op
  have h0 : [op] <+: ((logged L).imx_read_reg32 (h, [])
      ((gpio_to_base gpio_cs + GPIO_GDIR) % 4294967296)).2.2.2 := by
    rw [← hop]
    exact List.prefix_refl _
  have hd : [op] <+: (gpio_set_direction (logged L) junk (h, []) gpio_cs 1).2.2 := by
    simp only [gpio_set_direction]
    split_ifs
    · exact h0
    · exact write_grows L _ _ _ _ h0
    · exact write_grows L _ _ _ _ h0
  unfold imx_spi_xfer
  rw [if_neg h64]
  lift_lets
  intro dd vv b u
  have hv : [op] <+: vv.2.2 := gpio_set_value_grows L junk _ _ gpio_cs 0 hd
  have hb : [op] <+: b.2.2.2 := imx_spi_xfer_block_grows L junk fuel _ _ spi_dev tx rx 64 hv
  have hu : [op] <+: u.2.2 := gpio_set_value_grows L junk _ _ gpio_cs 1 hb
  split_ifs <;> (try split) <;> (try split_ifs) <;> assumption

/-- Witness of C18: a transfer of 65 bytes to a device of plain registers. -/
theorem imx_spi_xfer_length_check_witness :
    (64 : Int) < 65 ∧
    (imx_spi_xfer (plain_regs true) 0 1 bank3_regs 0 71 none none 65 = (some (-1), none, bank3_regs) ∧
    imx_spi_xfer (logged (plain_regs true)) 0 1 (bank3_regs, []) 0 71 none none 65
      = (some (-1), none, (bank3_regs, [])) ∧
    [RegOp.read ((gpio_to_base 71 + GPIO_GDIR) % 4294967296) 4 0x20
        ((plain_regs true).imx_read_reg32 bank3_regs ((gpio_to_base 71 + GPIO_GDIR) % 4294967296)).1
        ((plain_regs true).imx_read_reg32 bank3_regs
          ((gpio_to_base 71 + GPIO_GDIR) % 4294967296)).2.1]
      <+: (imx_spi_xfer (logged (plain_regs true)) 0 1 (bank3_regs, []) 0 71 none none 64).2.2.2) :=
  ⟨by decide, imx_spi_xfer_length_check (plain_regs true) 0 1 bank3_regs 0 71 none none 65
    (by decide)⟩
theorem imx_spi_init_con_reg (x : Nat) :
    (0 <<< 20) ||| x ||| (0 <<< 16) ||| (8 <<< 12) ||| (8 <<< 8) ||| (0xf <<< 4) |||
      (0 <<< 3) ||| (0 <<< 2) ||| (0 <<< 1) ||| (1 <<< 0) = x ||| 0x88f1 := by
  simp [Nat.or_assoc]

/-- C20. The register accesses of `imx_spi_init` do not depend on `speed` and
`mode`: two calls that differ only in them are the same function of the
library, and the accesses are writes only, namely a non-empty initial part
of `CONREG = (cs << 18) | 0x88f1`, `CONFIGREG = 0`, `INTREG = 0`,
`STATREG = 0xc0` in that order.  Every write but the last performed
succeeded; either all four were performed and succeeded and the result is
0, or the last one performed failed and the result is -1. -/
theorem imx_spi_init_writes {σ : Type} (L : RegLib σ) (h : σ) (spi_dev cs speed speed2 : Int)
    (mode mode2 : Nat) :
    imx_spi_init L h spi_dev cs speed mode = imx_spi_init L h spi_dev cs speed2 mode2 ∧
    imx_spi_init (logged L) (h, []) spi_dev cs speed mode
      = imx_spi_init (logged L) (h, []) spi_dev cs speed2 mode2 ∧
    ∃ es : List Int, es ≠ [] ∧ es.length ≤ 4 ∧
      (imx_spi_init (logged L) (h, []) spi_dev cs speed mode).2.2
        = List.zipWith (fun p e => RegOp.write p.1 p.2 e) (spi_init_writes spi_dev cs) es ∧
      (∀ e ∈ es.dropLast, 0 ≤ e) ∧
      ((es.length = 4 ∧ (∀ e ∈ es, 0 ≤ e) ∧
          (imx_spi_init (logged L) (h, []) spi_dev cs speed mode).1 = 0) ∨
        ((∃ e, es.getLast? = some e ∧ e < 0) ∧
          (imx_spi_init (logged L) (h, []) spi_dev cs speed mode).1 = -1)) := by
  refine ⟨rfl, rfl, ?_⟩
  unfold imx_spi_init
  rw [imx_spi_init_con_reg]
  lift_lets
  intro con_reg config_reg w1 w2 w3 w4
  have l1 : w1.2.2 = [.write (ecspi_addr spi_dev ECSPI_CONREG) (u32 (cs * 262144) ||| 0x88f1) w1.1] :=
    rfl
  have l2 : w2.2.2 = w1.2.2 ++ [.write (ecspi_addr spi_dev ECSPI_CONFIGREG) 0 w2.1] := rfl
  have l3 : w3.2.2 = w2.2.2 ++ [.write (ecspi_addr spi_dev ECSPI_INTREG) 0 w3.1] := rfl
  have l4 : w4.2.2 = w3.2.2 ++ [.write (ecspi_addr spi_dev ECSPI_STATREG) 0xc0 w4.1] := rfl
  split_ifs with h1 h2 h3 h4
  · refine ⟨[w1.1], by simp, by simp, ?_, by simp, Or.inr ⟨⟨w1.1, rfl, h1⟩, rfl⟩⟩
    show w1.2.2 = _
    rw [l1]
    rfl
  · refine ⟨[w1.1, w2.1], by simp, by simp, ?_, ?_, Or.inr ⟨⟨w2.1, rfl, h2⟩, rfl⟩⟩
    · show w2.2.2 = _
      rw [l2, l1]
      rfl
    · intro e he
      simp only [List.dropLast, List.mem_singleton] at he
      rw [he]
      exact not_lt.mp h1
  · refine ⟨[w1.1, w2.1, w3.1], by simp, by simp, ?_, ?_, Or.inr ⟨⟨w3.1, rfl, h3⟩, rfl⟩⟩
    · show w3.2.2 = _
      rw [l3, l2, l1]
      rfl
    · intro e he
      simp only [List.dropLast, List.mem_cons, List.mem_singleton, List.not_mem_nil,
        or_false] at he
      rcases he with rfl | rfl
      · exact not_lt.mp h1
      · exact not_lt.mp h2
  · refine ⟨[w1.1, w2.1, w3.1, w4.1], by simp, by simp, ?_, ?_, Or.inr ⟨⟨w4.1, rfl, h4⟩, rfl⟩⟩
    · show w4.2.2 = _
      rw [l4, l3, l2, l1]
      rfl
    · intro e he
      simp only [List.dropLast, List.mem_cons, List.mem_singleton, List.not_mem_nil,
        or_false] at he
      rcases he with rfl | rfl | rfl
      · exact not_lt.mp h1
      · exact not_lt.mp h2
      · exact not_lt.mp h3
  · refine ⟨[w1.1, w2.1, w3.1, w4.1], by simp, by simp, ?_, ?_, Or.inl ⟨rfl, ?_, rfl⟩⟩
    · show w4.2.2 = _
      rw [l4, l3, l2, l1]
      rfl
    · intro e he
      simp only [List.dropLast, List.mem_cons, List.mem_singleton, List.not_mem_nil,
        or_false] at he
      rcases he with rfl | rfl | rfl
      · exact not_lt.mp h1
      · exact not_lt.mp h2
      · exact not_lt.mp h3
    · intro e he
      simp only [List.mem_cons, List.mem_singleton, List.not_mem_nil, or_false] at he
      rcases he with rfl | rfl | rfl | rfl
      · exact not_lt.mp h1
      · exact not_lt.mp h2
      · exact not_lt.mp h3
      · exact not_lt.mp h4

/-! ## C16: the words loaded into the transmit FIFO -/

theorem or_eq_add_of_dvd (i x y : Nat) (hx : 2 ^ i ∣ x) (hy : y < 2 ^ i) : x ||| y = x + y := by
  obtain ⟨a, rfl⟩ := hx
  exact (Nat.mul_add_lt_is_or hy a).symm

theorem shift8_or (a x : Nat) (hx : x < 256) : a <<< 8 ||| x = a * 256 + x := by
  rw [Nat.shiftLeft_eq]
  exact or_eq_add_of_dvd 8 _ _ ⟨a, by ring⟩ hx

/-- Four bytes packed with shifts and ors are the big-endian value. -/
theorem be_word_eq (a b c d : Nat) (hb : b < 256) (hc : c < 256) (hd : d < 256) :
    a <<< 24 ||| b <<< 16 ||| c <<< 8 ||| d = a * 16777216 + b * 65536 + c * 256 + d := by
  simp only [Nat.shiftLeft_eq]
  rw [or_eq_add_of_dvd 24 (a * 2 ^ 24) (b * 2 ^ 16) ⟨a, by ring⟩ (by omega),
    or_eq_add_of_dvd 16 (a * 2 ^ 24 + b * 2 ^ 16) (c * 2 ^ 8) ⟨a * 256 + b, by ring⟩ (by omega),
    or_eq_add_of_dvd 8 (a * 2 ^ 24 + b * 2 ^ 16 + c * 2 ^ 8) d ⟨a * 65536 + b * 256 + c, by ring⟩
      (by omega)]

theorem be32_be_word (a b c d : Nat) (ha : a < 256) (hb : b < 256) (hc : c < 256)
    (hd : d < 256) : be32 (a * 16777216 + b * 65536 + c * 256 + d) = [a, b, c, d] := by
  simp only [be32]
  congr 1 <;> [skip; congr 1 <;> [skip; congr 1 <;> [skip; congr 1]]] <;> omega

theorem getD_lt_256 (b : List Nat) (hb : ∀ x ∈ b, x < 256) (k : Nat) : b.getD k 0 < 256 := by
  rw [List.getD_eq_getElem?_getD]
  cases h : b[k]? with
  | none => simp
  | some x => exact hb x (List.getElem?_mem h)

/-- A list whose length is a multiple of four is the concatenation of its
groups of four. -/
theorem groups_of_four : ∀ (n : Nat) (c : List Nat), c.length = 4 * n →
    (List.range n).flatMap
      (fun j => [c.getD (4 * j) 0, c.getD (4 * j + 1) 0, c.getD (4 * j + 2) 0, c.getD (4 * j + 3) 0])
      = c := by
  intro n
  induction n with
  | zero =>
    intro c h
    have : c = [] := List.length_eq_zero.mp (by omega)
    subst this; rfl
  | succ n ih =>
    intro c h
    match c, h with
    | x0 :: x1 :: x2 :: x3 :: c1, h =>
      rw [List.range_succ_eq_map, List.flatMap_cons, List.flatMap_map]
      have hl : c1.length = 4 * n := by simp only [List.length_cons] at h; omega
      have hs : ∀ m, (x0 :: x1 :: x2 :: x3 :: c1).getD (m + 4) 0 = c1.getD m 0 := fun _ => rfl
      have hf : (fun k => [(x0 :: x1 :: x2 :: x3 :: c1).getD (4 * (k + 1)) 0,
          (x0 :: x1 :: x2 :: x3 :: c1).getD (4 * (k + 1) + 1) 0,
          (x0 :: x1 :: x2 :: x3 :: c1).getD (4 * (k + 1) + 2) 0,
          (x0 :: x1 :: x2 :: x3 :: c1).getD (4 * (k + 1) + 3) 0])
          = (fun j => [c1.getD (4 * j) 0, c1.getD (4 * j + 1) 0, c1.getD (4 * j + 2) 0,
              c1.getD (4 * j + 3) 0]) := by
        funext k
        have e0 : 4 * (k + 1) = 4 * k + 4 := by ring
        have e1 : 4 * (k + 1) + 1 = 4 * k + 1 + 4 := by ring
        have e2 : 4 * (k + 1) + 2 = 4 * k + 2 + 4 := by ring
        have e3 : 4 * (k + 1) + 3 = 4 * k + 3 + 4 := by ring
        rw [e1, e2, e3, e0, hs, hs, hs, hs]
      simp only [Function.comp_def, Nat.succ_eq_add_one]
      rw [hf, ih c1 hl]
      rfl

theorem getD_drop (b : List Nat) (r k : Nat) : (b.drop r).getD k 0 = b.getD (r + k) 0 := by
  simp [List.getD_eq_getElem?_getD, List.getElem?_drop]

/-- The right-aligned word of up to three bytes gives them back as its low
bytes. -/
theorem subword_bytes (t : List Nat) (hbt : ∀ x ∈ t, x < 256) (hr : t.length ≠ 0)
    (hr3 : t.length < 4) :
    (be32 (t.foldl (fun acc x => acc <<< 8 ||| x) 0)).drop (4 - t.length) = t := by
  match t, hbt, hr, hr3 with
  | [], _, hr, _ => exact absurd rfl hr
  | [x], hb, _, _ =>
    have hx := hb x (by simp)
    simp only [List.length_singleton, List.foldl]
    rw [shift8_or 0 x hx]
    have := be32_be_word 0 0 0 x (by norm_num) (by norm_num) (by norm_num) hx
    simp only [Nat.zero_mul, Nat.zero_add] at this ⊢
    rw [this]
    rfl
  | [x, y], hb, _, _ =>
    have hx := hb x (by simp)
    have hy := hb y (by simp)
    simp only [List.length_cons, List.length_nil, List.foldl]
    rw [shift8_or 0 x hx, shift8_or _ y hy]
    have := be32_be_word 0 0 x y (by norm_num) (by norm_num) hx hy
    simp only [Nat.zero_mul, Nat.zero_add] at this ⊢
    rw [this]
    rfl
  | [x, y, z], hb, _, _ =>
    have hx := hb x (by simp)
    have hy := hb y (by simp)
    have hz := hb z (by simp)
    simp only [List.length_cons, List.length_nil, List.foldl]
    rw [shift8_or 0 x hx, shift8_or _ y hy, shift8_or _ z hz]
    have := be32_be_word 0 x y z (by norm_num) hx hy hz
    have e : (((0 * 256 + x) * 256 + y) * 256 + z) = 0 * 16777216 + x * 65536 + y * 256 + z := by
      ring
    rw [e, this]
    rfl
  | _ :: _ :: _ :: _ :: _, _, _, h4 =>
    simp only [List.length_cons] at h4
    omega

/-- The words of the specification carry every byte once and in order. -/
theorem spi_fifo_bytes_words (b : List Nat) (hb : ∀ x ∈ b, x < 256) :
    spi_fifo_bytes b.length (spi_fifo_words b) = b := by
  have hfull : ((List.range ((b.length - b.length % 4) / 4)).map fun j =>
      b.getD (b.length % 4 + 4 * j) 0 <<< 24 ||| b.getD (b.length % 4 + 4 * j + 1) 0 <<< 16 |||
        b.getD (b.length % 4 + 4 * j + 2) 0 <<< 8 ||| b.getD (b.length % 4 + 4 * j + 3) 0).flatMap
      be32 = b.drop (b.length % 4) := by
    rw [List.flatMap_map]
    have hf : (fun j => be32 (b.getD (b.length % 4 + 4 * j) 0 <<< 24 |||
        b.getD (b.length % 4 + 4 * j + 1) 0 <<< 16 |||
        b.getD (b.length % 4 + 4 * j + 2) 0 <<< 8 ||| b.getD (b.length % 4 + 4 * j + 3) 0))
        = (fun j => [(b.drop (b.length % 4)).getD (4 * j) 0,
            (b.drop (b.length % 4)).getD (4 * j + 1) 0,
            (b.drop (b.length % 4)).getD (4 * j + 2) 0,
            (b.drop (b.length % 4)).getD (4 * j + 3) 0]) := by
      funext j
      rw [be_word_eq _ _ _ _ (getD_lt_256 b hb _) (getD_lt_256 b hb _) (getD_lt_256 b hb _),
        be32_be_word _ _ _ _ (getD_lt_256 b hb _) (getD_lt_256 b hb _) (getD_lt_256 b hb _)
          (getD_lt_256 b hb _)]
      simp only [getD_drop, Nat.add_assoc]
    rw [hf]
    exact groups_of_four _ _ (by rw [List.length_drop]; omega)
  have hsplit : b.take (b.length % 4) ++ b.drop (b.length % 4) = b := List.take_append_drop _ _
  unfold spi_fifo_bytes spi_fifo_words
  by_cases hr : b.length % 4 = 0
  · simp only [hr, ne_eq, not_true_eq_false, if_false, List.nil_append]
    rw [hr] at hfull
    simpa using hfull
  · simp only [ne_eq, hr, not_false_eq_true, if_true, List.singleton_append, List.headD_cons,
      List.tail_cons]
    rw [hfull]
    conv_rhs => rw [← hsplit]
    congr 1
    have hr3 : b.length % 4 < 4 := Nat.mod_lt _ (by norm_num)
    have htl : (b.take (b.length % 4)).length = b.length % 4 := by
      rw [List.length_take]
      omega
    have := subword_bytes (b.take (b.length % 4))
      (fun x hx => hb x (List.mem_of_mem_take hx)) (by rw [htl]; exact hr) (by rw [htl]; exact hr3)
    rw [htl] at this
    exact this
theorem ecspi_base_le (k : Nat) : ecspi_base_addr.getD k 0 ≤ 0x02018000 := by
  rcases k with _ | _ | _ | _ | _ | k <;> simp [ecspi_base_addr]

theorem ecspi_addr_eq (d : Int) (reg : Nat) (h : reg ≤ 0x40) :
    ecspi_addr d reg = ecspi_base_addr.getD d.toNat 0 + reg := by
  have := ecspi_base_le d.toNat
  unfold ecspi_addr
  omega

theorem ecspi_addr_ne_txdata (d : Int) (reg : Nat) (h : reg ≤ 0x40) (hne : reg ≠ ECSPI_TXDATA) :
    ecspi_addr d reg ≠ ecspi_addr d ECSPI_TXDATA := by
  rw [ecspi_addr_eq d reg h, ecspi_addr_eq d ECSPI_TXDATA (by decide)]
  omega

theorem txdata_writes_append (d : Int) (l1 l2 : List RegOp) :
    txdata_writes d (l1 ++ l2) = txdata_writes d l1 ++ txdata_writes d l2 :=
  List.filterMap_append _ _ _

theorem txdata_read (d : Int) (l : List RegOp) (a : Nat) (c f e : Int) (bytes : List Nat) :
    txdata_writes d (l ++ [.read a c f e bytes]) = txdata_writes d l := by
  rw [txdata_writes_append]
  simp [txdata_writes]

theorem txdata_write_other (d : Int) (l : List RegOp) (a v : Nat) (e : Int)
    (ha : a ≠ ecspi_addr d ECSPI_TXDATA) : txdata_writes d (l ++ [.write a v e]) = txdata_writes d l := by
  rw [txdata_writes_append]
  simp [txdata_writes, ha]

theorem txdata_write_tx (d : Int) (l : List RegOp) (v : Nat) (e : Int) :
    txdata_writes d (l ++ [.write (ecspi_addr d ECSPI_TXDATA) v e]) = txdata_writes d l ++ [v] := by
  rw [txdata_writes_append]
  simp [txdata_writes]

theorem ecspi_read_txdata {σ : Type} (L : RegLib σ) (k : Int) (s : σ × List RegOp) (d : Int)
    (reg v : Nat) : txdata_writes k (ecspi_read (logged L) s d reg v).2.2.2 = txdata_writes k s.2 :=
  txdata_read k s.2 _ _ _ _ _

theorem read_reg32_txdata {σ : Type} (L : RegLib σ) (k : Int) (s : σ × List RegOp) (a : Nat) :
    txdata_writes k ((logged L).imx_read_reg32 s a).2.2.2 = txdata_writes k s.2 :=
  txdata_read k s.2 _ _ _ _ _

theorem ecspi_write_txdata_other {σ : Type} (L : RegLib σ) (s : σ × List RegOp) (d : Int)
    (reg v : Nat) (h : reg ≤ 0x40) (hne : reg ≠ ECSPI_TXDATA) :
    txdata_writes d (ecspi_write (logged L) s d reg v).2.2 = txdata_writes d s.2 :=
  txdata_write_other d s.2 _ _ _ (ecspi_addr_ne_txdata d reg h hne)

theorem ecspi_write_txdata {σ : Type} (L : RegLib σ) (s : σ × List RegOp) (d : Int) (v : Nat) :
    txdata_writes d (ecspi_write (logged L) s d ECSPI_TXDATA v).2.2 = txdata_writes d s.2 ++ [v] :=
  txdata_write_tx d s.2 _ _

theorem ecspi_setbits_txdata {σ : Type} (L : RegLib σ) (junk : Nat) (s : σ × List RegOp)
    (d : Int) (reg bits : Nat) (h : reg ≤ 0x40) (hne : reg ≠ ECSPI_TXDATA) :
    txdata_writes d (ecspi_setbits (logged L) junk s d reg bits).2.2 = txdata_writes d s.2 := by
  simp only [ecspi_setbits]
  split_ifs
  · exact read_reg32_txdata L d s _
  · exact (txdata_write_other d _ _ _ _ (ecspi_addr_ne_txdata d reg h hne)).trans
      (read_reg32_txdata L d s _)

theorem imx_spi_xfer_block_wait_txdata {σ : Type} (L : RegLib σ) (junk : Nat) (d : Int) :
    ∀ (n : Nat) (s : σ × List RegOp),
      txdata_writes d (imx_spi_xfer_block_wait (logged L) junk d n s).2.2 = txdata_writes d s.2 := by
  intro n
  induction n with
  | zero => intro s; rfl
  | succ n ih =>
    intro s
    rw [imx_spi_xfer_block_wait]
    split_ifs
    · exact ecspi_read_txdata L d s d ECSPI_STATREG junk
    · exact ecspi_read_txdata L d s d ECSPI_STATREG junk
    · exact (ih _).trans (ecspi_read_txdata L d s d ECSPI_STATREG junk)

theorem imx_spi_xfer_block_drain_txdata {σ : Type} (L : RegLib σ) (junk : Nat) (d : Int)
    (len : Int) :
    ∀ (n i : Nat) (rx : Option (List Nat)) (s : σ × List RegOp),
      txdata_writes d (imx_spi_xfer_block_drain (logged L) junk d len n i rx s).2.2.2
        = txdata_writes d s.2 := by
  intro n
  induction n with
  | zero => intro i rx s; rfl
  | succ n ih =>
    intro i rx s
    have h1 := ecspi_read_txdata L d s d ECSPI_TESTREG junk
    have h2 := read_reg32_txdata L d (ecspi_read (logged L) s d ECSPI_TESTREG junk).2.2
      (ecspi_addr d ECSPI_RXDATA)
    rw [imx_spi_xfer_block_drain]
    simp only []
    split_ifs
    · exact h2.trans h1
    · refine (ih _ _ _).trans ?_
      exact (ecspi_read_txdata L d _ d ECSPI_TESTREG _).trans (h2.trans h1)
    · rfl

/-- The word the load loop builds at an index with four bytes left is the
big-endian packing of these bytes. -/
theorem imx_spi_xfer_block_word_eq (b : List Nat) (hb : ∀ x ∈ b, x < 256) (i : Nat)
    (h : i + 3 < b.length) :
    imx_spi_xfer_block_word (some b) (b.length : Int) (i : Int)
      = b.getD i 0 <<< 24 ||| b.getD (i + 1) 0 <<< 16 ||| b.getD (i + 2) 0 <<< 8 |||
          b.getD (i + 3) 0 := by
  have h0 : (i : Int).toNat = i := Int.toNat_ofNat i
  have h1 : ((i : Int) + 1).toNat = i + 1 := by omega
  have h2 : ((i : Int) + 2).toNat = i + 2 := by omega
  have h3 : ((i : Int) + 3).toNat = i + 3 := by omega
  have c1 : (i : Int) + 1 < (b.length : Int) := by omega
  have c2 : (i : Int) + 2 < (b.length : Int) := by omega
  have c3 : (i : Int) + 3 < (b.length : Int) := by omega
  have hm : (b.getD i 0 <<< 24) % 4294967296 = b.getD i 0 <<< 24 := by
    have := getD_lt_256 b hb i
    rw [Nat.shiftLeft_eq]
    omega
  simp only [imx_spi_xfer_block_word, h0, h1, h2, h3, c1, c2, c3, if_true, hm]

/-- The load loop with every write succeeding: it ends normally after
writing one word for each group of four bytes left. -/
theorem imx_spi_xfer_block_load_txdata {σ : Type} (L : RegLib σ)
    (hw : ∀ s a v, 0 ≤ (L.imx_write_reg32 s a v).1) (d : Int) (tx : Option (List Nat))
    (len : Nat) :
    ∀ (k n i : Nat) (s : σ × List RegOp), i + 4 * k = len → k ≤ n →
      ¬ (imx_spi_xfer_block_load (logged L) d tx (len : Int) n (i : Int) s).1 < 0 ∧
      txdata_writes d (imx_spi_xfer_block_load (logged L) d tx (len : Int) n (i : Int) s).2.2
        = txdata_writes d s.2 ++ (List.range k).map
            (fun j => imx_spi_xfer_block_word tx (len : Int) ((i + 4 * j : Nat) : Int)) := by
  intro k
  induction k with
  | zero =>
    intro n i s hi _
    have hge : ¬ (i : Int) < (len : Int) := by omega
    cases n with
    | zero => simp [imx_spi_xfer_block_load]
    | succ n => simp [imx_spi_xfer_block_load, hge]
  | succ k ih =>
    intro n i s hi hn
    obtain ⟨m, rfl⟩ : ∃ m, n = m + 1 := ⟨n - 1, by omega⟩
    have hlt : (i : Int) < (len : Int) := by omega
    have hok : ¬ (ecspi_write (logged L) s d ECSPI_TXDATA
        (imx_spi_xfer_block_word tx (len : Int) (i : Int))).1 < 0 := not_lt.mpr (hw _ _ _)
    have hcast : (i : Int) + 4 = ((i + 4 : Nat) : Int) := by push_cast; rfl
    rw [imx_spi_xfer_block_load]
    simp only [hlt, if_true, hok, if_false]
    rw [hcast]
    obtain ⟨ih1, ih2⟩ := ih m (i + 4) (ecspi_write (logged L) s d ECSPI_TXDATA
      (imx_spi_xfer_block_word tx (len : Int) (i : Int))).2 (by omega) (by omega)
    refine ⟨ih1, ?_⟩
    rw [ih2, ecspi_write_txdata, List.range_succ_eq_map, List.map_cons, List.map_map,
      List.append_assoc]
    congr 1
    rw [List.singleton_append]
    congr 1
    apply List.map_congr_left
    intro j _
    simp only [Function.comp, Nat.succ_eq_add_one]
    congr 2
    ring

theorem foldl_range_getD (g : Nat → Nat → Nat) (b : List Nat) :
    ∀ (r : Nat) (init : Nat), r ≤ b.length →
      (List.range r).foldl (fun acc i => g acc (b.getD i 0)) init = (b.take r).foldl g init := by
  intro r
  induction r with
  | zero => intro init _; rfl
  | succ r ih =>
    intro init h
    have hr : r < b.length := h
    rw [List.range_succ, List.foldl_append, ih init (by omega), List.take_succ,
      List.foldl_append, List.getElem?_eq_getElem hr]
    simp [List.getD_eq_getElem?_getD, List.getElem?_eq_getElem hr]

/-- On up to three bytes the truncation of the shifted accumulator to 32
bits changes nothing. -/
theorem subword_no_overflow (t : List Nat) (hbt : ∀ x ∈ t, x < 256) (hr3 : t.length < 4) :
    t.foldl (fun data x => ((data <<< 8) % 4294967296) ||| x) 0
      = t.foldl (fun acc x => acc <<< 8 ||| x) 0 := by
  match t, hbt, hr3 with
  | [], _, _ => rfl
  | [x], _, _ => rfl
  | [x, y], hb, _ =>
    have hx := hb x (by simp)
    simp only [List.foldl]
    have e1 : (0 <<< 8) % 4294967296 = 0 <<< 8 := rfl
    rw [e1, shift8_or 0 x hx]
    have e2 : ((0 * 256 + x) <<< 8) % 4294967296 = (0 * 256 + x) <<< 8 := by
      rw [Nat.shiftLeft_eq]
      omega
    rw [e2]
  | [x, y, z], hb, _ =>
    have hx := hb x (by simp)
    have hy := hb y (by simp)
    simp only [List.foldl]
    have e1 : (0 <<< 8) % 4294967296 = 0 <<< 8 := rfl
    rw [e1, shift8_or 0 x hx]
    have e2 : ((0 * 256 + x) <<< 8) % 4294967296 = (0 * 256 + x) <<< 8 := by
      rw [Nat.shiftLeft_eq]
      omega
    rw [e2, shift8_or _ y hy]
    have e3 : (((0 * 256 + x) * 256 + y) <<< 8) % 4294967296 = ((0 * 256 + x) * 256 + y) <<< 8 := by
      rw [Nat.shiftLeft_eq]
      omega
    rw [e3]
  | _ :: _ :: _ :: _ :: _, _, h4 =>
    simp only [List.length_cons] at h4
    omega

theorem imx_spi_xfer_block_first_eq (b : List Nat) (hb : ∀ x ∈ b, x < 256) :
    imx_spi_xfer_block_first b (b.length : Int)
      = (b.take (b.length % 4)).foldl (fun acc x => acc <<< 8 ||| x) 0 := by
  have hr3 : b.length % 4 < 4 := Nat.mod_lt _ (by norm_num)
  have htm : (Int.tmod (b.length : Int) 4).toNat = b.length % 4 := by
    rw [show Int.tmod (b.length : Int) 4 = ((b.length % 4 : Nat) : Int) from
      (Int.ofNat_tmod b.length 4).symm]
    exact Int.toNat_ofNat _
  rw [imx_spi_xfer_block_first, htm,
    foldl_range_getD (fun data x => ((data <<< 8) % 4294967296) ||| x) b (b.length % 4) 0
      (Nat.mod_le _ _)]
  exact subword_no_overflow _ (fun x hx => hb x (List.mem_of_mem_take hx))
    (by rw [List.length_take]; omega)
/-- C16. When every transport operation succeeds, for every non-null `tx` of
`len` bytes with `1 ≤ len ≤ 64`, the values `imx_spi_xfer_block` writes to
`TXDATA` are, in order: if `r = len % 4` is not 0, one word holding the first
`r` bytes most significant first and right-aligned; then `(len - r) / 4`
words, the `j`-th being `tx[r+4j] << 24 | tx[r+4j+1] << 16 | tx[r+4j+2] << 8 |
tx[r+4j+3]`.  These are `ceil(len / 4)` words, and they carry every byte of
`tx` once and in order.  For five bytes they are one word carrying only
`tx[0]` and one full word carrying `tx[1..4]`.  The polling loop adds no such
write, whatever its bound. -/
theorem imx_spi_xfer_block_txdata {σ : Type} (L : RegLib σ) (junk fuel : Nat) (h : σ)
    (spi_dev : Int) (b : List Nat) (rx : Option (List Nat))
    (hlen : 1 ≤ b.length ∧ b.length ≤ 64) (hb : ∀ x ∈ b, x < 256)
    (hr : ∀ s a c f, 0 ≤ (L.imx_read_bulk s a c f).1)
    (hw : ∀ s a v, 0 ≤ (L.imx_write_reg32 s a v).1) :
    txdata_writes spi_dev
        (imx_spi_xfer_block (logged L) junk fuel (h, []) spi_dev (some b) rx (b.length : Int)).2.2.2
      = spi_fifo_words b ∧
    (spi_fifo_words b).length = (b.length + 3) / 4 ∧
    spi_fifo_bytes b.length (spi_fifo_words b) = b ∧
    ∀ t0 t1 t2 t3 t4 : Nat, spi_fifo_words [t0, t1, t2, t3, t4]
      = [t0, t1 <<< 24 ||| t2 <<< 16 ||| t3 <<< 8 ||| t4] := by
  refine ⟨?_, ?_, spi_fifo_bytes_words b hb, ?_⟩
  · have htm : Int.tmod (b.length : Int) 4 = ((b.length % 4 : Nat) : Int) :=
      (Int.ofNat_tmod b.length 4).symm
    unfold imx_spi_xfer_block
    lift_lets
    intro c v0 v w1 w2 data e f ld t1 sb t2 p t3 dr
    have Hc : ¬ c.1 < 0 := not_lt.mpr (hr _ _ _ _)
    have Hw1 : ¬ w1.1 < 0 := not_lt.mpr (hw _ _ _)
    have Hw2 : ¬ w2.1 < 0 := not_lt.mpr (hw _ _ _)
    have He : ¬ e.1 < 0 := not_lt.mpr (hw _ _ _)
    have hc : txdata_writes spi_dev c.2.2.2 = [] :=
      ecspi_read_txdata L spi_dev (h, []) spi_dev ECSPI_CONREG junk
    have hw1 : txdata_writes spi_dev w1.2.2 = [] :=
      (ecspi_write_txdata_other L c.2.2 spi_dev ECSPI_CONREG v (by decide) (by decide)).trans hc
    have hw2 : txdata_writes spi_dev w2.2.2 = [] :=
      (ecspi_write_txdata_other L w1.2 spi_dev ECSPI_STATREG _ (by decide) (by decide)).trans hw1
    have he : txdata_writes spi_dev e.2.2 = [data] :=
      (ecspi_write_txdata L w2.2 spi_dev data).trans (by rw [hw2]; rfl)
    have hdata : data = (b.take (b.length % 4)).foldl (fun acc x => acc <<< 8 ||| x) 0 :=
      imx_spi_xfer_block_first_eq b hb
    have hf : ¬ f.1 < 0 ∧ txdata_writes spi_dev f.2.2
        = if b.length % 4 ≠ 0 then
            [(b.take (b.length % 4)).foldl (fun acc x => acc <<< 8 ||| x) 0]
          else [] := by
      show ¬ (if Int.tmod (b.length : Int) 4 ≠ 0 then
            if e.1 < 0 then ((-1 : Int), e.2) else (0, e.2) else (0, w2.2)).1 < 0 ∧
          txdata_writes spi_dev (if Int.tmod (b.length : Int) 4 ≠ 0 then
            if e.1 < 0 then ((-1 : Int), e.2) else (0, e.2) else (0, w2.2)).2.2 = _
      rw [htm, if_neg He]
      by_cases h0 : b.length % 4 = 0
      · have hz : ¬ ((b.length % 4 : Nat) : Int) ≠ 0 := by omega
        rw [if_neg hz, if_neg (not_not.mpr h0)]
        exact ⟨lt_irrefl (0 : Int), hw2⟩
      · have hz : ((b.length % 4 : Nat) : Int) ≠ 0 := by omega
        rw [if_pos hz, if_pos h0, ← hdata]
        exact ⟨lt_irrefl (0 : Int), he⟩
    have hld := imx_spi_xfer_block_load_txdata L hw spi_dev (some b) b.length
      ((b.length - b.length % 4) / 4) b.length (b.length % 4) f.2 (by omega) (by omega)
    have hld1 : ¬ ld.1 < 0 := by
      show ¬ (imx_spi_xfer_block_load (logged L) spi_dev (some b) (b.length : Int)
        (b.length : Int).toNat (Int.tmod (b.length : Int) 4) f.2).1 < 0
      rw [htm, Int.toNat_ofNat]
      exact hld.1
    have hld2 : txdata_writes spi_dev ld.2.2 = spi_fifo_words b := by
      show txdata_writes spi_dev (imx_spi_xfer_block_load (logged L) spi_dev (some b)
        (b.length : Int) (b.length : Int).toNat (Int.tmod (b.length : Int) 4) f.2).2.2 = _
      rw [htm, Int.toNat_ofNat, hld.2, hf.2, spi_fifo_words]
      congr 1
      apply List.map_congr_left
      intro j hj
      have hj2 : j < (b.length - b.length % 4) / 4 := List.mem_range.mp hj
      exact imx_spi_xfer_block_word_eq b hb (b.length % 4 + 4 * j) (by omega)
    have ht1 : txdata_writes spi_dev t1.2.2.2 = spi_fifo_words b :=
      (ecspi_read_txdata L spi_dev ld.2 spi_dev ECSPI_TESTREG v).trans hld2
    have hsb : txdata_writes spi_dev sb.2.2 = spi_fifo_words b :=
      (ecspi_setbits_txdata L junk t1.2.2 spi_dev ECSPI_CONREG _ (by decide) (by decide)).trans ht1
    have ht2 : txdata_writes spi_dev t2.2.2.2 = spi_fifo_words b :=
      (ecspi_read_txdata L spi_dev sb.2 spi_dev ECSPI_CONREG t1.2.1).trans hsb
    have hp : txdata_writes spi_dev p.2.2 = spi_fifo_words b :=
      (imx_spi_xfer_block_wait_txdata L junk spi_dev fuel t2.2.2).trans ht2
    have ht3 : txdata_writes spi_dev t3.2.2.2 = spi_fifo_words b :=
      (ecspi_read_txdata L spi_dev p.2 spi_dev ECSPI_TESTREG t2.2.1).trans hp
    have hdr : txdata_writes spi_dev dr.2.2.2 = spi_fifo_words b :=
      (imx_spi_xfer_block_drain_txdata L junk spi_dev (b.length : Int) _ 0 rx t3.2.2).trans ht3
    rw [if_neg Hc, if_neg Hw1, if_neg Hw2, if_neg hf.1, if_neg hld1]
    split_ifs <;> (try split) <;> (try split_ifs) <;> assumption
  · unfold spi_fifo_words
    rw [List.length_append, List.length_map, List.length_range]
    split_ifs <;> simp <;> omega
  · intro t0 t1 t2 t3 t4
    simp [spi_fifo_words, List.range_succ]

/-- Witness of C16: five bytes sent to a device of plain registers, on which
every read and write succeeds. -/
theorem imx_spi_xfer_block_txdata_witness :
    (1 ≤ [1, 2, 3, 4, 5].length ∧ [1, 2, 3, 4, 5].length ≤ 64) ∧
    (∀ x ∈ [1, 2, 3, 4, 5], x < 256) ∧
    (∀ s a c f, 0 ≤ ((plain_regs true).imx_read_bulk s a c f).1) ∧
    (∀ s a v, 0 ≤ ((plain_regs true).imx_write_reg32 s a v).1) ∧
    (txdata_writes 0
        (imx_spi_xfer_block (logged (plain_regs true)) 0 2 (bank3_regs, []) 0 (some [1, 2, 3, 4, 5])
          none (([1, 2, 3, 4, 5] : List Nat).length : Int)).2.2.2
      = spi_fifo_words [1, 2, 3, 4, 5] ∧
    (spi_fifo_words [1, 2, 3, 4, 5]).length = (([1, 2, 3, 4, 5] : List Nat).length + 3) / 4 ∧
    spi_fifo_bytes ([1, 2, 3, 4, 5] : List Nat).length (spi_fifo_words [1, 2, 3, 4, 5])
      = [1, 2, 3, 4, 5] ∧
    ∀ t0 t1 t2 t3 t4 : Nat, spi_fifo_words [t0, t1, t2, t3, t4]
      = [t0, t1 <<< 24 ||| t2 <<< 16 ||| t3 <<< 8 ||| t4]) :=
  ⟨by decide, by decide, fun _ _ _ _ => le_refl _, fun _ _ _ => le_refl _,
    imx_spi_xfer_block_txdata (plain_regs true) 0 2 bank3_regs 0 [1, 2, 3, 4, 5] none
      (by decide) (by decide) (fun _ _ _ _ => le_refl _) (fun _ _ _ => le_refl _)⟩

/-! ## C17, C19: what the SPI driver reads back -/

/-- C17. The code does not do what the claim states.  Five bytes
`01 02 03 04 05` are sent through a block wired in loopback, so that the
words read from `RXDATA` are exactly the words the load phase wrote,
`0x00000001` and `0x02030405`.  The drain phase reads `RXDATA` twice and
writes five bytes to `rx`, but it takes every word left-aligned, so `rx`
ends as `00 00 00 01 02` and not as the bytes sent.  The reads are shown as
the bytes stored in the memory of the little-endian host. -/
theorem imx_spi_xfer_block_drain_misaligned :
    (imx_spi_xfer_block (logged (spi_loopback true 0)) 0 1 (⟨fun _ => 0, []⟩, []) 0
      (some [1, 2, 3, 4, 5]) (some [0, 0, 0, 0, 0]) 5).1 = some 0 ∧
    txdata_writes 0 (imx_spi_xfer_block (logged (spi_loopback true 0)) 0 1 (⟨fun _ => 0, []⟩, []) 0
      (some [1, 2, 3, 4, 5]) (some [0, 0, 0, 0, 0]) 5).2.2.2 = [0x00000001, 0x02030405] ∧
    spi_fifo_words [1, 2, 3, 4, 5] = [0x00000001, 0x02030405] ∧
    rxdata_reads 0 (imx_spi_xfer_block (logged (spi_loopback true 0)) 0 1 (⟨fun _ => 0, []⟩, []) 0
      (some [1, 2, 3, 4, 5]) (some [0, 0, 0, 0, 0]) 5).2.2.2 = [[1, 0, 0, 0], [5, 4, 3, 2]] ∧
    (imx_spi_xfer_block (logged (spi_loopback true 0)) 0 1 (⟨fun _ => 0, []⟩, []) 0
      (some [1, 2, 3, 4, 5]) (some [0, 0, 0, 0, 0]) 5).2.1 = some [0, 0, 0, 1, 2] := by
  decide

/-- C19. The code does not do what the claim states.  The control register
holds `c = 0x00012345` and the device answers the read with all four bytes.
`imx_read_reg32` of the address obtains them, but `ecspi_read` asks for one
byte and stores one byte: the other three bytes of `v` keep what the
uninitialised variable held.  For `len = 1` the value written back is
`0x00700045` if `v` held 0 and `0x007fff45` if `v` held `0xffffffff`, not
`(c & 0x000fffff) | (7 << 20) = 0x00712345`. -/
theorem ecspi_read_stores_one_byte :
    (imx_read_reg32 true conreg_usb 0x02008008).2.1 = [0x45, 0x23, 0x01, 0x00] ∧
    load32 true [0x45, 0x23, 0x01, 0x00] = 0x00012345 ∧
    ((usb_lib true).imx_read_bulk conreg_usb (ecspi_addr 0 ECSPI_CONREG) 1 0x20).2.1 = [0x45] ∧
    (ecspi_read (usb_lib true) conreg_usb 0 ECSPI_CONREG 0).2.1 = 0x00000045 ∧
    (ecspi_read (usb_lib true) conreg_usb 0 ECSPI_CONREG 0xffffffff).2.1 = 0xffffff45 ∧
    delivered (imx_spi_xfer_block (usb_lib true) 0 1 conreg_usb 0 (some [0xaa]) none 1).2.2.trace
      = [(0x201, wire_command 0x0101 0x02008008 0x20 1 0),
         (0x201, wire_command 0x0202 0x02008008 0x20 1 0x00700045)] ∧
    delivered
        (imx_spi_xfer_block (usb_lib true) 0xffffffff 1 conreg_usb 0 (some [0xaa]) none 1).2.2.trace
      = [(0x201, wire_command 0x0101 0x02008008 0x20 1 0),
         (0x201, wire_command 0x0202 0x02008008 0x20 1 0x007fff45)] ∧
    (0x00012345 &&& 0x000fffff) ||| ((8 * 1 - 1) <<< 20) = 0x00712345 := by
  decide

/-! ## The bounds of the loops of the SPI driver -/

/-- The load loop does not depend on its bound once the bound covers the
bytes left. -/
theorem imx_spi_xfer_block_load_fuel {σ : Type} (L : RegLib σ) (d : Int)
    (tx : Option (List Nat)) (len : Int) :
    ∀ (n m : Nat) (i : Int) (s : σ), len - i ≤ 4 * (n : Int) → len - i ≤ 4 * (m : Int) →
      imx_spi_xfer_block_load L d tx len n i s = imx_spi_xfer_block_load L d tx len m i s := by
  intro n
  induction n with
  | zero =>
    intro m i s hn _
    have hge : ¬ i < len := by omega
    cases m with
    | zero => rfl
    | succ m => simp [imx_spi_xfer_block_load, hge]
  | succ n ih =>
    intro m i s hn hm
    cases m with
    | zero =>
      have hge : ¬ i < len := by omega
      simp [imx_spi_xfer_block_load, hge]
    | succ m =>
      rw [imx_spi_xfer_block_load, imx_spi_xfer_block_load]
      by_cases hlt : i < len
      · simp only [hlt, if_true]
        rw [ih m (i + 4) _ (by omega) (by omega)]
      · simp only [hlt, if_false]

/-- The bound `imx_spi_xfer_block` passes to the load loop covers the bytes
left. -/
theorem imx_spi_xfer_block_load_bound (len : Int) :
    len - Int.tmod len 4 ≤ 4 * (len.toNat : Int) := by
  cases len with
  | ofNat n =>
    have h : Int.tmod (Int.ofNat n) 4 = ((n % 4 : Nat) : Int) := rfl
    rw [h]
    have : (Int.ofNat n).toNat = n := rfl
    rw [this]
    show (n : Int) - ((n % 4 : Nat) : Int) ≤ 4 * (n : Int)
    omega
  | negSucc n =>
    have h : Int.tmod (Int.negSucc n) 4 = -(((n + 1) % 4 : Nat) : Int) := rfl
    rw [h]
    have : (Int.negSucc n).toNat = 0 := rfl
    rw [this, Int.negSucc_eq]
    omega

/-- The read loop does not depend on its bound once the bound covers the
bytes left; the bound `len.toNat` that `imx_spi_xfer_block` passes does. -/
theorem imx_spi_xfer_block_drain_fuel {σ : Type} (L : RegLib σ) (junk : Nat) (d : Int)
    (len : Int) :
    ∀ (n m i : Nat) (rx : Option (List Nat)) (s : σ),
      len - (i : Int) ≤ 4 * (n : Int) → len - (i : Int) ≤ 4 * (m : Int) →
      imx_spi_xfer_block_drain L junk d len n i rx s
        = imx_spi_xfer_block_drain L junk d len m i rx s := by
  intro n
  induction n with
  | zero =>
    intro m i rx s hn _
    have hge : ¬ (i : Int) < len := by omega
    cases m with
    | zero => rfl
    | succ m => simp [imx_spi_xfer_block_drain, hge]
  | succ n ih =>
    intro m i rx s hn hm
    cases m with
    | zero =>
      have hge : ¬ (i : Int) < len := by omega
      simp [imx_spi_xfer_block_drain, hge]
    | succ m =>
      rw [imx_spi_xfer_block_drain, imx_spi_xfer_block_drain]
      by_cases hlt : (i : Int) < len
      · simp only [hlt, if_true]
        rw [ih m (i + 4) _ _ (by push_cast; omega) (by push_cast; omega)]
      · simp only [hlt, if_false]

/-- Once the polling loop has left with a result, a larger bound gives the
same result. -/
theorem imx_spi_xfer_block_wait_fuel {σ : Type} (L : RegLib σ) (junk : Nat) (d : Int) :
    ∀ (n m : Nat) (s : σ), (imx_spi_xfer_block_wait L junk d n s).1 ≠ none → n ≤ m →
      imx_spi_xfer_block_wait L junk d m s = imx_spi_xfer_block_wait L junk d n s := by
  intro n
  induction n with
  | zero =>
    intro m s h _
    exact absurd rfl h
  | succ n ih =>
    intro m s h hm
    obtain ⟨k, rfl⟩ : ∃ k, m = k + 1 := ⟨m - 1, by omega⟩
    rw [imx_spi_xfer_block_wait] at h ⊢
    rw [imx_spi_xfer_block_wait]
    split_ifs at h ⊢ with h1 h2
    · rfl
    · rfl
    · exact ih k _ h (by omega)

/-! ## What the code does where C14 and C19 fail, in general -/

/-- For every pin number whose bank index is outside the table, the four
GPIO functions are the functions of the pin with the same offset in bank 1. -/
theorem gpio_out_of_range_as_bank_1 {σ : Type} (L : RegLib σ) (junk : Nat) (h : σ) (gpio : Nat)
    (v : Int) (hbank : 7 ≤ gpio >>> 5) :
    gpio_set_direction L junk h gpio v = gpio_set_direction L junk h (gpio &&& 0x1f) v ∧
    gpio_get_direction L junk h gpio = gpio_get_direction L junk h (gpio &&& 0x1f) ∧
    gpio_get_value L junk h gpio = gpio_get_value L junk h (gpio &&& 0x1f) ∧
    gpio_set_value L junk h gpio v = gpio_set_value L junk h (gpio &&& 0x1f) v ∧
    gpio_to_base (gpio &&& 0x1f) = 0x0209c000 := by
  have hm : gpio &&& 0x1f = gpio % 32 := Nat.and_pow_two_sub_one_eq_mod gpio 5
  have hsh : (gpio % 32) >>> 5 = 0 := by
    rw [Nat.shiftRight_eq_div_pow]
    omega
  have hb : gpio_to_base (gpio &&& 0x1f) = 0x0209c000 := by
    rw [hm, gpio_to_base_in_range _ (by rw [hsh]; norm_num), hsh]
    rfl
  have hbase : gpio_to_base gpio = gpio_to_base (gpio &&& 0x1f) := by
    rw [hb, gpio_to_base_out_of_range gpio hbank]
  have hmask : gpio_to_pinmask gpio = gpio_to_pinmask (gpio &&& 0x1f) := by
    rw [gpio_to_pinmask_eq, gpio_to_pinmask_eq, hm, Nat.mod_mod]
  refine ⟨?_, ?_, ?_, ?_, hb⟩
  · simp only [gpio_set_direction, hbase, hmask]
  · simp only [gpio_get_direction, hbase, hmask]
  · simp only [gpio_get_value, hbase, hmask]
  · simp only [gpio_set_value, hbase, hmask]

/-- The read loop of `imx_read_bulk` never stores more bytes than it was asked
for. -/
theorem imx_read_bulk_loop_length :
    ∀ (fuel : Nat) (w : Usb) (remaining : Int) (acc : List Nat),
      (imx_read_bulk_loop fuel w remaining acc).2.1.length ≤ acc.length + remaining.toNat := by
  intro fuel
  induction fuel with
  | zero =>
    intro w remaining acc
    simp [imx_read_bulk_loop]
  | succ fuel ih =>
    intro w remaining acc
    rw [imx_read_bulk_loop]
    simp only []
    split_ifs with h0 h1 h2
    · simp
    · refine le_trans (ih _ _ _) ?_
      rw [List.length_append, List.length_take]
      omega
    · exact ih _ _ _
    · simp

theorem imx_read_bulk_length (le : Bool) (w : Usb) (addr : Nat) (count format : Int) :
    (imx_read_bulk le w addr count format).2.1.length ≤ count.toNat := by
  rw [imx_read_bulk_unfold]
  split_ifs
  · simp
  · simp
  · exact le_trans (imx_read_bulk_loop_length _ _ _ _) (by simp)

/-- Over the USB library `ecspi_read` changes at most the first byte of the
variable it reads into: on a little-endian host bits 8 to 31 of `v`, on a
big-endian host bits 0 to 23, are what the variable held before, whatever
the device answers. -/
theorem ecspi_read_keeps_three_bytes (w : Usb) (spi_dev : Int) (reg old : Nat)
    (hold : old < 4294967296) :
    (ecspi_read (usb_lib true) w spi_dev reg old).2.1 / 256 = old / 256 ∧
    (ecspi_read (usb_lib false) w spi_dev reg old).2.1 % 16777216 = old % 16777216 := by
  have key : ∀ le : Bool, ∀ bytes : List Nat, bytes.length ≤ 1 →
      (le = true → store32 le old bytes / 256 = old / 256) ∧
      (le = false → store32 le old bytes % 16777216 = old % 16777216) := by
    intro le bytes hlen
    match bytes, hlen with
    | [], _ =>
      have : store32 le old [] = old := by
        simp only [store32, List.take_nil, List.nil_append, List.length_nil, List.drop_zero]
        rw [load32_mem32, Nat.mod_eq_of_lt hold]
      rw [this]
      exact ⟨fun _ => rfl, fun _ => rfl⟩
    | [x], _ =>
      refine ⟨fun h => ?_, fun h => ?_⟩
      · subst h
        simp only [store32, load32, mem32, le32, if_true, List.take, List.length_singleton,
          List.drop_succ_cons, List.drop_zero, List.singleton_append, List.getD_cons_zero,
          List.getD_cons_succ, Nat.mod_mod]
        omega
      · subst h
        simp only [store32, load32, mem32, be32, Bool.false_eq_true, if_false, List.take,
          List.length_singleton, List.drop_succ_cons, List.drop_zero, List.singleton_append,
          List.getD_cons_zero, List.getD_cons_succ, Nat.mod_mod]
        omega
    | _ :: _ :: _, h => simp at h
  have h1 := imx_read_bulk_length true w (ecspi_addr spi_dev reg) 1 0x20
  have h2 := imx_read_bulk_length false w (ecspi_addr spi_dev reg) 1 0x20
  exact ⟨(key true _ h1).1 rfl, (key false _ h2).2 rfl⟩

/-! ## C21: the in-place conversion of the DCD write -/

/-- Every 32-bit value is made of four bytes. -/
theorem four_bytes (x : Nat) (hx : x < 4294967296) :
    ∃ b0 b1 b2 b3 : Nat, b0 < 256 ∧ b1 < 256 ∧ b2 < 256 ∧ b3 < 256 ∧
      x = b3 * 16777216 + b2 * 65536 + b1 * 256 + b0 :=
  ⟨x % 256, x / 256 % 256, x / 65536 % 256, x / 16777216 % 256,
    Nat.mod_lt _ (by norm_num), Nat.mod_lt _ (by norm_num), Nat.mod_lt _ (by norm_num),
    Nat.mod_lt _ (by norm_num), by omega⟩

theorem bswap32_bytes (b0 b1 b2 b3 : Nat) (h0 : b0 < 256) (h1 : b1 < 256) (h2 : b2 < 256)
    (h3 : b3 < 256) :
    bswap32 (b3 * 16777216 + b2 * 65536 + b1 * 256 + b0)
      = b0 * 16777216 + b1 * 65536 + b2 * 256 + b3 := by
  simp only [bswap32]
  omega

theorem le32_bytes (b0 b1 b2 b3 : Nat) (h0 : b0 < 256) (h1 : b1 < 256) (h2 : b2 < 256)
    (h3 : b3 < 256) : le32 (b3 * 16777216 + b2 * 65536 + b1 * 256 + b0) = [b0, b1, b2, b3] := by
  simp only [le32]
  congr 1 <;> [skip; congr 1 <;> [skip; congr 1 <;> [skip; congr 1]]] <;> omega

theorem be32_bytes (b0 b1 b2 b3 : Nat) (h0 : b0 < 256) (h1 : b1 < 256) (h2 : b2 < 256)
    (h3 : b3 < 256) : be32 (b3 * 16777216 + b2 * 65536 + b1 * 256 + b0) = [b3, b2, b1, b0] := by
  simp only [be32]
  congr 1 <;> [skip; congr 1 <;> [skip; congr 1 <;> [skip; congr 1]]] <;> omega

theorem htonl_htonl (le : Bool) (x : Nat) (hx : x < 4294967296) : htonl le (htonl le x) = x := by
  cases le
  · simp only [htonl, Bool.false_eq_true, if_false]
    omega
  · obtain ⟨b0, b1, b2, b3, h0, h1, h2, h3, rfl⟩ := four_bytes x hx
    simp only [htonl, if_true]
    rw [bswap32_bytes b0 b1 b2 b3 h0 h1 h2 h3, bswap32_bytes b3 b2 b1 b0 h3 h2 h1 h0]

/-- The network-order bytes of a converted word are the bytes the word had in
host memory. -/
theorem be32_htonl (le : Bool) (x : Nat) (hx : x < 4294967296) :
    be32 (htonl le x) = mem32 le x := by
  have h := mem32_htonl le (htonl le x)
  rw [htonl_htonl le x hx] at h
  exact h.symm

/-- A 32-bit word is laid out the same in both byte orders exactly when it is
its own byte reversal. -/
theorem le32_eq_be32_iff (x : Nat) (hx : x < 4294967296) : le32 x = be32 x ↔ bswap32 x = x := by
  obtain ⟨b0, b1, b2, b3, h0, h1, h2, h3, rfl⟩ := four_bytes x hx
  rw [le32_bytes b0 b1 b2 b3 h0 h1 h2 h3, be32_bytes b0 b1 b2 b3 h0 h1 h2 h3,
    bswap32_bytes b0 b1 b2 b3 h0 h1 h2 h3]
  simp only [List.cons.injEq, and_true]
  constructor
  · rintro ⟨e0, e1, -, -⟩
    omega
  · intro h
    omega

theorem flatMap_four_inj (f g : Nat → List Nat) (hf : ∀ x, (f x).length = 4)
    (hg : ∀ x, (g x).length = 4) :
    ∀ l : List Nat, l.flatMap f = l.flatMap g ↔ ∀ x ∈ l, f x = g x := by
  intro l
  induction l with
  | nil => simp
  | cons a l ih =>
    simp only [List.flatMap_cons, List.mem_cons, forall_eq_or_imp]
    rw [← ih]
    constructor
    · intro h
      exact List.append_inj h (by rw [hf, hg])
    · rintro ⟨h1, h2⟩
      rw [h1, h2]

theorem flatMap_four_length (f : Nat → List Nat) (hf : ∀ x, (f x).length = 4) :
    ∀ l : List Nat, (l.flatMap f).length = 4 * l.length := by
  intro l
  induction l with
  | nil => rfl
  | cons a l ih =>
    rw [List.flatMap_cons, List.length_append, hf, ih, List.length_cons]
    ring

/-- The array after the conversion loop, for a count that is not negative. -/
theorem dcd_converted_eq (le : Bool) (data : List Nat) (n : Nat) :
    dcd_converted le data (n : Int)
      = (data.take (3 * n)).map (htonl le) ++ data.drop (3 * n) := by
  have h : ((n : Int) * 3).toNat = 3 * n := by omega
  simp only [dcd_converted, h]

/-- The data-out report of `imx_dcd_write` is the payload of the
specification for the words the caller passed. -/
theorem dcd_data_report_eq (le : Bool) (data : List Nat) (n : Nat)
    (hlen : 3 * n ≤ data.length) :
    dcd_data_report le data (n : Int) = dcd_payload (data.take (3 * n)) := by
  have h12 : ((n : Int) * 12).toNat = 12 * n := by omega
  have h13 : ((n : Int) * 12 + 1).toNat = 12 * n + 1 := by omega
  have hfl : ((data.take (3 * n)).flatMap be32).length = 12 * n := by
    rw [flatMap_four_length be32 (fun _ => rfl), List.length_take]
    omega
  have hconv : (dcd_converted le data (n : Int)).flatMap (mem32 le)
      = (data.take (3 * n)).flatMap be32 ++ (data.drop (3 * n)).flatMap (mem32 le) := by
    rw [dcd_converted_eq, List.flatMap_append, List.flatMap_map]
    congr 1
    exact congrArg (fun f => (data.take (3 * n)).flatMap f) (funext (mem32_htonl le))
  have hin : ((data.take (3 * n)).flatMap be32 ++ (data.drop (3 * n)).flatMap (mem32 le)).take
      (12 * n) = (data.take (3 * n)).flatMap be32 := by
    rw [List.take_append_of_le_length (le_of_eq hfl.symm), List.take_of_length_le (le_of_eq hfl)]
  rw [dcd_data_report, h12, h13, hconv, hin, List.take_succ_cons, dcd_payload,
    List.take_append_of_le_length (le_of_eq hfl.symm), List.take_of_length_le (le_of_eq hfl)]

theorem data_out_records_append (a b : List UsbEvent) :
    data_out_records (a ++ b) = data_out_records a ++ data_out_records b :=
  List.filterMap_append _ _ _

/-- The attempts of a command send are no data-out reports. -/
theorem data_out_records_sends (le : Bool) (cmd : sdp_command) (h1 : cmd.report_id = 1)
    (used : List UsbReply) :
    data_out_records (used.map (fun rp => (⟨send_call le cmd, rp⟩ : UsbEvent))) = [] := by
  induction used with
  | nil => rfl
  | cons rp rest ih =>
    rw [List.map_cons, ← List.singleton_append, data_out_records_append, ih]
    simp [data_out_records, send_call, h1, HID_REPORT_TYPE_OUTPUT]
/-- The data-out reports of one `imx_dcd_write`: the one report of the call if
the command send succeeded, none if it failed. -/
theorem imx_dcd_write_data_out (le : Bool) (w : Usb) (data : List Nat) (count : Int)
    (hc : count ≤ 85) :
    data_out_records (w.since (imx_dcd_write le w data count).2.2)
      = if 0 ≤ (imx_send_sdp le w (dcd_cmd le count)).1 then [dcd_data_report le data count]
        else [] := by
  obtain ⟨used, -, -, htr, -, -⟩ := imx_send_sdp_spec le w (dcd_cmd le count)
  have hs := data_out_records_sends le (dcd_cmd le count) rfl used
  obtain ⟨w2, w3, w4, rfl, rfl, rfl, -, h⟩ := imx_dcd_write_cases le w data count hc
  generalize imx_send_sdp le w (dcd_cmd le count) = s at htr h ⊢
  generalize imx_dcd_write le w data count = R at h ⊢
  have t2 : (s.2.step (.control_out 0x202 (dcd_data_report le data count))).trace = w.trace
      ++ (used.map (fun rp => (⟨send_call le (dcd_cmd le count), rp⟩ : UsbEvent))
        ++ [⟨.control_out 0x202 (dcd_data_report le data count), s.2.next⟩]) := by
    simp [Usb.step, htr]
  have t3 : ((s.2.step (.control_out 0x202 (dcd_data_report le data count))).step
      (.interrupt_in .hab 65)).trace = w.trace
      ++ (used.map (fun rp => (⟨send_call le (dcd_cmd le count), rp⟩ : UsbEvent))
        ++ [⟨.control_out 0x202 (dcd_data_report le data count), s.2.next⟩,
          ⟨.interrupt_in .hab 65,
            (s.2.step (.control_out 0x202 (dcd_data_report le data count))).next⟩]) := by
    simp [Usb.step, htr]
  have t4 : (((s.2.step (.control_out 0x202 (dcd_data_report le data count))).step
      (.interrupt_in .hab 65)).step (.interrupt_in .response 1024)).trace = w.trace
      ++ (used.map (fun rp => (⟨send_call le (dcd_cmd le count), rp⟩ : UsbEvent))
        ++ [⟨.control_out 0x202 (dcd_data_report le data count), s.2.next⟩,
          ⟨.interrupt_in .hab 65,
            (s.2.step (.control_out 0x202 (dcd_data_report le data count))).next⟩,
          ⟨.interrupt_in .response 1024,
            ((s.2.step (.control_out 0x202 (dcd_data_report le data count))).step
              (.interrupt_in .hab 65)).next⟩]) := by
    simp [Usb.step, htr]
  rcases h with ⟨h1, -, h3⟩ | ⟨h1, -, -, h4⟩ | ⟨h1, -, -, -, h5⟩ | ⟨h1, -, -, -, -, h6⟩ |
    ⟨h1, -, -, -, -, h6⟩
  · rw [h3, since_append w s.2 _ htr, hs, if_neg (not_le.mpr h1)]
  · rw [h4, since_append w _ _ t2, data_out_records_append, hs, if_pos h1]
    rfl
  · rw [h5, since_append w _ _ t3, data_out_records_append, hs, if_pos h1]
    rfl
  · rw [h6, since_append w _ _ t4, data_out_records_append, hs, if_pos h1]
    rfl
  · rw [h6, since_append w _ _ t4, data_out_records_append, hs, if_pos h1]
    rfl

/-- C21, as amended.  For every `count` with `0 ≤ count ≤ 85`, an array of at
least `3 * count` 32-bit words and every state of the transport:
`imx_dcd_write` leaves each of the first `3 * count` words of the caller's
array holding `htonl` of its original value, the byte reversal on a
little-endian host, and the words beyond unchanged, whether the call
succeeds or fails later.  If the command send succeeds, the one data-out
report handed to the transport is the byte `0x02` followed by the
`12 * count` bytes of the original words, most significant byte first in
entry order; if it fails there is none.  A second call with the array as the
first call left it restores the original array, and its data-out report
carries every word as it originally lay in host memory: on a little-endian
host least significant byte first.  That is the payload of the first call
exactly when every one of the first `3 * count` words is its own byte
reversal (as when `count` is 0), and a different payload otherwise. -/
theorem imx_dcd_write_in_place (le : Bool) (w w2 : Usb) (data : List Nat) (n : Nat)
    (hn : n ≤ 85) (hlen : 3 * n ≤ data.length) (hwords : ∀ x ∈ data, x < 4294967296) :
    (imx_dcd_write le w data (n : Int)).2.1
      = (data.take (3 * n)).map (htonl le) ++ data.drop (3 * n) ∧
    (∀ i, i < 3 * n →
      (imx_dcd_write le w data (n : Int)).2.1.getD i 0 = htonl le (data.getD i 0)) ∧
    (∀ i, 3 * n ≤ i → (imx_dcd_write le w data (n : Int)).2.1.getD i 0 = data.getD i 0) ∧
    (imx_dcd_write le w data (n : Int)).2.1.length = data.length ∧
    (∀ x, htonl true x = bswap32 x) ∧
    data_out_records (w.since (imx_dcd_write le w data (n : Int)).2.2)
      = (if 0 ≤ (imx_send_sdp le w (dcd_cmd le (n : Int))).1 then
          [dcd_payload (data.take (3 * n))] else []) ∧
    (dcd_payload (data.take (3 * n))).length = 12 * n + 1 ∧
    (imx_dcd_write le w2 (imx_dcd_write le w data (n : Int)).2.1 (n : Int)).2.1 = data ∧
    data_out_records
        (w2.since (imx_dcd_write le w2 (imx_dcd_write le w data (n : Int)).2.1 (n : Int)).2.2)
      = (if 0 ≤ (imx_send_sdp le w2 (dcd_cmd le (n : Int))).1 then
          [2 :: (data.take (3 * n)).flatMap (mem32 le)] else []) ∧
    (2 :: (data.take (3 * n)).flatMap (mem32 true) = dcd_payload (data.take (3 * n)) ↔
      ∀ x ∈ data.take (3 * n), bswap32 x = x) := by
  have hc : (n : Int) ≤ 85 := by omega
  have harr : ∀ (u : Usb) (d : List Nat), (imx_dcd_write le u d (n : Int)).2.1
      = (d.take (3 * n)).map (htonl le) ++ d.drop (3 * n) := by
    intro u d
    obtain ⟨_, _, _, -, -, -, h, -⟩ := imx_dcd_write_cases le u d (n : Int) hc
    rw [h, dcd_converted_eq]
  have hlen1 : ((data.take (3 * n)).map (htonl le) ++ data.drop (3 * n)).length = data.length := by
    rw [List.length_append, List.length_map, List.length_take, List.length_drop]
    omega
  have htake1 : ((data.take (3 * n)).map (htonl le) ++ data.drop (3 * n)).take (3 * n)
      = (data.take (3 * n)).map (htonl le) := by
    rw [List.take_append_of_le_length (by rw [List.length_map, List.length_take]; omega),
      List.take_of_length_le (by rw [List.length_map, List.length_take]; omega)]
  have hdrop1 : ((data.take (3 * n)).map (htonl le) ++ data.drop (3 * n)).drop (3 * n)
      = data.drop (3 * n) := by
    rw [List.drop_append_of_le_length (by rw [List.length_map, List.length_take]; omega),
      List.drop_of_length_le (by rw [List.length_map, List.length_take]; omega),
      List.nil_append]
  have hback : ((data.take (3 * n)).map (htonl le)).map (htonl le) = data.take (3 * n) := by
    rw [List.map_map]
    conv_rhs => rw [← List.map_id (data.take (3 * n))]
    apply List.map_congr_left
    intro x hx
    exact htonl_htonl le x (hwords x (List.mem_of_mem_take hx))
  have hfl : ∀ f : Nat → List Nat, (∀ x, (f x).length = 4) →
      ((data.take (3 * n)).flatMap f).length = 12 * n := by
    intro f hf
    rw [flatMap_four_length f hf, List.length_take]
    omega
  refine ⟨harr w data, ?_, ?_, ?_, fun _ => rfl, ?_, ?_, ?_, ?_, ?_⟩
  · intro i hi
    rw [harr w data, List.getD_eq_getElem?_getD, List.getD_eq_getElem?_getD,
      List.getElem?_append_left (by rw [List.length_map, List.length_take]; omega),
      List.getElem?_map, List.getElem?_take_of_lt hi,
      List.getElem?_eq_getElem (by omega : i < data.length)]
    rfl
  · intro i hi
    rw [harr w data, List.getD_eq_getElem?_getD, List.getD_eq_getElem?_getD,
      List.getElem?_append_right (by rw [List.length_map, List.length_take]; omega),
      List.getElem?_drop, List.length_map, List.length_take]
    congr 2
    omega
  · rw [harr w data, hlen1]
  · rw [imx_dcd_write_data_out le w data (n : Int) hc, dcd_data_report_eq le data n hlen]
  · rw [dcd_payload, List.length_cons, hfl be32 (fun _ => rfl)]
  · rw [harr w2, harr w data, htake1, hdrop1, hback, List.take_append_drop]
  · rw [imx_dcd_write_data_out le w2 _ (n : Int) hc, harr w data,
      dcd_data_report_eq le _ n (by rw [hlen1]; exact hlen), htake1, dcd_payload,
      List.flatMap_map]
    have : (data.take (3 * n)).flatMap (fun x => be32 (htonl le x))
        = (data.take (3 * n)).flatMap (mem32 le) := by
      apply (flatMap_four_inj (fun x => be32 (htonl le x)) (mem32 le) (fun _ => rfl)
        (mem32_length le) _).mpr
      intro x hx
      exact be32_htonl le x (hwords x (List.mem_of_mem_take hx))
    rw [this]
  · rw [dcd_payload, List.cons.injEq, eq_self_iff_true, true_and]
    have hm : mem32 true = le32 := rfl
    rw [hm, flatMap_four_inj le32 be32 (fun _ => rfl) (fun _ => rfl)]
    constructor
    · intro h x hx
      exact (le32_eq_be32_iff x (hwords x (List.mem_of_mem_take hx))).mp (h x hx)
    · intro h x hx
      exact (le32_eq_be32_iff x (hwords x (List.mem_of_mem_take hx))).mpr (h x hx)
/-- Witness of C21: one DCD entry of an array of four words, on a
little-endian host, written twice to a device that accepts it. -/
theorem imx_dcd_write_in_place_witness :
    1 ≤ 85 ∧ 3 * 1 ≤ [0x11223344, 0x55667788, 0x99aabbcc, 0xdeadbeef].length ∧
    (∀ x ∈ [0x11223344, 0x55667788, 0x99aabbcc, 0xdeadbeef], x < 4294967296) ∧
    ((imx_dcd_write true dcd_ok_usb [0x11223344, 0x55667788, 0x99aabbcc, 0xdeadbeef]
        ((1 : Nat) : Int)).2.1
      = ([0x11223344, 0x55667788, 0x99aabbcc, 0xdeadbeef].take (3 * 1)).map (htonl true)
          ++ [0x11223344, 0x55667788, 0x99aabbcc, 0xdeadbeef].drop (3 * 1) ∧
    (∀ i, i < 3 * 1 →
      (imx_dcd_write true dcd_ok_usb [0x11223344, 0x55667788, 0x99aabbcc, 0xdeadbeef]
        ((1 : Nat) : Int)).2.1.getD i 0
        = htonl true ([0x11223344, 0x55667788, 0x99aabbcc, 0xdeadbeef].getD i 0)) ∧
    (∀ i, 3 * 1 ≤ i →
      (imx_dcd_write true dcd_ok_usb [0x11223344, 0x55667788, 0x99aabbcc, 0xdeadbeef]
        ((1 : Nat) : Int)).2.1.getD i 0
        = [0x11223344, 0x55667788, 0x99aabbcc, 0xdeadbeef].getD i 0) ∧
    (imx_dcd_write true dcd_ok_usb [0x11223344, 0x55667788, 0x99aabbcc, 0xdeadbeef]
        ((1 : Nat) : Int)).2.1.length
      = [0x11223344, 0x55667788, 0x99aabbcc, 0xdeadbeef].length ∧
    (∀ x, htonl true x = bswap32 x) ∧
    data_out_records (dcd_ok_usb.since
        (imx_dcd_write true dcd_ok_usb [0x11223344, 0x55667788, 0x99aabbcc, 0xdeadbeef]
          ((1 : Nat) : Int)).2.2)
      = (if 0 ≤ (imx_send_sdp true dcd_ok_usb (dcd_cmd true ((1 : Nat) : Int))).1 then
          [dcd_payload ([0x11223344, 0x55667788, 0x99aabbcc, 0xdeadbeef].take (3 * 1))]
        else []) ∧
    (dcd_payload ([0x11223344, 0x55667788, 0x99aabbcc, 0xdeadbeef].take (3 * 1))).length
      = 12 * 1 + 1 ∧
    (imx_dcd_write true dcd_ok_usb
        (imx_dcd_write true dcd_ok_usb [0x11223344, 0x55667788, 0x99aabbcc, 0xdeadbeef]
          ((1 : Nat) : Int)).2.1 ((1 : Nat) : Int)).2.1
      = [0x11223344, 0x55667788, 0x99aabbcc, 0xdeadbeef] ∧
    data_out_records (dcd_ok_usb.since
        (imx_dcd_write true dcd_ok_usb
          (imx_dcd_write true dcd_ok_usb [0x11223344, 0x55667788, 0x99aabbcc, 0xdeadbeef]
            ((1 : Nat) : Int)).2.1 ((1 : Nat) : Int)).2.2)
      = (if 0 ≤ (imx_send_sdp true dcd_ok_usb (dcd_cmd true ((1 : Nat) : Int))).1 then
          [2 :: ([0x11223344, 0x55667788, 0x99aabbcc, 0xdeadbeef].take (3 * 1)).flatMap
            (mem32 true)]
        else []) ∧
    (2 :: ([0x11223344, 0x55667788, 0x99aabbcc, 0xdeadbeef].take (3 * 1)).flatMap (mem32 true)
        = dcd_payload ([0x11223344, 0x55667788, 0x99aabbcc, 0xdeadbeef].take (3 * 1)) ↔
      ∀ x ∈ [0x11223344, 0x55667788, 0x99aabbcc, 0xdeadbeef].take (3 * 1), bswap32 x = x)) :=
  ⟨by decide, by decide, by decide,
    imx_dcd_write_in_place true dcd_ok_usb dcd_ok_usb
      [0x11223344, 0x55667788, 0x99aabbcc, 0xdeadbeef] 1 (by decide) (by decide) (by decide)⟩

/-- Counterexample to C21 as stated: on a little-endian host a second call
with the same array sends the same payload as the first when every word
converted is its own byte reversal, as `0x01000001`, `0xabcdcdab` and 0 are,
and when `count` is 0. -/
theorem imx_dcd_write_second_payload_same :
    (imx_dcd_write true dcd_ok_usb [0x01000001, 0xabcdcdab, 0] 1).1 = 0 ∧
    data_out_records (dcd_ok_usb.since
        (imx_dcd_write true dcd_ok_usb [0x01000001, 0xabcdcdab, 0] 1).2.2)
      = [[2, 0x01, 0x00, 0x00, 0x01, 0xab, 0xcd, 0xcd, 0xab, 0, 0, 0, 0]] ∧
    (imx_dcd_write true dcd_ok_usb [0x01000001, 0xabcdcdab, 0] 1).2.1
      = [0x01000001, 0xabcdcdab, 0] ∧
    (imx_dcd_write true dcd_ok_usb
      (imx_dcd_write true dcd_ok_usb [0x01000001, 0xabcdcdab, 0] 1).2.1 1).1 = 0 ∧
    data_out_records (dcd_ok_usb.since
        (imx_dcd_write true dcd_ok_usb
          (imx_dcd_write true dcd_ok_usb [0x01000001, 0xabcdcdab, 0] 1).2.1 1).2.2)
      = [[2, 0x01, 0x00, 0x00, 0x01, 0xab, 0xcd, 0xcd, 0xab, 0, 0, 0, 0]] ∧
    data_out_records (dcd_ok_usb.since
        (imx_dcd_write true dcd_ok_usb [0x11223344, 0x55667788, 0x99aabbcc] 0).2.2) = [[2]] ∧
    data_out_records (dcd_ok_usb.since
        (imx_dcd_write true dcd_ok_usb
          (imx_dcd_write true dcd_ok_usb [0x11223344, 0x55667788, 0x99aabbcc] 0).2.1 0).2.2)
      = [[2]] := by
  decide

end ImxUsb
